import Mathlib

/-! # SkUEReflectionManager: the reflected entity table and the script→registry sync

A shallow embedding of the bookkeeping part of
`Source/SkookumScriptRuntime/Private/Bindings/SkUEReflectionManager.cpp`:
`store_reflected_function`, `delete_reflected_function`, `clear`,
`try_update_reflected_function`, `add_reflected_call`, `add_reflected_event`,
`try_add_reflected_function`, `sync_class_from_sk`,
`sync_class_from_sk_recursively` and `sync_all_from_sk`.

Conventions of the embedding.

* Symbols (`ASymbol`) are their numeric ids, object pointers are numbers
  (`ptr` fields), a weak pointer is an `Option` (`IsValid()` is `isSome`).
* The manager, the mutable part of the script routines it writes to (user data,
  bound atomic function) and the sequence of calls it makes into the host
  (destroying a `UFunction`, invoking the caller's callback, raising a
  diagnostic) are one value of type `World`; every operation is a function
  from `World` to `World`.
* Arrays are lists.  A read `m_reflected_functions[i]` past the end is undefined
  in the source; here it reads as a null pointer, and a write past the end does
  nothing.  The structural predicates below (`World.WF`) rule such accesses out.
* Array lengths and indices are natural numbers; the only machine arithmetic
  kept is the 32-bit sum `change_count + delete_count`.
-/

namespace SkUE

/-- Symbol id of a name (`ASymbol`). -/
abbrev ASymbol := Nat

/-- Entry of a class's `m_functions` array (`FunctionIndex::m_idx`). -/
abbrev FunctionIndex := Nat

/-- The annotation bits the manager tests with `get_annotation_flags() & ...`. -/
structure AnnotationFlags where
  /-- Bit `SkAnnotation_ue4_blueprint`. -/
  ue4_blueprint : Bool
  /-- Bit `SkAnnotation_reflected_data`. -/
  reflected_data : Bool
  deriving DecidableEq, Repr

/-- Values of `eSkInvokable` (`get_invoke_type()`). -/
inductive eSkInvokable where
  | SkInvokable_method
  | SkInvokable_method_func
  | SkInvokable_method_mthd
  | SkInvokable_coroutine
  | SkInvokable_coroutine_func
  | SkInvokable_coroutine_mthd
  deriving DecidableEq, Repr

/-- Values of `eReflectedFunctionType`. -/
inductive eReflectedFunctionType where
  | ReflectedFunctionType_Call
  | ReflectedFunctionType_Event
  deriving DecidableEq, Repr

/-- What `get_key_class()` of a class descriptor yields: the `SkClass` object
(its address) and its name. -/
structure SkClassRef where
  ptr : Nat
  name : ASymbol
  deriving DecidableEq, Repr

/-- One entry of a routine's parameter list (`SkParameterBase`): its name and
`get_expected_type()->get_key_class()`. -/
structure SkParameterBase where
  name : ASymbol
  expected_type : SkClassRef
  deriving DecidableEq, Repr

/-- What the manager reads from `get_scope()`, the class owning a routine. -/
structure SkScope where
  name : ASymbol
  annotation_flags : AnnotationFlags
  deriving DecidableEq, Repr

/-- A script routine as the manager sees it (`SkInvokableBase *`): `ptr` is the
address of the object, the other fields are what its accessors return. -/
structure SkInvokableBase where
  ptr : Nat
  name : ASymbol
  scope : SkScope
  is_class_member : Bool
  invoke_type : eSkInvokable
  annotation_flags : AnnotationFlags
  /-- List `get_params().get_param_list()`. -/
  param_list : List SkParameterBase
  /-- Class `get_params().get_result_class()->get_key_class()`. -/
  result_class : SkClassRef
  deriving DecidableEq, Repr

/-- A routine as it is listed inside a class: everything of `SkInvokableBase`
but the scope, which is the class that lists it. -/
structure SkRoutine where
  ptr : Nat
  name : ASymbol
  is_class_member : Bool
  invoke_type : eSkInvokable
  annotation_flags : AnnotationFlags
  param_list : List SkParameterBase
  result_class : SkClassRef
  deriving DecidableEq, Repr

/-- The part of an `SkClass` the sync reads, without its subclasses. -/
structure SkClass where
  name : ASymbol
  annotation_flags : AnnotationFlags
  /-- Value of `get_total_data_count()`. -/
  total_data_count : Nat
  /-- Routines of `get_instance_methods()`. -/
  instance_methods : List SkRoutine
  /-- Routines of `get_class_methods()`. -/
  class_methods : List SkRoutine
  /-- Routines of `get_coroutines()`. -/
  coroutines : List SkRoutine
  deriving DecidableEq, Repr

/-- A class together with the trees of `get_subclasses()`. -/
inductive SkClassTree where
  | node (cls : SkClass) (subclasses : List SkClassTree)

/-- The scope object of the routines of a class. -/
def SkClass.scope (c : SkClass) : SkScope :=
  { name := c.name, annotation_flags := c.annotation_flags }

/-- The routine object handed to `try_add_reflected_function` for a routine listed
in class `c`: its `get_scope()` is `c`. -/
def SkClass.invokable (c : SkClass) (r : SkRoutine) : SkInvokableBase :=
  { ptr := r.ptr, name := r.name, scope := c.scope, is_class_member := r.is_class_member,
    invoke_type := r.invoke_type, annotation_flags := r.annotation_flags,
    param_list := r.param_list, result_class := r.result_class }

/-- The routines of a class in the order `sync_class_from_sk` walks them: instance
methods, class methods, coroutines. -/
def SkClass.routines (c : SkClass) : List SkRoutine :=
  c.instance_methods ++ c.class_methods ++ c.coroutines

/-- Symbol of the constructor name (`ASymbolX_ctor`); the id is a placeholder. -/
def ASymbolX_ctor : ASymbol := 1

/-- Symbol of the destructor name (`ASymbolX_dtor`); the id is a placeholder. -/
def ASymbolX_dtor : ASymbol := 2

/-- Lookup `find_instance_method(name)`, as a truth value. -/
def SkClass.find_instance_method (c : SkClass) (name : ASymbol) : Bool :=
  c.instance_methods.any (fun m => m.name == name)

/-- A `TypedName`: a name, the name of a script class, the cached pointer to it
and the byte size of the native value. -/
structure TypedName where
  name : ASymbol
  m_sk_class_name : ASymbol
  m_sk_class_p : Nat
  m_byte_size : Nat
  deriving DecidableEq, Repr

/-- Constructor `TypedName(name, sk_class_p)`. -/
def TypedName.new (name : ASymbol) (sk_class : SkClassRef) : TypedName :=
  { name := name, m_sk_class_name := sk_class.name, m_sk_class_p := sk_class.ptr, m_byte_size := 0 }

/-- One element of the trailing parameter array of a reflected function: a
`ReflectedCallParam` (`m_fetcher_p`) or a `ReflectedEventParam` (`m_storer_p`,
`m_assigner_p`, `m_offset`), both of which are `TypedName`s.  Function pointers
are numbers, absent until the function is exposed. -/
structure ReflectedParam where
  typed : TypedName
  m_fetcher_p : Option Nat
  m_storer_p : Option Nat
  m_assigner_p : Option Nat
  m_offset : Nat
  deriving DecidableEq, Repr

/-- Constructors `ReflectedCallParam(name, sk_type)` and
`ReflectedEventParam(name, sk_type)`. -/
def ReflectedParam.new (name : ASymbol) (sk_class : SkClassRef) : ReflectedParam :=
  { typed := TypedName.new name sk_class, m_fetcher_p := none, m_storer_p := none,
    m_assigner_p := none, m_offset := 0 }

/-- A `ReflectedFunction` (a `ReflectedCall` or a `ReflectedEvent`, told apart
by `m_type`) with its trailing parameter array. -/
structure ReflectedFunction where
  /-- Name of the entry (`ANamed`). -/
  name : ASymbol
  m_type : eReflectedFunctionType
  m_sk_invokable_p : SkInvokableBase
  /-- Weak pointer to the native function, absent until exposed. -/
  m_ue_function_p : Option Nat
  m_result_type : TypedName
  m_is_class_member : Bool
  m_marked_for_delete_class : Bool
  m_marked_for_delete_all : Bool
  /-- The array `get_param_array()`. -/
  params : List ReflectedParam
  m_result_getter : Option Nat
  /-- Field of `ReflectedEvent` only. -/
  m_ue_function_to_invoke_p : Option Nat
  deriving DecidableEq, Repr

/-- Field `m_num_params`: the number of records of the trailing array. -/
def ReflectedFunction.m_num_params (f : ReflectedFunction) : Nat := f.params.length

/-- Constructors `ReflectedCall(...)` / `ReflectedEvent(...)` followed by the
loop that initialises the parameter array in `add_reflected_call` /
`add_reflected_event`.  (The name given to the result's `TypedName` is read
nowhere in the modelled code; it is set to the class name here.) -/
def ReflectedFunction.new (type : eReflectedFunctionType) (sk_invokable : SkInvokableBase) :
    ReflectedFunction :=
  { name := sk_invokable.name
    m_type := type
    m_sk_invokable_p := sk_invokable
    m_ue_function_p := none
    m_result_type := TypedName.new sk_invokable.result_class.name sk_invokable.result_class
    m_is_class_member := sk_invokable.is_class_member
    m_marked_for_delete_class := false
    m_marked_for_delete_all := false
    params := sk_invokable.param_list.map (fun p => ReflectedParam.new p.name p.expected_type)
    m_result_getter := none
    m_ue_function_to_invoke_p := none }

/-- A `ReflectedClass`. -/
structure ReflectedClass where
  /-- Name of the record (`ANamed`). -/
  name : ASymbol
  m_ue_static_class_p : Option Nat
  m_functions : List FunctionIndex
  m_store_sk_instance : Bool
  deriving DecidableEq, Repr

/-- Constructor `ReflectedClass(name)`. -/
def ReflectedClass.new (name : ASymbol) : ReflectedClass :=
  { name := name, m_ue_static_class_p := none, m_functions := [], m_store_sk_instance := false }

/-- A call the manager makes into its surroundings. -/
inductive HostOp where
  /-- Callback `on_function_removed_from_class_f->invoke(ue_class)`, made for the
  record `reflected_class`. -/
  | function_removed_from_class (reflected_class : ASymbol) (ue_class : Nat)
  /-- The native function is taken out of its owner class (function map and
  `Children` list), unrooted and marked pending kill. -/
  | destroy_ue_function (ue_function : Nat)
  /-- Diagnostic `SK_ERRORX` raised for the routine at this address. -/
  | error (sk_invokable : Nat)
  deriving DecidableEq, Repr

/-- The manager and what it acts on. -/
structure World where
  /-- Table `m_reflected_functions`; `none` is a null slot. -/
  m_reflected_functions : List (Option ReflectedFunction)
  /-- Collection `m_reflected_classes`, keyed by name. -/
  m_reflected_classes : List ReflectedClass
  /-- User data of the routine objects, by address; the first pair for an address
  is the current value. -/
  user_data : List (Nat × Nat)
  /-- Addresses of the routines whose atomic function is bound. -/
  bound : List Nat
  /-- Calls made into the host so far, oldest first. -/
  host_log : List HostOp
  deriving DecidableEq, Repr

/-- Read `m_reflected_functions[i]`. -/
def World.fn (w : World) (i : Nat) : Option ReflectedFunction :=
  w.m_reflected_functions.getD i none

/-- Lookup `m_reflected_classes.get(name)`. -/
def World.get_class (w : World) (name : ASymbol) : Option ReflectedClass :=
  w.m_reflected_classes.find? (fun c => c.name == name)

/-- Apply `f` to the record of the given name (the record a pointer obtained from
`get(name)` points to). -/
def modify_class (name : ASymbol) (f : ReflectedClass → ReflectedClass) :
    List ReflectedClass → List ReflectedClass
  | [] => []
  | c :: cs => if c.name == name then f c :: cs else c :: modify_class name f cs

/-- Insertion `m_reflected_classes.append(c)` into the collection, which is kept
sorted by name. -/
def append_class (c : ReflectedClass) : List ReflectedClass → List ReflectedClass
  | [] => [c]
  | d :: ds => if c.name ≤ d.name then c :: d :: ds else d :: append_class c ds

/-- Call `set_user_data(value)` on the routine at `ptr`. -/
def World.set_user_data (w : World) (ptr value : Nat) : World :=
  { w with user_data := (ptr, value) :: w.user_data }

/-- Value of `get_user_data()` of the routine at `ptr`. -/
def World.get_user_data (w : World) (ptr : Nat) : Option Nat :=
  (w.user_data.find? (fun p => p.1 == ptr)).map (fun p => p.2)

/-- Function `bind_event_method`: registers `mthd_trigger_event` as the atomic
function of a method that is not bound yet. -/
def bind_event_method (w : World) (sk_method : SkInvokableBase) : World :=
  if w.bound.contains sk_method.ptr then w else { w with bound := sk_method.ptr :: w.bound }

/-! ## The reflected entity table -/

/-- Delete reflected function and set pointer to nullptr so it can be reused.
Does not remove the index from the class record. -/
def delete_reflected_function (w : World) (function_index : Nat) : World :=
  match w.fn function_index with
  | none => w
  | some reflected_function =>
    { w with
      m_reflected_functions := w.m_reflected_functions.set function_index none
      host_log :=
        match reflected_function.m_ue_function_p with
        | some ue_function => w.host_log ++ [HostOp.destroy_ue_function ue_function]
        | none => w.host_log }

/-- The search loop of `store_reflected_function`: the first index holding a null
slot, or the length of the table when there is none. -/
def first_free_slot (table : List (Option ReflectedFunction)) : Nat :=
  table.findIdx (fun slot => slot.isNone)

/-- Store a `ReflectedFunction` in the table: at the given index when it is not
negative, else in the first empty slot, else appended.  `reflected_class_p` is
the name of the record it points to, or `none` for a null pointer.  Returns the
world and the index used. -/
def store_reflected_function (w : World) (reflected_function : ReflectedFunction)
    (reflected_class_p : Option ASymbol) (function_index_to_use : Int) : World × Nat :=
  let index : Nat :=
    if function_index_to_use < 0 then first_free_slot w.m_reflected_functions
    else function_index_to_use.toNat
  let table :=
    if index = w.m_reflected_functions.length then w.m_reflected_functions ++ [some reflected_function]
    else w.m_reflected_functions.set index (some reflected_function)
  let w1 := ({ w with m_reflected_functions := table }).set_user_data reflected_function.m_sk_invokable_p.ptr index
  match reflected_class_p with
  | none =>
    ({ w1 with
       m_reflected_classes :=
        append_class
          { ReflectedClass.new reflected_function.m_sk_invokable_p.scope.name with m_functions := [index] }
          w1.m_reflected_classes }, index)
  | some class_name =>
    ({ w1 with
       m_reflected_classes :=
        modify_class class_name (fun c => { c with m_functions := c.m_functions ++ [index] })
          w1.m_reflected_classes }, index)

/-- The callback made for a class record in `clear`, if any. -/
def clear_callback (WITH_EDITOR callback : Bool) (c : ReflectedClass) : Option HostOp :=
  match c.m_ue_static_class_p with
  | some ue_class =>
    if WITH_EDITOR && !c.m_functions.isEmpty && callback then
      some (HostOp.function_removed_from_class c.name ue_class)
    else none
  | none => none

/-- Function `clear`.  `callback` tells whether `on_function_removed_from_class_f`
is non-null, `WITH_EDITOR` whether the editor-only block is compiled in. -/
def clear (WITH_EDITOR : Bool) (w : World) (callback : Bool) : World :=
  let w1 := (List.range w.m_reflected_functions.length).foldl delete_reflected_function w
  let w2 := { w1 with m_reflected_functions := [] }
  { w2 with
    host_log := w2.host_log ++ w2.m_reflected_classes.filterMap (clear_callback WITH_EDITOR callback)
    m_reflected_classes := w2.m_reflected_classes.map (fun c => { c with m_functions := [] }) }

/-! ## Add / update -/

/-- Function `have_identical_signatures`.  (It is called after the lengths were
compared; a parameter array that is too short reads as a mismatch.) -/
def have_identical_signatures : List SkParameterBase → List ReflectedParam → Bool
  | [], _ => true
  | _ :: _, [] => false
  | param :: param_list, typed_name :: param_array =>
    if typed_name.typed.name ≠ param.name ∨ typed_name.typed.m_sk_class_name ≠ param.expected_type.name then
      false
    else have_identical_signatures param_list param_array

/-- Function `rebind_params_to_sk`: re-resolve class pointers for params. -/
def rebind_params_to_sk : List SkParameterBase → List ReflectedParam → List ReflectedParam
  | [], param_array => param_array
  | _ :: _, [] => []
  | param :: param_list, typed_name :: param_array =>
    { typed_name with typed := { typed_name.typed with m_sk_class_p := param.expected_type.ptr } }
      :: rebind_params_to_sk param_list param_array

/-- The test of the search loop of `try_update_reflected_function` on one index of
the class's function list. -/
def is_slot_of (w : World) (sk_invokable : SkInvokableBase) (function_index : FunctionIndex) : Bool :=
  match w.fn function_index with
  | some reflected_function =>
    reflected_function.name == sk_invokable.name
      && reflected_function.m_is_class_member == sk_invokable.is_class_member
  | none => false

/-- What `try_update_reflected_function` hands back: the world, its return value
and its two out parameters. -/
structure UpdateResult where
  world : World
  updated : Bool
  out_reflected_class_p : Option ASymbol
  out_function_index : Int
  deriving DecidableEq, Repr

/-- The entry of a `ReflectedCall` after a successful update from `sk_invokable`. -/
def ReflectedFunction.update_call (f : ReflectedFunction) (sk_invokable : SkInvokableBase) :
    ReflectedFunction :=
  { f with
    params := rebind_params_to_sk sk_invokable.param_list f.params
    m_result_type := { f.m_result_type with m_sk_class_p := sk_invokable.result_class.ptr }
    m_sk_invokable_p := sk_invokable
    m_marked_for_delete_class := false
    m_marked_for_delete_all := false }

/-- The entry of a `ReflectedEvent` after a successful update from `sk_invokable`. -/
def ReflectedFunction.update_event (f : ReflectedFunction) (sk_invokable : SkInvokableBase) :
    ReflectedFunction :=
  { f with
    params := rebind_params_to_sk sk_invokable.param_list f.params
    m_sk_invokable_p := sk_invokable
    m_marked_for_delete_class := false
    m_marked_for_delete_all := false }

/-- Function `try_update_reflected_function`. -/
def try_update_reflected_function (w : World) (sk_invokable : SkInvokableBase) : UpdateResult :=
  match w.get_class sk_invokable.scope.name with
  | none => { world := w, updated := false, out_reflected_class_p := none, out_function_index := -1 }
  | some reflected_class =>
    match reflected_class.m_functions.find? (is_slot_of w sk_invokable) with
    | none =>
      { world := w, updated := false, out_reflected_class_p := some reflected_class.name,
        out_function_index := -1 }
    | some function_index =>
      match w.fn function_index with
      | none =>
        { world := w, updated := false, out_reflected_class_p := some reflected_class.name,
          out_function_index := -1 }
      | some reflected_function =>
        if reflected_function.m_num_params ≠ sk_invokable.param_list.length
            ∨ reflected_function.m_result_type.m_sk_class_name ≠ sk_invokable.result_class.name then
          { world := w, updated := false, out_reflected_class_p := some reflected_class.name,
            out_function_index := function_index }
        else
          match reflected_function.m_type with
          | eReflectedFunctionType.ReflectedFunctionType_Call =>
            if !have_identical_signatures sk_invokable.param_list reflected_function.params then
              { world := w, updated := false, out_reflected_class_p := some reflected_class.name,
                out_function_index := function_index }
            else
              { world :=
                  { w with
                    m_reflected_functions :=
                      w.m_reflected_functions.set function_index
                        (some (reflected_function.update_call sk_invokable)) }
                updated := true
                out_reflected_class_p := some reflected_class.name
                out_function_index := function_index }
          | eReflectedFunctionType.ReflectedFunctionType_Event =>
            if !have_identical_signatures sk_invokable.param_list reflected_function.params then
              { world := w, updated := false, out_reflected_class_p := some reflected_class.name,
                out_function_index := function_index }
            else
              let w1 := bind_event_method (w.set_user_data sk_invokable.ptr function_index) sk_invokable
              { world :=
                  { w1 with
                    m_reflected_functions :=
                      w1.m_reflected_functions.set function_index
                        (some (reflected_function.update_event sk_invokable)) }
                updated := true
                out_reflected_class_p := some reflected_class.name
                out_function_index := function_index }

/-- The block `if (function_index >= 0) { delete_reflected_function(...);
reflected_class_p->m_functions.remove(...); }` of the two add functions. -/
def remove_stale (r : UpdateResult) : World :=
  if 0 ≤ r.out_function_index then
    let w1 := delete_reflected_function r.world r.out_function_index.toNat
    match r.out_reflected_class_p with
    | some class_name =>
      { w1 with
        m_reflected_classes :=
          modify_class class_name
            (fun c => { c with m_functions := c.m_functions.erase r.out_function_index.toNat })
            w1.m_reflected_classes }
    | none => w1
  else r.world

/-- Function `add_reflected_call`; the Boolean is its return value. -/
def add_reflected_call (w : World) (sk_invokable : SkInvokableBase) : World × Bool :=
  let r := try_update_reflected_function w sk_invokable
  if r.updated then (r.world, false)
  else
    let w1 := remove_stale r
    let reflected_call :=
      ReflectedFunction.new eReflectedFunctionType.ReflectedFunctionType_Call sk_invokable
    ((store_reflected_function w1 reflected_call r.out_reflected_class_p r.out_function_index).1, true)

/-- Function `add_reflected_event`; the Boolean is its return value. -/
def add_reflected_event (w : World) (sk_method : SkInvokableBase) : World × Bool :=
  let r := try_update_reflected_function w sk_method
  if r.updated then (r.world, false)
  else
    let w1 := remove_stale r
    let w2 := bind_event_method w1 sk_method
    let reflected_event :=
      ReflectedFunction.new eReflectedFunctionType.ReflectedFunctionType_Event sk_method
    ((store_reflected_function w2 reflected_event r.out_reflected_class_p r.out_function_index).1, true)

/-- Function `try_add_reflected_function`; the Boolean is its return value. -/
def try_add_reflected_function (w : World) (sk_invokable : SkInvokableBase) : World × Bool :=
  if sk_invokable.annotation_flags.ue4_blueprint then
    if sk_invokable.invoke_type = eSkInvokable.SkInvokable_method_func
        ∨ sk_invokable.invoke_type = eSkInvokable.SkInvokable_method_mthd then
      add_reflected_event w sk_invokable
    else if sk_invokable.invoke_type = eSkInvokable.SkInvokable_method
        ∨ sk_invokable.invoke_type = eSkInvokable.SkInvokable_coroutine then
      add_reflected_call w sk_invokable
    else
      ({ w with host_log := w.host_log ++ [HostOp.error sk_invokable.ptr] }, false)
  else if sk_invokable.scope.annotation_flags.reflected_data then
    if sk_invokable.invoke_type = eSkInvokable.SkInvokable_method_func
        ∨ sk_invokable.invoke_type = eSkInvokable.SkInvokable_method_mthd then
      add_reflected_event w sk_invokable
    else (w, false)
  else (w, false)

/-! ## Sync engine -/

/-- Function `does_class_need_instance_property`. -/
def does_class_need_instance_property (sk_class : SkClass) : Bool :=
  sk_class.annotation_flags.reflected_data
    && (sk_class.total_data_count != 0
        || sk_class.find_instance_method ASymbolX_ctor
        || sk_class.find_instance_method ASymbolX_dtor)

/-- Body of the first loop of `sync_class_from_sk`. -/
def mark_for_delete_class (w : World) (function_index : FunctionIndex) : World :=
  match w.fn function_index with
  | some reflected_function =>
    { w with
      m_reflected_functions :=
        w.m_reflected_functions.set function_index
          (some { reflected_function with m_marked_for_delete_class := true }) }
  | none => w

/-- Array operation `remove_fast(pos)`: the last element takes the place of the
removed one. -/
def remove_fast (l : List FunctionIndex) (pos : Nat) : List FunctionIndex :=
  match l.getLast? with
  | none => l
  | some last => (l.set pos last).dropLast

/-- The sweep loop shared by `sync_class_from_sk` and `sync_all_from_sk`
```
for (i = 0; i < m_functions.get_length(); ++i)
  if (m_reflected_functions[m_functions[i]] && marked)
    { delete_reflected_function(...); m_functions.remove_fast(i--); ++count; }
```
run from position `i` for at most `fuel` iterations (`sweep_class` gives it the
length of the list, which is the number of iterations the loop makes).  Returns
the world, the function list and the number of deletions. -/
def sweep_marked (marked : ReflectedFunction → Bool) :
    Nat → Nat → World → List FunctionIndex → Nat → World × List FunctionIndex × Nat
  | 0, _, w, m_functions, count => (w, m_functions, count)
  | fuel + 1, i, w, m_functions, count =>
    match m_functions[i]? with
    | none => (w, m_functions, count)
    | some function_index =>
      match w.fn function_index with
      | some reflected_function =>
        if marked reflected_function then
          sweep_marked marked fuel i (delete_reflected_function w function_index)
            (remove_fast m_functions i) (count + 1)
        else sweep_marked marked fuel (i + 1) w m_functions count
      | none => sweep_marked marked fuel (i + 1) w m_functions count

/-- The sweep loop over a whole function list. -/
def sweep_class (marked : ReflectedFunction → Bool) (w : World) (m_functions : List FunctionIndex) :
    World × List FunctionIndex × Nat :=
  sweep_marked marked m_functions.length 0 w m_functions 0

/-- The callback block after a sweep: the log with the callback for the record
`c` added when functions were removed, a callback was passed and the record's
native class is valid. -/
def notify_removed (WITH_EDITOR callback : Bool) (removed : Bool) (c : ReflectedClass)
    (log : List HostOp) : List HostOp :=
  if WITH_EDITOR && removed && callback then
    match c.m_ue_static_class_p with
    | some ue_class => log ++ [HostOp.function_removed_from_class c.name ue_class]
    | none => log
  else log

/-- One of the three gathering loops of `sync_class_from_sk`: adds up the results
of `try_add_reflected_function` over a list of routines of the class. -/
def gather (sk_class : SkClass) (routines : List SkRoutine) (acc : World × Nat) : World × Nat :=
  routines.foldl
    (fun acc routine =>
      let r := try_add_reflected_function acc.1 (sk_class.invokable routine)
      (r.1, acc.2 + r.2.toNat))
    acc

/-- First block of `sync_class_from_sk`: find existing methods of this class and
mark them for delete.  `reflected_class_p` is the record found for the class. -/
def mark_class_for_delete (w : World) (reflected_class_p : Option ReflectedClass) : World :=
  match reflected_class_p with
  | some reflected_class => reflected_class.m_functions.foldl mark_for_delete_class w
  | none => w

/-- The condition of the second block of `sync_class_from_sk`. -/
def needs_instance_record (sk_class superclass : SkClass) (reflected_class_p : Option ReflectedClass) :
    Bool :=
  (match reflected_class_p with
    | some reflected_class => !reflected_class.m_store_sk_instance
    | none => true)
  && does_class_need_instance_property sk_class
  && !does_class_need_instance_property superclass

/-- Second block of `sync_class_from_sk`: make sure reflected classes exist for all
classes that need to store an `SkInstance`. -/
def ensure_instance_record (w : World) (sk_class superclass : SkClass)
    (reflected_class_p : Option ReflectedClass) : World :=
  if needs_instance_record sk_class superclass reflected_class_p then
    let classes :=
      match reflected_class_p with
      | some _ => w.m_reflected_classes
      | none => append_class (ReflectedClass.new sk_class.name) w.m_reflected_classes
    { w with
      m_reflected_classes :=
        modify_class sk_class.name (fun c => { c with m_store_sk_instance := true }) classes }
  else w

/-- Third block of `sync_class_from_sk`: gather new functions/events from the
instance methods, the class methods and the coroutines; returns `change_count`. -/
def gather_class (sk_class : SkClass) (w : World) : World × Nat :=
  gather sk_class sk_class.coroutines
    (gather sk_class sk_class.class_methods (gather sk_class sk_class.instance_methods (w, 0)))

/-- Last block of `sync_class_from_sk`, for a non-null `reflected_class_p` (the
record of the given name): delete anything still marked for delete and notify
the caller; returns `delete_count`. -/
def sweep_class_record (WITH_EDITOR callback : Bool) (w : World) (name : ASymbol) : World × Nat :=
  match w.get_class name with
  | some reflected_class =>
    let s := sweep_class (fun f => f.m_marked_for_delete_class) w reflected_class.m_functions
    ({ s.1 with
       m_reflected_classes :=
        modify_class name (fun c => { c with m_functions := s.2.1 }) s.1.m_reflected_classes
       host_log := notify_removed WITH_EDITOR callback (s.2.2 != 0) reflected_class s.1.host_log },
     s.2.2)
  | none => (w, 0)

/-- Function `sync_class_from_sk`; `superclass` is `sk_class_p->get_superclass()`. -/
def sync_class_from_sk (WITH_EDITOR : Bool) (w : World) (sk_class superclass : SkClass)
    (callback : Bool) : World × Bool :=
  let reflected_class_p := w.get_class sk_class.name
  let w1 := mark_class_for_delete w reflected_class_p
  let w2 := ensure_instance_record w1 sk_class superclass reflected_class_p
  let have_record : Bool :=
    reflected_class_p.isSome || needs_instance_record sk_class superclass reflected_class_p
  let g := gather_class sk_class w2
  let change_count := g.2
  if have_record then
    let s := sweep_class_record WITH_EDITOR callback g.1 sk_class.name
    let delete_count := s.2
    (s.1, decide (0 < (change_count + delete_count) % 2 ^ 32))
  else (g.1, decide (0 < change_count % 2 ^ 32))

mutual
/-- Function `sync_class_from_sk_recursively`. -/
def sync_class_from_sk_recursively (WITH_EDITOR : Bool) (callback : Bool) :
    World → SkClass → SkClassTree → World × Bool
  | w, superclass, SkClassTree.node sk_class subclasses =>
    let r := sync_class_from_sk WITH_EDITOR w sk_class superclass callback
    sync_subclasses WITH_EDITOR callback r.1 r.2 sk_class subclasses
/-- The loop over `get_subclasses()` of `sync_class_from_sk_recursively`. -/
def sync_subclasses (WITH_EDITOR : Bool) (callback : Bool) :
    World → Bool → SkClass → List SkClassTree → World × Bool
  | w, anything_changed, _, [] => (w, anything_changed)
  | w, anything_changed, sk_class, sk_subclass :: rest =>
    let r := sync_class_from_sk_recursively WITH_EDITOR callback w sk_class sk_subclass
    sync_subclasses WITH_EDITOR callback r.1 (anything_changed || r.2) sk_class rest
end

/-- First loop of `sync_all_from_sk`: mark all bindings for delete. -/
def mark_all_for_delete (w : World) : World :=
  { w with
    m_reflected_functions :=
      w.m_reflected_functions.map (Option.map (fun f => { f with m_marked_for_delete_all := true })) }

/-- Last loop of `sync_all_from_sk` over the class records from the given one on:
returns the world, the records as they are left and whether anything was
deleted. -/
def sweep_all (WITH_EDITOR callback : Bool) :
    List ReflectedClass → World → World × List ReflectedClass × Bool
  | [], w => (w, [], false)
  | reflected_class :: rest, w =>
    let s := sweep_class (fun f => f.m_marked_for_delete_all) w reflected_class.m_functions
    let removed_function_from_class : Bool := s.2.2 != 0
    let w1 :=
      { s.1 with
        host_log := notify_removed WITH_EDITOR callback removed_function_from_class reflected_class s.1.host_log }
    let r := sweep_all WITH_EDITOR callback rest w1
    (r.1, { reflected_class with m_functions := s.2.1 } :: r.2.1, removed_function_from_class || r.2.2)

/-- Function `sync_all_from_sk`.  `root` is the tree under `SkUEEntity::get_class()`
and `root_superclass` the superclass of that class. -/
def sync_all_from_sk (WITH_EDITOR : Bool) (w : World) (root_superclass : SkClass) (root : SkClassTree)
    (callback : Bool) : World × Bool :=
  let w1 := mark_all_for_delete w
  let r := sync_class_from_sk_recursively WITH_EDITOR callback w1 root_superclass root
  let s := sweep_all WITH_EDITOR callback r.1.m_reflected_classes r.1
  ({ s.1 with m_reflected_classes := s.2.1 }, r.2 || s.2.2)

/-! ## Marshaling of values between script instances and native memory

Native memory (the parameter buffer of a native function, the storage of a
property) is a list of bytes; a pointer into it is an offset.  A write past the
end of the list does nothing and a read past the end gives 0. -/

/-- Native memory, byte by byte. -/
abbrev Memory := List Nat

/-- What the user data of an `SkInstance` holds, as far as the marshaling
functions below read and write it: an enum value (`SkEnum`), raw bytes kept
inside the instance (`get_raw_pointer_val`), or raw bytes kept behind a pointer
(`get_raw_pointer_ref`). -/
inductive SkUserData where
  | nothing
  | enum_value (value : Int)
  | struct_val (bytes : List Nat)
  | struct_ref (bytes : List Nat)
  deriving DecidableEq, Repr

/-- A script instance: its class and its user data. -/
structure SkInstance where
  m_class_p : Nat
  m_user_data : SkUserData
  deriving DecidableEq, Repr

/-- Accessor `as<SkEnum>()`: the enum value of the instance (0 where the instance
holds none). -/
def SkInstance.as_enum (sk_instance : SkInstance) : Int :=
  match sk_instance.m_user_data with
  | SkUserData.enum_value value => value
  | _ => 0

/-- Accessor `get_raw_pointer_val`: the bytes kept inside the instance. -/
def SkInstance.get_raw_pointer_val (sk_instance : SkInstance) : List Nat :=
  match sk_instance.m_user_data with
  | SkUserData.struct_val bytes => bytes
  | _ => []

/-- Accessor `get_raw_pointer_ref`: the bytes kept behind the instance's pointer. -/
def SkInstance.get_raw_pointer_ref (sk_instance : SkInstance) : List Nat :=
  match sk_instance.m_user_data with
  | SkUserData.struct_ref bytes => bytes
  | _ => []

/-- Library call `FMemory::Memcpy(dest, src, count)` into `memory` at offset
`dest`, `src` being the bytes readable at the source pointer. -/
def Memcpy (memory : Memory) (dest : Nat) (src : List Nat) (count : Nat) : Memory :=
  (List.range count).foldl (fun m k => m.set (dest + k) (src.getD k 0)) memory

/-- Function `store_sk_value_enum`: the enum value cast to
`UByteProperty::TCppType`, a byte, is written at `dest_p`; returns the size of a
byte. -/
def store_sk_value_enum (memory : Memory) (dest_p : Nat) (value_p : SkInstance)
    (_typed_name : TypedName) : Memory × Nat :=
  (memory.set dest_p (value_p.as_enum % 2 ^ 8).toNat, 1)

/-- Function `fetch_k2_value_enum`: a new instance of the parameter's class
constructed from the byte at `value_p`. -/
def fetch_k2_value_enum (memory : Memory) (value_p : Nat) (typed_name : TypedName) : SkInstance :=
  { m_class_p := typed_name.m_sk_class_p
    m_user_data := SkUserData.enum_value (Int.ofNat (memory.getD value_p 0)) }

/-- Function `assign_k2_value_enum`: the instance at `dest_p` takes the enum value
made from the byte at `value_p`. -/
def assign_k2_value_enum (dest_p : SkInstance) (memory : Memory) (value_p : Nat)
    (_typed_name : TypedName) : SkInstance :=
  { dest_p with m_user_data := SkUserData.enum_value (Int.ofNat (memory.getD value_p 0)) }

/-- Function `store_sk_value_struct_val`. -/
def store_sk_value_struct_val (memory : Memory) (dest_p : Nat) (value_p : SkInstance)
    (typed_name : TypedName) : Memory × Nat :=
  (Memcpy memory dest_p value_p.get_raw_pointer_val typed_name.m_byte_size, typed_name.m_byte_size)

/-- Function `store_sk_value_struct_ref`. -/
def store_sk_value_struct_ref (memory : Memory) (dest_p : Nat) (value_p : SkInstance)
    (typed_name : TypedName) : Memory × Nat :=
  (Memcpy memory dest_p value_p.get_raw_pointer_ref typed_name.m_byte_size, typed_name.m_byte_size)

/-- Function `fetch_k2_value_struct_val`: `new_instance_uninitialized_val` makes an
instance of the parameter's class with `m_byte_size` bytes of user data, into
which the bytes at `value_p` are copied. -/
def fetch_k2_value_struct_val (memory : Memory) (value_p : Nat) (typed_name : TypedName) :
    SkInstance :=
  { m_class_p := typed_name.m_sk_class_p
    m_user_data :=
      SkUserData.struct_val
        (Memcpy (List.replicate typed_name.m_byte_size 0) 0 (memory.drop value_p)
          typed_name.m_byte_size) }

/-- Function `fetch_k2_value_struct_ref`, with `new_instance_uninitialized_ref`. -/
def fetch_k2_value_struct_ref (memory : Memory) (value_p : Nat) (typed_name : TypedName) :
    SkInstance :=
  { m_class_p := typed_name.m_sk_class_p
    m_user_data :=
      SkUserData.struct_ref
        (Memcpy (List.replicate typed_name.m_byte_size 0) 0 (memory.drop value_p)
          typed_name.m_byte_size) }

/-! ## Native properties and the marshaling quadruple

`build_ue_property` makes the native property for a script type and
`reflect_ue_property` reads an existing native property; both pick four
marshaling functions.  A function pointer is the name of the function it points
to. -/

/-- The kinds of value the marshaling functions come in. -/
inductive MarshalKind where
  | boolean
  | integer
  | real
  | string
  | vector2
  | vector3
  | vector4
  | rotation_angles
  | transform
  | struct_val
  | struct_ref
  | entity
  | enum
  deriving DecidableEq, Repr

/-- Values of a `tK2ParamFetcher` pointer: the functions `fetch_k2_param_*`. -/
inductive tK2ParamFetcher where
  | fetch_k2_param_boolean
  | fetch_k2_param_integer
  | fetch_k2_param_real
  | fetch_k2_param_string
  | fetch_k2_param_vector2
  | fetch_k2_param_vector3
  | fetch_k2_param_vector4
  | fetch_k2_param_rotation_angles
  | fetch_k2_param_transform
  | fetch_k2_param_struct_val
  | fetch_k2_param_struct_ref
  | fetch_k2_param_entity
  | fetch_k2_param_enum
  deriving DecidableEq, Repr

/-- The kind of value the function is written for, by its name. -/
def tK2ParamFetcher.kind : tK2ParamFetcher → MarshalKind
  | tK2ParamFetcher.fetch_k2_param_boolean => MarshalKind.boolean
  | tK2ParamFetcher.fetch_k2_param_integer => MarshalKind.integer
  | tK2ParamFetcher.fetch_k2_param_real => MarshalKind.real
  | tK2ParamFetcher.fetch_k2_param_string => MarshalKind.string
  | tK2ParamFetcher.fetch_k2_param_vector2 => MarshalKind.vector2
  | tK2ParamFetcher.fetch_k2_param_vector3 => MarshalKind.vector3
  | tK2ParamFetcher.fetch_k2_param_vector4 => MarshalKind.vector4
  | tK2ParamFetcher.fetch_k2_param_rotation_angles => MarshalKind.rotation_angles
  | tK2ParamFetcher.fetch_k2_param_transform => MarshalKind.transform
  | tK2ParamFetcher.fetch_k2_param_struct_val => MarshalKind.struct_val
  | tK2ParamFetcher.fetch_k2_param_struct_ref => MarshalKind.struct_ref
  | tK2ParamFetcher.fetch_k2_param_entity => MarshalKind.entity
  | tK2ParamFetcher.fetch_k2_param_enum => MarshalKind.enum

/-- Values of a `tK2ValueFetcher` pointer: the functions `fetch_k2_value_*`. -/
inductive tK2ValueFetcher where
  | fetch_k2_value_boolean
  | fetch_k2_value_integer
  | fetch_k2_value_real
  | fetch_k2_value_string
  | fetch_k2_value_vector2
  | fetch_k2_value_vector3
  | fetch_k2_value_vector4
  | fetch_k2_value_rotation_angles
  | fetch_k2_value_transform
  | fetch_k2_value_struct_val
  | fetch_k2_value_struct_ref
  | fetch_k2_value_entity
  | fetch_k2_value_enum
  deriving DecidableEq, Repr

/-- The kind of value the function is written for, by its name. -/
def tK2ValueFetcher.kind : tK2ValueFetcher → MarshalKind
  | tK2ValueFetcher.fetch_k2_value_boolean => MarshalKind.boolean
  | tK2ValueFetcher.fetch_k2_value_integer => MarshalKind.integer
  | tK2ValueFetcher.fetch_k2_value_real => MarshalKind.real
  | tK2ValueFetcher.fetch_k2_value_string => MarshalKind.string
  | tK2ValueFetcher.fetch_k2_value_vector2 => MarshalKind.vector2
  | tK2ValueFetcher.fetch_k2_value_vector3 => MarshalKind.vector3
  | tK2ValueFetcher.fetch_k2_value_vector4 => MarshalKind.vector4
  | tK2ValueFetcher.fetch_k2_value_rotation_angles => MarshalKind.rotation_angles
  | tK2ValueFetcher.fetch_k2_value_transform => MarshalKind.transform
  | tK2ValueFetcher.fetch_k2_value_struct_val => MarshalKind.struct_val
  | tK2ValueFetcher.fetch_k2_value_struct_ref => MarshalKind.struct_ref
  | tK2ValueFetcher.fetch_k2_value_entity => MarshalKind.entity
  | tK2ValueFetcher.fetch_k2_value_enum => MarshalKind.enum

/-- Values of a `tK2ValueAssigner` pointer: the functions `assign_k2_value_*`. -/
inductive tK2ValueAssigner where
  | assign_k2_value_boolean
  | assign_k2_value_integer
  | assign_k2_value_real
  | assign_k2_value_string
  | assign_k2_value_vector2
  | assign_k2_value_vector3
  | assign_k2_value_vector4
  | assign_k2_value_rotation_angles
  | assign_k2_value_transform
  | assign_k2_value_struct_val
  | assign_k2_value_struct_ref
  | assign_k2_value_entity
  | assign_k2_value_enum
  deriving DecidableEq, Repr

/-- The kind of value the function is written for, by its name. -/
def tK2ValueAssigner.kind : tK2ValueAssigner → MarshalKind
  | tK2ValueAssigner.assign_k2_value_boolean => MarshalKind.boolean
  | tK2ValueAssigner.assign_k2_value_integer => MarshalKind.integer
  | tK2ValueAssigner.assign_k2_value_real => MarshalKind.real
  | tK2ValueAssigner.assign_k2_value_string => MarshalKind.string
  | tK2ValueAssigner.assign_k2_value_vector2 => MarshalKind.vector2
  | tK2ValueAssigner.assign_k2_value_vector3 => MarshalKind.vector3
  | tK2ValueAssigner.assign_k2_value_vector4 => MarshalKind.vector4
  | tK2ValueAssigner.assign_k2_value_rotation_angles => MarshalKind.rotation_angles
  | tK2ValueAssigner.assign_k2_value_transform => MarshalKind.transform
  | tK2ValueAssigner.assign_k2_value_struct_val => MarshalKind.struct_val
  | tK2ValueAssigner.assign_k2_value_struct_ref => MarshalKind.struct_ref
  | tK2ValueAssigner.assign_k2_value_entity => MarshalKind.entity
  | tK2ValueAssigner.assign_k2_value_enum => MarshalKind.enum

/-- Values of a `tSkValueStorer` pointer: the functions `store_sk_value_*`. -/
inductive tSkValueStorer where
  | store_sk_value_boolean
  | store_sk_value_integer
  | store_sk_value_real
  | store_sk_value_string
  | store_sk_value_vector2
  | store_sk_value_vector3
  | store_sk_value_vector4
  | store_sk_value_rotation_angles
  | store_sk_value_transform
  | store_sk_value_struct_val
  | store_sk_value_struct_ref
  | store_sk_value_entity
  | store_sk_value_enum
  deriving DecidableEq, Repr

/-- The kind of value the function is written for, by its name. -/
def tSkValueStorer.kind : tSkValueStorer → MarshalKind
  | tSkValueStorer.store_sk_value_boolean => MarshalKind.boolean
  | tSkValueStorer.store_sk_value_integer => MarshalKind.integer
  | tSkValueStorer.store_sk_value_real => MarshalKind.real
  | tSkValueStorer.store_sk_value_string => MarshalKind.string
  | tSkValueStorer.store_sk_value_vector2 => MarshalKind.vector2
  | tSkValueStorer.store_sk_value_vector3 => MarshalKind.vector3
  | tSkValueStorer.store_sk_value_vector4 => MarshalKind.vector4
  | tSkValueStorer.store_sk_value_rotation_angles => MarshalKind.rotation_angles
  | tSkValueStorer.store_sk_value_transform => MarshalKind.transform
  | tSkValueStorer.store_sk_value_struct_val => MarshalKind.struct_val
  | tSkValueStorer.store_sk_value_struct_ref => MarshalKind.struct_ref
  | tSkValueStorer.store_sk_value_entity => MarshalKind.entity
  | tSkValueStorer.store_sk_value_enum => MarshalKind.enum

/-- Position of a kind in the order the source defines its functions in. -/
def MarshalKind.index : MarshalKind → Nat
  | MarshalKind.boolean => 0
  | MarshalKind.integer => 1
  | MarshalKind.real => 2
  | MarshalKind.string => 3
  | MarshalKind.vector2 => 4
  | MarshalKind.vector3 => 5
  | MarshalKind.vector4 => 6
  | MarshalKind.rotation_angles => 7
  | MarshalKind.transform => 8
  | MarshalKind.struct_val => 9
  | MarshalKind.struct_ref => 10
  | MarshalKind.entity => 11
  | MarshalKind.enum => 12

/-- Address of a `fetch_k2_param_*` function, as a registry entry stores it. -/
def tK2ParamFetcher.addr (f : tK2ParamFetcher) : Nat := 100 + f.kind.index

/-- Address of a `fetch_k2_value_*` function. -/
def tK2ValueFetcher.addr (f : tK2ValueFetcher) : Nat := 200 + f.kind.index

/-- Address of an `assign_k2_value_*` function. -/
def tK2ValueAssigner.addr (f : tK2ValueAssigner) : Nat := 300 + f.kind.index

/-- Address of a `store_sk_value_*` function. -/
def tSkValueStorer.addr (f : tSkValueStorer) : Nat := 400 + f.kind.index

/-- The native property classes the manager creates and tests for. -/
inductive UPropertyClass where
  | UBoolProperty
  | UIntProperty
  | UFloatProperty
  | UStrProperty
  | UStructProperty
  | UByteProperty
  | UObjectProperty
  deriving DecidableEq, Repr

/-- A native struct type (`UScriptStruct`): what the manager reads of it. -/
structure UScriptStruct where
  ptr : Nat
  /-- Result of `GetFName()`. -/
  fname : Nat
  /-- Result of `GetStructureSize()`. -/
  structure_size : Nat
  /-- Result of `IsA<UUserDefinedStruct>()`. -/
  is_user_defined : Bool
  deriving DecidableEq, Repr

/-- A native property (`UProperty`): the classes among the tested ones it is an
instance of (`IsA`), its name, the object it was created in, whether it was
created `RF_Public`, the fields of the subclasses and the property flags the
manager sets and tests. -/
structure UProperty where
  m_classes : List UPropertyClass
  m_name : Nat
  m_outer : Nat
  RF_Public : Bool
  Struct : Option UScriptStruct
  Enum : Option Nat
  PropertyClass : Option Nat
  CPF_Parm : Bool
  CPF_ReturnParm : Bool
  CPF_OutParm : Bool
  deriving DecidableEq, Repr

/-- Test `IsA<C>()`. -/
def UProperty.IsA (ue_property : UProperty) (c : UPropertyClass) : Bool :=
  ue_property.m_classes.contains c

/-- Call `NewObject<C>(ue_outer_p, ue_name, flags)`: a property of class `C` with
no flags set and null subclass fields. -/
def NewObject_UProperty (c : UPropertyClass) (ue_outer_p : Nat) (ue_name : Nat) (RF_Public : Bool) :
    UProperty :=
  { m_classes := [c], m_name := ue_name, m_outer := ue_outer_p, RF_Public := RF_Public,
    Struct := none, Enum := none, PropertyClass := none,
    CPF_Parm := false, CPF_ReturnParm := false, CPF_OutParm := false }

/-- Conversion `FName ue_name(sk_name.as_cstr())`: the native name with the
symbol's text; names are numbered alike on both sides. -/
def FName_of (sk_name : ASymbol) : Nat := sk_name

/-- A `ReflectedProperty`: the temporary record of a parameter the two functions
fill in. -/
structure ReflectedProperty where
  name : ASymbol
  m_ue_property_p : Option UProperty
  m_k2_param_fetcher_p : Option tK2ParamFetcher
  m_k2_value_fetcher_p : Option tK2ValueFetcher
  m_k2_value_assigner_p : Option tK2ValueAssigner
  m_sk_value_storer_p : Option tSkValueStorer
  deriving DecidableEq, Repr

/-- Constructor `ReflectedProperty()`: the null symbol and null pointers. -/
def ReflectedProperty.new : ReflectedProperty :=
  { name := 0, m_ue_property_p := none, m_k2_param_fetcher_p := none,
    m_k2_value_fetcher_p := none, m_k2_value_assigner_p := none, m_sk_value_storer_p := none }

/-- A script type (`SkClassDescBase`): the descriptor's address, its key class
(`get_key_class()`) and the proper superclasses of the key class, by address. -/
structure SkClassDescBase where
  ptr : Nat
  key_class : SkClassRef
  key_class_superclasses : List Nat
  deriving DecidableEq, Repr

/-- Test `get_key_class()->is_class(cls)`: the key class is `cls` or a subclass
of it. -/
def SkClassDescBase.key_class_is_class (sk_type : SkClassDescBase) (cls : Nat) : Bool :=
  sk_type.key_class.ptr == cls || sk_type.key_class_superclasses.contains cls

/-- What the manager asks of the script runtime: the classes `SkBoolean::get_class()`
... `SkUEEntity::get_class()` and `SkBrain::ms_object_class_p`, by address, and
the accessors `get_expected_type()` of a parameter and
`get_params().get_result_class()` of a routine, which may be null. -/
structure SkBrain where
  SkBoolean_class : Nat
  SkInteger_class : Nat
  SkReal_class : Nat
  SkString_class : Nat
  SkVector2_class : Nat
  SkVector3_class : Nat
  SkVector4_class : Nat
  SkRotationAngles_class : Nat
  SkTransform_class : Nat
  SkEnum_class : Nat
  SkUEEntity_class : Nat
  ms_object_class_p : Nat
  get_expected_type : SkParameterBase → SkClassDescBase
  get_result_class : SkInvokableBase → Option SkClassDescBase

/-- What the manager asks of the host: the struct types found by the constructor
(`ms_struct_vector2_p` ...), `FindObject<UEnum>` by class name,
`get_ue_class_from_sk_class` and `get_ue_struct_from_sk_class` by key class,
`SkInstance::is_data_stored_by_val` by size, `skookify_var_name` of a property
name (with the is-Boolean flag), and `GetSize()` and `GetOffset_ForUFunction()`
of a property. -/
structure UEHost where
  ms_struct_vector2_p : UScriptStruct
  ms_struct_vector3_p : UScriptStruct
  ms_struct_vector4_p : UScriptStruct
  ms_struct_rotation_angles_p : UScriptStruct
  ms_struct_transform_p : UScriptStruct
  FindObject_UEnum : ASymbol → Option Nat
  get_ue_class_from_sk_class : SkClassRef → Option Nat
  get_ue_struct_from_sk_class : SkClassRef → Option UScriptStruct
  is_data_stored_by_val : Nat → Bool
  skookify_var_name : Nat → Bool → ASymbol
  GetSize : UProperty → Nat
  GetOffset_ForUFunction : UProperty → Nat

/-- The local variables of `build_ue_property` and `reflect_ue_property` that the
if-else chain sets, and whether `on_unknown_type` was called. -/
structure PropertySelection where
  ue_property_p : Option UProperty
  k2_param_fetcher_p : Option tK2ParamFetcher
  k2_value_fetcher_p : Option tK2ValueFetcher
  k2_value_assigner_p : Option tK2ValueAssigner
  sk_value_storer_p : Option tSkValueStorer
  unknown_type : Bool
  deriving DecidableEq, Repr

/-- The locals as initialised: all null. -/
def PropertySelection.null (unknown_type : Bool) : PropertySelection :=
  { ue_property_p := none, k2_param_fetcher_p := none, k2_value_fetcher_p := none,
    k2_value_assigner_p := none, sk_value_storer_p := none, unknown_type := unknown_type }

/-- The if-else chain of `build_ue_property`: the native property made for the
script type `sk_type` and the four marshaling functions, or all null. -/
def build_ue_property_chain (brain : SkBrain) (host : UEHost) (sk_name : ASymbol)
    (sk_type : SkClassDescBase) (ue_outer_p : Nat) (is_final : Bool) : PropertySelection :=
  if sk_type.ptr = brain.SkBoolean_class then
    { ue_property_p := some (NewObject_UProperty UPropertyClass.UBoolProperty ue_outer_p (FName_of sk_name) true)
      k2_param_fetcher_p := some tK2ParamFetcher.fetch_k2_param_boolean
      k2_value_fetcher_p := some tK2ValueFetcher.fetch_k2_value_boolean
      k2_value_assigner_p := some tK2ValueAssigner.assign_k2_value_boolean
      sk_value_storer_p := some tSkValueStorer.store_sk_value_boolean
      unknown_type := false }
  else if sk_type.ptr = brain.SkInteger_class then
    { ue_property_p := some (NewObject_UProperty UPropertyClass.UIntProperty ue_outer_p (FName_of sk_name) true)
      k2_param_fetcher_p := some tK2ParamFetcher.fetch_k2_param_integer
      k2_value_fetcher_p := some tK2ValueFetcher.fetch_k2_value_integer
      k2_value_assigner_p := some tK2ValueAssigner.assign_k2_value_integer
      sk_value_storer_p := some tSkValueStorer.store_sk_value_integer
      unknown_type := false }
  else if sk_type.ptr = brain.SkReal_class then
    { ue_property_p := some (NewObject_UProperty UPropertyClass.UFloatProperty ue_outer_p (FName_of sk_name) true)
      k2_param_fetcher_p := some tK2ParamFetcher.fetch_k2_param_real
      k2_value_fetcher_p := some tK2ValueFetcher.fetch_k2_value_real
      k2_value_assigner_p := some tK2ValueAssigner.assign_k2_value_real
      sk_value_storer_p := some tSkValueStorer.store_sk_value_real
      unknown_type := false }
  else if sk_type.ptr = brain.SkString_class then
    { ue_property_p := some (NewObject_UProperty UPropertyClass.UStrProperty ue_outer_p (FName_of sk_name) true)
      k2_param_fetcher_p := some tK2ParamFetcher.fetch_k2_param_string
      k2_value_fetcher_p := some tK2ValueFetcher.fetch_k2_value_string
      k2_value_assigner_p := some tK2ValueAssigner.assign_k2_value_string
      sk_value_storer_p := some tSkValueStorer.store_sk_value_string
      unknown_type := false }
  else if sk_type.ptr = brain.SkVector2_class then
    { ue_property_p :=
        some { NewObject_UProperty UPropertyClass.UStructProperty ue_outer_p (FName_of sk_name) false with Struct := some host.ms_struct_vector2_p }
      k2_param_fetcher_p := some tK2ParamFetcher.fetch_k2_param_vector2
      k2_value_fetcher_p := some tK2ValueFetcher.fetch_k2_value_vector2
      k2_value_assigner_p := some tK2ValueAssigner.assign_k2_value_vector2
      sk_value_storer_p := some tSkValueStorer.store_sk_value_vector2
      unknown_type := false }
  else if sk_type.ptr = brain.SkVector3_class then
    { ue_property_p :=
        some { NewObject_UProperty UPropertyClass.UStructProperty ue_outer_p (FName_of sk_name) false with Struct := some host.ms_struct_vector3_p }
      k2_param_fetcher_p := some tK2ParamFetcher.fetch_k2_param_vector3
      k2_value_fetcher_p := some tK2ValueFetcher.fetch_k2_value_vector3
      k2_value_assigner_p := some tK2ValueAssigner.assign_k2_value_vector3
      sk_value_storer_p := some tSkValueStorer.store_sk_value_vector3
      unknown_type := false }
  else if sk_type.ptr = brain.SkVector4_class then
    { ue_property_p :=
        some { NewObject_UProperty UPropertyClass.UStructProperty ue_outer_p (FName_of sk_name) false with Struct := some host.ms_struct_vector4_p }
      k2_param_fetcher_p := some tK2ParamFetcher.fetch_k2_param_vector4
      k2_value_fetcher_p := some tK2ValueFetcher.fetch_k2_value_vector4
      k2_value_assigner_p := some tK2ValueAssigner.assign_k2_value_vector4
      sk_value_storer_p := some tSkValueStorer.store_sk_value_vector4
      unknown_type := false }
  else if sk_type.ptr = brain.SkRotationAngles_class then
    { ue_property_p :=
        some { NewObject_UProperty UPropertyClass.UStructProperty ue_outer_p (FName_of sk_name) false with Struct := some host.ms_struct_rotation_angles_p }
      k2_param_fetcher_p := some tK2ParamFetcher.fetch_k2_param_rotation_angles
      k2_value_fetcher_p := some tK2ValueFetcher.fetch_k2_value_rotation_angles
      k2_value_assigner_p := some tK2ValueAssigner.assign_k2_value_rotation_angles
      sk_value_storer_p := some tSkValueStorer.store_sk_value_rotation_angles
      unknown_type := false }
  else if sk_type.ptr = brain.SkTransform_class then
    { ue_property_p :=
        some { NewObject_UProperty UPropertyClass.UStructProperty ue_outer_p (FName_of sk_name) false with Struct := some host.ms_struct_transform_p }
      k2_param_fetcher_p := some tK2ParamFetcher.fetch_k2_param_transform
      k2_value_fetcher_p := some tK2ValueFetcher.fetch_k2_value_transform
      k2_value_assigner_p := some tK2ValueAssigner.assign_k2_value_transform
      sk_value_storer_p := some tSkValueStorer.store_sk_value_transform
      unknown_type := false }
  else if sk_type.key_class_is_class brain.SkEnum_class then
    match host.FindObject_UEnum sk_type.key_class.name with
    | some ue_enum_p =>
      { ue_property_p :=
          some { NewObject_UProperty UPropertyClass.UByteProperty ue_outer_p (FName_of sk_name) false with Enum := some ue_enum_p }
        k2_param_fetcher_p := some tK2ParamFetcher.fetch_k2_param_enum
        k2_value_fetcher_p := some tK2ValueFetcher.fetch_k2_value_enum
        k2_value_assigner_p := some tK2ValueAssigner.assign_k2_value_enum
        sk_value_storer_p := some tSkValueStorer.store_sk_value_enum
        unknown_type := false }
    | none => PropertySelection.null is_final
  else if sk_type.key_class_is_class brain.SkUEEntity_class then
    match host.get_ue_class_from_sk_class sk_type.key_class with
    | some ue_class_p =>
      { ue_property_p :=
          some { NewObject_UProperty UPropertyClass.UObjectProperty ue_outer_p (FName_of sk_name) true with PropertyClass := some ue_class_p }
        k2_param_fetcher_p := some tK2ParamFetcher.fetch_k2_param_entity
        k2_value_fetcher_p := some tK2ValueFetcher.fetch_k2_value_entity
        k2_value_assigner_p := some tK2ValueAssigner.assign_k2_value_entity
        sk_value_storer_p := some tSkValueStorer.store_sk_value_entity
        unknown_type := false }
    | none => PropertySelection.null is_final
  else
    match host.get_ue_struct_from_sk_class sk_type.key_class with
    | some ue_struct_p =>
      if host.is_data_stored_by_val ue_struct_p.structure_size then
        { ue_property_p :=
            some { NewObject_UProperty UPropertyClass.UStructProperty ue_outer_p (FName_of sk_name) false with Struct := some ue_struct_p }
          k2_param_fetcher_p := some tK2ParamFetcher.fetch_k2_param_struct_val
          k2_value_fetcher_p := some tK2ValueFetcher.fetch_k2_value_struct_val
          k2_value_assigner_p := some tK2ValueAssigner.assign_k2_value_struct_val
          sk_value_storer_p := some tSkValueStorer.store_sk_value_struct_val
          unknown_type := false }
      else
        { ue_property_p :=
            some { NewObject_UProperty UPropertyClass.UStructProperty ue_outer_p (FName_of sk_name) false with Struct := some ue_struct_p }
          k2_param_fetcher_p := some tK2ParamFetcher.fetch_k2_param_struct_ref
          k2_value_fetcher_p := some tK2ValueFetcher.fetch_k2_value_struct_ref
          k2_value_assigner_p := some tK2ValueAssigner.assign_k2_value_struct_ref
          sk_value_storer_p := some tSkValueStorer.store_sk_value_struct_ref
          unknown_type := false }
    | none => PropertySelection.null is_final

/-- What `build_ue_property` hands back: its return value, the record behind
`out_info_p` when that is not null, and whether `on_unknown_type` was called. -/
structure BuildPropertyResult where
  ue_property_p : Option UProperty
  out_info : Option ReflectedProperty
  unknown_type : Bool
  deriving DecidableEq, Repr

/-- Function `build_ue_property`; `out_info_p` is null or points at a record. -/
def build_ue_property (brain : SkBrain) (host : UEHost) (sk_name : ASymbol)
    (sk_type : SkClassDescBase) (ue_outer_p : Nat) (out_info_p : Option ReflectedProperty)
    (is_final : Bool) : BuildPropertyResult :=
  let s := build_ue_property_chain brain host sk_name sk_type ue_outer_p is_final
  { ue_property_p := s.ue_property_p
    out_info :=
      out_info_p.map (fun _ =>
        { name := sk_name
          m_ue_property_p := s.ue_property_p
          m_k2_param_fetcher_p := s.k2_param_fetcher_p
          m_k2_value_fetcher_p := s.k2_value_fetcher_p
          m_k2_value_assigner_p := s.k2_value_assigner_p
          m_sk_value_storer_p := s.sk_value_storer_p })
    unknown_type := s.unknown_type }

/-- The if-else chain of `reflect_ue_property`: the four marshaling functions for
an existing native property, or all null.  A struct property with a null `Struct`
selects nothing. -/
def reflect_ue_property_chain (host : UEHost) (ue_property : UProperty) : PropertySelection :=
  if ue_property.IsA UPropertyClass.UBoolProperty then
    { ue_property_p := some ue_property
      k2_param_fetcher_p := some tK2ParamFetcher.fetch_k2_param_boolean
      k2_value_fetcher_p := some tK2ValueFetcher.fetch_k2_value_boolean
      k2_value_assigner_p := some tK2ValueAssigner.assign_k2_value_boolean
      sk_value_storer_p := some tSkValueStorer.store_sk_value_boolean
      unknown_type := false }
  else if ue_property.IsA UPropertyClass.UIntProperty then
    { ue_property_p := some ue_property
      k2_param_fetcher_p := some tK2ParamFetcher.fetch_k2_param_integer
      k2_value_fetcher_p := some tK2ValueFetcher.fetch_k2_value_integer
      k2_value_assigner_p := some tK2ValueAssigner.assign_k2_value_integer
      sk_value_storer_p := some tSkValueStorer.store_sk_value_integer
      unknown_type := false }
  else if ue_property.IsA UPropertyClass.UFloatProperty then
    { ue_property_p := some ue_property
      k2_param_fetcher_p := some tK2ParamFetcher.fetch_k2_param_real
      k2_value_fetcher_p := some tK2ValueFetcher.fetch_k2_value_real
      k2_value_assigner_p := some tK2ValueAssigner.assign_k2_value_real
      sk_value_storer_p := some tSkValueStorer.store_sk_value_real
      unknown_type := false }
  else if ue_property.IsA UPropertyClass.UStrProperty then
    { ue_property_p := some ue_property
      k2_param_fetcher_p := some tK2ParamFetcher.fetch_k2_param_string
      k2_value_fetcher_p := some tK2ValueFetcher.fetch_k2_value_string
      k2_value_assigner_p := some tK2ValueAssigner.assign_k2_value_string
      sk_value_storer_p := some tSkValueStorer.store_sk_value_string
      unknown_type := false }
  else if ue_property.IsA UPropertyClass.UStructProperty then
    match ue_property.Struct with
    | none => PropertySelection.null false
    | some struct_p =>
      if struct_p.fname = host.ms_struct_vector2_p.fname then
        { ue_property_p := some ue_property
          k2_param_fetcher_p := some tK2ParamFetcher.fetch_k2_param_vector2
          k2_value_fetcher_p := some tK2ValueFetcher.fetch_k2_value_vector2
          k2_value_assigner_p := some tK2ValueAssigner.assign_k2_value_vector2
          sk_value_storer_p := some tSkValueStorer.store_sk_value_vector2
          unknown_type := false }
      else if struct_p.fname = host.ms_struct_vector3_p.fname then
        { ue_property_p := some ue_property
          k2_param_fetcher_p := some tK2ParamFetcher.fetch_k2_param_vector3
          k2_value_fetcher_p := some tK2ValueFetcher.fetch_k2_value_vector3
          k2_value_assigner_p := some tK2ValueAssigner.assign_k2_value_vector3
          sk_value_storer_p := some tSkValueStorer.store_sk_value_vector3
          unknown_type := false }
      else if struct_p.fname = host.ms_struct_vector4_p.fname then
        { ue_property_p := some ue_property
          k2_param_fetcher_p := some tK2ParamFetcher.fetch_k2_param_vector4
          k2_value_fetcher_p := some tK2ValueFetcher.fetch_k2_value_vector4
          k2_value_assigner_p := some tK2ValueAssigner.assign_k2_value_vector4
          sk_value_storer_p := some tSkValueStorer.store_sk_value_vector4
          unknown_type := false }
      else if struct_p.fname = host.ms_struct_rotation_angles_p.fname then
        { ue_property_p := some ue_property
          k2_param_fetcher_p := some tK2ParamFetcher.fetch_k2_param_rotation_angles
          k2_value_fetcher_p := some tK2ValueFetcher.fetch_k2_value_rotation_angles
          k2_value_assigner_p := some tK2ValueAssigner.assign_k2_value_rotation_angles
          sk_value_storer_p := some tSkValueStorer.store_sk_value_rotation_angles
          unknown_type := false }
      else if struct_p.fname = host.ms_struct_transform_p.fname then
        { ue_property_p := some ue_property
          k2_param_fetcher_p := some tK2ParamFetcher.fetch_k2_param_transform
          k2_value_fetcher_p := some tK2ValueFetcher.fetch_k2_value_transform
          k2_value_assigner_p := some tK2ValueAssigner.assign_k2_value_transform
          sk_value_storer_p := some tSkValueStorer.store_sk_value_transform
          unknown_type := false }
      else if !struct_p.is_user_defined then
        if host.is_data_stored_by_val struct_p.structure_size then
          { ue_property_p := some ue_property
            k2_param_fetcher_p := some tK2ParamFetcher.fetch_k2_param_struct_val
            k2_value_fetcher_p := some tK2ValueFetcher.fetch_k2_value_struct_val
            k2_value_assigner_p := some tK2ValueAssigner.assign_k2_value_struct_val
            sk_value_storer_p := some tSkValueStorer.store_sk_value_struct_val
            unknown_type := false }
        else
          { ue_property_p := some ue_property
            k2_param_fetcher_p := some tK2ParamFetcher.fetch_k2_param_struct_ref
            k2_value_fetcher_p := some tK2ValueFetcher.fetch_k2_value_struct_ref
            k2_value_assigner_p := some tK2ValueAssigner.assign_k2_value_struct_ref
            sk_value_storer_p := some tSkValueStorer.store_sk_value_struct_ref
            unknown_type := false }
      else PropertySelection.null false
  else if ue_property.IsA UPropertyClass.UByteProperty && ue_property.Enum.isSome then
    { ue_property_p := some ue_property
      k2_param_fetcher_p := some tK2ParamFetcher.fetch_k2_param_enum
      k2_value_fetcher_p := some tK2ValueFetcher.fetch_k2_value_enum
      k2_value_assigner_p := some tK2ValueAssigner.assign_k2_value_enum
      sk_value_storer_p := some tSkValueStorer.store_sk_value_enum
      unknown_type := false }
  else if ue_property.IsA UPropertyClass.UObjectProperty then
    { ue_property_p := some ue_property
      k2_param_fetcher_p := some tK2ParamFetcher.fetch_k2_param_entity
      k2_value_fetcher_p := some tK2ValueFetcher.fetch_k2_value_entity
      k2_value_assigner_p := some tK2ValueAssigner.assign_k2_value_entity
      sk_value_storer_p := some tSkValueStorer.store_sk_value_entity
      unknown_type := false }
  else PropertySelection.null false

/-- Function `reflect_ue_property`: its return value and the record behind
`out_info_p`, which is written only when a quadruple was selected. -/
def reflect_ue_property (host : UEHost) (ue_property : UProperty)
    (out_info_p : Option ReflectedProperty) : Bool × Option ReflectedProperty :=
  let s := reflect_ue_property_chain host ue_property
  (s.k2_param_fetcher_p.isSome,
    if s.k2_param_fetcher_p.isSome then
      out_info_p.map (fun _ =>
        { name := host.skookify_var_name ue_property.m_name (ue_property.IsA UPropertyClass.UBoolProperty)
          m_ue_property_p := some ue_property
          m_k2_param_fetcher_p := s.k2_param_fetcher_p
          m_k2_value_fetcher_p := s.k2_value_fetcher_p
          m_k2_value_assigner_p := s.k2_value_assigner_p
          m_sk_value_storer_p := s.sk_value_storer_p })
    else out_info_p)

/-! ## Native functions and classes -/

/-- The trampolines `SetNativeFunc` is given in `build_ue_function`. -/
inductive Native where
  | exec_coroutine
  | exec_class_method
  | exec_instance_method
  deriving DecidableEq, Repr

/-- A native function (`UFunction`) as far as the manager reads and writes it:
its address, name and outer, the flag bits it sets or tests, the native function
pointer, `RepOffset`, the child properties (the head is the first child), and
the fields the event trigger reads. -/
structure UFunction where
  ptr : Nat
  fname : Nat
  outer : Nat
  RF_Public : Bool
  FUNC_Public : Bool
  FUNC_Static : Bool
  FUNC_BlueprintCallable : Bool
  FUNC_Native : Bool
  FUNC_BlueprintEvent : Bool
  FUNC_Event : Bool
  FUNC_HasOutParms : Bool
  native_func : Option Native
  /-- Set by `Bind()`. -/
  is_bound : Bool
  /-- A `uint16`. -/
  RepOffset : Nat
  Children : List UProperty
  /-- Set by `MarkPendingKill()`. -/
  pending_kill : Bool
  /-- Set by `StaticLink(true)`. -/
  is_linked : Bool
  /-- Bytecode `Script`; `Script.Num()` is its length. -/
  Script : List Nat
  ParmsSize : Nat
  ReturnValueOffset : Nat
  deriving DecidableEq, Repr

/-- Call `NewObject<UFunction>(ue_class_p, name, RF_Public)`: a function at the
address the allocator hands out, with no flags and no children. -/
def NewObject_UFunction (ptr : Nat) (ue_class_p : Nat) (fname : Nat) : UFunction :=
  { ptr := ptr, fname := fname, outer := ue_class_p, RF_Public := true,
    FUNC_Public := false, FUNC_Static := false, FUNC_BlueprintCallable := false,
    FUNC_Native := false, FUNC_BlueprintEvent := false, FUNC_Event := false,
    FUNC_HasOutParms := false, native_func := none, is_bound := false, RepOffset := 0,
    Children := [], pending_kill := false, is_linked := false, Script := [], ParmsSize := 0,
    ReturnValueOffset := 0 }

/-- Call `LinkChild(property_p)` on a function: the child becomes the head of the
list. -/
def UFunction.LinkChild (ue_function : UFunction) (property_p : UProperty) : UFunction :=
  { ue_function with Children := property_p :: ue_function.Children }

/-- A child of a native class. -/
inductive UField where
  | property (p : UProperty)
  | function (f : UFunction)
  deriving DecidableEq, Repr

/-- A native class (`UClass`): its address, child list, function map (name to
function address) and the cache `ClearFunctionMapsCaches` empties. -/
structure UClass where
  ptr : Nat
  Children : List UField
  FuncMap : List (Nat × Nat)
  function_maps_caches : List (Nat × Nat)
  deriving DecidableEq, Repr

/-- Call `LinkChild(ue_function_p)` on a class. -/
def UClass.LinkChild (ue_class : UClass) (ue_function : UFunction) : UClass :=
  { ue_class with Children := UField.function ue_function :: ue_class.Children }

/-- Call `AddFunctionToFunctionMap(ue_function_p)`: the map takes the function
under its name, in place of an entry of that name. -/
def UClass.AddFunctionToFunctionMap (ue_class : UClass) (ue_function : UFunction) : UClass :=
  { ue_class with
    FuncMap := (ue_function.fname, ue_function.ptr)
      :: ue_class.FuncMap.filter (fun e => e.1 != ue_function.fname) }

/-- Call `ClearFunctionMapsCaches()`. -/
def UClass.ClearFunctionMapsCaches (ue_class : UClass) : UClass :=
  { ue_class with function_maps_caches := [] }

/-- The functions `TFieldIterator<UFunction>(ue_class_p, ExcludeSuper)` yields. -/
def UClass.functions (ue_class : UClass) : List UFunction :=
  ue_class.Children.filterMap (fun c =>
    match c with
    | UField.function f => some f
    | UField.property _ => none)

/-- What the manager asks of the host's object graph: the object behind a class
pointer and behind a weak function pointer, the class lookups of
`SkUEClassBindingHelper`, the name comparison of the generator helper,
`FindFunctionByName`, the address `NewObject<UFunction>` returns, the constant
`EventMagicRepOffset`, and, for an actor, `FindFunctionChecked` and
`ProcessEvent`. -/
structure UEObjects where
  ue_class : Nat → UClass
  ue_function : Nat → Option UFunction
  get_static_ue_class_from_sk_class_super : SkScope → Option Nat
  get_ue_class_from_sk_class : SkScope → Option Nat
  compare_var_name_skookified : Nat → ASymbol → Bool
  FindFunctionByName : UClass → Nat → Option Nat
  new_function_address : UClass → Nat → Nat
  EventMagicRepOffset : Nat
  FindFunctionChecked : Nat → Nat → UFunction
  ProcessEvent : Nat → UFunction → Memory → Memory

/-- Static `m_result_name`, the symbol `result`. -/
def m_result_name : ASymbol := 3

/-- The name `Class @ routine` a synthesized function gets; different pairs of
names give different function names. -/
def qualified_invokable_fname (class_name invokable_name : ASymbol) : Nat :=
  Nat.pair class_name invokable_name

/-- Read `array[i]` of a parameter info array; a record past the end reads as a
fresh one. -/
def info_at (array : List ReflectedProperty) (i : Nat) : ReflectedProperty :=
  array.getD i ReflectedProperty.new

/-- What `build_ue_param` hands back: its return value, the function with the
property linked, the record behind `out_info_p`, and whether the type was
reported as unknown. -/
structure BuildParamResult where
  property_p : Option UProperty
  ue_function : UFunction
  out_info : Option ReflectedProperty
  unknown_type : Bool
  deriving DecidableEq, Repr

/-- Function `build_ue_param`.  The record behind `out_info_p` points at the very
property that is flagged and linked. -/
def build_ue_param (brain : SkBrain) (host : UEHost) (sk_name : ASymbol)
    (sk_type : SkClassDescBase) (ue_function : UFunction) (out_info_p : Option ReflectedProperty)
    (is_final : Bool) : BuildParamResult :=
  let r := build_ue_property brain host sk_name sk_type ue_function.ptr out_info_p is_final
  match r.ue_property_p with
  | some property_p =>
    let flagged := { property_p with CPF_Parm := true }
    { property_p := some flagged
      ue_function := ue_function.LinkChild flagged
      out_info := r.out_info.map (fun i => { i with m_ue_property_p := some flagged })
      unknown_type := r.unknown_type }
  | none =>
    { property_p := none, ue_function := ue_function, out_info := r.out_info,
      unknown_type := r.unknown_type }

/-- State of the two parameter loops of `build_ue_function`. -/
structure BuildParamsState where
  ue_function : UFunction
  out_param_info_array : Option (List ReflectedProperty)
  /-- Names `on_unknown_type` was called for. -/
  unknown_types : List ASymbol
  /-- No parameter failed to map so far. -/
  ok : Bool
  deriving DecidableEq, Repr

/-- Store the record `build_ue_param` wrote behind `out_param_info_array_p + i`. -/
def store_info (array : Option (List ReflectedProperty)) (i : Nat)
    (out_info : Option ReflectedProperty) : Option (List ReflectedProperty) :=
  match array, out_info with
  | some a, some info => some (a.set i info)
  | _, _ => array

/-- The loop `for (i = num_params - 1; i >= 0; --i)` of `build_ue_function`, with
`count` parameters still to do: it handles parameter `count - 1` and goes on
downwards, and stops at the first parameter that cannot be mapped (or that the
list does not hold, which does not happen when `count` starts at its length). -/
def build_ue_params (brain : SkBrain) (host : UEHost) (param_list : List SkParameterBase)
    (is_final : Bool) : Nat → BuildParamsState → BuildParamsState
  | 0, s => s
  | i + 1, s =>
    match param_list[i]? with
    | none => { s with ok := false }
    | some input_param_p =>
      let r := build_ue_param brain host input_param_p.name (brain.get_expected_type input_param_p)
        s.ue_function (s.out_param_info_array.map (fun a => info_at a i)) is_final
      let s1 : BuildParamsState :=
        { ue_function := r.ue_function
          out_param_info_array := store_info s.out_param_info_array i r.out_info
          unknown_types :=
            if r.unknown_type then s.unknown_types ++ [input_param_p.name] else s.unknown_types
          ok := r.property_p.isSome }
      if r.property_p.isSome then build_ue_params brain host param_list is_final i s1 else s1

/-- What `build_ue_function` hands back and leaves behind. -/
structure BuildFunctionResult where
  /-- The return value. -/
  ue_function_p : Option UFunction
  ue_class : UClass
  out_param_info_array : Option (List ReflectedProperty)
  /-- The function object that was made and marked pending kill, if any. -/
  killed : Option UFunction
  unknown_types : List ASymbol
  /-- The assert on a duplicate of the function fired. -/
  duplicate_found : Bool
  deriving DecidableEq, Repr

/-- The head of the child list with `CPF_ReturnParm` set: the statement
`result_param_p->PropertyFlags |= CPF_ReturnParm`, the result being the child
linked last. -/
def flag_return_parm (ue_function : UFunction) : UFunction :=
  match ue_function.Children with
  | [] => ue_function
  | p :: ps => { ue_function with Children := { p with CPF_ReturnParm := true } :: ps }

/-- The same statement, seen through the record behind `out_param_info_array_p +
num_params`, which points at the same property. -/
def flag_return_info (array : Option (List ReflectedProperty)) (num_params : Nat) :
    Option (List ReflectedProperty) :=
  array.map (fun a =>
    a.set num_params
      { info_at a num_params with
        m_ue_property_p :=
          (info_at a num_params).m_ue_property_p.map (fun p => { p with CPF_ReturnParm := true }) })

/-- The block `// Make UFunction object` of `build_ue_function` up to the
parameters: flags, native function and `RepOffset`. -/
def new_ue_function (objs : UEObjects) (ue_class : UClass) (sk_invokable : SkInvokableBase)
    (binding_type : eReflectedFunctionType) (binding_index : Nat) : UFunction :=
  let fname := qualified_invokable_fname sk_invokable.scope.name sk_invokable.name
  let f0 := NewObject_UFunction (objs.new_function_address ue_class fname) ue_class.ptr fname
  let f1 := { f0 with FUNC_Public := true, FUNC_Static := sk_invokable.is_class_member }
  match binding_type with
  | eReflectedFunctionType.ReflectedFunctionType_Call =>
    { f1 with
      FUNC_BlueprintCallable := true
      FUNC_Native := true
      native_func :=
        some (if sk_invokable.invoke_type = eSkInvokable.SkInvokable_coroutine then
            Native.exec_coroutine
          else if sk_invokable.is_class_member then Native.exec_class_method
          else Native.exec_instance_method)
      RepOffset := binding_index % 2 ^ 16 }
  | eReflectedFunctionType.ReflectedFunctionType_Event =>
    { f1 with
      FUNC_BlueprintEvent := true
      FUNC_Event := true
      is_bound := true
      RepOffset := objs.EventMagicRepOffset % 2 ^ 16 }

/-- The block `// Handle return value if any` of `build_ue_function`. -/
def build_ue_result (brain : SkBrain) (host : UEHost) (sk_invokable : SkInvokableBase)
    (ue_function : UFunction) (out_param_info_array_p : Option (List ReflectedProperty))
    (is_final : Bool) : BuildParamsState :=
  let num_params := sk_invokable.param_list.length
  match brain.get_result_class sk_invokable with
  | none =>
    { ue_function := ue_function, out_param_info_array := out_param_info_array_p,
      unknown_types := [], ok := true }
  | some result_class =>
    if result_class.ptr = brain.ms_object_class_p then
      { ue_function := ue_function, out_param_info_array := out_param_info_array_p,
        unknown_types := [], ok := true }
    else
      let r := build_ue_param brain host m_result_name result_class ue_function
        (out_param_info_array_p.map (fun a => info_at a num_params)) is_final
      let array := store_info out_param_info_array_p num_params r.out_info
      if r.property_p.isSome then
        { ue_function := flag_return_parm r.ue_function
          out_param_info_array := flag_return_info array num_params
          unknown_types := [], ok := true }
      else
        { ue_function := r.ue_function, out_param_info_array := array,
          unknown_types := if r.unknown_type then [m_result_name] else [], ok := false }

/-- The end of `build_ue_function`: the function is made known to its class and
linked, or marked pending kill. -/
def build_ue_finish (ue_class : UClass) (s : BuildParamsState) (duplicate_found : Bool) :
    BuildFunctionResult :=
  if s.ok then
    let linked := { s.ue_function with is_linked := true }
    { ue_function_p := some linked
      ue_class := (ue_class.LinkChild linked).AddFunctionToFunctionMap linked
      out_param_info_array := s.out_param_info_array
      killed := none
      unknown_types := s.unknown_types
      duplicate_found := duplicate_found }
  else
    { ue_function_p := none
      ue_class := ue_class
      out_param_info_array := s.out_param_info_array
      killed := some { s.ue_function with pending_kill := true }
      unknown_types := s.unknown_types
      duplicate_found := duplicate_found }

/-- Function `build_ue_function`; `WITH_EDITORONLY_DATA` says whether the check
for a duplicate is compiled in. -/
def build_ue_function (WITH_EDITORONLY_DATA : Bool) (brain : SkBrain) (host : UEHost)
    (objs : UEObjects) (ue_class : UClass) (sk_invokable : SkInvokableBase)
    (binding_type : eReflectedFunctionType) (binding_index : Nat)
    (out_param_info_array_p : Option (List ReflectedProperty)) (is_final : Bool) :
    BuildFunctionResult :=
  let fname := qualified_invokable_fname sk_invokable.scope.name sk_invokable.name
  let old := WITH_EDITORONLY_DATA && (objs.FindFunctionByName ue_class fname).isSome
  let ue_class0 := if old then ue_class.ClearFunctionMapsCaches else ue_class
  let duplicate_found := old && (objs.FindFunctionByName ue_class0 fname).isSome
  let ue_function := new_ue_function objs ue_class0 sk_invokable binding_type binding_index
  let s0 := build_ue_result brain host sk_invokable ue_function out_param_info_array_p is_final
  let s1 :=
    if s0.ok then
      build_ue_params brain host sk_invokable.param_list is_final sk_invokable.param_list.length s0
    else s0
  build_ue_finish ue_class0 s1 duplicate_found

/-! ## Binding to an existing native function, and exposing an entry -/

/-- Function `find_ue_function`: the first function of the routine's native class
whose name, made script style, is the routine's name. -/
def find_ue_function (objs : UEObjects) (sk_invokable : SkInvokableBase) : Option UFunction :=
  match objs.get_ue_class_from_sk_class sk_invokable.scope with
  | none => none
  | some ue_class_p =>
    (objs.ue_class ue_class_p).functions.find?
      (fun ue_function => objs.compare_var_name_skookified ue_function.fname sk_invokable.name)

/-- The test `(GetPropertyFlags() & (CPF_ReturnParm|CPF_Parm)) == CPF_Parm`. -/
def UProperty.is_input_parm (param_p : UProperty) : Bool :=
  param_p.CPF_Parm && !param_p.CPF_ReturnParm

/-- State of the loop of `reflect_ue_function`. -/
structure ReflectParamsState where
  num_parameters : Nat
  out_param_info_array : List ReflectedProperty
  /-- The loop ran to its end; false after a `return nullptr`. -/
  ok : Bool
  deriving DecidableEq, Repr

/-- The loop of `reflect_ue_function` over the properties of the native
function.  The result is `none` when `param_list[num_parameters]` is read at a
position that the list does not have. -/
def reflect_ue_params (host : UEHost) (param_list : List SkParameterBase) :
    List UProperty → ReflectParamsState → Option ReflectParamsState
  | [], s => some s
  | param_p :: rest, s =>
    if param_p.is_input_parm then
      if s.num_parameters > param_list.length then some { s with ok := false }
      else
        let out_param_info_p := info_at s.out_param_info_array s.num_parameters
        let r := reflect_ue_property host param_p (some out_param_info_p)
        let info := r.2.getD out_param_info_p
        let array := s.out_param_info_array.set s.num_parameters info
        if !r.1 then some { s with out_param_info_array := array, ok := false }
        else
          match param_list[s.num_parameters]? with
          | none => none
          | some sk_param =>
            if info.name ≠ sk_param.name then
              some { s with out_param_info_array := array, ok := false }
            else
              reflect_ue_params host param_list rest
                { s with num_parameters := s.num_parameters + 1, out_param_info_array := array }
    else reflect_ue_params host param_list rest s

/-- What `reflect_ue_function` hands back. -/
structure ReflectFunctionResult where
  ue_function_p : Option UFunction
  out_param_info_array : List ReflectedProperty
  deriving DecidableEq, Repr

/-- Function `reflect_ue_function`; `none` when it reads the script parameter list
out of range. -/
def reflect_ue_function (host : UEHost) (objs : UEObjects) (sk_invokable : SkInvokableBase)
    (out_param_info_array_p : List ReflectedProperty) (_is_final : Bool) :
    Option ReflectFunctionResult :=
  match find_ue_function objs sk_invokable with
  | none => some { ue_function_p := none, out_param_info_array := out_param_info_array_p }
  | some ue_function =>
    match reflect_ue_params host sk_invokable.param_list ue_function.Children
        { num_parameters := 0, out_param_info_array := out_param_info_array_p, ok := true } with
    | none => none
    | some s =>
      if !s.ok then some { ue_function_p := none, out_param_info_array := s.out_param_info_array }
      else if s.num_parameters < sk_invokable.param_list.length then
        some { ue_function_p := none, out_param_info_array := s.out_param_info_array }
      else some { ue_function_p := some ue_function, out_param_info_array := s.out_param_info_array }

/-- Value `m_ue_property_p->GetSize()` of a record, or zero for a record without
property. -/
def info_size (host : UEHost) (info : ReflectedProperty) : Nat :=
  match info.m_ue_property_p with
  | some p => host.GetSize p
  | none => 0

/-- The statements of the loop `// Initialize parameters` for a `ReflectedCall`. -/
def init_call_param (host : UEHost) (param_entry : ReflectedParam) (param_info : ReflectedProperty) :
    ReflectedParam :=
  { param_entry with
    typed := { param_entry.typed with m_byte_size := info_size host param_info }
    m_fetcher_p := param_info.m_k2_param_fetcher_p.map tK2ParamFetcher.addr }

/-- The statements of the loop `// Initialize parameters` for a `ReflectedEvent`. -/
def init_event_param (host : UEHost) (param_entry : ReflectedParam) (param_info : ReflectedProperty) :
    ReflectedParam :=
  { param_entry with
    typed := { param_entry.typed with m_byte_size := info_size host param_info }
    m_storer_p := param_info.m_sk_value_storer_p.map tSkValueStorer.addr
    m_assigner_p :=
      match param_info.m_ue_property_p with
      | some p =>
        if p.CPF_OutParm then param_info.m_k2_value_assigner_p.map tK2ValueAssigner.addr else none
      | none => none
    m_offset :=
      match param_info.m_ue_property_p with
      | some p => host.GetOffset_ForUFunction p
      | none => 0 }

/-- The block `// Fill in the parameter information` of
`expose_reflected_function`. -/
def fill_in (host : UEHost) (reflected_function : ReflectedFunction) (ue_function : UFunction)
    (param_info_array : List ReflectedProperty) : ReflectedFunction :=
  let return_info := info_at param_info_array reflected_function.m_num_params
  let f1 :=
    { reflected_function with
      m_ue_function_p := some ue_function.ptr
      m_result_type :=
        { reflected_function.m_result_type with m_byte_size := info_size host return_info } }
  match reflected_function.m_type with
  | eReflectedFunctionType.ReflectedFunctionType_Call =>
    { f1 with
      params := List.zipWith (init_call_param host) reflected_function.params param_info_array
      m_result_getter := return_info.m_sk_value_storer_p.map tSkValueStorer.addr }
  | eReflectedFunctionType.ReflectedFunctionType_Event =>
    { f1 with
      params := List.zipWith (init_event_param host) reflected_function.params param_info_array
      m_result_getter := return_info.m_k2_value_fetcher_p.map tK2ValueFetcher.addr }

/-- What `expose_reflected_function` returns and leaves behind. -/
structure ExposeResult where
  world : World
  anything_changed : Bool
  /-- The native function that was bound or built. -/
  ue_function_p : Option UFunction
  /-- The native class after `build_ue_function` worked on it. -/
  ue_class : Option UClass
  /-- The class whose function map caches were cleared at the end. -/
  caches_cleared : Option Nat
  /-- The arguments of `on_function_updated_f->invoke`, when it was called. -/
  function_updated : Option (Nat × Bool)
  unknown_types : List ASymbol
  deriving DecidableEq, Repr

/-- The test that sends an entry to `reflect_ue_function` rather than to
`build_ue_function`. -/
def is_looked_up (reflected_function : ReflectedFunction) : Bool :=
  reflected_function.m_type == eReflectedFunctionType.ReflectedFunctionType_Event
    && reflected_function.m_sk_invokable_p.scope.annotation_flags.reflected_data
    && !reflected_function.m_sk_invokable_p.annotation_flags.ue4_blueprint

/-- The native class an entry is exposed in: the one its class record holds, or
else what `get_static_ue_class_from_sk_class_super` finds for the routine's
scope. -/
def resolve_static_class (objs : UEObjects) (reflected_class : ReflectedClass)
    (reflected_function : ReflectedFunction) : Option Nat :=
  match reflected_class.m_ue_static_class_p with
  | some c => some c
  | none => objs.get_static_ue_class_from_sk_class_super reflected_function.m_sk_invokable_p.scope

/-- What the block `// Now build UFunction` yields. -/
structure MadeFunction where
  ue_function_p : Option UFunction
  param_info_array : List ReflectedProperty
  /-- The native class after `build_ue_function`, when that was called. -/
  ue_class : Option UClass
  unknown_types : List ASymbol
  deriving DecidableEq, Repr

/-- The block `// Now build UFunction` of `expose_reflected_function`: the
function is looked up in the host or built; `none` when the lookup reads the
script parameter list out of range. -/
def make_ue_function (WITH_EDITORONLY_DATA : Bool) (brain : SkBrain) (host : UEHost)
    (objs : UEObjects) (class_p : Nat) (reflected_function : ReflectedFunction)
    (function_index : Nat) (is_final : Bool) : Option MadeFunction :=
  let param_info_array :=
    List.replicate (reflected_function.m_num_params + 1) ReflectedProperty.new
  if is_looked_up reflected_function then
    (reflect_ue_function host objs reflected_function.m_sk_invokable_p param_info_array
      is_final).map (fun r =>
        { ue_function_p := r.ue_function_p, param_info_array := r.out_param_info_array,
          ue_class := none, unknown_types := [] })
  else
    let r := build_ue_function WITH_EDITORONLY_DATA brain host objs (objs.ue_class class_p)
      reflected_function.m_sk_invokable_p reflected_function.m_type function_index
      (some param_info_array) is_final
    some
      { ue_function_p := r.ue_function_p
        param_info_array := r.out_param_info_array.getD param_info_array
        ue_class := some r.ue_class
        unknown_types := r.unknown_types }

/-- The end of `expose_reflected_function` once a function was looked up or
built: the entry is filled in, the caches are cleared and the callback is made. -/
def expose_finish (WITH_EDITORONLY_DATA : Bool) (host : UEHost) (objs : UEObjects) (w : World)
    (function_index : Nat) (on_function_updated_f : Bool) (reflected_function : ReflectedFunction)
    (made : MadeFunction) (ue_function : UFunction) : ExposeResult :=
  let cleared :=
    if WITH_EDITORONLY_DATA then
      objs.get_ue_class_from_sk_class reflected_function.m_sk_invokable_p.scope
    else none
  { world :=
      { w with
        m_reflected_functions :=
          w.m_reflected_functions.set function_index
            (some (fill_in host reflected_function ue_function made.param_info_array)) }
    anything_changed := true
    ue_function_p := some ue_function
    ue_class :=
      made.ue_class.map (fun c => if cleared = some c.ptr then c.ClearFunctionMapsCaches else c)
    caches_cleared := cleared
    function_updated :=
      if on_function_updated_f then
        some (ue_function.ptr,
          reflected_function.m_type == eReflectedFunctionType.ReflectedFunctionType_Event)
      else none
    unknown_types := made.unknown_types }

/-- Function `expose_reflected_function`; `on_function_updated_f` says whether a
callback was passed.  The result is `none` where the code reads through a null
class record or reads the script parameter list out of range. -/
def expose_reflected_function (WITH_EDITORONLY_DATA : Bool) (brain : SkBrain) (host : UEHost)
    (objs : UEObjects) (w : World) (function_index : Nat) (on_function_updated_f : Bool)
    (is_final : Bool) : Option ExposeResult :=
  let unchanged : ExposeResult :=
    { world := w, anything_changed := false, ue_function_p := none, ue_class := none,
      caches_cleared := none, function_updated := none, unknown_types := [] }
  match w.fn function_index with
  | none => some unchanged
  | some reflected_function =>
    if reflected_function.m_ue_function_p.isSome then some unchanged
    else
      match w.get_class reflected_function.m_sk_invokable_p.scope.name with
      | none => none
      | some reflected_class =>
        let ue_static_class_p := resolve_static_class objs reflected_class reflected_function
        let w1 : World :=
          { w with
            m_reflected_classes :=
              modify_class reflected_class.name
                (fun c => { c with m_ue_static_class_p := ue_static_class_p }) w.m_reflected_classes }
        match ue_static_class_p with
        | none => some { unchanged with world := w1 }
        | some class_p =>
          match make_ue_function WITH_EDITORONLY_DATA brain host objs class_p reflected_function
              function_index is_final with
          | none => none
          | some made =>
            match made.ue_function_p with
            | none =>
              some { unchanged with
                world := w1, anything_changed := true, ue_class := made.ue_class,
                unknown_types := made.unknown_types }
            | some ue_function =>
              some (expose_finish WITH_EDITORONLY_DATA host objs w1 function_index
                on_function_updated_f reflected_function made ue_function)

/-! ## The trampolines -/

/-- Function `is_skookum_reflected_call`. -/
def is_skookum_reflected_call (function_p : UFunction) : Bool :=
  function_p.native_func == some Native.exec_class_method
    || function_p.native_func == some Native.exec_instance_method
    || function_p.native_func == some Native.exec_coroutine

/-- Function `is_skookum_reflected_event`. -/
def is_skookum_reflected_event (objs : UEObjects) (function_p : UFunction) : Bool :=
  function_p.RepOffset == objs.EventMagicRepOffset

/-- The first statement of `exec_method` and of `exec_coroutine`: the entry
`m_reflected_functions[stack.CurrentNativeFunction->RepOffset]`. -/
def exec_reflected_call (w : World) (CurrentNativeFunction : UFunction) : Option ReflectedFunction :=
  w.fn CurrentNativeFunction.RepOffset

/-- What the code behind the marshaling function pointers does, by address: a
storer writes a script value into native memory, an assigner changes a script
value from native memory, a fetcher makes a script value from native memory. -/
structure MarshalCode where
  sk_value_storer : Nat → Memory → Nat → SkInstance → TypedName → Memory
  k2_value_assigner : Nat → SkInstance → Memory → Nat → TypedName → SkInstance
  k2_value_fetcher : Nat → Memory → Nat → TypedName → SkInstance

/-- The invoked method `mthd_trigger_event` is called with: the routine, the
arguments and the actor that is `this`. -/
structure SkInvokedMethod where
  invokable : Nat
  args : List SkInstance
  this_actor : Nat
  deriving DecidableEq, Repr

/-- A diagnostic `mthd_trigger_event` raises. -/
inductive TriggerDiagnostic where
  /-- Assert `ReflectedFunction has bad type!`. -/
  | bad_type
  /-- Assert `Cannot find UE counterpart of method`. -/
  | no_ue_counterpart
  /-- Assert `Call to ... has no effect as no Blueprint event node ... exists`. -/
  | no_event_node (ue_function : Nat)
  deriving DecidableEq, Repr

/-- What `mthd_trigger_event` leaves behind. -/
structure TriggerResult where
  world : World
  /-- The arguments of the invoked method after the call. -/
  args : List SkInstance
  /-- The value stored through `result_pp`, when that is not null. -/
  result : Option SkInstance
  /-- The parameter buffer as the native call left it. -/
  k2_params_storage : Memory
  /-- The function that was handed to `ProcessEvent`. -/
  invoked : UFunction
  diagnostics : List TriggerDiagnostic
  deriving DecidableEq, Repr

/-- The loop that stores the arguments into the parameter buffer; `none` when a
parameter has no storer or an argument is missing. -/
def store_args (code : MarshalCode) (args : List SkInstance) :
    List ReflectedParam → Nat → Memory → Option Memory
  | [], _, memory => some memory
  | event_param :: rest, i, memory =>
    match event_param.m_storer_p, args[i]? with
    | some storer, some arg =>
      store_args code args rest (i + 1)
        (code.sk_value_storer storer memory event_param.m_offset arg event_param.typed)
    | _, _ => none

/-- The loop `// Copy back any outgoing parameters`. -/
def copy_back (code : MarshalCode) (memory : Memory) :
    List ReflectedParam → List SkInstance → List SkInstance
  | event_param :: rest, arg :: args =>
    (match event_param.m_assigner_p with
      | some assigner =>
        code.k2_value_assigner assigner arg memory event_param.m_offset event_param.typed
      | none => arg) :: copy_back code memory rest args
  | _, args => args

/-- The native function of an event: the one the entry holds, or else, in an
editor build, what `find_ue_function` finds for the routine. -/
def trigger_ue_function (WITH_EDITORONLY_DATA : Bool) (objs : UEObjects)
    (reflected_event : ReflectedFunction) : Option UFunction :=
  match reflected_event.m_ue_function_p.bind objs.ue_function with
  | some f => some f
  | none =>
    if WITH_EDITORONLY_DATA then find_ue_function objs reflected_event.m_sk_invokable_p else none

/-- The function handed to `ProcessEvent`: the one the entry has cached, or
else, in an editor build, what `FindFunctionChecked` finds on the actor. -/
def trigger_function_to_invoke (WITH_EDITORONLY_DATA : Bool) (objs : UEObjects)
    (reflected_event : ReflectedFunction) (scope_p : SkInvokedMethod) (ue_function : UFunction) :
    Option UFunction :=
  match reflected_event.m_ue_function_to_invoke_p.bind objs.ue_function with
  | some f => some f
  | none =>
    if WITH_EDITORONLY_DATA then
      some (objs.FindFunctionChecked scope_p.this_actor ue_function.fname)
    else none

/-- The registry after the lookup of the function to invoke: an entry without a
cached function gets the one that was found. -/
def cache_function_to_invoke (objs : UEObjects) (w : World) (function_index : Nat)
    (reflected_event : ReflectedFunction) (ue_function_to_invoke : UFunction) : World :=
  if (reflected_event.m_ue_function_to_invoke_p.bind objs.ue_function).isNone then
    { w with
      m_reflected_functions :=
        w.m_reflected_functions.set function_index
          (some { reflected_event with
            m_ue_function_to_invoke_p := some ue_function_to_invoke.ptr }) }
  else w

/-- The diagnostics of a trigger: the two asserts on the entry's type and on the
presence of an event node. -/
def trigger_diagnostics (reflected_event : ReflectedFunction)
    (ue_function ue_function_to_invoke : UFunction) : List TriggerDiagnostic :=
  (if reflected_event.m_type = eReflectedFunctionType.ReflectedFunctionType_Event then []
    else [TriggerDiagnostic.bad_type])
  ++ (if ue_function_to_invoke.Script.length > 0 then []
      else [TriggerDiagnostic.no_event_node ue_function.ptr])

/-- Function `mthd_trigger_event`; `result_pp` says whether a result is asked
for, `ms_nil_p` is the nil instance.  The result is `none` where the code reads
through a null pointer: no entry at the index, no native function, a parameter
without storer or argument. -/
def mthd_trigger_event (WITH_EDITORONLY_DATA : Bool) (objs : UEObjects) (code : MarshalCode)
    (ms_nil_p : SkInstance) (w : World) (scope_p : SkInvokedMethod) (result_pp : Bool) :
    Option TriggerResult :=
  let function_index := (w.get_user_data scope_p.invokable).getD 0
  match w.fn function_index with
  | none => none
  | some reflected_event =>
    match trigger_ue_function WITH_EDITORONLY_DATA objs reflected_event with
    | none => none
    | some ue_function =>
      match store_args code scope_p.args reflected_event.params 0
          (List.replicate ue_function.ParmsSize 0) with
      | none => none
      | some stored =>
        match trigger_function_to_invoke WITH_EDITORONLY_DATA objs reflected_event scope_p
            ue_function with
        | none => none
        | some ue_function_to_invoke =>
          let memory := objs.ProcessEvent scope_p.this_actor ue_function_to_invoke stored
          some
            { world :=
                cache_function_to_invoke objs w function_index reflected_event ue_function_to_invoke
              args :=
                if ue_function_to_invoke.FUNC_HasOutParms then
                  copy_back code memory reflected_event.params scope_p.args
                else scope_p.args
              result :=
                if result_pp then
                  match reflected_event.m_result_getter with
                  | some getter =>
                    some (code.k2_value_fetcher getter memory
                      ue_function_to_invoke.ReturnValueOffset reflected_event.m_result_type)
                  | none => some ms_nil_p
                else none
              k2_params_storage := memory
              invoked := ue_function_to_invoke
              diagnostics :=
                trigger_diagnostics reflected_event ue_function ue_function_to_invoke }

/-! ## Predicates used to state the properties -/

/-- Name of the class owning the routine an entry refers to
(`m_sk_invokable_p->get_scope()->get_name()`). -/
def ReflectedFunction.owner (f : ReflectedFunction) : ASymbol := f.m_sk_invokable_p.scope.name

/-- The three signature tests of `try_update_reflected_function` taken together:
parameter count, result class name, and name and class name of each parameter. -/
def signature_matches (f : ReflectedFunction) (sk_invokable : SkInvokableBase) : Bool :=
  f.m_num_params == sk_invokable.param_list.length
    && f.m_result_type.m_sk_class_name == sk_invokable.result_class.name
    && have_identical_signatures sk_invokable.param_list f.params

/-- The entry after a successful update, for either kind of entry. -/
def ReflectedFunction.update (f : ReflectedFunction) (sk_invokable : SkInvokableBase) :
    ReflectedFunction :=
  match f.m_type with
  | eReflectedFunctionType.ReflectedFunctionType_Call => f.update_call sk_invokable
  | eReflectedFunctionType.ReflectedFunctionType_Event => f.update_event sk_invokable

/-- The kind of entry `try_add_reflected_function` registers a routine as, or
`none` when it registers nothing. -/
def exposed_as (sk_invokable : SkInvokableBase) : Option eReflectedFunctionType :=
  if sk_invokable.annotation_flags.ue4_blueprint then
    if sk_invokable.invoke_type = eSkInvokable.SkInvokable_method_func
        ∨ sk_invokable.invoke_type = eSkInvokable.SkInvokable_method_mthd then
      some eReflectedFunctionType.ReflectedFunctionType_Event
    else if sk_invokable.invoke_type = eSkInvokable.SkInvokable_method
        ∨ sk_invokable.invoke_type = eSkInvokable.SkInvokable_coroutine then
      some eReflectedFunctionType.ReflectedFunctionType_Call
    else none
  else if sk_invokable.scope.annotation_flags.reflected_data then
    if sk_invokable.invoke_type = eSkInvokable.SkInvokable_method_func
        ∨ sk_invokable.invoke_type = eSkInvokable.SkInvokable_method_mthd then
      some eReflectedFunctionType.ReflectedFunctionType_Event
    else none
  else none

/-- The index `store_reflected_function` uses: the given one when it is not
negative, else the first null slot, else the length of the table. -/
def store_index (w : World) (function_index_to_use : Int) : Nat :=
  if function_index_to_use < 0 then first_free_slot w.m_reflected_functions
  else function_index_to_use.toNat

/-- Well-formedness of the registry: record names are distinct, every index of a
record's function list refers to an occupied slot whose routine is owned by that
class, no list repeats an index, and every occupied slot is listed by the record
of its owning class. -/
structure World.WF (w : World) : Prop where
  names_nodup : (w.m_reflected_classes.map (fun c => c.name)).Nodup
  listed_occupied : ∀ c ∈ w.m_reflected_classes, ∀ i ∈ c.m_functions,
    ∃ f, w.fn i = some f ∧ f.owner = c.name
  lists_nodup : ∀ c ∈ w.m_reflected_classes, c.m_functions.Nodup
  occupied_listed : ∀ i f, w.fn i = some f →
    ∃ c ∈ w.m_reflected_classes, c.name = f.owner ∧ i ∈ c.m_functions

mutual
/-- The classes of a tree with their superclasses, in the order
`sync_class_from_sk_recursively` visits them. -/
def SkClassTree.visits (superclass : SkClass) : SkClassTree → List (SkClass × SkClass)
  | SkClassTree.node sk_class subclasses =>
    (sk_class, superclass) :: SkClassTree.visits_list sk_class subclasses
/-- The visits of a list of subclass trees. -/
def SkClassTree.visits_list (superclass : SkClass) : List SkClassTree → List (SkClass × SkClass)
  | [] => []
  | t :: ts => SkClassTree.visits superclass t ++ SkClassTree.visits_list superclass ts
end

/-- The names of the classes reachable in a tree, in visiting order. -/
def SkClassTree.names (superclass : SkClass) (t : SkClassTree) : List ASymbol :=
  (t.visits superclass).map (fun v => v.1.name)

/-- No two routines of the class share name and class-member flag. -/
def SkClass.UniqueRoutines (c : SkClass) : Prop :=
  (c.routines.map (fun r => (r.name, r.is_class_member))).Nodup

instance (c : SkClass) : Decidable c.UniqueRoutines :=
  inferInstanceAs
    (Decidable (c.routines.map (fun (r : SkRoutine) => (r.name, r.is_class_member))).Nodup)

/-- A scripted class tree as the runtime keeps it: class names are distinct and
within a class (routine name, class-member flag) is unique. -/
structure SkClassTree.WF (superclass : SkClass) (t : SkClassTree) : Prop where
  names_nodup : (t.names superclass).Nodup
  unique_routines : ∀ v ∈ t.visits superclass, v.1.UniqueRoutines

/-- An entry is what an update from the routine leaves: same name and member
flag, matching signature, and the update changes nothing. -/
def UpToDate (f : ReflectedFunction) (sk_invokable : SkInvokableBase) : Prop :=
  f.name = sk_invokable.name ∧ f.m_is_class_member = sk_invokable.is_class_member
    ∧ signature_matches f sk_invokable = true ∧ f.update sk_invokable = f

/-- The registry agrees with one class of the tree: the record exists if the class
needs an instance slot, the entries of its function list are the up-to-date
entries of its exposed routines, one for each. -/
structure ClassSynced (w : World) (c superclass : SkClass) : Prop where
  record : does_class_need_instance_property c = true →
    does_class_need_instance_property superclass = false →
    ∃ R, w.get_class c.name = some R ∧ R.m_store_sk_instance = true
  entries : ∀ R, w.get_class c.name = some R → ∀ j ∈ R.m_functions,
    ∃ f r, w.fn j = some f ∧ r ∈ c.routines ∧ (exposed_as (c.invokable r)).isSome
      ∧ UpToDate f (c.invokable r)
  routines : ∀ r ∈ c.routines, (exposed_as (c.invokable r)).isSome →
    ∃ R j f, w.get_class c.name = some R ∧ j ∈ R.m_functions ∧ w.fn j = some f
      ∧ UpToDate f (c.invokable r)
  distinct : ∀ R, w.get_class c.name = some R → ∀ j₁ ∈ R.m_functions, ∀ j₂ ∈ R.m_functions,
    ∀ f₁ f₂, w.fn j₁ = some f₁ → w.fn j₂ = some f₂ → f₁.name = f₂.name →
      f₁.m_is_class_member = f₂.m_is_class_member → j₁ = j₂

/-- The registry agrees with all the visited classes and holds nothing else. -/
structure Synced (w : World) (visits : List (SkClass × SkClass)) : Prop where
  wf : w.WF
  classes : ∀ v ∈ visits, ClassSynced w v.1 v.2
  owned : ∀ j f, w.fn j = some f → f.owner ∈ visits.map (fun v => v.1.name)

/-- What a sync of the class named `n` may change: records of other names stay,
entries owned by other classes stay and none appears, and the only removal
callbacks made are for the record named `n`. -/
structure Frame (n : ASymbol) (w w' : World) : Prop where
  records : ∀ m, m ≠ n → w'.get_class m = w.get_class m
  kept : ∀ j f, w.fn j = some f → f.owner ≠ n → w'.fn j = some f
  no_new : ∀ j f, w'.fn j = some f → f.owner ≠ n → w.fn j = some f
  log : ∃ extra, w'.host_log = w.host_log ++ extra
    ∧ ∀ m u, HostOp.function_removed_from_class m u ∈ extra → m = n

/-- The host call a deletion of the entry `e` makes. -/
def destroy_ops (e : ReflectedFunction) : List HostOp :=
  match e.m_ue_function_p with
  | some ue_function => [HostOp.destroy_ue_function ue_function]
  | none => []

/-- The table after `f` was put at index `k`: appended when `k` is the length. -/
def table_with (table : List (Option ReflectedFunction)) (k : Nat) (f : ReflectedFunction) :
    List (Option ReflectedFunction) :=
  if k = table.length then table ++ [some f] else table.set k (some f)

/-- The effect of `add_reflected_call` (`type` Call) and `add_reflected_event`
(`type` Event) on table, class records and host log, by cases: the entry of the
routine is updated in place; or a new entry is stored and a record created; or a
new entry is stored for an existing record; or the entry found is replaced. -/
def AddSpec (type : eReflectedFunctionType) (w : World) (inv : SkInvokableBase)
    (res : World × Bool) : Prop :=
  (∃ R i e, w.get_class inv.scope.name = some R
      ∧ R.m_functions.find? (is_slot_of w inv) = some i ∧ w.fn i = some e
      ∧ signature_matches e inv = true ∧ res.2 = false
      ∧ res.1.m_reflected_functions = w.m_reflected_functions.set i (some (e.update inv))
      ∧ res.1.m_reflected_classes = w.m_reflected_classes
      ∧ res.1.host_log = w.host_log)
  ∨ (w.get_class inv.scope.name = none ∧ res.2 = true
      ∧ res.1.m_reflected_functions
          = table_with w.m_reflected_functions (first_free_slot w.m_reflected_functions)
              (ReflectedFunction.new type inv)
      ∧ res.1.m_reflected_classes
          = append_class { ReflectedClass.new inv.scope.name with
                            m_functions := [first_free_slot w.m_reflected_functions] }
              w.m_reflected_classes
      ∧ res.1.host_log = w.host_log)
  ∨ (∃ R, w.get_class inv.scope.name = some R
      ∧ R.m_functions.find? (is_slot_of w inv) = none ∧ res.2 = true
      ∧ res.1.m_reflected_functions
          = table_with w.m_reflected_functions (first_free_slot w.m_reflected_functions)
              (ReflectedFunction.new type inv)
      ∧ res.1.m_reflected_classes
          = modify_class inv.scope.name
              (fun c => { c with m_functions :=
                            c.m_functions ++ [first_free_slot w.m_reflected_functions] })
              w.m_reflected_classes
      ∧ res.1.host_log = w.host_log)
  ∨ (∃ R i e, w.get_class inv.scope.name = some R
      ∧ R.m_functions.find? (is_slot_of w inv) = some i ∧ w.fn i = some e
      ∧ signature_matches e inv = false ∧ res.2 = true
      ∧ res.1.m_reflected_functions
          = w.m_reflected_functions.set i (some (ReflectedFunction.new type inv))
      ∧ res.1.m_reflected_classes
          = modify_class inv.scope.name
              (fun c => { c with m_functions := c.m_functions.erase i ++ [i] })
              w.m_reflected_classes
      ∧ res.1.host_log = w.host_log ++ destroy_ops e)

/-- The rest of a function list after `remove_fast` took out the element in front
of it: its last element comes first. -/
def rotate_last (rest : List FunctionIndex) : List FunctionIndex :=
  match rest.getLast? with
  | none => []
  | some last => last :: rest.dropLast

/-- Whether the sweep deletes index `j`: the slot is occupied and marked. -/
def is_stale (marked : ReflectedFunction → Bool) (w : World) (j : FunctionIndex) : Bool :=
  match w.fn j with
  | some f => marked f
  | none => false

/-- The sweep loop seen from its current position: `rest` is the part of the
function list from position `i` on, the part before it is not touched any more. -/
def sweep_rest (marked : ReflectedFunction → Bool) :
    Nat → World → List FunctionIndex → Nat → World × List FunctionIndex × Nat
  | 0, w, rest, count => (w, rest, count)
  | _ + 1, w, [], count => (w, [], count)
  | fuel + 1, w, x :: rest, count =>
    if is_stale marked w x then
      sweep_rest marked fuel (delete_reflected_function w x) (rotate_last rest) (count + 1)
    else
      ((sweep_rest marked fuel w rest count).1, x :: (sweep_rest marked fuel w rest count).2.1,
        (sweep_rest marked fuel w rest count).2.2)

/-- One entry `g` owned by class `n` is put at index `p`, which either was a free
slot (the index is then new in the list of the record of `n`, created if need
be) or held an entry of that record with the same name and member flag (the list
keeps its indices); nothing else changes and only destructions are logged. -/
structure Put (n : ASymbol) (w w' : World) (p : Nat) (g : ReflectedFunction) : Prop where
  owner : g.owner = n
  fn_eq : ∀ j, w'.fn j = if j = p then some g else w.fn j
  other : ∀ m, m ≠ n → w'.get_class m = w.get_class m
  names : (w.m_reflected_classes.map (fun c => c.name)).Nodup →
    (w'.m_reflected_classes.map (fun c => c.name)).Nodup
  record : ∃ R', w'.get_class n = some R'
    ∧ (∀ j, j ∈ R'.m_functions ↔ j = p ∨ ∃ R, w.get_class n = some R ∧ j ∈ R.m_functions)
    ∧ (∀ R, w.get_class n = some R →
        R'.m_store_sk_instance = R.m_store_sk_instance
        ∧ R'.m_ue_static_class_p = R.m_ue_static_class_p
        ∧ (R.m_functions.Nodup → (w.fn p = none → p ∉ R.m_functions) → R'.m_functions.Nodup))
    ∧ (w.get_class n = none → R'.m_functions = [p])
  slot : w.fn p = none
    ∨ ∃ R e, w.get_class n = some R ∧ p ∈ R.m_functions ∧ w.fn p = some e
        ∧ e.name = g.name ∧ e.m_is_class_member = g.m_is_class_member
  log : ∃ extra, w'.host_log = w.host_log ++ extra
    ∧ ∀ op ∈ extra, ∃ u, op = HostOp.destroy_ue_function u

/-- The record of `n`, if there is one, stays, with its instance-slot flag and
its native class. -/
def RecKeep (n : ASymbol) (w w' : World) : Prop :=
  ∀ R, w.get_class n = some R →
    ∃ R', w'.get_class n = some R' ∧ R'.m_store_sk_instance = R.m_store_sk_instance
      ∧ R'.m_ue_static_class_p = R.m_ue_static_class_p

/-- Invariant of the gathering loops of `sync_class_from_sk` for class `c` after
the routines `done`: each listed entry is either still marked for delete (which
needs the record to have existed before, `had_record`) or the up-to-date entry of
an exposed routine already gathered; each such routine has its entry; unmarked
entries differ in name or member flag. -/
structure GatherInv (w : World) (c : SkClass) (had_record : Prop) (done : List SkRoutine) :
    Prop where
  wf : w.WF
  entries : ∀ R, w.get_class c.name = some R → ∀ j ∈ R.m_functions, ∀ f, w.fn j = some f →
    (f.m_marked_for_delete_class = true ∧ had_record)
      ∨ ∃ r ∈ done, (exposed_as (c.invokable r)).isSome = true ∧ UpToDate f (c.invokable r)
  routines : ∀ r ∈ done, (exposed_as (c.invokable r)).isSome = true →
    ∃ R j f, w.get_class c.name = some R ∧ j ∈ R.m_functions ∧ w.fn j = some f
      ∧ UpToDate f (c.invokable r)
  distinct : ∀ R, w.get_class c.name = some R → ∀ j₁ ∈ R.m_functions, ∀ j₂ ∈ R.m_functions,
    ∀ f₁ f₂, w.fn j₁ = some f₁ → w.fn j₂ = some f₂ →
      f₁.m_marked_for_delete_class = false → f₂.m_marked_for_delete_class = false →
      f₁.name = f₂.name → f₁.m_is_class_member = f₂.m_is_class_member → j₁ = j₂

/-- The walk of `sync_class_from_sk_recursively` as a loop over the classes in
visiting order, `anything_changed` being or-ed with each result. -/
def sync_visits (WITH_EDITOR callback : Bool) :
    World → Bool → List (SkClass × SkClass) → World × Bool
  | w, anything_changed, [] => (w, anything_changed)
  | w, anything_changed, v :: vs =>
    sync_visits WITH_EDITOR callback (sync_class_from_sk WITH_EDITOR w v.1 v.2 callback).1
      (anything_changed || (sync_class_from_sk WITH_EDITOR w v.1 v.2 callback).2) vs

/-- What a walk over classes with the names `names` may change: as `Frame`, for a
set of names. -/
structure FrameSet (names : List ASymbol) (w w' : World) : Prop where
  records : ∀ m, m ∉ names → w'.get_class m = w.get_class m
  kept : ∀ j f, w.fn j = some f → f.owner ∉ names → w'.fn j = some f
  no_new : ∀ j f, w'.fn j = some f → f.owner ∉ names → w.fn j = some f
  log : ∃ extra, w'.host_log = w.host_log ++ extra
    ∧ ∀ m u, HostOp.function_removed_from_class m u ∈ extra → m ∈ names

/-- Whether a host call is the removal callback made for the record named `n`. -/
def is_removed_for (n : ASymbol) : HostOp → Bool
  | HostOp.function_removed_from_class m _ => m == n
  | _ => false

/-- Whether the last loop of `sync_all_from_sk` makes the callback for a record:
the editor block is compiled in, a callback was passed, the native class is
valid and one of the listed entries gets deleted. -/
def notifies (WITH_EDITOR callback : Bool) (stale : FunctionIndex → Bool) (R : ReflectedClass) :
    Bool :=
  WITH_EDITOR && callback && R.m_ue_static_class_p.isSome && R.m_functions.any stale

/-- How the last loop of `sync_all_from_sk` leaves a record: only the function
list changes, to the indices that were not deleted. -/
def Swept (stale : FunctionIndex → Bool) (R R' : ReflectedClass) : Prop :=
  R'.name = R.name ∧ R'.m_store_sk_instance = R.m_store_sk_instance
    ∧ R'.m_ue_static_class_p = R.m_ue_static_class_p
    ∧ R'.m_functions.Perm (R.m_functions.filter (fun j => !stale j))

/-- An entry with both deletion flags cleared. -/
def unmark (f : ReflectedFunction) : ReflectedFunction :=
  { f with m_marked_for_delete_class := false, m_marked_for_delete_all := false }

/-- The world `w` during a second run over a registry `s` that agrees with the
class tree: same class records, same table up to deletion flags. -/
structure Resync (s w : World) : Prop where
  classes : w.m_reflected_classes = s.m_reflected_classes
  length : w.m_reflected_functions.length = s.m_reflected_functions.length
  entries : ∀ j, (w.fn j).map unmark = (s.fn j).map unmark

/-- Invariant of the gathering loops during such a second run, for class `c`
(`w0` is the world when the loops start): the entries of the routines gathered
so far are back to what they are in `s`, entries not listed by the class are
untouched. -/
structure GatherNoop (s w0 w : World) (c : SkClass) (done : List SkRoutine) : Prop where
  resync : Resync s w
  restored : ∀ R j f r, s.get_class c.name = some R → j ∈ R.m_functions → s.fn j = some f →
    r ∈ done → (exposed_as (c.invokable r)).isSome = true → UpToDate f (c.invokable r) →
    w.fn j = some f
  settled : ∀ R j, s.get_class c.name = some R → j ∈ R.m_functions → w0.fn j = s.fn j →
    w.fn j = s.fn j
  untouched : ∀ j, (∀ R, s.get_class c.name = some R → j ∉ R.m_functions) → w.fn j = w0.fn j

/-- A method with no body (`SkInvokable_method_func` or `SkInvokable_method_mthd`). -/
def is_bodyless_method (sk_invokable : SkInvokableBase) : Prop :=
  sk_invokable.invoke_type = eSkInvokable.SkInvokable_method_func
    ∨ sk_invokable.invoke_type = eSkInvokable.SkInvokable_method_mthd

/-- A scripted method or scripted coroutine (`SkInvokable_method` or
`SkInvokable_coroutine`). -/
def is_scripted_routine (sk_invokable : SkInvokableBase) : Prop :=
  sk_invokable.invoke_type = eSkInvokable.SkInvokable_method
    ∨ sk_invokable.invoke_type = eSkInvokable.SkInvokable_coroutine

/-- An atomic coroutine (`SkInvokable_coroutine_func` or
`SkInvokable_coroutine_mthd`). -/
def is_atomic_coroutine (sk_invokable : SkInvokableBase) : Prop :=
  sk_invokable.invoke_type = eSkInvokable.SkInvokable_coroutine_func
    ∨ sk_invokable.invoke_type = eSkInvokable.SkInvokable_coroutine_mthd

/-- The four marshaling functions are all absent or all of one kind. -/
def quadruple_uniform (k2_param_fetcher_p : Option tK2ParamFetcher)
    (k2_value_fetcher_p : Option tK2ValueFetcher) (k2_value_assigner_p : Option tK2ValueAssigner)
    (sk_value_storer_p : Option tSkValueStorer) : Prop :=
  (k2_param_fetcher_p = none ∧ k2_value_fetcher_p = none ∧ k2_value_assigner_p = none
      ∧ sk_value_storer_p = none)
  ∨ ∃ kind, k2_param_fetcher_p.map tK2ParamFetcher.kind = some kind
      ∧ k2_value_fetcher_p.map tK2ValueFetcher.kind = some kind
      ∧ k2_value_assigner_p.map tK2ValueAssigner.kind = some kind
      ∧ sk_value_storer_p.map tSkValueStorer.kind = some kind

/-- The kind of the quadruple a selection holds, if any. -/
def PropertySelection.kind (s : PropertySelection) : Option MarshalKind :=
  s.k2_param_fetcher_p.map tK2ParamFetcher.kind

/-- The ladder of `build_ue_property` as the specification words it: the kind
picked by the first matching rung, or none.  The script type is exactly Boolean,
Integer, Real, String, Vector2, Vector3, Vector4, RotationAngles, Transform; else
its key class is a subclass of Enum (enum if a host enum of that name exists,
otherwise nothing); else its key class is a subclass of the entity class (entity
if the host class resolves, otherwise nothing); else the struct fallback. -/
def marshal_ladder (brain : SkBrain) (host : UEHost) (sk_type : SkClassDescBase) :
    Option MarshalKind :=
  if sk_type.ptr = brain.SkBoolean_class then some MarshalKind.boolean
  else if sk_type.ptr = brain.SkInteger_class then some MarshalKind.integer
  else if sk_type.ptr = brain.SkReal_class then some MarshalKind.real
  else if sk_type.ptr = brain.SkString_class then some MarshalKind.string
  else if sk_type.ptr = brain.SkVector2_class then some MarshalKind.vector2
  else if sk_type.ptr = brain.SkVector3_class then some MarshalKind.vector3
  else if sk_type.ptr = brain.SkVector4_class then some MarshalKind.vector4
  else if sk_type.ptr = brain.SkRotationAngles_class then some MarshalKind.rotation_angles
  else if sk_type.ptr = brain.SkTransform_class then some MarshalKind.transform
  else if sk_type.key_class_is_class brain.SkEnum_class then
    if (host.FindObject_UEnum sk_type.key_class.name).isSome then some MarshalKind.enum else none
  else if sk_type.key_class_is_class brain.SkUEEntity_class then
    if (host.get_ue_class_from_sk_class sk_type.key_class).isSome then some MarshalKind.entity
    else none
  else
    match host.get_ue_struct_from_sk_class sk_type.key_class with
    | none => none
    | some ue_struct =>
      if host.is_data_stored_by_val ue_struct.structure_size then some MarshalKind.struct_val
      else some MarshalKind.struct_ref

/-- The selection holds no quadruple or one of a single kind, and holds a
property exactly when it holds a quadruple. -/
def PropertySelection.coherent (s : PropertySelection) : Prop :=
  quadruple_uniform s.k2_param_fetcher_p s.k2_value_fetcher_p s.k2_value_assigner_p
      s.sk_value_storer_p
    ∧ s.ue_property_p.isSome = s.k2_param_fetcher_p.isSome

/-- The five struct types the constructor looks up bear five different names. -/
def UEHost.core_structs_distinct (host : UEHost) : Prop :=
  [host.ms_struct_vector2_p.fname, host.ms_struct_vector3_p.fname, host.ms_struct_vector4_p.fname,
    host.ms_struct_rotation_angles_p.fname, host.ms_struct_transform_p.fname].Nodup

/-- The struct is one `reflect_ue_property` treats as an opaque struct: not
user-defined and not named like one of the five struct types. -/
def UEHost.is_opaque_struct (host : UEHost) (s : UScriptStruct) : Prop :=
  s.is_user_defined = false
    ∧ s.fname ∉ [host.ms_struct_vector2_p.fname, host.ms_struct_vector3_p.fname,
        host.ms_struct_vector4_p.fname, host.ms_struct_rotation_angles_p.fname,
        host.ms_struct_transform_p.fname]

instance (host : UEHost) : Decidable host.core_structs_distinct :=
  inferInstanceAs (Decidable
    ([host.ms_struct_vector2_p.fname, host.ms_struct_vector3_p.fname, host.ms_struct_vector4_p.fname,
      host.ms_struct_rotation_angles_p.fname, host.ms_struct_transform_p.fname].Nodup))

instance (host : UEHost) (s : UScriptStruct) : Decidable (host.is_opaque_struct s) :=
  inferInstanceAs (Decidable
    (s.is_user_defined = false
      ∧ s.fname ∉ [host.ms_struct_vector2_p.fname, host.ms_struct_vector3_p.fname,
          host.ms_struct_vector4_p.fname, host.ms_struct_rotation_angles_p.fname,
          host.ms_struct_transform_p.fname]))

/-- The script type has a marshal mapping: some rung of the ladder yields a kind. -/
def has_marshal_mapping (brain : SkBrain) (host : UEHost) (sk_type : SkClassDescBase) : Bool :=
  (marshal_ladder brain host sk_type).isSome

/-- The routine has a result that `build_ue_function` builds a property for. -/
def built_result_class (brain : SkBrain) (sk_invokable : SkInvokableBase) : Option SkClassDescBase :=
  match brain.get_result_class sk_invokable with
  | none => none
  | some result_class => if result_class.ptr = brain.ms_object_class_p then none else some result_class

/-- The result type (when present and not Object) and every parameter type have
a marshal mapping. -/
def all_types_map (brain : SkBrain) (host : UEHost) (sk_invokable : SkInvokableBase) : Bool :=
  (match built_result_class brain sk_invokable with
    | none => true
    | some result_class => has_marshal_mapping brain host result_class)
  && sk_invokable.param_list.all
      (fun p => has_marshal_mapping brain host (brain.get_expected_type p))

/-- The property a parameter of the given name and type gets in the function at
`ue_function_p`: the one `build_ue_property` makes, flagged as a parameter. -/
def param_property (brain : SkBrain) (host : UEHost) (ue_function_p : Nat) (is_final : Bool)
    (sk_name : ASymbol) (sk_type : SkClassDescBase) : Option UProperty :=
  (build_ue_property_chain brain host sk_name sk_type ue_function_p is_final).ue_property_p.map
    (fun p => { p with CPF_Parm := true })

/-- The parameter properties of a parameter list, in declaration order. -/
def param_properties (brain : SkBrain) (host : UEHost) (ue_function_p : Nat) (is_final : Bool)
    (param_list : List SkParameterBase) : List UProperty :=
  param_list.filterMap
    (fun p => param_property brain host ue_function_p is_final p.name (brain.get_expected_type p))

/-- The record `build_ue_property` and `build_ue_param` leave behind `out_info_p`
for a parameter of the given name and type. -/
def param_info (brain : SkBrain) (host : UEHost) (ue_function_p : Nat) (is_final : Bool)
    (sk_name : ASymbol) (sk_type : SkClassDescBase) : ReflectedProperty :=
  { name := sk_name
    m_ue_property_p := param_property brain host ue_function_p is_final sk_name sk_type
    m_k2_param_fetcher_p :=
      (build_ue_property_chain brain host sk_name sk_type ue_function_p is_final).k2_param_fetcher_p
    m_k2_value_fetcher_p :=
      (build_ue_property_chain brain host sk_name sk_type ue_function_p is_final).k2_value_fetcher_p
    m_k2_value_assigner_p :=
      (build_ue_property_chain brain host sk_name sk_type ue_function_p is_final).k2_value_assigner_p
    m_sk_value_storer_p :=
      (build_ue_property_chain brain host sk_name sk_type ue_function_p is_final).sk_value_storer_p }

/-- The property of the result: the parameter property of the name `result`,
flagged as the return parameter. -/
def result_property (brain : SkBrain) (host : UEHost) (ue_function_p : Nat) (is_final : Bool)
    (result_class : SkClassDescBase) : Option UProperty :=
  (param_property brain host ue_function_p is_final m_result_name result_class).map
    (fun p => { p with CPF_ReturnParm := true })

/-- The record `build_ue_function` leaves for the result. -/
def result_info (brain : SkBrain) (host : UEHost) (ue_function_p : Nat) (is_final : Bool)
    (result_class : SkClassDescBase) : ReflectedProperty :=
  { param_info brain host ue_function_p is_final m_result_name result_class with
    m_ue_property_p := result_property brain host ue_function_p is_final result_class }

/-- The child list the claim describes: the parameters in declaration order,
followed by the result property when the routine has a result that is built. -/
def built_children (brain : SkBrain) (host : UEHost) (ue_function_p : Nat) (is_final : Bool)
    (sk_invokable : SkInvokableBase) : List UProperty :=
  param_properties brain host ue_function_p is_final sk_invokable.param_list
    ++ (match built_result_class brain sk_invokable with
        | none => []
        | some result_class =>
          (result_property brain host ue_function_p is_final result_class).toList)

/-- The class `build_ue_function` starts from: the given one, with its function
map caches cleared when the duplicate check is compiled in and finds something. -/
def checked_class (WITH_EDITORONLY_DATA : Bool) (objs : UEObjects) (ue_class : UClass)
    (sk_invokable : SkInvokableBase) : UClass :=
  if WITH_EDITORONLY_DATA
      && (objs.FindFunctionByName ue_class
        (qualified_invokable_fname sk_invokable.scope.name sk_invokable.name)).isSome then
    ue_class.ClearFunctionMapsCaches
  else ue_class

/-- The input parameters of a native function: the properties the loop of
`reflect_ue_function` does not skip. -/
def input_params (ue_function : UFunction) : List UProperty :=
  ue_function.Children.filter UProperty.is_input_parm

/-- The script-style name `reflect_ue_property` gives a native property. -/
def script_name (host : UEHost) (ue_property : UProperty) : ASymbol :=
  host.skookify_var_name ue_property.m_name (ue_property.IsA UPropertyClass.UBoolProperty)

/-- The record `reflect_ue_property` fills in for a property it accepts. -/
def reflected_info (host : UEHost) (ue_property : UProperty) : ReflectedProperty :=
  { name := script_name host ue_property
    m_ue_property_p := some ue_property
    m_k2_param_fetcher_p := (reflect_ue_property_chain host ue_property).k2_param_fetcher_p
    m_k2_value_fetcher_p := (reflect_ue_property_chain host ue_property).k2_value_fetcher_p
    m_k2_value_assigner_p := (reflect_ue_property_chain host ue_property).k2_value_assigner_p
    m_sk_value_storer_p := (reflect_ue_property_chain host ue_property).sk_value_storer_p }

/-- The record of a parameter is complete: it holds the native property and all
four marshaling functions. -/
def ReflectedProperty.complete (info : ReflectedProperty) (P : UProperty) : Prop :=
  info.m_ue_property_p = some P ∧ info.m_k2_param_fetcher_p.isSome = true
    ∧ info.m_k2_value_fetcher_p.isSome = true ∧ info.m_k2_value_assigner_p.isSome = true
    ∧ info.m_sk_value_storer_p.isSome = true

/-- The class records are keyed by class name: no two records carry the same name. -/
def World.keyed (w : World) : Prop :=
  (w.m_reflected_classes.map (fun c => c.name)).Nodup

/-- Registry well-formedness in the words of the invariant: every index in every
class's function list is in range and refers to an occupied slot, and every
occupied slot is listed exactly once in the list of its routine's owning class and
in the list of no class of another name. -/
def registry_well_formed (w : World) : Prop :=
  (∀ c ∈ w.m_reflected_classes, ∀ i ∈ c.m_functions,
      i < w.m_reflected_functions.length ∧ (w.fn i).isSome = true) ∧
  (∀ i f, w.fn i = some f →
      (∃ c ∈ w.m_reflected_classes, c.name = f.owner ∧ c.m_functions.count i = 1) ∧
      (∀ c ∈ w.m_reflected_classes, i ∈ c.m_functions → c.name = f.owner))

/-- The routine is registered as the given variant: the record of its class lists
an index whose entry carries the routine's name and class-member flag, refers back
to the routine object and is of that variant. -/
def is_registered_as (type : eReflectedFunctionType) (w : World)
    (sk_invokable : SkInvokableBase) : Prop :=
  ∃ R i e, w.get_class sk_invokable.scope.name = some R ∧ i ∈ R.m_functions
    ∧ w.fn i = some e ∧ e.name = sk_invokable.name
    ∧ e.m_is_class_member = sk_invokable.is_class_member ∧ e.m_sk_invokable_p = sk_invokable
    ∧ e.m_type = type

/-- The record of the routine's class lists an entry with the routine's name, member
flag and signature that is not of the variant `type`. -/
def has_entry_of_other_variant (type : eReflectedFunctionType) (w : World)
    (sk_invokable : SkInvokableBase) : Prop :=
  ∃ R i e, w.get_class sk_invokable.scope.name = some R ∧ i ∈ R.m_functions
    ∧ w.fn i = some e ∧ e.name = sk_invokable.name
    ∧ e.m_is_class_member = sk_invokable.is_class_member
    ∧ signature_matches e sk_invokable = true ∧ e.m_type ≠ type

/-! ## Concrete registries and class trees -/

namespace Example

/-- Annotation flags of a routine exposed with `&blueprint`. -/
def blueprint : AnnotationFlags := { ue4_blueprint := true, reflected_data := false }

/-- No annotation. -/
def plain : AnnotationFlags := { ue4_blueprint := false, reflected_data := false }

/-- Script class `Integer`. -/
def sk_integer : SkClassRef := { ptr := 100, name := 50 }

/-- Script class `String`. -/
def sk_string : SkClassRef := { ptr := 101, name := 51 }

/-- Script class `Real`. -/
def sk_real : SkClassRef := { ptr := 102, name := 52 }

/-- Scripted method `bar(x : Integer) : String`, exposed. -/
def bar : SkRoutine :=
  { ptr := 1000, name := 7, is_class_member := false, invoke_type := eSkInvokable.SkInvokable_method,
    annotation_flags := blueprint, param_list := [{ name := 9, expected_type := sk_integer }],
    result_class := sk_string }

/-- The method `bar` recompiled: a new object with the same signature. -/
def bar_recompiled : SkRoutine := { bar with ptr := 2000 }

/-- The method `bar` after its parameter became a `Real`. -/
def bar_real : SkRoutine :=
  { bar with ptr := 2001, param_list := [{ name := 9, expected_type := sk_real }] }

/-- Scripted method `baz(x : Integer) : String`, exposed. -/
def baz : SkRoutine := { bar with ptr := 1001, name := 8 }

/-- Class `Object`, the superclass of the root of the walk. -/
def object : SkClass :=
  { name := 0, annotation_flags := plain, total_data_count := 0, instance_methods := [],
    class_methods := [], coroutines := [] }

/-- Class `Entity`, the root of the walk. -/
def entity : SkClass := { object with name := 10 }

/-- Class `Foo` with the method `bar`. -/
def foo_bar : SkClass := { object with name := 11, instance_methods := [bar] }

/-- Class `Foo` with the method `baz` instead. -/
def foo_baz : SkClass := { object with name := 11, instance_methods := [baz] }

/-- Class tree `Entity > Foo` where `Foo` has `bar`. -/
def tree_bar : SkClassTree := SkClassTree.node entity [SkClassTree.node foo_bar []]

/-- Class tree `Entity > Foo` where `Foo` has `baz`. -/
def tree_baz : SkClassTree := SkClassTree.node entity [SkClassTree.node foo_baz []]

/-- Class tree with `Entity` alone. -/
def tree_entity : SkClassTree := SkClassTree.node entity []

/-- The registry before anything was registered. -/
def empty : World :=
  { m_reflected_functions := [], m_reflected_classes := [], user_data := [], bound := [],
    host_log := [] }

/-- The entry of `Foo.bar`, exposed to the native function 77. -/
def bar_entry : ReflectedFunction :=
  { ReflectedFunction.new eReflectedFunctionType.ReflectedFunctionType_Call (foo_bar.invokable bar) with
    m_ue_function_p := some 77 }

/-- A registry holding `Foo.bar` at index 0, with the native class 500 of `Foo`
resolved. -/
def with_bar : World :=
  { empty with
    m_reflected_functions := [some bar_entry]
    m_reflected_classes :=
      [{ name := 11, m_ue_static_class_p := some 500, m_functions := [0], m_store_sk_instance := false }] }

/-- A registry holding `Foo.bar` at index 1 behind a null slot. -/
def with_gap : World :=
  { empty with
    m_reflected_functions := [none, some bar_entry]
    m_reflected_classes :=
      [{ name := 11, m_ue_static_class_p := some 500, m_functions := [1], m_store_sk_instance := false }] }

/-- An atomic coroutine `_wait_tick`, annotated for exposure. -/
def atomic_coroutine : SkRoutine :=
  { bar with ptr := 1002, name := 12, invoke_type := eSkInvokable.SkInvokable_coroutine_func }

/-- A parameter of an enum class, one byte wide. -/
def enum_param : TypedName := { name := 9, m_sk_class_name := 60, m_sk_class_p := 600, m_byte_size := 1 }

/-- A parameter of an opaque struct class, three bytes wide. -/
def struct_param : TypedName :=
  { name := 9, m_sk_class_name := 61, m_sk_class_p := 601, m_byte_size := 3 }

/-- The well-known script classes, by address; a parameter's expected type and a
routine's result class are the class descriptors of their key classes. -/
def brain : SkBrain :=
  { SkBoolean_class := 201, SkInteger_class := 100, SkReal_class := 102, SkString_class := 101,
    SkVector2_class := 205, SkVector3_class := 206, SkVector4_class := 207,
    SkRotationAngles_class := 208, SkTransform_class := 209, SkEnum_class := 210,
    SkUEEntity_class := 211, ms_object_class_p := 212,
    get_expected_type := fun p => ⟨p.expected_type.ptr, p.expected_type, []⟩,
    get_result_class := fun i => some ⟨i.result_class.ptr, i.result_class, []⟩ }

/-- A host with the five core structs, one enum (for class 60), one entity class
(for class 10), the plain struct of class 61 and the user-defined struct of
class 62; data of at most eight bytes is stored by value. -/
def host : UEHost :=
  { ms_struct_vector2_p := ⟨301, 71, 8, false⟩, ms_struct_vector3_p := ⟨302, 72, 12, false⟩,
    ms_struct_vector4_p := ⟨303, 73, 16, false⟩,
    ms_struct_rotation_angles_p := ⟨304, 74, 12, false⟩,
    ms_struct_transform_p := ⟨305, 75, 48, false⟩,
    FindObject_UEnum := fun n => if n = 60 then some 700 else none,
    get_ue_class_from_sk_class := fun c => if c.name = 10 then some 800 else none,
    get_ue_struct_from_sk_class := fun c =>
      if c.name = 61 then some ⟨306, 76, 3, false⟩
      else if c.name = 62 then some ⟨307, 77, 3, true⟩ else none,
    is_data_stored_by_val := fun n => decide (n ≤ 8),
    skookify_var_name := fun n _ => n,
    GetSize := fun _ => 4,
    GetOffset_ForUFunction := fun p => if p.CPF_ReturnParm then 4 else 0 }

/-- The script type of a plain struct class. -/
def plain_struct_type : SkClassDescBase := ⟨601, ⟨601, 61⟩, [212]⟩

/-- The script type of a class whose host struct is user-defined. -/
def user_struct_type : SkClassDescBase := ⟨602, ⟨602, 62⟩, [212]⟩

/-- The property `build_ue_property` makes for `user_struct_type`. -/
def user_struct_property : UProperty :=
  { NewObject_UProperty UPropertyClass.UStructProperty 0 9 false with
    Struct := some ⟨307, 77, 3, true⟩ }

/-- The property `build_ue_property` makes for `plain_struct_type`. -/
def plain_struct_property : UProperty :=
  { NewObject_UProperty UPropertyClass.UStructProperty 0 9 false with
    Struct := some ⟨306, 76, 3, false⟩ }

/-- The native class of `Foo`, at address 500, with no functions yet. -/
def foo_class : UClass := { ptr := 500, Children := [], FuncMap := [], function_maps_caches := [] }

/-- A native `int` parameter of the function at 9100. -/
def int_parm (name : Nat) : UProperty :=
  { NewObject_UProperty UPropertyClass.UIntProperty 9100 name true with CPF_Parm := true }

/-- The return value of a native function: an `int` flagged as parameter, out
parameter and return parameter. -/
def int_return : UProperty :=
  { int_parm 3 with CPF_ReturnParm := true, CPF_OutParm := true }

/-- The Blueprint function `on_hit(x : int) : int` of the class `Actor`, with an
event node in a graph. -/
def on_hit_function : UFunction :=
  { NewObject_UFunction 9100 501 20 with
    FUNC_BlueprintEvent := true, FUNC_Event := true, Children := [int_parm 9, int_return],
    Script := [1], ParmsSize := 8, ReturnValueOffset := 4 }

/-- The Blueprint function `on_two(x : int, y : int)` of the class `Actor`. -/
def on_two_function : UFunction :=
  { NewObject_UFunction 9101 501 21 with
    FUNC_BlueprintEvent := true, FUNC_Event := true, Children := [int_parm 9, int_parm 10],
    Script := [1], ParmsSize := 8 }

/-- The Blueprint function `on_measure(x : int&)` of the class `Actor`: its
parameter is an out parameter. -/
def on_measure_function : UFunction :=
  { NewObject_UFunction 9102 501 23 with
    FUNC_BlueprintEvent := true, FUNC_Event := true, FUNC_HasOutParms := true,
    Children := [{ int_parm 9 with CPF_OutParm := true }], Script := [1], ParmsSize := 4 }

/-- The native class of `Actor`, at address 501. -/
def actor_class : UClass :=
  { ptr := 501
    Children := [UField.function on_hit_function, UField.function on_two_function,
      UField.function on_measure_function]
    FuncMap := [(20, 9100), (21, 9101), (23, 9102)]
    function_maps_caches := [] }

/-- The function `build_ue_function` makes for the event `Foo.on_ping`, as the
host holds it once it is linked: eight bytes of parameters, the result in the
upper four. -/
def on_ping_function : UFunction :=
  { NewObject_UFunction 9000 500 (qualified_invokable_fname 11 22) with
    FUNC_Public := true, FUNC_BlueprintEvent := true, FUNC_Event := true, is_bound := true,
    RepOffset := 48879, is_linked := true,
    Children :=
      [{ NewObject_UProperty UPropertyClass.UIntProperty 9000 9 true with CPF_Parm := true },
       { NewObject_UProperty UPropertyClass.UIntProperty 9000 3 true with
         CPF_Parm := true, CPF_ReturnParm := true }],
    ParmsSize := 8, ReturnValueOffset := 4 }

/-- The copy of a function that an actor's class holds: the function of that
name with the given bytecode, with or without the flag `FUNC_HasOutParms` of the
original. -/
def kismet_copy (ue_function : UFunction) (script : List Nat) (keep_flag : Bool) : UFunction :=
  { ue_function with
    ptr := ue_function.ptr + 50, Script := script,
    FUNC_HasOutParms := keep_flag && ue_function.FUNC_HasOutParms }

/-- A host object graph with the classes of `Foo` (500) and `Actor` (501); new
functions are allocated at 9000, the event marker is 48879.  The actor 1 has an
event node for none of its functions, the other actors for all of them; the
class of the actor 2 holds copies of the functions that do not carry
`FUNC_HasOutParms`.
A native call leaves the parameter buffer as it is, but for `on_measure`, which
writes 7 to its parameter. -/
def objs : UEObjects :=
  { ue_class := fun p => if p = 501 then actor_class else { foo_class with ptr := p }
    ue_function := fun p =>
      if p = 9100 then some on_hit_function
      else if p = 9101 then some on_two_function
      else if p = 9102 then some on_measure_function
      else if p = 9000 then some on_ping_function
      else none
    get_static_ue_class_from_sk_class_super := fun s =>
      if s.name = 11 then some 500 else if s.name = 13 then some 501 else none
    get_ue_class_from_sk_class := fun s =>
      if s.name = 11 then some 500 else if s.name = 13 then some 501 else none
    compare_var_name_skookified := fun n s => n == s
    FindFunctionByName := fun c n => c.FuncMap.lookup n
    new_function_address := fun _ _ => 9000
    EventMagicRepOffset := 48879
    FindFunctionChecked := fun actor n =>
      kismet_copy
        (if n = 20 then on_hit_function
          else if n = 21 then on_two_function
          else if n = 23 then on_measure_function
          else on_ping_function)
        (if actor = 1 then [] else [1]) (decide (actor ≠ 2))
    ProcessEvent := fun _ f m => if f.fname = 23 then m.set 0 7 else m }

/-- An interpretation of the marshaling code in which every storer, assigner and
fetcher moves one byte, as the enum functions do. -/
def code : MarshalCode :=
  { sk_value_storer := fun _ memory dest_p value_p typed_name =>
      (store_sk_value_enum memory dest_p value_p typed_name).1
    k2_value_assigner := fun _ dest_p memory value_p typed_name =>
      assign_k2_value_enum dest_p memory value_p typed_name
    k2_value_fetcher := fun _ memory value_p typed_name =>
      fetch_k2_value_enum memory value_p typed_name }

/-- The nil instance. -/
def nil : SkInstance := { m_class_p := 0, m_user_data := SkUserData.nothing }

/-- The script value 5. -/
def five : SkInstance := { m_class_p := 100, m_user_data := SkUserData.enum_value 5 }

/-- The scope of the routines of `Actor`, a class with reflected data. -/
def actor_scope : SkScope :=
  { name := 13, annotation_flags := { ue4_blueprint := false, reflected_data := true } }

/-- Body-less method `Actor.on_hit(x : Integer) : Integer`, not annotated. -/
def on_hit : SkInvokableBase :=
  { ptr := 1100, name := 20, scope := actor_scope, is_class_member := false,
    invoke_type := eSkInvokable.SkInvokable_method_func, annotation_flags := plain,
    param_list := [{ name := 9, expected_type := sk_integer }], result_class := sk_integer }

/-- Body-less method `Actor.on_two(x : Integer)`, one parameter short of the
native function of that name. -/
def on_two : SkInvokableBase := { on_hit with ptr := 1101, name := 21 }

/-- Body-less method `Actor.on_measure(x : Integer) : Integer`. -/
def on_measure : SkInvokableBase := { on_hit with ptr := 1102, name := 23 }

/-- Body-less method `Foo.on_ping(x : Integer) : Integer`, annotated for exposure. -/
def on_ping : SkInvokableBase :=
  { ptr := 1200, name := 22, scope := foo_bar.scope, is_class_member := false,
    invoke_type := eSkInvokable.SkInvokable_method_func, annotation_flags := blueprint,
    param_list := [{ name := 9, expected_type := sk_integer }], result_class := sk_integer }

/-- A registry holding the given event entry at index 0, in the record of the
class `name`, with the routine's user data pointing at it. -/
def with_event (sk_method : SkInvokableBase) (ue_static_class : Nat) : World :=
  { empty with
    m_reflected_functions :=
      [some (ReflectedFunction.new eReflectedFunctionType.ReflectedFunctionType_Event sk_method)]
    m_reflected_classes :=
      [{ name := sk_method.scope.name, m_ue_static_class_p := some ue_static_class,
         m_functions := [0], m_store_sk_instance := false }]
    user_data := [(sk_method.ptr, 0)]
    bound := [sk_method.ptr] }

/-- The type descriptor of the class `String`. -/
def string_type : SkClassDescBase := ⟨101, sk_string, []⟩

/-- The entry of `Foo.bar` as `add_reflected_call` makes it, not exposed yet. -/
def call_entry : ReflectedFunction :=
  ReflectedFunction.new eReflectedFunctionType.ReflectedFunctionType_Call (foo_bar.invokable bar)

/-- A registry holding the unexposed entry of `Foo.bar` at index 0. -/
def with_call : World :=
  { empty with
    m_reflected_functions := [some call_entry]
    m_reflected_classes :=
      [{ name := 11, m_ue_static_class_p := some 500, m_functions := [0], m_store_sk_instance := false }] }

/-- A registry holding the unexposed entry of `Foo.bar` at index 65536, behind
null slots. -/
def far_table : World :=
  { empty with
    m_reflected_functions := List.replicate 65536 none ++ [some call_entry]
    m_reflected_classes :=
      [{ name := 11, m_ue_static_class_p := some 500, m_functions := [65536],
         m_store_sk_instance := false }] }

/-- The entry of the event `Foo.on_ping` as `expose_reflected_function` leaves it. -/
def ping_entry : ReflectedFunction :=
  { ReflectedFunction.new eReflectedFunctionType.ReflectedFunctionType_Event on_ping with
    m_ue_function_p := some 9000
    m_result_type := { TypedName.new 50 sk_integer with m_byte_size := 4 }
    params :=
      [{ typed := { TypedName.new 9 sk_integer with m_byte_size := 4 }
         m_fetcher_p := none
         m_storer_p := some tSkValueStorer.store_sk_value_integer.addr
         m_assigner_p := none
         m_offset := 0 }]
    m_result_getter := some tK2ValueFetcher.fetch_k2_value_integer.addr }

/-- The registry with the event `Foo.on_ping` exposed. -/
def ping_exposed : World :=
  { with_event on_ping 500 with m_reflected_functions := [some ping_entry] }

/-- The entry of the event `Actor.on_measure` as `expose_reflected_function`
leaves it. -/
def measure_entry : ReflectedFunction :=
  { ReflectedFunction.new eReflectedFunctionType.ReflectedFunctionType_Event on_measure with
    m_ue_function_p := some 9102
    params :=
      [{ typed := { TypedName.new 9 sk_integer with m_byte_size := 4 }
         m_fetcher_p := none
         m_storer_p := some tSkValueStorer.store_sk_value_integer.addr
         m_assigner_p := some tK2ValueAssigner.assign_k2_value_integer.addr
         m_offset := 0 }] }

/-- The registry with the event `Actor.on_measure` exposed. -/
def measure_exposed : World :=
  { with_event on_measure 501 with m_reflected_functions := [some measure_entry] }

/-- What exposing the event `Actor.on_measure` yields. -/
def measure_exposure : ExposeResult :=
  { world := measure_exposed, anything_changed := true, ue_function_p := some on_measure_function,
    ue_class := none, caches_cleared := some 501, function_updated := some (9102, true),
    unknown_types := [] }

/-- The method `bar` without a body: an atomic method of the same name, member
flag and signature. -/
def bar_atomic : SkRoutine :=
  { bar with ptr := 1003, invoke_type := eSkInvokable.SkInvokable_method_func }

/-- Class `Foo` with the body-less method `bar`. -/
def foo_atomic : SkClass := { object with name := 11, instance_methods := [bar_atomic] }

/-- Class `Foo` with the scripted method `bar` taking a `Real`. -/
def foo_real : SkClass := { object with name := 11, instance_methods := [bar_real] }

/-- Class tree `Entity > Foo` where `Foo` has the body-less `bar`. -/
def tree_atomic : SkClassTree := SkClassTree.node entity [SkClassTree.node foo_atomic []]

/-- Class tree `Entity > Foo` where `Foo` has the scripted `bar` taking a `Real`. -/
def tree_real : SkClassTree := SkClassTree.node entity [SkClassTree.node foo_real []]

/-- The entry `add_reflected_event` constructs for the body-less `Foo.bar`. -/
def bar_event_entry : ReflectedFunction :=
  ReflectedFunction.new eReflectedFunctionType.ReflectedFunctionType_Event
    (foo_atomic.invokable bar_atomic)

/-- A registry holding the body-less `Foo.bar` at index 0 as an event. -/
def with_bar_event : World :=
  { empty with
    m_reflected_functions := [some bar_event_entry]
    bound := [1003]
    m_reflected_classes :=
      [{ name := 11, m_ue_static_class_p := some 500, m_functions := [0], m_store_sk_instance := false }] }

end Example

/-! ## Lists -/

theorem getD_set_none {α} (T : List (Option α)) (i j : Nat) (v : Option α) :
    (T.set i v).getD j none = if i = j ∧ i < T.length then v else T.getD j none := by
  simp only [List.getD_eq_getElem?_getD, List.getElem?_set]
  by_cases h : i = j
  · subst h
    by_cases h2 : i < T.length
    · simp [h2]
    · simp [h2, List.getElem?_eq_none (Nat.le_of_not_lt h2)]
  · simp [h]

theorem getD_append_one {α} (T : List (Option α)) (j : Nat) (v : Option α) :
    (T ++ [v]).getD j none = if j = T.length then v else T.getD j none := by
  simp only [List.getD_eq_getElem?_getD]
  rcases Nat.lt_trichotomy j T.length with h | h | h
  · rw [List.getElem?_append_left h]; simp [Nat.ne_of_lt h]
  · subst h; simp
  · rw [List.getElem?_eq_none (by simp; omega), List.getElem?_eq_none (by omega)]
    simp [Nat.ne_of_gt h]

theorem getD_none_of_le {α} (T : List (Option α)) (j : Nat) (h : T.length ≤ j) :
    T.getD j none = none := by
  rw [List.getD_eq_getElem?_getD, List.getElem?_eq_none h]; rfl

theorem table_ext {α} (T T' : List (Option α)) (hl : T.length = T'.length)
    (h : ∀ j, T.getD j none = T'.getD j none) : T = T' := by
  apply List.ext_getElem? 
  intro j
  have := h j
  simp only [List.getD_eq_getElem?_getD] at this
  by_cases hj : j < T.length
  · have hj' : j < T'.length := hl ▸ hj
    rw [List.getElem?_eq_getElem hj, List.getElem?_eq_getElem hj'] at this ⊢
    simpa using this
  · rw [List.getElem?_eq_none (Nat.le_of_not_lt hj), List.getElem?_eq_none (hl ▸ Nat.le_of_not_lt hj)]

/-! ## Class records -/

theorem find_class_some {cs : List ReflectedClass} {n : ASymbol} {R : ReflectedClass}
    (h : cs.find? (fun c => c.name == n) = some R) : R.name = n ∧ R ∈ cs := by
  refine ⟨?_, List.mem_of_find?_eq_some h⟩
  have := List.find?_some h
  simpa using this

theorem find_class_cons (d : ReflectedClass) (ds : List ReflectedClass) (m : ASymbol) :
    (d :: ds).find? (fun c => c.name == m)
      = if d.name = m then some d else ds.find? (fun c => c.name == m) := by
  rw [List.find?_cons]
  by_cases h : d.name = m
  · simp [h]
  · have : (d.name == m) = false := by simpa using h
    simp [h, this]

theorem find_class_of_mem {cs : List ReflectedClass} {R : ReflectedClass}
    (hn : (cs.map (fun c => c.name)).Nodup) (h : R ∈ cs) :
    cs.find? (fun c => c.name == R.name) = some R := by
  induction cs with
  | nil => cases h
  | cons d ds ih =>
    simp only [List.map_cons, List.nodup_cons] at hn
    rw [find_class_cons]
    rcases List.mem_cons.1 h with rfl | h
    · simp
    · have : d.name ≠ R.name := by
        intro he
        exact hn.1 (List.mem_map.2 ⟨R, h, he.symm⟩)
      simp [this, ih hn.2 h]

theorem find_class_none {cs : List ReflectedClass} {n : ASymbol} :
    cs.find? (fun c => c.name == n) = none ↔ n ∉ cs.map (fun c => c.name) := by
  simp [List.find?_eq_none]

theorem modify_class_cons (n : ASymbol) (f : ReflectedClass → ReflectedClass)
    (d : ReflectedClass) (ds : List ReflectedClass) :
    modify_class n f (d :: ds) = if d.name = n then f d :: ds else d :: modify_class n f ds := by
  rw [modify_class]
  by_cases h : d.name = n
  · simp [h]
  · have : (d.name == n) = false := by simpa using h
    simp [h]

theorem modify_class_names {n : ASymbol} {f : ReflectedClass → ReflectedClass}
    (hf : ∀ c, (f c).name = c.name) (cs : List ReflectedClass) :
    (modify_class n f cs).map (fun c => c.name) = cs.map (fun c => c.name) := by
  induction cs with
  | nil => rfl
  | cons d ds ih =>
    rw [modify_class_cons]
    split
    · simp [hf]
    · simp [ih]

theorem find_modify_class {n : ASymbol} {f : ReflectedClass → ReflectedClass}
    (hf : ∀ c, (f c).name = c.name) (cs : List ReflectedClass) (m : ASymbol) :
    (modify_class n f cs).find? (fun c => c.name == m)
      = if m = n then (cs.find? (fun c => c.name == n)).map f
        else cs.find? (fun c => c.name == m) := by
  induction cs with
  | nil => simp [modify_class]
  | cons d ds ih =>
    rw [modify_class_cons]
    by_cases hd : d.name = n
    · simp only [hd, if_true, find_class_cons, hf]
      by_cases hm : m = n
      · subst hm; simp
      · have : ¬ n = m := fun h => hm h.symm
        simp [hm, this]
    · simp only [hd, if_false, find_class_cons, ih]
      by_cases hm : m = n
      · subst hm; simp [hd]
      · simp only [hm, if_false]

theorem modify_class_id {n : ASymbol} {f : ReflectedClass → ReflectedClass}
    (cs : List ReflectedClass)
    (h : ∀ R, cs.find? (fun c => c.name == n) = some R → f R = R) :
    modify_class n f cs = cs := by
  induction cs with
  | nil => rfl
  | cons d ds ih =>
    rw [modify_class_cons]
    by_cases hd : d.name = n
    · have := h d (by simp [find_class_cons, hd])
      simp [hd, this]
    · simp only [hd, if_false]
      rw [ih]
      intro R hR; apply h; simp [find_class_cons, hd, hR]

theorem append_class_perm (c : ReflectedClass) (cs : List ReflectedClass) :
    (append_class c cs).Perm (c :: cs) := by
  induction cs with
  | nil => exact List.Perm.refl _
  | cons d ds ih =>
    unfold append_class
    split
    · exact List.Perm.refl _
    · exact (List.Perm.cons d ih).trans (List.Perm.swap c d ds)

theorem find_append_class (c : ReflectedClass) (cs : List ReflectedClass) (m : ASymbol)
    (h : cs.find? (fun d => d.name == c.name) = none) :
    (append_class c cs).find? (fun d => d.name == m)
      = if m = c.name then some c else cs.find? (fun d => d.name == m) := by
  induction cs with
  | nil =>
    by_cases hm : m = c.name
    · simp [append_class, hm]
    · have : ¬ c.name = m := fun h => hm h.symm
      simp [append_class, hm, this]
  | cons d ds ih =>
    have hd : ¬ d.name = c.name := by
      intro he; simp [find_class_cons, he] at h
    have hds : ds.find? (fun d => d.name == c.name) = none := by
      simpa [find_class_cons, hd] using h
    unfold append_class
    split
    · by_cases hm : m = c.name
      · simp [find_class_cons, hm]
      · have : ¬ c.name = m := fun h => hm h.symm
        simp [find_class_cons, hm, this]
    · rw [find_class_cons, ih hds, find_class_cons]
      by_cases hm : m = c.name
      · subst hm; simp [hd]
      · simp only [hm, if_false]

/-! ## `delete_reflected_function` -/

theorem fn_lt_length {w : World} {i : Nat} {f : ReflectedFunction} (h : w.fn i = some f) :
    i < w.m_reflected_functions.length := by
  unfold World.fn at h
  by_contra hn
  rw [getD_none_of_le _ _ (Nat.le_of_not_lt hn)] at h
  cases h

theorem fn_none_of_le {w : World} {i : Nat} (h : w.m_reflected_functions.length ≤ i) :
    w.fn i = none := getD_none_of_le _ _ h

theorem delete_table (w : World) (i : Nat) :
    (delete_reflected_function w i).m_reflected_functions = w.m_reflected_functions.set i none := by
  unfold delete_reflected_function
  cases h : w.fn i with
  | none =>
    simp only
    apply table_ext
    · simp
    · intro j
      rw [getD_set_none]
      split
      · rename_i hj; rw [← hj.1]; exact h
      · rfl
  | some f => rfl

theorem delete_fn (w : World) (i j : Nat) :
    (delete_reflected_function w i).fn j = if i = j then none else w.fn j := by
  unfold World.fn
  rw [delete_table, getD_set_none]
  by_cases h : i = j
  · subst h
    by_cases h2 : i < w.m_reflected_functions.length
    · rw [if_pos ⟨rfl, h2⟩, if_pos rfl]
    · rw [if_neg (fun h => h2 h.2), if_pos rfl, getD_none_of_le _ _ (Nat.le_of_not_lt h2)]
  · rw [if_neg (fun hh => h hh.1), if_neg h]

theorem delete_length (w : World) (i : Nat) :
    (delete_reflected_function w i).m_reflected_functions.length = w.m_reflected_functions.length := by
  rw [delete_table]; simp

theorem delete_classes (w : World) (i : Nat) :
    (delete_reflected_function w i).m_reflected_classes = w.m_reflected_classes := by
  unfold delete_reflected_function
  cases h : w.fn i <;> rfl

theorem delete_get_class (w : World) (i : Nat) (n : ASymbol) :
    (delete_reflected_function w i).get_class n = w.get_class n := by
  unfold World.get_class; rw [delete_classes]

theorem delete_of_none {w : World} {i : Nat} (h : w.fn i = none) :
    delete_reflected_function w i = w := by
  unfold delete_reflected_function; rw [h]

/-- The calls into the host a deletion of slot content `slot` makes. -/
theorem delete_log (w : World) (i : Nat) :
    (delete_reflected_function w i).host_log
      = w.host_log ++ (match (w.fn i).bind (fun f => f.m_ue_function_p) with
          | some u => [HostOp.destroy_ue_function u]
          | none => []) := by
  unfold delete_reflected_function
  cases h : w.fn i with
  | none => simp
  | some f => cases h2 : f.m_ue_function_p <;> simp [h2]

/-! ## `store_reflected_function` -/

theorem first_free_slot_le (T : List (Option ReflectedFunction)) : first_free_slot T ≤ T.length :=
  List.findIdx_le_length _

theorem first_free_slot_none {T : List (Option ReflectedFunction)}
    (h : first_free_slot T < T.length) : T.getD (first_free_slot T) none = none := by
  have := List.findIdx_getElem (w := h)
  rw [List.getD_eq_getElem?_getD, List.getElem?_eq_getElem h]
  simpa using this

theorem first_free_slot_occupied {T : List (Option ReflectedFunction)} {j : Nat}
    (h : j < first_free_slot T) : (T.getD j none).isSome = true := by
  have hj : j < T.length := Nat.lt_of_lt_of_le h (first_free_slot_le T)
  have := List.not_of_lt_findIdx h
  rw [List.getD_eq_getElem?_getD, List.getElem?_eq_getElem hj]
  simp only [Option.getD_some]
  cases hx : T[j] with
  | none => simp [hx] at this
  | some _ => rfl

theorem first_free_slot_eq {T : List (Option ReflectedFunction)} {i : Nat}
    (hi : T.getD i none = none) (hlt : i < T.length)
    (hocc : ∀ j, j < i → (T.getD j none).isSome = true) : first_free_slot T = i := by
  rcases Nat.lt_trichotomy (first_free_slot T) i with h | h | h
  · have h1 := hocc _ h
    rw [first_free_slot_none (Nat.lt_trans h hlt)] at h1
    cases h1
  · exact h
  · have h1 := first_free_slot_occupied h
    rw [hi] at h1
    cases h1

theorem store_snd (w : World) (f : ReflectedFunction) (cls : Option ASymbol) (hint : Int) :
    (store_reflected_function w f cls hint).2 = store_index w hint := by
  unfold store_reflected_function store_index
  cases cls <;> rfl

theorem store_table (w : World) (f : ReflectedFunction) (cls : Option ASymbol) (hint : Int) :
    (store_reflected_function w f cls hint).1.m_reflected_functions
      = if store_index w hint = w.m_reflected_functions.length then w.m_reflected_functions ++ [some f]
        else w.m_reflected_functions.set (store_index w hint) (some f) := by
  unfold store_reflected_function store_index World.set_user_data
  cases cls <;> rfl

theorem store_classes (w : World) (f : ReflectedFunction) (cls : Option ASymbol) (hint : Int) :
    (store_reflected_function w f cls hint).1.m_reflected_classes
      = match cls with
        | none => append_class { ReflectedClass.new f.m_sk_invokable_p.scope.name with
                                  m_functions := [store_index w hint] } w.m_reflected_classes
        | some n => modify_class n (fun c => { c with m_functions := c.m_functions ++ [store_index w hint] })
                      w.m_reflected_classes := by
  unfold store_reflected_function store_index World.set_user_data
  cases cls <;> rfl

theorem store_log (w : World) (f : ReflectedFunction) (cls : Option ASymbol) (hint : Int) :
    (store_reflected_function w f cls hint).1.host_log = w.host_log := by
  unfold store_reflected_function World.set_user_data
  cases cls <;> rfl

theorem store_user_data (w : World) (f : ReflectedFunction) (cls : Option ASymbol) (hint : Int) :
    (store_reflected_function w f cls hint).1.user_data
      = (f.m_sk_invokable_p.ptr, store_index w hint) :: w.user_data := by
  unfold store_reflected_function store_index World.set_user_data
  cases cls <;> rfl

theorem store_fn (w : World) (f : ReflectedFunction) (cls : Option ASymbol) (hint : Int)
    (h : store_index w hint ≤ w.m_reflected_functions.length) (j : Nat) :
    (store_reflected_function w f cls hint).1.fn j
      = if j = store_index w hint then some f else w.fn j := by
  unfold World.fn
  rw [store_table]
  split
  · rename_i he
    rw [getD_append_one, he]
  · rename_i hne
    rw [getD_set_none]
    have hlt : store_index w hint < w.m_reflected_functions.length := Nat.lt_of_le_of_ne h hne
    by_cases hj : j = store_index w hint
    · simp [hj, hlt]
    · have : ¬ store_index w hint = j := fun h => hj h.symm
      simp [hj, this]

theorem store_index_le (w : World) (hint : Int) (h : hint ≤ w.m_reflected_functions.length) :
    store_index w hint ≤ w.m_reflected_functions.length := by
  unfold store_index
  split
  · exact first_free_slot_le _
  · omega

/-! ## `clear` -/

theorem delete_user_data (w : World) (i : Nat) :
    (delete_reflected_function w i).user_data = w.user_data
    ∧ (delete_reflected_function w i).bound = w.bound := by
  unfold delete_reflected_function
  cases h : w.fn i <;> exact ⟨rfl, rfl⟩

theorem foldl_delete_range (w : World) (k : Nat) (hk : k ≤ w.m_reflected_functions.length) :
    (∀ j, ((List.range k).foldl delete_reflected_function w).fn j = if j < k then none else w.fn j)
    ∧ ((List.range k).foldl delete_reflected_function w).m_reflected_classes = w.m_reflected_classes
    ∧ ((List.range k).foldl delete_reflected_function w).host_log
        = w.host_log ++ (w.m_reflected_functions.take k).filterMap
            (fun slot => (slot.bind (fun f => f.m_ue_function_p)).map HostOp.destroy_ue_function) := by
  induction k with
  | zero => simp
  | succ k ih =>
    have ih := ih (Nat.le_of_succ_le hk)
    rw [List.range_succ, List.foldl_append]
    simp only [List.foldl_cons, List.foldl_nil]
    refine ⟨?_, ?_, ?_⟩
    · intro j
      rw [delete_fn, ih.1]
      by_cases hj : k = j
      · subst hj; simp
      · by_cases hj2 : j < k
        · simp [hj, hj2, Nat.lt_succ_of_lt hj2]
        · have : ¬ j < k + 1 := by omega
          simp [hj, hj2, this]
    · rw [delete_classes, ih.2.1]
    · rw [delete_log, ih.2.2, ih.1 k, if_neg (Nat.lt_irrefl k)]
      have hlt : k < w.m_reflected_functions.length := hk
      rw [List.take_succ, List.filterMap_append, List.append_assoc]
      congr 1
      congr 1
      unfold World.fn
      rw [List.getD_eq_getElem?_getD, List.getElem?_eq_getElem hlt]
      simp only [Option.getD_some, Option.toList]
      cases hs : w.m_reflected_functions[k] with
      | none => simp
      | some f => cases hu : f.m_ue_function_p <;> simp [hu]

theorem store_get_class_some (w : World) (f : ReflectedFunction) (n : ASymbol) (hint : Int)
    (m : ASymbol) :
    (store_reflected_function w f (some n) hint).1.get_class m
      = if m = n then
          (w.get_class n).map (fun c => { c with m_functions := c.m_functions ++ [store_index w hint] })
        else w.get_class m := by
  unfold World.get_class
  rw [store_classes]
  exact find_modify_class (f := fun c => { c with m_functions := c.m_functions ++ [store_index w hint] })
    (fun _ => rfl) _ _

theorem store_get_class_none (w : World) (f : ReflectedFunction) (hint : Int) (m : ASymbol)
    (h : w.get_class f.owner = none) :
    (store_reflected_function w f none hint).1.get_class m
      = if m = f.owner then
          some { ReflectedClass.new f.owner with m_functions := [store_index w hint] }
        else w.get_class m := by
  unfold World.get_class
  rw [store_classes]
  exact find_append_class { ReflectedClass.new f.owner with m_functions := [store_index w hint] } _ _ h

theorem store_names_some (w : World) (f : ReflectedFunction) (n : ASymbol) (hint : Int) :
    (store_reflected_function w f (some n) hint).1.m_reflected_classes.map (fun c => c.name)
      = w.m_reflected_classes.map (fun c => c.name) := by
  rw [store_classes]
  exact modify_class_names (f := fun c => { c with m_functions := c.m_functions ++ [store_index w hint] })
    (fun _ => rfl) _

theorem store_classes_none_perm (w : World) (f : ReflectedFunction) (hint : Int) :
    (store_reflected_function w f none hint).1.m_reflected_classes.Perm
      ({ ReflectedClass.new f.owner with m_functions := [store_index w hint] }
        :: w.m_reflected_classes) := by
  rw [store_classes]
  exact append_class_perm _ _

theorem store_index_neg {w : World} {hint : Int} (hneg : hint < 0) :
    store_index w hint = first_free_slot w.m_reflected_functions := by
  unfold store_index; rw [if_pos hneg]

theorem store_index_nonneg {w : World} {hint : Int} (h : 0 ≤ hint) :
    (store_index w hint : Int) = hint := by
  unfold store_index
  rw [if_neg (by omega)]
  exact Int.toNat_of_nonneg h

theorem store_index_free {w : World} {hint : Int} (hneg : hint < 0) {i : Nat}
    (hnone : w.fn i = none) (hi : i < w.m_reflected_functions.length) :
    store_index w hint ≤ i ∧ store_index w hint < w.m_reflected_functions.length
      ∧ w.fn (store_index w hint) = none
      ∧ ∀ j, j < store_index w hint → (w.fn j).isSome = true := by
  rw [store_index_neg hneg]
  have hki : first_free_slot w.m_reflected_functions ≤ i := by
    by_contra hc
    have := first_free_slot_occupied (Nat.lt_of_not_le hc)
    unfold World.fn at hnone
    rw [hnone] at this
    cases this
  have hlt : first_free_slot w.m_reflected_functions < w.m_reflected_functions.length :=
    Nat.lt_of_le_of_lt hki hi
  exact ⟨hki, hlt, first_free_slot_none hlt, fun j hj => first_free_slot_occupied hj⟩

theorem store_index_full {w : World} {hint : Int} (hneg : hint < 0)
    (hall : ∀ i, i < w.m_reflected_functions.length → (w.fn i).isSome = true) :
    store_index w hint = w.m_reflected_functions.length := by
  rw [store_index_neg hneg]
  rcases Nat.lt_or_ge (first_free_slot w.m_reflected_functions) w.m_reflected_functions.length
    with hlt | hge
  · have h1 := hall _ hlt
    unfold World.fn at h1
    rw [first_free_slot_none hlt] at h1
    cases h1
  · exact Nat.le_antisymm (first_free_slot_le _) hge

theorem store_length (w : World) (f : ReflectedFunction) (cls : Option ASymbol) (hint : Int) :
    (store_reflected_function w f cls hint).1.m_reflected_functions.length
      = if store_index w hint = w.m_reflected_functions.length then w.m_reflected_functions.length + 1
        else w.m_reflected_functions.length := by
  rw [store_table]
  split <;> simp

/-- A store without index hint never writes to an occupied slot. -/
theorem store_index_neg_unoccupied {w : World} {hint : Int} (hneg : hint < 0) :
    w.fn (store_index w hint) = none ∧ store_index w hint ≤ w.m_reflected_functions.length := by
  rw [store_index_neg hneg]
  refine ⟨?_, first_free_slot_le _⟩
  rcases Nat.lt_or_ge (first_free_slot w.m_reflected_functions) w.m_reflected_functions.length
    with hlt | hge
  · exact first_free_slot_none hlt
  · exact fn_none_of_le hge

/-! ## `try_update_reflected_function` -/

theorem get_class_name {w : World} {n : ASymbol} {R : ReflectedClass}
    (h : w.get_class n = some R) : R.name = n := (find_class_some h).1

theorem get_class_mem {w : World} {n : ASymbol} {R : ReflectedClass}
    (h : w.get_class n = some R) : R ∈ w.m_reflected_classes := (find_class_some h).2

theorem is_slot_of_iff {w : World} {inv : SkInvokableBase} {i : Nat} :
    is_slot_of w inv i = true ↔
      ∃ e, w.fn i = some e ∧ e.name = inv.name ∧ e.m_is_class_member = inv.is_class_member := by
  unfold is_slot_of
  cases h : w.fn i with
  | none => simp
  | some e => simp

/-- The four outcomes of `try_update_reflected_function`. -/
theorem try_update_cases (w : World) (inv : SkInvokableBase) :
    (w.get_class inv.scope.name = none
      ∧ try_update_reflected_function w inv
          = { world := w, updated := false, out_reflected_class_p := none, out_function_index := -1 })
    ∨ (∃ R, w.get_class inv.scope.name = some R
      ∧ R.m_functions.find? (is_slot_of w inv) = none
      ∧ try_update_reflected_function w inv
          = { world := w, updated := false, out_reflected_class_p := some inv.scope.name,
              out_function_index := -1 })
    ∨ (∃ R i e, w.get_class inv.scope.name = some R
      ∧ R.m_functions.find? (is_slot_of w inv) = some i ∧ w.fn i = some e
      ∧ signature_matches e inv = false
      ∧ try_update_reflected_function w inv
          = { world := w, updated := false, out_reflected_class_p := some inv.scope.name,
              out_function_index := i })
    ∨ (∃ R i e, w.get_class inv.scope.name = some R
      ∧ R.m_functions.find? (is_slot_of w inv) = some i ∧ w.fn i = some e
      ∧ signature_matches e inv = true
      ∧ (try_update_reflected_function w inv).updated = true
      ∧ (try_update_reflected_function w inv).world.m_reflected_functions
          = w.m_reflected_functions.set i (some (e.update inv))
      ∧ (try_update_reflected_function w inv).world.m_reflected_classes = w.m_reflected_classes
      ∧ (try_update_reflected_function w inv).world.host_log = w.host_log) := by
  unfold try_update_reflected_function
  cases hR : w.get_class inv.scope.name with
  | none => exact Or.inl ⟨rfl, rfl⟩
  | some R =>
    have hn := get_class_name hR
    simp only
    cases hfind : R.m_functions.find? (is_slot_of w inv) with
    | none => exact Or.inr (Or.inl ⟨R, rfl, hfind, by rw [hn]⟩)
    | some i =>
      obtain ⟨e, he, _, _⟩ := is_slot_of_iff.1 (List.find?_some hfind)
      simp only [he]
      by_cases hsig1 : e.m_num_params ≠ inv.param_list.length
          ∨ e.m_result_type.m_sk_class_name ≠ inv.result_class.name
      · rw [if_pos hsig1]
        refine Or.inr (Or.inr (Or.inl ⟨R, i, e, rfl, hfind, he, ?_, by rw [hn]⟩))
        unfold signature_matches
        rcases hsig1 with h | h
        · simp [h]
        · simp [h]
      · rw [if_neg hsig1]
        have h1 : e.m_num_params = inv.param_list.length := by
          by_contra h; exact hsig1 (Or.inl h)
        have h2 : e.m_result_type.m_sk_class_name = inv.result_class.name := by
          by_contra h; exact hsig1 (Or.inr h)
        have hsm : signature_matches e inv = have_identical_signatures inv.param_list e.params := by
          unfold signature_matches; simp [h1, h2]
        cases hty : e.m_type with
        | ReflectedFunctionType_Call =>
          simp only
          cases hs : have_identical_signatures inv.param_list e.params with
          | false =>
            simp only [Bool.not_false, if_true]
            exact Or.inr (Or.inr (Or.inl ⟨R, i, e, rfl, hfind, he, by rw [hsm, hs], by rw [hn]⟩))
          | true =>
            simp only [Bool.not_true, Bool.false_eq_true, if_false]
            refine Or.inr (Or.inr (Or.inr ⟨R, i, e, rfl, hfind, he, by rw [hsm, hs], trivial, ?_, trivial, trivial⟩))
            unfold ReflectedFunction.update; rw [hty]
        | ReflectedFunctionType_Event =>
          simp only
          cases hs : have_identical_signatures inv.param_list e.params with
          | false =>
            simp only [Bool.not_false, if_true]
            exact Or.inr (Or.inr (Or.inl ⟨R, i, e, rfl, hfind, he, by rw [hsm, hs], by rw [hn]⟩))
          | true =>
            simp only [Bool.not_true, Bool.false_eq_true, if_false]
            refine Or.inr (Or.inr (Or.inr ⟨R, i, e, rfl, hfind, he, by rw [hsm, hs], trivial, ?_, ?_, ?_⟩))
            · unfold ReflectedFunction.update; rw [hty]
              unfold bind_event_method World.set_user_data
              split <;> rfl
            · unfold bind_event_method World.set_user_data
              split <;> rfl
            · unfold bind_event_method World.set_user_data
              split <;> rfl

/-! ## `add_reflected_call` and `add_reflected_event` -/

theorem modify_class_modify_class (n : ASymbol) (f g : ReflectedClass → ReflectedClass)
    (hf : ∀ c, (f c).name = c.name) (cs : List ReflectedClass) :
    modify_class n g (modify_class n f cs) = modify_class n (fun c => g (f c)) cs := by
  induction cs with
  | nil => rfl
  | cons d ds ih =>
    rw [modify_class_cons, modify_class_cons]
    by_cases hd : d.name = n
    · rw [if_pos hd, if_pos hd, modify_class_cons, if_pos (by rw [hf]; exact hd)]
    · rw [if_neg hd, if_neg hd, modify_class_cons, if_neg hd, ih]

theorem store_table_eq (w : World) (f : ReflectedFunction) (cls : Option ASymbol) (hint : Int) :
    (store_reflected_function w f cls hint).1.m_reflected_functions
      = table_with w.m_reflected_functions (store_index w hint) f := store_table w f cls hint

theorem delete_log_some {w : World} {i : Nat} {e : ReflectedFunction} (h : w.fn i = some e) :
    (delete_reflected_function w i).host_log = w.host_log ++ destroy_ops e := by
  rw [delete_log, h]
  unfold destroy_ops
  cases hu : e.m_ue_function_p <;> simp [hu]

theorem bind_event_method_fields (w : World) (inv : SkInvokableBase) :
    (bind_event_method w inv).m_reflected_functions = w.m_reflected_functions
    ∧ (bind_event_method w inv).m_reflected_classes = w.m_reflected_classes
    ∧ (bind_event_method w inv).host_log = w.host_log
    ∧ (bind_event_method w inv).user_data = w.user_data := by
  unfold bind_event_method
  split <;> exact ⟨rfl, rfl, rfl, rfl⟩

/-- Both add functions are: update, else remove the stale entry, (bind,) store. -/
theorem add_spec_of_store (type : eReflectedFunctionType) (w : World) (inv : SkInvokableBase)
    (res : World × Bool) (pre : World → World)
    (hpre : ∀ v, (pre v).m_reflected_functions = v.m_reflected_functions
      ∧ (pre v).m_reflected_classes = v.m_reflected_classes ∧ (pre v).host_log = v.host_log)
    (hres : res =
      if (try_update_reflected_function w inv).updated then
        ((try_update_reflected_function w inv).world, false)
      else
        ((store_reflected_function (pre (remove_stale (try_update_reflected_function w inv)))
            (ReflectedFunction.new type inv)
            (try_update_reflected_function w inv).out_reflected_class_p
            (try_update_reflected_function w inv).out_function_index).1, true)) :
    AddSpec type w inv res := by
  rcases try_update_cases w inv with ⟨hR, hr⟩ | ⟨R, hR, hfind, hr⟩ | ⟨R, i, e, hR, hfind, he, hsig, hr⟩
    | ⟨R, i, e, hR, hfind, he, hsig, hupd, hT, hC, hL⟩
  · -- no record
    rw [hr] at hres
    simp only [Bool.false_eq_true, if_false, remove_stale] at hres
    rw [if_neg (by decide)] at hres
    subst hres
    refine Or.inr (Or.inl ⟨hR, rfl, ?_, ?_, ?_⟩)
    · rw [store_table_eq, store_index_neg (by decide), (hpre w).1]
    · rw [store_classes, store_index_neg (by decide), (hpre w).1, (hpre w).2.1]
      rfl
    · rw [store_log, (hpre w).2.2]
  · -- record, no slot
    rw [hr] at hres
    simp only [Bool.false_eq_true, if_false, remove_stale] at hres
    rw [if_neg (by decide)] at hres
    subst hres
    refine Or.inr (Or.inr (Or.inl ⟨R, hR, hfind, rfl, ?_, ?_, ?_⟩))
    · rw [store_table_eq, store_index_neg (by decide), (hpre w).1]
    · rw [store_classes, store_index_neg (by decide), (hpre w).1, (hpre w).2.1]
    · rw [store_log, (hpre w).2.2]
  · -- signature mismatch
    rw [hr] at hres
    simp only [Bool.false_eq_true, if_false, remove_stale] at hres
    rw [if_pos (Int.ofNat_nonneg i)] at hres
    simp only [Int.toNat_ofNat] at hres
    subst hres
    have hlt := fn_lt_length he
    have hidx : ∀ v : World, store_index v (i : Int) = i := by
      intro v; unfold store_index; rw [if_neg (by omega)]; rfl
    refine Or.inr (Or.inr (Or.inr ⟨R, i, e, hR, hfind, he, hsig, rfl, ?_, ?_, ?_⟩))
    · rw [store_table_eq, hidx, (hpre _).1]
      simp only [delete_table]
      unfold table_with
      rw [if_neg (by simp; omega), List.set_set]
    · rw [store_classes, hidx, (hpre _).2.1]
      simp only [delete_classes]
      exact modify_class_modify_class inv.scope.name
        (fun c => { c with m_functions := c.m_functions.erase i })
        (fun c => { c with m_functions := c.m_functions ++ [i] }) (fun _ => rfl) _
    · rw [store_log, (hpre _).2.2]
      simp only
      exact delete_log_some he
  · -- updated in place
    rw [hupd] at hres
    simp only [if_true] at hres
    subst hres
    exact Or.inl ⟨R, i, e, hR, hfind, he, hsig, rfl, hT, hC, hL⟩

theorem add_reflected_call_spec (w : World) (inv : SkInvokableBase) :
    AddSpec eReflectedFunctionType.ReflectedFunctionType_Call w inv (add_reflected_call w inv) :=
  add_spec_of_store _ w inv _ (fun v => v) (fun _ => ⟨rfl, rfl, rfl⟩) rfl

theorem add_reflected_event_spec (w : World) (inv : SkInvokableBase) :
    AddSpec eReflectedFunctionType.ReflectedFunctionType_Event w inv (add_reflected_event w inv) :=
  add_spec_of_store _ w inv _ (fun v => bind_event_method v inv)
    (fun v => ⟨(bind_event_method_fields v inv).1, (bind_event_method_fields v inv).2.1,
      (bind_event_method_fields v inv).2.2.1⟩) rfl

/-! ## Signatures and the search for a routine's slot -/

theorem find_unique {l : List Nat} {p : Nat → Bool} {i : Nat} (hi : i ∈ l) (hp : p i = true)
    (hother : ∀ j ∈ l, j ≠ i → p j = false) : l.find? p = some i := by
  induction l with
  | nil => cases hi
  | cons a as ih =>
    rw [List.find?_cons]
    by_cases ha : a = i
    · subst ha; rw [hp]
    · rw [hother a (List.mem_cons_self _ _) ha]
      rcases List.mem_cons.1 hi with h | h
      · exact absurd h.symm ha
      · exact ih h (fun j hj => hother j (List.mem_cons_of_mem _ hj))

theorem have_identical_signatures_iff (ps : List SkParameterBase) (ts : List ReflectedParam)
    (hlen : ts.length = ps.length) :
    have_identical_signatures ps ts = true ↔
      ts.map (fun t => (t.typed.name, t.typed.m_sk_class_name))
        = ps.map (fun p => (p.name, p.expected_type.name)) := by
  induction ps generalizing ts with
  | nil =>
    cases ts with
    | nil => simp [have_identical_signatures]
    | cons t ts => simp at hlen
  | cons p ps ih =>
    cases ts with
    | nil => simp at hlen
    | cons t ts =>
      have hlen' : ts.length = ps.length := by simpa using hlen
      unfold have_identical_signatures
      by_cases h : t.typed.name ≠ p.name ∨ t.typed.m_sk_class_name ≠ p.expected_type.name
      · rw [if_pos h]
        simp only [List.map_cons, List.cons.injEq, Prod.mk.injEq]
        constructor
        · intro hf; cases hf
        · intro hh
          rcases h with h | h
          · exact absurd hh.1.1 h
          · exact absurd hh.1.2 h
      · rw [if_neg h, ih ts hlen']
        have h1 : t.typed.name = p.name := by
          by_contra hc; exact h (Or.inl hc)
        have h2 : t.typed.m_sk_class_name = p.expected_type.name := by
          by_contra hc; exact h (Or.inr hc)
        simp [h1, h2]

theorem signature_matches_iff (e : ReflectedFunction) (inv : SkInvokableBase) :
    signature_matches e inv = true ↔
      e.params.map (fun t => (t.typed.name, t.typed.m_sk_class_name))
          = inv.param_list.map (fun p => (p.name, p.expected_type.name))
        ∧ e.m_result_type.m_sk_class_name = inv.result_class.name := by
  unfold signature_matches ReflectedFunction.m_num_params
  constructor
  · intro h
    simp only [Bool.and_eq_true, beq_iff_eq] at h
    exact ⟨(have_identical_signatures_iff _ _ h.1.1).1 h.2, h.1.2⟩
  · intro h
    have hlen : e.params.length = inv.param_list.length := by
      have := congrArg List.length h.1
      simpa using this
    simp only [Bool.and_eq_true, beq_iff_eq]
    exact ⟨⟨hlen, h.2⟩, (have_identical_signatures_iff _ _ hlen).2 h.1⟩

theorem signature_mismatch_of_param {e : ReflectedFunction} {inv : SkInvokableBase} {k : Nat}
    {p : SkParameterBase} {t : ReflectedParam} (hp : inv.param_list[k]? = some p)
    (ht : e.params[k]? = some t) (hne : t.typed.m_sk_class_name ≠ p.expected_type.name) :
    signature_matches e inv = false := by
  cases h : signature_matches e inv with
  | false => rfl
  | true =>
    exfalso
    have h1 := ((signature_matches_iff e inv).1 h).1
    have h2 := congrArg (fun l => l[k]?) h1
    simp only [List.getElem?_map, hp, ht, Option.map_some'] at h2
    simp only [Option.some.injEq, Prod.mk.injEq] at h2
    exact hne h2.2

theorem signature_mismatch_of_count {e : ReflectedFunction} {inv : SkInvokableBase}
    (h : e.m_num_params ≠ inv.param_list.length) : signature_matches e inv = false := by
  unfold signature_matches
  simp [h]

theorem update_fields (e : ReflectedFunction) (inv : SkInvokableBase) :
    (e.update inv).name = e.name ∧ (e.update inv).m_is_class_member = e.m_is_class_member
    ∧ (e.update inv).m_type = e.m_type
    ∧ (e.update inv).m_ue_function_p = e.m_ue_function_p
    ∧ (e.update inv).m_sk_invokable_p = inv
    ∧ (e.update inv).m_marked_for_delete_class = false
    ∧ (e.update inv).m_marked_for_delete_all = false := by
  unfold ReflectedFunction.update
  cases h : e.m_type <;> exact ⟨rfl, rfl, h, rfl, rfl, rfl, rfl⟩

/-- Outcome of an add when the routine's slot is `i` and the signature matches. -/
theorem add_spec_same_signature {type : eReflectedFunctionType} {w : World} {inv : SkInvokableBase}
    {res : World × Bool} (h : AddSpec type w inv res) {R : ReflectedClass} {i : Nat}
    {e : ReflectedFunction} (hR : w.get_class inv.scope.name = some R)
    (hfind : R.m_functions.find? (is_slot_of w inv) = some i) (he : w.fn i = some e)
    (hsig : signature_matches e inv = true) :
    res.2 = false
    ∧ res.1.m_reflected_functions = w.m_reflected_functions.set i (some (e.update inv))
    ∧ res.1.m_reflected_classes = w.m_reflected_classes ∧ res.1.host_log = w.host_log := by
  rcases h with ⟨R', i', e', hR', hfind', he', _, h1, h2, h3, h4⟩ | ⟨hR', _⟩ | ⟨R', hR', hfind', _⟩
    | ⟨R', i', e', hR', hfind', he', hsig', _⟩
  · rw [hR] at hR'; cases hR'
    rw [hfind] at hfind'; cases hfind'
    rw [he] at he'; cases he'
    exact ⟨h1, h2, h3, h4⟩
  · rw [hR] at hR'; cases hR'
  · rw [hR] at hR'; cases hR'
    rw [hfind] at hfind'; cases hfind'
  · rw [hR] at hR'; cases hR'
    rw [hfind] at hfind'; cases hfind'
    rw [he] at he'; cases he'
    rw [hsig] at hsig'; cases hsig'

/-- Outcome of an add when the routine's slot is `i` and the signature differs. -/
theorem add_spec_other_signature {type : eReflectedFunctionType} {w : World} {inv : SkInvokableBase}
    {res : World × Bool} (h : AddSpec type w inv res) {R : ReflectedClass} {i : Nat}
    {e : ReflectedFunction} (hR : w.get_class inv.scope.name = some R)
    (hfind : R.m_functions.find? (is_slot_of w inv) = some i) (he : w.fn i = some e)
    (hsig : signature_matches e inv = false) :
    res.2 = true
    ∧ res.1.m_reflected_functions
        = w.m_reflected_functions.set i (some (ReflectedFunction.new type inv))
    ∧ res.1.m_reflected_classes
        = modify_class inv.scope.name
            (fun c => { c with m_functions := c.m_functions.erase i ++ [i] }) w.m_reflected_classes
    ∧ res.1.host_log = w.host_log ++ destroy_ops e := by
  rcases h with ⟨R', i', e', hR', hfind', he', hsig', _⟩ | ⟨hR', _⟩ | ⟨R', hR', hfind', _⟩
    | ⟨R', i', e', hR', hfind', he', _, h1, h2, h3, h4⟩
  · rw [hR] at hR'; cases hR'
    rw [hfind] at hfind'; cases hfind'
    rw [he] at he'; cases he'
    rw [hsig] at hsig'; cases hsig'
  · rw [hR] at hR'; cases hR'
  · rw [hR] at hR'; cases hR'
    rw [hfind] at hfind'; cases hfind'
  · rw [hR] at hR'; cases hR'
    rw [hfind] at hfind'; cases hfind'
    rw [he] at he'; cases he'
    exact ⟨h1, h2, h3, h4⟩

theorem fn_of_table_set {w w' : World} {i : Nat} {v : ReflectedFunction}
    (h : w'.m_reflected_functions = w.m_reflected_functions.set i (some v))
    (hi : i < w.m_reflected_functions.length) (j : Nat) :
    w'.fn j = if j = i then some v else w.fn j := by
  unfold World.fn
  rw [h, getD_set_none]
  by_cases hj : j = i
  · subst hj; rw [if_pos ⟨rfl, hi⟩, if_pos rfl]
  · rw [if_neg (fun hh => hj hh.1.symm), if_neg hj]

/-! ## The sweep loop -/

theorem rotate_last_perm (rest : List FunctionIndex) : (rotate_last rest).Perm rest := by
  unfold rotate_last
  cases h : rest.getLast? with
  | none =>
    rw [List.getLast?_eq_none_iff] at h
    rw [h]
  | some last =>
    have h2 : rest = rest.dropLast ++ [last] := by
      have hne : rest ≠ [] := by
        intro hn; rw [hn] at h; cases h
      rw [List.getLast?_eq_getLast _ hne] at h
      cases h
      exact (List.dropLast_append_getLast hne).symm
    simp only
    conv => rhs; rw [h2]
    exact (List.perm_append_singleton last rest.dropLast).symm

theorem rotate_last_length (rest : List FunctionIndex) : (rotate_last rest).length = rest.length :=
  (rotate_last_perm rest).length_eq

theorem remove_fast_append (kept : List FunctionIndex) (x : FunctionIndex)
    (rest : List FunctionIndex) :
    remove_fast (kept ++ x :: rest) kept.length = kept ++ rotate_last rest := by
  unfold remove_fast rotate_last
  cases rest with
  | nil =>
    simp [List.getLast?_append]
  | cons y ys =>
    have hne : (y :: ys) ≠ [] := by simp
    have h1 : (kept ++ x :: y :: ys).getLast? = some ((y :: ys).getLast hne) := by
      rw [List.getLast?_append]
      simp [List.getLast?_cons_cons, List.getLast?_eq_getLast _ hne]
    rw [h1, List.getLast?_eq_getLast _ hne]
    simp only
    rw [List.set_append_right _ _ (Nat.le_refl _)]
    simp only [Nat.sub_self, List.set_cons_zero]
    rw [List.dropLast_append_of_ne_nil _ (by simp)]
    rfl

theorem getElem?_append_length (kept : List FunctionIndex) (rest : List FunctionIndex) :
    (kept ++ rest)[kept.length]? = rest.head? := by
  rw [List.getElem?_append_right (Nat.le_refl _)]
  cases rest <;> simp

theorem sweep_marked_eq (marked : ReflectedFunction → Bool) (fuel : Nat) :
    ∀ (kept rest : List FunctionIndex) (w : World) (count : Nat),
      sweep_marked marked fuel kept.length w (kept ++ rest) count
        = ((sweep_rest marked fuel w rest count).1, kept ++ (sweep_rest marked fuel w rest count).2.1,
            (sweep_rest marked fuel w rest count).2.2) := by
  induction fuel with
  | zero => intro kept rest w count; rfl
  | succ fuel ih =>
    intro kept rest w count
    cases rest with
    | nil =>
      unfold sweep_marked sweep_rest
      rw [getElem?_append_length]
      rfl
    | cons x rest =>
      unfold sweep_marked sweep_rest
      rw [getElem?_append_length]
      simp only [List.head?_cons]
      unfold is_stale
      cases hx : w.fn x with
      | none =>
        simp only [Bool.false_eq_true, if_false]
        have := ih (kept ++ [x]) rest w count
        simp only [List.length_append, List.length_singleton, List.append_assoc,
          List.singleton_append] at this
        exact this
      | some f =>
        simp only
        by_cases hm : marked f = true
        · rw [if_pos hm, if_pos hm, remove_fast_append]
          exact ih kept (rotate_last rest) _ _
        · rw [if_neg hm, if_neg hm]
          have := ih (kept ++ [x]) rest w count
          simp only [List.length_append, List.length_singleton, List.append_assoc,
            List.singleton_append] at this
          exact this

theorem sweep_class_eq (marked : ReflectedFunction → Bool) (w : World) (fns : List FunctionIndex) :
    sweep_class marked w fns = sweep_rest marked fns.length w fns 0 := by
  unfold sweep_class
  have := sweep_marked_eq marked fns.length [] fns w 0
  simpa using this

theorem is_stale_delete (marked : ReflectedFunction → Bool) (w : World) (x j : Nat) :
    is_stale marked (delete_reflected_function w x) j
      = if x = j then false else is_stale marked w j := by
  unfold is_stale
  rw [delete_fn]
  by_cases h : x = j
  · rw [if_pos h, if_pos h]
  · rw [if_neg h, if_neg h]

theorem delete_log_extra (w : World) (x : Nat) :
    ∃ d, (delete_reflected_function w x).host_log = w.host_log ++ d
      ∧ ∀ op ∈ d, ∃ u, op = HostOp.destroy_ue_function u := by
  rw [delete_log]
  cases hb : (w.fn x).bind (fun f => f.m_ue_function_p) with
  | none => exact ⟨[], rfl, by simp⟩
  | some u => exact ⟨[HostOp.destroy_ue_function u], rfl, by simp⟩

theorem sweep_rest_noop (marked : ReflectedFunction → Bool) :
    ∀ (fuel : Nat) (w : World) (rest : List FunctionIndex) (count : Nat),
      (∀ j ∈ rest, is_stale marked w j = false) →
      sweep_rest marked fuel w rest count = (w, rest, count) := by
  intro fuel
  induction fuel with
  | zero => intro w rest count _; rfl
  | succ fuel ih =>
    intro w rest count h
    cases rest with
    | nil => rfl
    | cons x rest =>
      unfold sweep_rest
      rw [h x (List.mem_cons_self _ _)]
      simp only [Bool.false_eq_true, if_false]
      rw [ih w rest count (fun j hj => h j (List.mem_cons_of_mem _ hj))]

theorem sweep_rest_spec (marked : ReflectedFunction → Bool) :
    ∀ (fuel : Nat) (w : World) (rest : List FunctionIndex) (count : Nat),
      rest.length ≤ fuel → rest.Nodup →
      (∀ j, (sweep_rest marked fuel w rest count).1.fn j
          = if j ∈ rest ∧ is_stale marked w j = true then none else w.fn j)
      ∧ (sweep_rest marked fuel w rest count).2.1.Perm
          (rest.filter (fun j => !is_stale marked w j))
      ∧ (sweep_rest marked fuel w rest count).2.2
          = count + (rest.filter (is_stale marked w)).length
      ∧ (sweep_rest marked fuel w rest count).1.m_reflected_classes = w.m_reflected_classes
      ∧ (sweep_rest marked fuel w rest count).1.m_reflected_functions.length
          = w.m_reflected_functions.length
      ∧ (∃ extra, (sweep_rest marked fuel w rest count).1.host_log = w.host_log ++ extra
          ∧ ∀ op ∈ extra, ∃ u, op = HostOp.destroy_ue_function u) := by
  intro fuel
  induction fuel with
  | zero =>
    intro w rest count hlen _
    have : rest = [] := List.length_eq_zero.1 (Nat.le_zero.1 hlen)
    subst this
    exact ⟨fun j => by simp [sweep_rest], List.Perm.refl _, rfl, rfl, rfl, [], by simp [sweep_rest],
      by simp⟩
  | succ fuel ih =>
    intro w rest count hlen hnd
    cases rest with
    | nil =>
      exact ⟨fun j => by simp [sweep_rest], List.Perm.refl _, rfl, rfl, rfl, [],
        by simp [sweep_rest], by simp⟩
    | cons x rest =>
      have hlen' : rest.length ≤ fuel := by simpa using hlen
      have hx : x ∉ rest := (List.nodup_cons.1 hnd).1
      have hnd' : rest.Nodup := (List.nodup_cons.1 hnd).2
      unfold sweep_rest
      by_cases hs : is_stale marked w x = true
      · rw [if_pos hs]
        have hp := rotate_last_perm rest
        obtain ⟨h1, h2, h3, h4, h5, extra, h6, h7⟩ :=
          ih (delete_reflected_function w x) (rotate_last rest) (count + 1)
            (by rw [rotate_last_length]; exact hlen') (hp.nodup_iff.2 hnd')
        have hagree : ∀ j ∈ rest, is_stale marked (delete_reflected_function w x) j
            = is_stale marked w j := by
          intro j hj
          have hne : ¬ x = j := by
            intro h; rw [h] at hx; exact hx hj
          rw [is_stale_delete, if_neg hne]
        refine ⟨?_, ?_, ?_, ?_, ?_, ?_⟩
        · intro j
          rw [h1 j, delete_fn, is_stale_delete]
          by_cases hj : x = j
          · subst hj
            simp [hs]
          · have hj' : ¬ j = x := fun h => hj h.symm
            simp only [hj, if_false, hp.mem_iff, List.mem_cons, hj', false_or]
        · refine h2.trans ?_
          have e1 : (rotate_last rest).filter
                (fun j => !is_stale marked (delete_reflected_function w x) j)
              = (rotate_last rest).filter (fun j => !is_stale marked w j) := by
            apply List.filter_congr
            intro j hj
            rw [hagree j (hp.mem_iff.1 hj)]
          rw [e1, List.filter_cons]
          simp only [hs, Bool.not_true, Bool.false_eq_true, if_false]
          exact hp.filter _
        · rw [h3]
          have e1 : (rotate_last rest).filter (is_stale marked (delete_reflected_function w x))
              = (rotate_last rest).filter (is_stale marked w) := by
            apply List.filter_congr
            intro j hj
            rw [hagree j (hp.mem_iff.1 hj)]
          rw [e1, List.filter_cons, if_pos hs, (hp.filter _).length_eq]
          simp only [List.length_cons]
          omega
        · rw [h4, delete_classes]
        · rw [h5, delete_length]
        · obtain ⟨d, hd1, hd2⟩ := delete_log_extra w x
          refine ⟨d ++ extra, ?_, ?_⟩
          · rw [h6, hd1, List.append_assoc]
          · intro op hop
            rcases List.mem_append.1 hop with h | h
            · exact hd2 op h
            · exact h7 op h
      · rw [if_neg hs]
        have hs' : is_stale marked w x = false := by
          cases h : is_stale marked w x
          · rfl
          · exact absurd h hs
        obtain ⟨h1, h2, h3, h4, h5, h6⟩ := ih w rest count hlen' hnd'
        refine ⟨?_, ?_, ?_, h4, h5, h6⟩
        · intro j
          rw [h1 j]
          by_cases hj : j = x
          · subst hj
            simp [hs', hx]
          · simp only [List.mem_cons, hj, false_or]
        · rw [List.filter_cons]
          simp only [hs', Bool.not_false, if_true]
          exact List.Perm.cons x h2
        · rw [h3, List.filter_cons]
          simp [hs']

/-! ## Well-formedness seen through `get_class`, and frames -/

theorem World.WF.get_class_of_mem {w : World} (h : w.WF) {R : ReflectedClass}
    (hR : R ∈ w.m_reflected_classes) : w.get_class R.name = some R :=
  find_class_of_mem h.names_nodup hR

theorem World.WF.listed {w : World} (h : w.WF) {n : ASymbol} {R : ReflectedClass}
    (hR : w.get_class n = some R) {j : Nat} (hj : j ∈ R.m_functions) :
    ∃ f, w.fn j = some f ∧ f.owner = n := by
  obtain ⟨f, hf, ho⟩ := h.listed_occupied R (get_class_mem hR) j hj
  exact ⟨f, hf, by rw [ho, get_class_name hR]⟩

theorem World.WF.nodup {w : World} (h : w.WF) {n : ASymbol} {R : ReflectedClass}
    (hR : w.get_class n = some R) : R.m_functions.Nodup :=
  h.lists_nodup R (get_class_mem hR)

theorem World.WF.record_of {w : World} (h : w.WF) {j : Nat} {f : ReflectedFunction}
    (hf : w.fn j = some f) : ∃ R, w.get_class f.owner = some R ∧ j ∈ R.m_functions := by
  obtain ⟨c, hc, hn, hj⟩ := h.occupied_listed j f hf
  exact ⟨c, by rw [← hn]; exact h.get_class_of_mem hc, hj⟩

/-- An index listed by the record of `n` is listed by no record of another name. -/
theorem World.WF.not_listed_elsewhere {w : World} (h : w.WF) {j : Nat} {f : ReflectedFunction}
    (hf : w.fn j = some f) {m : ASymbol} {R : ReflectedClass} (hR : w.get_class m = some R)
    (hj : j ∈ R.m_functions) : f.owner = m := by
  obtain ⟨f', hf', ho⟩ := h.listed hR hj
  rw [hf] at hf'
  cases hf'
  exact ho

theorem Frame.frame_refl (n : ASymbol) (w : World) : Frame n w w :=
  ⟨fun _ _ => rfl, fun _ _ h _ => h, fun _ _ h _ => h, [], by simp, by simp⟩

theorem Frame.frame_trans {n : ASymbol} {w w' w'' : World} (h : Frame n w w') (h' : Frame n w' w'') :
    Frame n w w'' := by
  obtain ⟨x, hx, hx'⟩ := h.log
  obtain ⟨y, hy, hy'⟩ := h'.log
  refine ⟨fun m hm => by rw [h'.records m hm, h.records m hm],
    fun j f hf ho => h'.kept j f (h.kept j f hf ho) ho,
    fun j f hf ho => h.no_new j f (h'.no_new j f hf ho) ho,
    x ++ y, by rw [hy, hx, List.append_assoc], ?_⟩
  intro m u hmem
  rcases List.mem_append.1 hmem with hm | hm
  · exact hx' m u hm
  · exact hy' m u hm

/-- Well-formedness after a change that is framed to the class `n`: it is enough
to check the record of `n` and the entries it owns. -/
theorem wf_of_frame {n : ASymbol} {w w' : World} (h : w.WF) (hf : Frame n w w')
    (hnames : (w'.m_reflected_classes.map (fun c => c.name)).Nodup)
    (hlist : ∀ R, w'.get_class n = some R →
      R.m_functions.Nodup ∧ ∀ j ∈ R.m_functions, ∃ f, w'.fn j = some f ∧ f.owner = n)
    (hown : ∀ j f, w'.fn j = some f → f.owner = n →
      ∃ R, w'.get_class n = some R ∧ j ∈ R.m_functions) : w'.WF := by
  refine ⟨hnames, ?_, ?_, ?_⟩
  · intro c hc i hi
    have hg : w'.get_class c.name = some c := find_class_of_mem hnames hc
    by_cases hn : c.name = n
    · rw [hn] at hg
      obtain ⟨f, hfi, ho⟩ := (hlist c hg).2 i hi
      exact ⟨f, hfi, by rw [ho, hn]⟩
    · rw [hf.records _ hn] at hg
      obtain ⟨f, hfi, ho⟩ := h.listed hg hi
      exact ⟨f, hf.kept i f hfi (by rw [ho]; exact hn), ho⟩
  · intro c hc
    have hg : w'.get_class c.name = some c := find_class_of_mem hnames hc
    by_cases hn : c.name = n
    · rw [hn] at hg
      exact (hlist c hg).1
    · rw [hf.records _ hn] at hg
      exact h.nodup hg
  · intro i f hfi
    by_cases hn : f.owner = n
    · obtain ⟨R, hR, hi⟩ := hown i f hfi hn
      exact ⟨R, get_class_mem hR, by rw [get_class_name hR, hn], hi⟩
    · obtain ⟨R, hR, hi⟩ := h.record_of (hf.no_new i f hfi hn)
      rw [← hf.records _ hn] at hR
      exact ⟨R, get_class_mem hR, get_class_name hR, hi⟩

/-! ## Up-to-date entries -/

theorem rebind_new (ps : List SkParameterBase) :
    rebind_params_to_sk ps (ps.map (fun p => ReflectedParam.new p.name p.expected_type))
      = ps.map (fun p => ReflectedParam.new p.name p.expected_type) := by
  induction ps with
  | nil => rfl
  | cons p ps ih =>
    simp only [List.map_cons, rebind_params_to_sk, ih]
    rfl

theorem rebind_rebind (ps : List SkParameterBase) (ts : List ReflectedParam) :
    rebind_params_to_sk ps (rebind_params_to_sk ps ts) = rebind_params_to_sk ps ts := by
  induction ps generalizing ts with
  | nil => rfl
  | cons p ps ih =>
    cases ts with
    | nil => rfl
    | cons t ts => simp only [rebind_params_to_sk, ih]

theorem rebind_names (ps : List SkParameterBase) (ts : List ReflectedParam)
    (h : ts.length = ps.length) :
    (rebind_params_to_sk ps ts).map (fun t => (t.typed.name, t.typed.m_sk_class_name))
      = ts.map (fun t => (t.typed.name, t.typed.m_sk_class_name)) := by
  induction ps generalizing ts with
  | nil => rfl
  | cons p ps ih =>
    cases ts with
    | nil => simp at h
    | cons t ts =>
      simp only [rebind_params_to_sk, List.map_cons]
      rw [ih ts (by simpa using h)]

theorem up_to_date_new (type : eReflectedFunctionType) (inv : SkInvokableBase) :
    UpToDate (ReflectedFunction.new type inv) inv := by
  refine ⟨rfl, rfl, ?_, ?_⟩
  · rw [signature_matches_iff]
    refine ⟨?_, rfl⟩
    simp only [ReflectedFunction.new, List.map_map]
    rfl
  · unfold ReflectedFunction.update
    cases type
    · simp only [ReflectedFunction.new, ReflectedFunction.update_call, rebind_new]
      rfl
    · simp only [ReflectedFunction.new, ReflectedFunction.update_event, rebind_new]

theorem update_params (e : ReflectedFunction) (inv : SkInvokableBase) :
    (e.update inv).params = rebind_params_to_sk inv.param_list e.params
    ∧ (e.update inv).m_result_type.m_sk_class_name = e.m_result_type.m_sk_class_name := by
  unfold ReflectedFunction.update
  cases e.m_type <;> exact ⟨rfl, rfl⟩

theorem update_update (e : ReflectedFunction) (inv : SkInvokableBase) :
    (e.update inv).update inv = e.update inv := by
  have ht := (update_fields e inv).2.2.1
  unfold ReflectedFunction.update at ht ⊢
  cases h : e.m_type
  · rw [h] at ht
    simp only at ht ⊢
    rw [ht]
    simp only [ReflectedFunction.update_call, rebind_rebind]
  · rw [h] at ht
    simp only at ht ⊢
    rw [ht]
    simp only [ReflectedFunction.update_event, rebind_rebind]

theorem up_to_date_update {e : ReflectedFunction} {inv : SkInvokableBase}
    (hname : e.name = inv.name) (hmember : e.m_is_class_member = inv.is_class_member)
    (hsig : signature_matches e inv = true) : UpToDate (e.update inv) inv := by
  have hu := update_fields e inv
  refine ⟨by rw [hu.1, hname], by rw [hu.2.1, hmember], ?_, update_update e inv⟩
  rw [signature_matches_iff] at hsig ⊢
  have hlen : e.params.length = inv.param_list.length := by
    have := congrArg List.length hsig.1
    simpa using this
  rw [(update_params e inv).1, (update_params e inv).2, rebind_names _ _ hlen]
  exact hsig

theorem UpToDate.fields {f : ReflectedFunction} {inv : SkInvokableBase} (h : UpToDate f inv) :
    f.m_sk_invokable_p = inv ∧ f.owner = inv.scope.name
    ∧ f.m_marked_for_delete_class = false ∧ f.m_marked_for_delete_all = false := by
  have hu := update_fields f inv
  rw [h.2.2.2] at hu
  exact ⟨hu.2.2.2.2.1, by unfold ReflectedFunction.owner; rw [hu.2.2.2.2.1], hu.2.2.2.2.2.1,
    hu.2.2.2.2.2.2⟩

/-! ## An add puts one entry -/

theorem fn_of_table_with {w w' : World} {k : Nat} {v : ReflectedFunction}
    (h : w'.m_reflected_functions = table_with w.m_reflected_functions k v)
    (hk : k ≤ w.m_reflected_functions.length) (j : Nat) :
    w'.fn j = if j = k then some v else w.fn j := by
  unfold World.fn
  rw [h]
  unfold table_with
  split
  · rename_i he
    rw [getD_append_one, he]
  · rename_i hne
    rw [getD_set_none]
    have hlt : k < w.m_reflected_functions.length := Nat.lt_of_le_of_ne hk hne
    by_cases hj : j = k
    · subst hj; rw [if_pos ⟨rfl, hlt⟩, if_pos rfl]
    · rw [if_neg (fun hh => hj hh.1.symm), if_neg hj]

theorem fn_first_free_slot (w : World) : w.fn (first_free_slot w.m_reflected_functions) = none :=
  (@store_index_neg_unoccupied w (-1) (by decide)).1 ▸ by
    rw [store_index_neg (by decide)]

theorem destroy_ops_only (e : ReflectedFunction) :
    ∀ op ∈ destroy_ops e, ∃ u, op = HostOp.destroy_ue_function u := by
  intro op hop
  unfold destroy_ops at hop
  cases h : e.m_ue_function_p with
  | none => rw [h] at hop; cases hop
  | some u => rw [h] at hop; exact ⟨u, by simpa using hop⟩

theorem get_class_congr {w w' : World} (h : w'.m_reflected_classes = w.m_reflected_classes)
    (m : ASymbol) : w'.get_class m = w.get_class m := by
  unfold World.get_class; rw [h]

theorem put_of_add_spec {type : eReflectedFunctionType} {w : World} {inv : SkInvokableBase}
    {res : World × Bool} (h : AddSpec type w inv res) :
    ∃ p g, Put inv.scope.name w res.1 p g ∧ UpToDate g inv := by
  rcases h with ⟨R, i, e, hR, hfind, he, hsig, _, hT, hC, hL⟩ | ⟨hR, _, hT, hC, hL⟩
    | ⟨R, hR, hfind, _, hT, hC, hL⟩ | ⟨R, i, e, hR, hfind, he, hsig, _, hT, hC, hL⟩
  · -- updated in place
    obtain ⟨e', he', hname, hmember⟩ := is_slot_of_iff.1 (List.find?_some hfind)
    rw [he] at he'; cases he'
    have hi : i ∈ R.m_functions := List.mem_of_find?_eq_some hfind
    have hu := update_fields e inv
    refine ⟨i, e.update inv, ⟨?_, ?_, ?_, ?_, ?_, ?_, ?_⟩, up_to_date_update hname hmember hsig⟩
    · unfold ReflectedFunction.owner; rw [hu.2.2.2.2.1]
    · exact fn_of_table_set hT (fn_lt_length he)
    · intro m _; exact get_class_congr hC m
    · intro hn; rw [hC]; exact hn
    · refine ⟨R, by rw [get_class_congr hC, hR], ?_, ?_, ?_⟩
      · intro j
        constructor
        · intro hj; exact Or.inr ⟨R, hR, hj⟩
        · rintro (hj | ⟨R2, hR2, hj⟩)
          · rw [hj]; exact hi
          · rw [hR] at hR2; cases hR2; exact hj
      · intro R2 hR2
        rw [hR] at hR2; cases hR2
        exact ⟨rfl, rfl, fun hn _ => hn⟩
      · intro hn; rw [hR] at hn; cases hn
    · exact Or.inr ⟨R, e, hR, hi, he, hu.1.symm, hu.2.1.symm⟩
    · exact ⟨[], by rw [hL]; simp, by simp⟩
  · -- new record
    have hk := first_free_slot_le w.m_reflected_functions
    have hC' : res.1.m_reflected_classes
        = append_class ⟨inv.scope.name, none, [first_free_slot w.m_reflected_functions], false⟩
            w.m_reflected_classes := hC
    have hnone : w.m_reflected_classes.find? (fun d => d.name ==
        (⟨inv.scope.name, none, [first_free_slot w.m_reflected_functions], false⟩
          : ReflectedClass).name) = none := hR
    refine ⟨first_free_slot w.m_reflected_functions, ReflectedFunction.new type inv,
      ⟨rfl, ?_, ?_, ?_, ?_, ?_, ?_⟩, up_to_date_new type inv⟩
    · exact fn_of_table_with hT hk
    · intro m hm
      unfold World.get_class
      rw [hC', find_append_class _ _ _ hnone, if_neg hm]
    · intro hn
      rw [hC']
      have hp := (append_class_perm
        (⟨inv.scope.name, none, [first_free_slot w.m_reflected_functions], false⟩ : ReflectedClass)
        w.m_reflected_classes).map (fun c => c.name)
      rw [hp.nodup_iff]
      simp only [List.map_cons, List.nodup_cons]
      exact ⟨find_class_none.1 hR, hn⟩
    · refine ⟨⟨inv.scope.name, none, [first_free_slot w.m_reflected_functions], false⟩,
        ?_, ?_, ?_, ?_⟩
      · unfold World.get_class
        rw [hC', find_append_class _ _ _ hnone, if_pos rfl]
      · intro j
        rw [hR]
        simp
      · intro R2 hR2; rw [hR] at hR2; cases hR2
      · intro _; rfl
    · exact Or.inl (fn_first_free_slot w)
    · exact ⟨[], by rw [hL]; simp, by simp⟩
  · -- new slot in an existing record
    have hk := first_free_slot_le w.m_reflected_functions
    refine ⟨first_free_slot w.m_reflected_functions, ReflectedFunction.new type inv,
      ⟨rfl, ?_, ?_, ?_, ?_, ?_, ?_⟩, up_to_date_new type inv⟩
    · exact fn_of_table_with hT hk
    · intro m hm
      unfold World.get_class
      rw [hC, find_modify_class (f := fun c => { c with m_functions :=
        c.m_functions ++ [first_free_slot w.m_reflected_functions] }) (fun _ => rfl), if_neg hm]
    · intro hn
      rw [hC, modify_class_names (f := fun c => { c with m_functions :=
        c.m_functions ++ [first_free_slot w.m_reflected_functions] }) (fun _ => rfl)]
      exact hn
    · refine ⟨⟨R.name, R.m_ue_static_class_p,
          R.m_functions ++ [first_free_slot w.m_reflected_functions], R.m_store_sk_instance⟩,
        ?_, ?_, ?_, ?_⟩
      · unfold World.get_class at hR ⊢
        rw [hC, find_modify_class (f := fun c => { c with m_functions :=
          c.m_functions ++ [first_free_slot w.m_reflected_functions] }) (fun _ => rfl),
          if_pos rfl, hR]
        rfl
      · intro j
        rw [hR]
        simp only [List.mem_append, List.mem_singleton, Option.some.injEq, exists_eq_left']
        constructor
        · rintro (h | h)
          · exact Or.inr h
          · exact Or.inl h
        · rintro (h | h)
          · exact Or.inr h
          · exact Or.inl h
      · intro R2 hR2
        rw [hR] at hR2; cases hR2
        refine ⟨rfl, rfl, fun hn hp => ?_⟩
        simp only
        rw [List.nodup_append]
        refine ⟨hn, List.nodup_singleton _, ?_⟩
        intro a ha hb
        rw [List.mem_singleton] at hb
        subst hb
        exact hp (fn_first_free_slot w) ha
      · intro hn; rw [hR] at hn; cases hn
    · exact Or.inl (fn_first_free_slot w)
    · exact ⟨[], by rw [hL]; simp, by simp⟩
  · -- replaced
    obtain ⟨e', he', hname, hmember⟩ := is_slot_of_iff.1 (List.find?_some hfind)
    rw [he] at he'; cases he'
    have hi : i ∈ R.m_functions := List.mem_of_find?_eq_some hfind
    refine ⟨i, ReflectedFunction.new type inv, ⟨rfl, ?_, ?_, ?_, ?_, ?_, ?_⟩,
      up_to_date_new type inv⟩
    · exact fn_of_table_set hT (fn_lt_length he)
    · intro m hm
      unfold World.get_class
      rw [hC, find_modify_class (f := fun c =>
        { c with m_functions := (c.m_functions.erase i ++ [i]) }) (fun _ => rfl), if_neg hm]
    · intro hn
      rw [hC, modify_class_names (f := fun c =>
        { c with m_functions := (c.m_functions.erase i ++ [i]) }) (fun _ => rfl)]
      exact hn
    · refine ⟨⟨R.name, R.m_ue_static_class_p, R.m_functions.erase i ++ [i], R.m_store_sk_instance⟩,
        ?_, ?_, ?_, ?_⟩
      · unfold World.get_class at hR ⊢
        rw [hC, find_modify_class (f := fun c => { c with m_functions := (c.m_functions.erase i ++ [i]) }) (fun _ => rfl), if_pos rfl, hR]
        rfl
      · intro j
        rw [hR]
        simp only [List.mem_append, List.mem_singleton, Option.some.injEq, exists_eq_left']
        constructor
        · rintro (h | h)
          · exact Or.inr (List.mem_of_mem_erase h)
          · exact Or.inl h
        · rintro (h | h)
          · exact Or.inr h
          · by_cases hj : j = i
            · exact Or.inr hj
            · exact Or.inl ((List.mem_erase_of_ne hj).2 h)
      · intro R2 hR2
        rw [hR] at hR2; cases hR2
        refine ⟨rfl, rfl, fun hn _ => ?_⟩
        simp only
        rw [List.nodup_append]
        refine ⟨hn.erase i, List.nodup_singleton _, ?_⟩
        intro a ha hb
        rw [List.mem_singleton] at hb
        subst hb
        exact (List.Nodup.not_mem_erase hn) ha
      · intro hn; rw [hR] at hn; cases hn
    · exact Or.inr ⟨R, e, hR, hi, he, hname, hmember⟩
    · exact ⟨destroy_ops e, hL, destroy_ops_only e⟩

theorem frame_of_put {n : ASymbol} {w w' : World} {p : Nat} {g : ReflectedFunction}
    (hwf : w.WF) (h : Put n w w' p g) : Frame n w w' := by
  refine ⟨h.other, ?_, ?_, ?_⟩
  · intro j f hf ho
    rw [h.fn_eq j]
    by_cases hj : j = p
    · subst hj
      rcases h.slot with hs | ⟨R, e, hR, hp, he, _, _⟩
      · rw [hs] at hf; cases hf
      · exact absurd (hwf.not_listed_elsewhere hf hR hp) ho
    · rw [if_neg hj]; exact hf
  · intro j f hf ho
    rw [h.fn_eq j] at hf
    by_cases hj : j = p
    · rw [if_pos hj] at hf
      cases hf
      exact absurd h.owner ho
    · rw [if_neg hj] at hf; exact hf
  · obtain ⟨extra, h1, h2⟩ := h.log
    refine ⟨extra, h1, ?_⟩
    intro m u hm
    obtain ⟨u', hu'⟩ := h2 _ hm
    cases hu'

theorem wf_of_put {n : ASymbol} {w w' : World} {p : Nat} {g : ReflectedFunction}
    (hwf : w.WF) (h : Put n w w' p g) : w'.WF := by
  obtain ⟨R', hR', hmem, hold, hnew⟩ := h.record
  apply wf_of_frame hwf (frame_of_put hwf h) (h.names hwf.names_nodup)
  · intro R'' hR''
    rw [hR'] at hR''; cases hR''
    constructor
    · cases hR : w.get_class n with
      | none => rw [hnew hR]; exact List.nodup_singleton _
      | some R =>
        refine (hold R hR).2.2 (hwf.nodup hR) ?_
        intro hp hin
        obtain ⟨f, hf, _⟩ := hwf.listed hR hin
        rw [hp] at hf; cases hf
    · intro j hj
      rw [h.fn_eq j]
      by_cases hjp : j = p
      · rw [if_pos hjp]; exact ⟨g, rfl, h.owner⟩
      · rw [if_neg hjp]
        rcases (hmem j).1 hj with hj' | ⟨R, hR, hj'⟩
        · exact absurd hj' hjp
        · exact hwf.listed hR hj'
  · intro j f hf ho
    refine ⟨R', hR', (hmem j).2 ?_⟩
    rw [h.fn_eq j] at hf
    by_cases hjp : j = p
    · exact Or.inl hjp
    · rw [if_neg hjp] at hf
      obtain ⟨R, hR, hj⟩ := hwf.record_of hf
      rw [ho] at hR
      exact Or.inr ⟨R, hR, hj⟩

/-! ## `try_add_reflected_function` and the gathering loops -/

theorem try_add_cases (w : World) (inv : SkInvokableBase) :
    (exposed_as inv = none ∧ (try_add_reflected_function w inv).2 = false
      ∧ (try_add_reflected_function w inv).1.m_reflected_functions = w.m_reflected_functions
      ∧ (try_add_reflected_function w inv).1.m_reflected_classes = w.m_reflected_classes
      ∧ ∃ extra, (try_add_reflected_function w inv).1.host_log = w.host_log ++ extra
          ∧ ∀ op ∈ extra, ∃ p, op = HostOp.error p)
    ∨ ∃ type, exposed_as inv = some type ∧ AddSpec type w inv (try_add_reflected_function w inv) := by
  unfold try_add_reflected_function exposed_as
  by_cases h1 : inv.annotation_flags.ue4_blueprint = true
  · rw [if_pos h1, if_pos h1]
    by_cases h2 : inv.invoke_type = eSkInvokable.SkInvokable_method_func
        ∨ inv.invoke_type = eSkInvokable.SkInvokable_method_mthd
    · rw [if_pos h2, if_pos h2]
      exact Or.inr ⟨_, rfl, add_reflected_event_spec w inv⟩
    · rw [if_neg h2, if_neg h2]
      by_cases h3 : inv.invoke_type = eSkInvokable.SkInvokable_method
          ∨ inv.invoke_type = eSkInvokable.SkInvokable_coroutine
      · rw [if_pos h3, if_pos h3]
        exact Or.inr ⟨_, rfl, add_reflected_call_spec w inv⟩
      · rw [if_neg h3, if_neg h3]
        exact Or.inl ⟨rfl, rfl, rfl, rfl, [HostOp.error inv.ptr], rfl, by simp⟩
  · rw [if_neg h1, if_neg h1]
    by_cases h4 : inv.scope.annotation_flags.reflected_data = true
    · rw [if_pos h4, if_pos h4]
      by_cases h2 : inv.invoke_type = eSkInvokable.SkInvokable_method_func
          ∨ inv.invoke_type = eSkInvokable.SkInvokable_method_mthd
      · rw [if_pos h2, if_pos h2]
        exact Or.inr ⟨_, rfl, add_reflected_event_spec w inv⟩
      · rw [if_neg h2, if_neg h2]
        exact Or.inl ⟨rfl, rfl, rfl, rfl, [], by simp, by simp⟩
    · rw [if_neg h4, if_neg h4]
      exact Or.inl ⟨rfl, rfl, rfl, rfl, [], by simp, by simp⟩

theorem fn_congr {w w' : World} (h : w'.m_reflected_functions = w.m_reflected_functions)
    (j : Nat) : w'.fn j = w.fn j := by
  unfold World.fn; rw [h]

/-- A step that leaves table and class records alone and logs no callback. -/
theorem frame_of_same {n : ASymbol} {w w' : World}
    (hT : w'.m_reflected_functions = w.m_reflected_functions)
    (hC : w'.m_reflected_classes = w.m_reflected_classes)
    (hL : ∃ extra, w'.host_log = w.host_log ++ extra
      ∧ ∀ m u, HostOp.function_removed_from_class m u ∈ extra → m = n) : Frame n w w' :=
  ⟨fun m _ => get_class_congr hC m, fun j f hf _ => by rw [fn_congr hT]; exact hf,
    fun j f hf _ => by rw [fn_congr hT] at hf; exact hf, hL⟩

theorem wf_of_same {w w' : World} (h : w.WF)
    (hT : w'.m_reflected_functions = w.m_reflected_functions)
    (hC : w'.m_reflected_classes = w.m_reflected_classes) : w'.WF := by
  refine ⟨by rw [hC]; exact h.names_nodup, ?_, ?_, ?_⟩
  · intro c hc i hi
    rw [hC] at hc
    rw [fn_congr hT]
    exact h.listed_occupied c hc i hi
  · intro c hc
    rw [hC] at hc
    exact h.lists_nodup c hc
  · intro i f hf
    rw [fn_congr hT] at hf
    rw [hC]
    exact h.occupied_listed i f hf

theorem gather_inv_of_same {w w' : World} {c : SkClass} {P : Prop} {done : List SkRoutine}
    (h : GatherInv w c P done)
    (hT : w'.m_reflected_functions = w.m_reflected_functions)
    (hC : w'.m_reflected_classes = w.m_reflected_classes) (r : SkRoutine)
    (hr : exposed_as (c.invokable r) = none) : GatherInv w' c P (done ++ [r]) := by
  refine ⟨wf_of_same h.wf hT hC, ?_, ?_, ?_⟩
  · intro R hR j hj f hf
    rw [get_class_congr hC] at hR
    rw [fn_congr hT] at hf
    rcases h.entries R hR j hj f hf with hm | ⟨r', hr', he, hu⟩
    · exact Or.inl hm
    · exact Or.inr ⟨r', List.mem_append_left _ hr', he, hu⟩
  · intro r' hr' he
    rcases List.mem_append.1 hr' with hd | hd
    · obtain ⟨R, j, f, hR, hj, hf, hu⟩ := h.routines r' hd he
      exact ⟨R, j, f, by rw [get_class_congr hC]; exact hR, hj, by rw [fn_congr hT]; exact hf, hu⟩
    · rw [List.mem_singleton] at hd
      subst hd
      rw [hr] at he
      cases he
  · intro R hR j₁ hj₁ j₂ hj₂ f₁ f₂ hf₁ hf₂
    rw [get_class_congr hC] at hR
    rw [fn_congr hT] at hf₁ hf₂
    exact h.distinct R hR j₁ hj₁ j₂ hj₂ f₁ f₂ hf₁ hf₂

theorem rec_keep_of_put {n : ASymbol} {w w' : World} {p : Nat} {g : ReflectedFunction}
    (h : Put n w w' p g) : RecKeep n w w' := by
  intro R hR
  obtain ⟨R', hR', _, hold, _⟩ := h.record
  exact ⟨R', hR', (hold R hR).1, (hold R hR).2.1⟩

theorem gather_inv_of_put {w w' : World} {c : SkClass} {P : Prop} {done : List SkRoutine}
    (h : GatherInv w c P done) {p : Nat} {g : ReflectedFunction} {r : SkRoutine}
    (hput : Put c.name w w' p g) (hg : UpToDate g (c.invokable r))
    (hexp : (exposed_as (c.invokable r)).isSome = true)
    (hkey : ∀ r' ∈ done, ¬ (r'.name = r.name ∧ r'.is_class_member = r.is_class_member)) :
    GatherInv w' c P (done ++ [r]) := by
  obtain ⟨R', hR', hmem, hold, hnew⟩ := hput.record
  have hgname : g.name = r.name := hg.1
  have hgmem : g.m_is_class_member = r.is_class_member := hg.2.1
  -- an up-to-date entry of a gathered routine is not at `p`
  have hnotp : ∀ f r', r' ∈ done → w.fn p = some f → UpToDate f (c.invokable r') → False := by
    intro f r' hr' hf hu
    rcases hput.slot with hs | ⟨R, e, hR, hp, he, hen, hem⟩
    · rw [hs] at hf; cases hf
    · rw [hf] at he; cases he
      apply hkey r' hr'
      have h1 : f.name = r'.name := hu.1
      have h2 : f.m_is_class_member = r'.is_class_member := hu.2.1
      exact ⟨by rw [← h1, hen, hgname], by rw [← h2, hem, hgmem]⟩
  -- the old entries of the list
  have hold_mem : ∀ j, j ∈ R'.m_functions → j ≠ p →
      ∃ R, w.get_class c.name = some R ∧ j ∈ R.m_functions := by
    intro j hj hjp
    rcases (hmem j).1 hj with h1 | h1
    · exact absurd h1 hjp
    · exact h1
  refine ⟨wf_of_put h.wf hput, ?_, ?_, ?_⟩
  · intro R'' hR'' j hj f hf
    rw [hR'] at hR''; cases hR''
    rw [hput.fn_eq j] at hf
    by_cases hjp : j = p
    · rw [if_pos hjp] at hf
      cases hf
      exact Or.inr ⟨r, List.mem_append_right _ (List.mem_singleton.2 rfl), hexp, hg⟩
    · rw [if_neg hjp] at hf
      obtain ⟨R, hR, hjR⟩ := hold_mem j hj hjp
      rcases h.entries R hR j hjR f hf with hm | ⟨r', hr', he, hu⟩
      · exact Or.inl hm
      · exact Or.inr ⟨r', List.mem_append_left _ hr', he, hu⟩
  · intro r' hr' he
    rcases List.mem_append.1 hr' with hd | hd
    · obtain ⟨R, j, f, hR, hj, hf, hu⟩ := h.routines r' hd he
      have hjp : j ≠ p := by
        intro hjp
        rw [hjp] at hf
        exact hnotp f r' hd hf hu
      refine ⟨R', j, f, hR', (hmem j).2 (Or.inr ⟨R, hR, hj⟩), ?_, hu⟩
      rw [hput.fn_eq j, if_neg hjp]
      exact hf
    · rw [List.mem_singleton] at hd
      subst hd
      refine ⟨R', p, g, hR', (hmem p).2 (Or.inl rfl), ?_, hg⟩
      rw [hput.fn_eq p, if_pos rfl]
  · intro R'' hR'' j₁ hj₁ j₂ hj₂ f₁ f₂ hf₁ hf₂ hm₁ hm₂ hn hb
    rw [hR'] at hR''; cases hR''
    rw [hput.fn_eq] at hf₁ hf₂
    -- an unmarked old entry has another name or member flag than `g`
    have hconf : ∀ j f, j ∈ R'.m_functions → j ≠ p → w.fn j = some f →
        f.m_marked_for_delete_class = false → f.name = g.name →
        f.m_is_class_member = g.m_is_class_member → False := by
      intro j f hj hjp hf hm hn' hb'
      obtain ⟨R, hR, hjR⟩ := hold_mem j hj hjp
      rcases h.entries R hR j hjR f hf with ⟨hmk, _⟩ | ⟨r', hr', _, hu⟩
      · rw [hm] at hmk; cases hmk
      · apply hkey r' hr'
        have h1 : f.name = r'.name := hu.1
        have h2 : f.m_is_class_member = r'.is_class_member := hu.2.1
        exact ⟨by rw [← h1, hn', hgname], by rw [← h2, hb', hgmem]⟩
    by_cases h1 : j₁ = p
    · by_cases h2 : j₂ = p
      · rw [h1, h2]
      · rw [if_pos h1] at hf₁
        rw [if_neg h2] at hf₂
        cases hf₁
        exact (hconf j₂ f₂ hj₂ h2 hf₂ hm₂ hn.symm hb.symm).elim
    · by_cases h2 : j₂ = p
      · rw [if_neg h1] at hf₁
        rw [if_pos h2] at hf₂
        cases hf₂
        exact (hconf j₁ f₁ hj₁ h1 hf₁ hm₁ hn hb).elim
      · rw [if_neg h1] at hf₁
        rw [if_neg h2] at hf₂
        obtain ⟨R, hR, hjR₁⟩ := hold_mem j₁ hj₁ h1
        obtain ⟨R2, hR2, hjR₂⟩ := hold_mem j₂ hj₂ h2
        rw [hR] at hR2; cases hR2
        exact h.distinct R hR j₁ hjR₁ j₂ hjR₂ f₁ f₂ hf₁ hf₂ hm₁ hm₂ hn hb

theorem RecKeep.keep_refl (n : ASymbol) (w : World) : RecKeep n w w :=
  fun R hR => ⟨R, hR, rfl, rfl⟩

theorem RecKeep.keep_trans {n : ASymbol} {w w' w'' : World} (h : RecKeep n w w')
    (h' : RecKeep n w' w'') : RecKeep n w w'' := by
  intro R hR
  obtain ⟨R', hR', h1, h2⟩ := h R hR
  obtain ⟨R'', hR'', h3, h4⟩ := h' R' hR'
  exact ⟨R'', hR'', by rw [h3, h1], by rw [h4, h2]⟩

theorem rec_keep_of_same {n : ASymbol} {w w' : World}
    (hC : w'.m_reflected_classes = w.m_reflected_classes) : RecKeep n w w' :=
  fun R hR => ⟨R, by rw [get_class_congr hC]; exact hR, rfl, rfl⟩

theorem gather_step {c : SkClass} {P : Prop} {done : List SkRoutine} {w : World}
    (h : GatherInv w c P done) (r : SkRoutine)
    (hkey : ∀ r' ∈ done, ¬ (r'.name = r.name ∧ r'.is_class_member = r.is_class_member)) :
    GatherInv (try_add_reflected_function w (c.invokable r)).1 c P (done ++ [r])
    ∧ Frame c.name w (try_add_reflected_function w (c.invokable r)).1
    ∧ RecKeep c.name w (try_add_reflected_function w (c.invokable r)).1 := by
  rcases try_add_cases w (c.invokable r) with ⟨hexp, _, hT, hC, extra, hL, hE⟩
    | ⟨type, hexp, hspec⟩
  · refine ⟨gather_inv_of_same h hT hC r hexp, frame_of_same hT hC ⟨extra, hL, ?_⟩,
      rec_keep_of_same hC⟩
    intro m u hm
    obtain ⟨p, hp⟩ := hE _ hm
    cases hp
  · obtain ⟨p, g, hput, hg⟩ := put_of_add_spec hspec
    have hput' : Put c.name w (try_add_reflected_function w (c.invokable r)).1 p g := hput
    exact ⟨gather_inv_of_put h hput' hg (by rw [hexp]; rfl) hkey, frame_of_put h.wf hput',
      rec_keep_of_put hput'⟩

theorem gather_cons (c : SkClass) (r : SkRoutine) (rs : List SkRoutine) (acc : World × Nat) :
    gather c (r :: rs) acc
      = gather c rs ((try_add_reflected_function acc.1 (c.invokable r)).1,
          acc.2 + (try_add_reflected_function acc.1 (c.invokable r)).2.toNat) := rfl

theorem gather_append (c : SkClass) (rs rs' : List SkRoutine) (acc : World × Nat) :
    gather c (rs ++ rs') acc = gather c rs' (gather c rs acc) := by
  unfold gather
  rw [List.foldl_append]

theorem gather_class_eq (c : SkClass) (w : World) :
    gather_class c w = gather c c.routines (w, 0) := by
  unfold gather_class SkClass.routines
  rw [gather_append, gather_append]

theorem gather_spec {c : SkClass} {P : Prop} :
    ∀ (rs done : List SkRoutine) (w : World) (count : Nat), GatherInv w c P done →
      ((done ++ rs).map (fun r => (r.name, r.is_class_member))).Nodup →
      GatherInv (gather c rs (w, count)).1 c P (done ++ rs)
      ∧ Frame c.name w (gather c rs (w, count)).1
      ∧ RecKeep c.name w (gather c rs (w, count)).1 := by
  intro rs
  induction rs with
  | nil =>
    intro done w count h _
    rw [List.append_nil]
    exact ⟨h, Frame.frame_refl _ _, RecKeep.keep_refl _ _⟩
  | cons r rs ih =>
    intro done w count h hnd
    have hkey : ∀ r' ∈ done, ¬ (r'.name = r.name ∧ r'.is_class_member = r.is_class_member) := by
      intro r' hr' hk
      rw [List.map_append, List.map_cons] at hnd
      have hdis := (List.nodup_append.1 hnd).2.2
      apply hdis (List.mem_map.2 ⟨r', hr', rfl⟩) 
      rw [show (r'.name, r'.is_class_member) = (r.name, r.is_class_member) from by rw [hk.1, hk.2]]
      exact List.mem_cons_self _ _
    obtain ⟨h1, h2, h3⟩ := gather_step h r hkey
    rw [gather_cons]
    have hnd' : (((done ++ [r]) ++ rs).map (fun r => (r.name, r.is_class_member))).Nodup := by
      rw [List.append_assoc]; exact hnd
    obtain ⟨h4, h5, h6⟩ := ih (done ++ [r]) _ (count + _) h1 hnd'
    rw [List.append_assoc] at h4
    exact ⟨h4, h2.frame_trans h5, h3.keep_trans h6⟩

/-! ## The marking and record blocks of `sync_class_from_sk` -/

theorem mark_for_delete_class_spec (w : World) (x : Nat) :
    (mark_for_delete_class w x).m_reflected_classes = w.m_reflected_classes
    ∧ (mark_for_delete_class w x).host_log = w.host_log
    ∧ (∀ j, (mark_for_delete_class w x).fn j
        = if j = x then (w.fn j).map (fun f => { f with m_marked_for_delete_class := true })
          else w.fn j) := by
  unfold mark_for_delete_class
  cases hx : w.fn x with
  | none =>
    refine ⟨rfl, rfl, fun j => ?_⟩
    by_cases hj : j = x
    · rw [if_pos hj, hj, hx]; rfl
    · rw [if_neg hj]
  | some f =>
    refine ⟨rfl, rfl, fun j => ?_⟩
    have hlt := fn_lt_length hx
    unfold World.fn at hx ⊢
    simp only
    rw [getD_set_none]
    by_cases hj : j = x
    · rw [if_pos ⟨hj.symm, hlt⟩, if_pos hj, hj, hx]; rfl
    · rw [if_neg (fun h => hj h.1.symm), if_neg hj]

theorem mark_fold_spec : ∀ (fns : List FunctionIndex) (w : World),
    (fns.foldl mark_for_delete_class w).m_reflected_classes = w.m_reflected_classes
    ∧ (fns.foldl mark_for_delete_class w).host_log = w.host_log
    ∧ (∀ j, (fns.foldl mark_for_delete_class w).fn j
        = if j ∈ fns then (w.fn j).map (fun f => { f with m_marked_for_delete_class := true })
          else w.fn j) := by
  intro fns
  induction fns with
  | nil => intro w; exact ⟨rfl, rfl, fun j => by simp⟩
  | cons x xs ih =>
    intro w
    obtain ⟨h1, h2, h3⟩ := ih (mark_for_delete_class w x)
    obtain ⟨g1, g2, g3⟩ := mark_for_delete_class_spec w x
    rw [List.foldl_cons]
    refine ⟨by rw [h1, g1], by rw [h2, g2], fun j => ?_⟩
    rw [h3 j, g3 j]
    by_cases hjx : j = x
    · subst hjx
      simp only [if_true, List.mem_cons, true_or]
      by_cases hjs : j ∈ xs
      · rw [if_pos hjs]
        cases w.fn j <;> rfl
      · rw [if_neg hjs]
    · simp only [hjx, if_false, List.mem_cons, false_or]

/-- The world after the first block, entry by entry. -/
theorem mark_class_spec (w : World) (n : ASymbol) :
    (mark_class_for_delete w (w.get_class n)).m_reflected_classes = w.m_reflected_classes
    ∧ (mark_class_for_delete w (w.get_class n)).host_log = w.host_log
    ∧ (∀ j, (mark_class_for_delete w (w.get_class n)).fn j
        = if (∃ R, w.get_class n = some R ∧ j ∈ R.m_functions) then
            (w.fn j).map (fun f => { f with m_marked_for_delete_class := true })
          else w.fn j) := by
  unfold mark_class_for_delete
  cases hR : w.get_class n with
  | none => exact ⟨rfl, rfl, fun j => by simp⟩
  | some R =>
    obtain ⟨h1, h2, h3⟩ := mark_fold_spec R.m_functions w
    refine ⟨h1, h2, fun j => ?_⟩
    rw [h3 j]
    simp

theorem mark_class_frame {w : World} (hwf : w.WF) (n : ASymbol) :
    (mark_class_for_delete w (w.get_class n)).WF
    ∧ Frame n w (mark_class_for_delete w (w.get_class n)) := by
  obtain ⟨h1, h2, h3⟩ := mark_class_spec w n
  have hframe : Frame n w (mark_class_for_delete w (w.get_class n)) := by
    refine ⟨fun m _ => get_class_congr h1 m, ?_, ?_, [], by rw [h2]; simp, by simp⟩
    · intro j f hf ho
      rw [h3 j]
      split
      · rename_i hex
        obtain ⟨R, hR, hj⟩ := hex
        exact absurd (hwf.not_listed_elsewhere hf hR hj) ho
      · exact hf
    · intro j f hf ho
      rw [h3 j] at hf
      split at hf
      · rename_i hex
        obtain ⟨R, hR, hj⟩ := hex
        obtain ⟨f0, hf0, ho0⟩ := hwf.listed hR hj
        rw [hf0] at hf
        simp only [Option.map_some', Option.some.injEq] at hf
        subst hf
        exact absurd ho0 ho
      · exact hf
  refine ⟨?_, hframe⟩
  apply wf_of_frame hwf hframe (by rw [h1]; exact hwf.names_nodup)
  · intro R hR
    rw [get_class_congr h1] at hR
    refine ⟨hwf.nodup hR, fun j hj => ?_⟩
    obtain ⟨f0, hf0, ho0⟩ := hwf.listed hR hj
    rw [h3 j, if_pos ⟨R, hR, hj⟩, hf0]
    exact ⟨_, rfl, ho0⟩
  · intro j f hf ho
    rw [h3 j] at hf
    split at hf
    · rename_i hex
      obtain ⟨R, hR, hj⟩ := hex
      exact ⟨R, by rw [get_class_congr h1]; exact hR, hj⟩
    · obtain ⟨R, hR, hj⟩ := hwf.record_of hf
      rw [ho] at hR
      exact ⟨R, by rw [get_class_congr h1]; exact hR, hj⟩

theorem get_class_eq_find (w : World) (m : ASymbol) :
    w.get_class m = w.m_reflected_classes.find? (fun c => c.name == m) := rfl

theorem ensure_record_spec (w : World) (c superclass : SkClass) (rcp : Option ReflectedClass)
    (hrcp : w.get_class c.name = rcp) :
    (ensure_instance_record w c superclass rcp).m_reflected_functions = w.m_reflected_functions
    ∧ (ensure_instance_record w c superclass rcp).host_log = w.host_log
    ∧ (∀ m, m ≠ c.name → (ensure_instance_record w c superclass rcp).get_class m = w.get_class m)
    ∧ ((w.m_reflected_classes.map (fun d => d.name)).Nodup →
        ((ensure_instance_record w c superclass rcp).m_reflected_classes.map
          (fun d => d.name)).Nodup)
    ∧ (∀ R2, (ensure_instance_record w c superclass rcp).get_class c.name = some R2 →
        (∃ R1, w.get_class c.name = some R1 ∧ R2.m_functions = R1.m_functions)
        ∨ (w.get_class c.name = none ∧ R2.m_functions = []))
    ∧ (does_class_need_instance_property c = true →
        does_class_need_instance_property superclass = false →
        ∃ R2, (ensure_instance_record w c superclass rcp).get_class c.name = some R2
          ∧ R2.m_store_sk_instance = true)
    ∧ ((ensure_instance_record w c superclass rcp).get_class c.name).isSome
        = (rcp.isSome || needs_instance_record c superclass rcp) := by
  have hT : (ensure_instance_record w c superclass rcp).m_reflected_functions
      = w.m_reflected_functions := by
    unfold ensure_instance_record; split <;> rfl
  have hL : (ensure_instance_record w c superclass rcp).host_log = w.host_log := by
    unfold ensure_instance_record; split <;> rfl
  by_cases hneeds : needs_instance_record c superclass rcp = true
  · cases rcp with
    | some R =>
      have hC : (ensure_instance_record w c superclass (some R)).m_reflected_classes
          = modify_class c.name (fun d => { d with m_store_sk_instance := true })
              w.m_reflected_classes := by
        unfold ensure_instance_record
        rw [if_pos hneeds]
      have hg : ∀ m, (ensure_instance_record w c superclass (some R)).get_class m
          = if m = c.name then some { R with m_store_sk_instance := true }
            else w.get_class m := by
        intro m
        rw [get_class_eq_find, hC,
          find_modify_class (f := fun d => { d with m_store_sk_instance := true }) (fun _ => rfl),
          ← get_class_eq_find, ← get_class_eq_find, hrcp]
        rfl
      refine ⟨hT, hL, ?_, ?_, ?_, ?_, ?_⟩
      · intro m hm
        rw [hg m, if_neg hm]
      · intro hn
        rw [hC, modify_class_names (f := fun d => { d with m_store_sk_instance := true })
          (fun _ => rfl)]
        exact hn
      · intro R2 hR2
        rw [hg, if_pos rfl] at hR2
        cases hR2
        exact Or.inl ⟨R, hrcp, rfl⟩
      · intro _ _
        rw [hg, if_pos rfl]
        exact ⟨_, rfl, rfl⟩
      · rw [hg, if_pos rfl]
        rfl
    | none =>
      have hnone : w.m_reflected_classes.find? (fun d => d.name == (ReflectedClass.new c.name).name)
          = none := hrcp
      have hC : (ensure_instance_record w c superclass none).m_reflected_classes
          = modify_class c.name (fun d => { d with m_store_sk_instance := true })
              (append_class (ReflectedClass.new c.name) w.m_reflected_classes) := by
        unfold ensure_instance_record
        rw [if_pos hneeds]
      have hg : ∀ m, (ensure_instance_record w c superclass none).get_class m
          = if m = c.name then
              some { ReflectedClass.new c.name with m_store_sk_instance := true }
            else w.get_class m := by
        intro m
        rw [get_class_eq_find, hC,
          find_modify_class (f := fun d => { d with m_store_sk_instance := true }) (fun _ => rfl)]
        have hname : (ReflectedClass.new c.name).name = c.name := rfl
        by_cases hm : m = c.name
        · rw [if_pos hm, if_pos hm, find_append_class _ _ _ hnone, if_pos hname.symm]
          rfl
        · rw [if_neg hm, if_neg hm, find_append_class _ _ _ hnone, if_neg (by rw [hname]; exact hm)]
          rfl
      refine ⟨hT, hL, ?_, ?_, ?_, ?_, ?_⟩
      · intro m hm
        rw [hg m, if_neg hm]
      · intro hn
        rw [hC, modify_class_names (f := fun d => { d with m_store_sk_instance := true })
          (fun _ => rfl)]
        have hp := (append_class_perm (ReflectedClass.new c.name) w.m_reflected_classes).map
          (fun d => d.name)
        rw [hp.nodup_iff]
        simp only [List.map_cons, List.nodup_cons]
        exact ⟨find_class_none.1 hrcp, hn⟩
      · intro R2 hR2
        rw [hg, if_pos rfl] at hR2
        cases hR2
        exact Or.inr ⟨hrcp, rfl⟩
      · intro _ _
        rw [hg, if_pos rfl]
        exact ⟨_, rfl, rfl⟩
      · rw [hg, if_pos rfl, hneeds]
        rfl
  · have hneeds' : needs_instance_record c superclass rcp = false := by
      cases h : needs_instance_record c superclass rcp
      · rfl
      · exact absurd h hneeds
    have hw : ensure_instance_record w c superclass rcp = w := by
      unfold ensure_instance_record
      rw [if_neg hneeds]
    rw [hw]
    refine ⟨rfl, rfl, fun _ _ => rfl, fun hn => hn, ?_, ?_, ?_⟩
    · intro R2 hR2
      exact Or.inl ⟨R2, hR2, rfl⟩
    · intro h1 h2
      unfold needs_instance_record at hneeds'
      rw [h1, h2] at hneeds'
      cases rcp with
      | none => simp at hneeds'
      | some R =>
        refine ⟨R, hrcp, ?_⟩
        simpa using hneeds'
    · rw [hneeds', hrcp]; simp

theorem ensure_record_frame {w : World} (hwf : w.WF) (c superclass : SkClass) :
    (ensure_instance_record w c superclass (w.get_class c.name)).WF
    ∧ Frame c.name w (ensure_instance_record w c superclass (w.get_class c.name)) := by
  obtain ⟨hT, hL, hother, hnames, hlist, _, hsome⟩ :=
    ensure_record_spec w c superclass (w.get_class c.name) rfl
  have hframe : Frame c.name w (ensure_instance_record w c superclass (w.get_class c.name)) :=
    ⟨hother, fun j f hf _ => by rw [fn_congr hT]; exact hf,
      fun j f hf _ => by rw [fn_congr hT] at hf; exact hf, [], by rw [hL]; simp, by simp⟩
  refine ⟨?_, hframe⟩
  apply wf_of_frame hwf hframe (hnames hwf.names_nodup)
  · intro R2 hR2
    rcases hlist R2 hR2 with ⟨R1, hR1, hl⟩ | ⟨_, hl⟩
    · rw [hl]
      refine ⟨hwf.nodup hR1, fun j hj => ?_⟩
      rw [fn_congr hT]
      exact hwf.listed hR1 hj
    · rw [hl]
      exact ⟨List.nodup_nil, fun j hj => by cases hj⟩
  · intro j f hf ho
    rw [fn_congr hT] at hf
    obtain ⟨R1, hR1, hj⟩ := hwf.record_of hf
    rw [ho] at hR1
    have hsome1 : (w.get_class c.name).isSome = true := by rw [hR1]; rfl
    rw [hsome1, Bool.true_or] at hsome
    obtain ⟨R2, hR2⟩ := Option.isSome_iff_exists.1 hsome
    refine ⟨R2, hR2, ?_⟩
    rcases hlist R2 hR2 with ⟨R1', hR1', hl⟩ | ⟨hn, _⟩
    · rw [hR1] at hR1'; cases hR1'
      rw [hl]; exact hj
    · rw [hR1] at hn; cases hn

/-! ## The sweep block of `sync_class_from_sk` -/

theorem notify_removed_extra (WITH_EDITOR callback removed : Bool) (R : ReflectedClass)
    (log : List HostOp) :
    ∃ extra, notify_removed WITH_EDITOR callback removed R log = log ++ extra
      ∧ ∀ m u, HostOp.function_removed_from_class m u ∈ extra → m = R.name := by
  unfold notify_removed
  split
  · cases R.m_ue_static_class_p with
    | none => exact ⟨[], by simp, by simp⟩
    | some u =>
      refine ⟨[HostOp.function_removed_from_class R.name u], rfl, ?_⟩
      intro m u' hm
      simp only [List.mem_singleton, HostOp.function_removed_from_class.injEq] at hm
      exact hm.1
  · exact ⟨[], by simp, by simp⟩

theorem sweep_record_none {WITH_EDITOR callback : Bool} {w : World} {n : ASymbol}
    (h : w.get_class n = none) : sweep_class_record WITH_EDITOR callback w n = (w, 0) := by
  unfold sweep_class_record
  rw [h]

theorem sweep_record_noop {WITH_EDITOR callback : Bool} {w : World} {n : ASymbol}
    (h : ∀ R, w.get_class n = some R →
      ∀ j ∈ R.m_functions, is_stale (fun f => f.m_marked_for_delete_class) w j = false) :
    sweep_class_record WITH_EDITOR callback w n = (w, 0) := by
  cases hR : w.get_class n with
  | none => exact sweep_record_none hR
  | some R =>
    unfold sweep_class_record
    rw [hR]
    simp only
    rw [sweep_class_eq, sweep_rest_noop _ _ _ _ _ (h R hR)]
    simp only [bne_self_eq_false]
    have h1 : modify_class n (fun c => { c with m_functions := R.m_functions })
        w.m_reflected_classes = w.m_reflected_classes := by
      apply modify_class_id
      intro R' hR'
      rw [← get_class_eq_find, hR] at hR'
      cases hR'
      rfl
    rw [h1]
    unfold notify_removed
    simp

theorem sweep_record_spec {WITH_EDITOR callback : Bool} {w : World} {n : ASymbol}
    {R : ReflectedClass} (hR : w.get_class n = some R) (hnd : R.m_functions.Nodup) :
    (∀ j, (sweep_class_record WITH_EDITOR callback w n).1.fn j
        = if j ∈ R.m_functions ∧ is_stale (fun f => f.m_marked_for_delete_class) w j = true then none
          else w.fn j)
    ∧ (∃ L', (sweep_class_record WITH_EDITOR callback w n).1.get_class n
          = some { R with m_functions := L' }
        ∧ L'.Perm (R.m_functions.filter
            (fun j => !is_stale (fun f => f.m_marked_for_delete_class) w j)))
    ∧ (∀ m, m ≠ n → (sweep_class_record WITH_EDITOR callback w n).1.get_class m = w.get_class m)
    ∧ (sweep_class_record WITH_EDITOR callback w n).1.m_reflected_classes.map (fun c => c.name)
        = w.m_reflected_classes.map (fun c => c.name)
    ∧ (sweep_class_record WITH_EDITOR callback w n).2
        = (R.m_functions.filter (is_stale (fun f => f.m_marked_for_delete_class) w)).length
    ∧ (∃ extra, (sweep_class_record WITH_EDITOR callback w n).1.host_log
          = notify_removed WITH_EDITOR callback
              ((sweep_class_record WITH_EDITOR callback w n).2 != 0) R (w.host_log ++ extra)
        ∧ ∀ op ∈ extra, ∃ u, op = HostOp.destroy_ue_function u)
    ∧ (sweep_class_record WITH_EDITOR callback w n).1.m_reflected_functions.length
        = w.m_reflected_functions.length := by
  obtain ⟨h1, h2, h3, h4, h5, extra, h6, h7⟩ :=
    sweep_rest_spec (fun f => f.m_marked_for_delete_class) R.m_functions.length w R.m_functions 0
      (Nat.le_refl _) hnd
  generalize hgen : sweep_rest (fun f => f.m_marked_for_delete_class) R.m_functions.length w
    R.m_functions 0 = s at h1 h2 h3 h4 h5 h6
  have hs : sweep_class_record WITH_EDITOR callback w n
      = ({ s.1 with
            m_reflected_classes :=
              (modify_class n (fun c => { c with m_functions := s.2.1 }) s.1.m_reflected_classes)
            host_log := (notify_removed WITH_EDITOR callback (s.2.2 != 0) R s.1.host_log) },
          s.2.2) := by
    unfold sweep_class_record
    rw [hR]
    simp only
    rw [sweep_class_eq, hgen]
  rw [hs]
  refine ⟨?_, ?_, ?_, ?_, ?_, ?_, ?_⟩
  · intro j; exact h1 j
  · refine ⟨s.2.1, ?_, h2⟩
    rw [get_class_eq_find]
    simp only
    rw [h4, find_modify_class (f := fun c => { c with m_functions := s.2.1 }) (fun _ => rfl),
      if_pos rfl, ← get_class_eq_find, hR]
    rfl
  · intro m hm
    rw [get_class_eq_find]
    simp only
    rw [h4, find_modify_class (f := fun c => { c with m_functions := s.2.1 }) (fun _ => rfl),
      if_neg hm]
    rfl
  · simp only
    rw [h4, modify_class_names (f := fun c => { c with m_functions := s.2.1 }) (fun _ => rfl)]
  · simp only
    rw [h3]; simp
  · refine ⟨extra, ?_, h7⟩
    simp only
    rw [h6]
  · exact h5

theorem is_stale_of_fn {marked : ReflectedFunction → Bool} {w : World} {j : Nat}
    {f : ReflectedFunction} (h : w.fn j = some f) : is_stale marked w j = marked f := by
  unfold is_stale; rw [h]

theorem sweep_record_frame {WITH_EDITOR callback : Bool} {w : World} (hwf : w.WF) (n : ASymbol) :
    (sweep_class_record WITH_EDITOR callback w n).1.WF
    ∧ Frame n w (sweep_class_record WITH_EDITOR callback w n).1
    ∧ RecKeep n w (sweep_class_record WITH_EDITOR callback w n).1 := by
  cases hR : w.get_class n with
  | none =>
    rw [sweep_record_none hR]
    exact ⟨hwf, Frame.frame_refl _ _, RecKeep.keep_refl _ _⟩
  | some R =>
    obtain ⟨h1, ⟨L', h2, h2p⟩, h3, h4, _, ⟨extra, h6, h7⟩, _⟩ :=
      @sweep_record_spec WITH_EDITOR callback _ _ _ hR (hwf.nodup hR)
    have hmemL : ∀ j, j ∈ L' ↔ j ∈ R.m_functions
        ∧ is_stale (fun f => f.m_marked_for_delete_class) w j = false := by
      intro j
      rw [h2p.mem_iff, List.mem_filter]
      simp
    have hframe : Frame n w (sweep_class_record WITH_EDITOR callback w n).1 := by
      refine ⟨h3, ?_, ?_, ?_⟩
      · intro j f hf ho
        rw [h1 j, if_neg]
        · exact hf
        · intro hc
          exact ho (hwf.not_listed_elsewhere hf hR hc.1)
      · intro j f hf _
        rw [h1 j] at hf
        split at hf
        · cases hf
        · exact hf
      · obtain ⟨x, hx, hx'⟩ := notify_removed_extra WITH_EDITOR callback
          ((sweep_class_record WITH_EDITOR callback w n).2 != 0) R (w.host_log ++ extra)
        refine ⟨extra ++ x, by rw [h6, hx, List.append_assoc], ?_⟩
        intro m u hm
        rcases List.mem_append.1 hm with h | h
        · obtain ⟨u', hu'⟩ := h7 _ h
          cases hu'
        · rw [hx' m u h, get_class_name hR]
    refine ⟨?_, hframe, ?_⟩
    · apply wf_of_frame hwf hframe (by rw [h4]; exact hwf.names_nodup)
      · intro R' hR'
        rw [h2] at hR'
        cases hR'
        refine ⟨h2p.nodup_iff.2 ((hwf.nodup hR).filter _), ?_⟩
        intro j hj
        have hj' := (hmemL j).1 hj
        obtain ⟨f, hf, ho⟩ := hwf.listed hR hj'.1
        refine ⟨f, ?_, ho⟩
        rw [h1 j, if_neg]
        · exact hf
        · intro hc
          rw [hj'.2] at hc
          cases hc.2
      · intro j f hf ho
        refine ⟨_, h2, ?_⟩
        rw [h1 j] at hf
        split at hf
        · cases hf
        · rename_i hc
          obtain ⟨R1, hR1, hj⟩ := hwf.record_of hf
          rw [ho, hR] at hR1
          cases hR1
          refine (hmemL j).2 ⟨hj, ?_⟩
          cases hs : is_stale (fun f => f.m_marked_for_delete_class) w j
          · rfl
          · exact absurd ⟨hj, hs⟩ hc
    · intro R1 hR1
      rw [hR] at hR1
      cases hR1
      exact ⟨_, h2, rfl, rfl⟩

/-- After the gathering loops and the sweep the registry agrees with the class. -/
theorem class_synced_of_gather {WITH_EDITOR callback : Bool} {w : World} {c superclass : SkClass}
    {P : Prop} (h : GatherInv w c P c.routines)
    (hrec : does_class_need_instance_property c = true →
      does_class_need_instance_property superclass = false →
      ∃ R, w.get_class c.name = some R ∧ R.m_store_sk_instance = true) :
    ClassSynced (sweep_class_record WITH_EDITOR callback w c.name).1 c superclass := by
  obtain ⟨_, _, hkeep⟩ :=
    @sweep_record_frame WITH_EDITOR callback _ h.wf c.name
  cases hR : w.get_class c.name with
  | none =>
    rw [sweep_record_none hR]
    refine ⟨hrec, ?_, h.routines, ?_⟩
    · intro R' hR'; rw [hR] at hR'; cases hR'
    · intro R' hR'; rw [hR] at hR'; cases hR'
  | some R =>
    obtain ⟨h1, ⟨L', h2, h2p⟩, _⟩ :=
      @sweep_record_spec WITH_EDITOR callback _ _ _ hR (h.wf.nodup hR)
    have hmemL : ∀ j, j ∈ L' ↔ j ∈ R.m_functions
        ∧ is_stale (fun f => f.m_marked_for_delete_class) w j = false := by
      intro j
      rw [h2p.mem_iff, List.mem_filter]
      simp
    have hfn : ∀ j, j ∈ L' → ∃ f, w.fn j = some f
        ∧ (sweep_class_record WITH_EDITOR callback w c.name).1.fn j = some f
        ∧ f.m_marked_for_delete_class = false := by
      intro j hj
      have hj' := (hmemL j).1 hj
      obtain ⟨f, hf, _⟩ := h.wf.listed hR hj'.1
      refine ⟨f, hf, ?_, ?_⟩
      · rw [h1 j, if_neg]
        · exact hf
        · intro hc
          rw [hj'.2] at hc
          cases hc.2
      · rw [← @is_stale_of_fn (fun f => f.m_marked_for_delete_class) _ _ _ hf]
        exact hj'.2
    refine ⟨?_, ?_, ?_, ?_⟩
    · intro hc hs
      obtain ⟨R0, hR0, hflag⟩ := hrec hc hs
      obtain ⟨R', hR', hf', _⟩ := hkeep R0 hR0
      exact ⟨R', hR', by rw [hf', hflag]⟩
    · intro R' hR' j hj
      rw [h2] at hR'
      cases hR'
      obtain ⟨f, hf, hf', hm⟩ := hfn j hj
      rcases h.entries R hR j ((hmemL j).1 hj).1 f hf with ⟨hmk, _⟩ | ⟨r, hr, hexp, hu⟩
      · rw [hm] at hmk; cases hmk
      · exact ⟨f, r, hf', hr, hexp, hu⟩
    · intro r hr hexp
      obtain ⟨R1, j, f, hR1, hj, hf, hu⟩ := h.routines r hr hexp
      rw [hR] at hR1
      cases hR1
      have hm := hu.fields.2.2.1
      have hjL : j ∈ L' := (hmemL j).2 ⟨hj, by rw [is_stale_of_fn hf]; exact hm⟩
      obtain ⟨f', hf0, hf', _⟩ := hfn j hjL
      rw [hf] at hf0
      cases hf0
      exact ⟨_, j, f, h2, hjL, hf', hu⟩
    · intro R' hR' j₁ hj₁ j₂ hj₂ f₁ f₂ hf₁ hf₂ hn hb
      rw [h2] at hR'
      cases hR'
      obtain ⟨g₁, hg₁, hg₁', hm₁⟩ := hfn j₁ hj₁
      obtain ⟨g₂, hg₂, hg₂', hm₂⟩ := hfn j₂ hj₂
      rw [hf₁] at hg₁'
      rw [hf₂] at hg₂'
      cases hg₁'
      cases hg₂'
      exact h.distinct R hR j₁ ((hmemL j₁).1 hj₁).1 j₂ ((hmemL j₂).1 hj₂).1 f₁ f₂ hg₁ hg₂ hm₁ hm₂ hn hb

/-! ## `sync_class_from_sk` -/

/-- The world after the first two blocks of `sync_class_from_sk`. -/
theorem sync_class_prepared {w : World} (hwf : w.WF) (c superclass : SkClass) :
    GatherInv (ensure_instance_record (mark_class_for_delete w (w.get_class c.name)) c superclass
        (w.get_class c.name)) c ((w.get_class c.name).isSome = true) []
    ∧ Frame c.name w (ensure_instance_record (mark_class_for_delete w (w.get_class c.name)) c
        superclass (w.get_class c.name))
    ∧ (does_class_need_instance_property c = true →
        does_class_need_instance_property superclass = false →
        ∃ R, (ensure_instance_record (mark_class_for_delete w (w.get_class c.name)) c superclass
            (w.get_class c.name)).get_class c.name = some R ∧ R.m_store_sk_instance = true)
    ∧ ((ensure_instance_record (mark_class_for_delete w (w.get_class c.name)) c superclass
          (w.get_class c.name)).get_class c.name).isSome
        = ((w.get_class c.name).isSome
            || needs_instance_record c superclass (w.get_class c.name)) := by
  obtain ⟨m1, m2, m3⟩ := mark_class_spec w c.name
  obtain ⟨hwf1, hframe1⟩ := mark_class_frame hwf c.name
  have hrcp : (mark_class_for_delete w (w.get_class c.name)).get_class c.name = w.get_class c.name :=
    get_class_congr m1 c.name
  obtain ⟨hT, hL, hother, hnames, hlist, hrec, hsome⟩ :=
    ensure_record_spec (mark_class_for_delete w (w.get_class c.name)) c superclass
      (w.get_class c.name) hrcp
  have h2 := ensure_record_frame hwf1 c superclass
  rw [hrcp] at h2
  have hentries : ∀ R, (ensure_instance_record (mark_class_for_delete w (w.get_class c.name)) c
      superclass (w.get_class c.name)).get_class c.name = some R → ∀ j ∈ R.m_functions, ∀ f,
      (ensure_instance_record (mark_class_for_delete w (w.get_class c.name)) c superclass
        (w.get_class c.name)).fn j = some f →
      f.m_marked_for_delete_class = true ∧ (w.get_class c.name).isSome = true := by
    intro R hR j hj f hf
    rw [fn_congr hT] at hf
    rcases hlist R hR with ⟨R1, hR1, hl⟩ | ⟨_, hl⟩
    · rw [hrcp] at hR1
      rw [hl] at hj
      rw [m3 j, if_pos ⟨R1, hR1, hj⟩] at hf
      cases h0 : w.fn j with
      | none => rw [h0] at hf; cases hf
      | some f0 =>
        rw [h0] at hf
        simp only [Option.map_some', Option.some.injEq] at hf
        subst hf
        exact ⟨rfl, by rw [hR1]; rfl⟩
    · rw [hl] at hj; cases hj
  refine ⟨⟨h2.1, ?_, ?_, ?_⟩, hframe1.frame_trans h2.2, hrec, hsome⟩
  · intro R hR j hj f hf
    exact Or.inl (hentries R hR j hj f hf)
  · intro r hr; cases hr
  · intro R hR j₁ hj₁ j₂ _ f₁ _ hf₁ _ hm₁
    have := (hentries R hR j₁ hj₁ f₁ hf₁).1
    rw [hm₁] at this
    cases this

/-- The result of `sync_class_from_sk` on a well-formed registry: it is the sweep
of the world left by the gathering loops, which satisfies the gathering
invariant for all routines of the class. -/
theorem sync_class_result (WITH_EDITOR callback : Bool) {w : World} (hwf : w.WF)
    (c superclass : SkClass) (huniq : c.UniqueRoutines) :
    ∃ g : World × Nat,
      g = gather_class c (ensure_instance_record (mark_class_for_delete w (w.get_class c.name)) c
            superclass (w.get_class c.name))
      ∧ GatherInv g.1 c ((w.get_class c.name).isSome = true) c.routines
      ∧ Frame c.name w g.1
      ∧ (does_class_need_instance_property c = true →
          does_class_need_instance_property superclass = false →
          ∃ R, g.1.get_class c.name = some R ∧ R.m_store_sk_instance = true)
      ∧ sync_class_from_sk WITH_EDITOR w c superclass callback
          = ((sweep_class_record WITH_EDITOR callback g.1 c.name).1,
              decide (0 < (g.2 + (sweep_class_record WITH_EDITOR callback g.1 c.name).2) % 2 ^ 32)) := by
  obtain ⟨hinv0, hframe0, hrec0, hsome⟩ := sync_class_prepared hwf c superclass
  have hg := gather_spec (c := c) c.routines [] _ 0 hinv0 (by simpa using huniq)
  rw [← gather_class_eq, List.nil_append] at hg
  obtain ⟨hinv, hframe, hkeep⟩ := hg
  refine ⟨_, rfl, hinv, hframe0.frame_trans hframe, ?_, ?_⟩
  · intro h1 h2
    obtain ⟨R, hR, hflag⟩ := hrec0 h1 h2
    obtain ⟨R', hR', hf', _⟩ := hkeep R hR
    exact ⟨R', hR', by rw [hf', hflag]⟩
  · unfold sync_class_from_sk
    simp only
    by_cases hrec : ((w.get_class c.name).isSome
        || needs_instance_record c superclass (w.get_class c.name)) = true
    · rw [if_pos hrec]
    · rw [if_neg hrec]
      have hP : ¬ (w.get_class c.name).isSome = true := by
        intro hp
        apply hrec
        rw [hp]; rfl
      rw [sweep_record_noop]
      · simp
      · intro R hR j hj
        obtain ⟨f, hf, _⟩ := hinv.wf.listed hR hj
        rw [is_stale_of_fn hf]
        rcases hinv.entries R hR j hj f hf with ⟨_, hp⟩ | ⟨r, _, _, hu⟩
        · exact absurd hp hP
        · exact hu.fields.2.2.1

theorem sync_class_spec (WITH_EDITOR callback : Bool) {w : World} (hwf : w.WF)
    (c superclass : SkClass) (huniq : c.UniqueRoutines) :
    (sync_class_from_sk WITH_EDITOR w c superclass callback).1.WF
    ∧ Frame c.name w (sync_class_from_sk WITH_EDITOR w c superclass callback).1
    ∧ ClassSynced (sync_class_from_sk WITH_EDITOR w c superclass callback).1 c superclass := by
  obtain ⟨g, _, hinv, hframe, hrec, heq⟩ :=
    sync_class_result WITH_EDITOR callback hwf c superclass huniq
  rw [heq]
  obtain ⟨h1, h2, _⟩ :=
    @sweep_record_frame WITH_EDITOR callback _ hinv.wf c.name
  exact ⟨h1, hframe.frame_trans h2, class_synced_of_gather hinv hrec⟩

/-! ## The walk over the class tree -/

theorem sync_visits_append (WITH_EDITOR callback : Bool) :
    ∀ (vs vs' : List (SkClass × SkClass)) (w : World) (b : Bool),
      sync_visits WITH_EDITOR callback w b (vs ++ vs')
        = sync_visits WITH_EDITOR callback (sync_visits WITH_EDITOR callback w b vs).1
            (sync_visits WITH_EDITOR callback w b vs).2 vs' := by
  intro vs
  induction vs with
  | nil => intro vs' w b; rfl
  | cons v vs ih =>
    intro vs' w b
    simp only [List.cons_append, sync_visits]
    exact ih vs' _ _

theorem sync_visits_bool (WITH_EDITOR callback : Bool) :
    ∀ (vs : List (SkClass × SkClass)) (w : World) (b : Bool),
      sync_visits WITH_EDITOR callback w b vs
        = ((sync_visits WITH_EDITOR callback w false vs).1,
            b || (sync_visits WITH_EDITOR callback w false vs).2) := by
  intro vs
  induction vs with
  | nil => intro w b; simp [sync_visits]
  | cons v vs ih =>
    intro w b
    simp only [sync_visits]
    rw [ih _ (b || _), ih _ (false || _)]
    simp [Bool.or_assoc]

mutual
theorem sync_recursively_eq (WITH_EDITOR callback : Bool) :
    ∀ (t : SkClassTree) (w : World) (superclass : SkClass),
      sync_class_from_sk_recursively WITH_EDITOR callback w superclass t
        = sync_visits WITH_EDITOR callback w false (t.visits superclass)
  | SkClassTree.node c subs, w, superclass => by
    rw [sync_class_from_sk_recursively, SkClassTree.visits, sync_visits]
    simp only [Bool.false_or]
    exact sync_subclasses_eq WITH_EDITOR callback subs _ _ c
theorem sync_subclasses_eq (WITH_EDITOR callback : Bool) :
    ∀ (ts : List SkClassTree) (w : World) (b : Bool) (superclass : SkClass),
      sync_subclasses WITH_EDITOR callback w b superclass ts
        = sync_visits WITH_EDITOR callback w b (SkClassTree.visits_list superclass ts)
  | [], w, b, superclass => by
    rw [sync_subclasses, SkClassTree.visits_list, sync_visits]
  | t :: ts, w, b, superclass => by
    rw [sync_subclasses, SkClassTree.visits_list, sync_visits_append,
      sync_recursively_eq WITH_EDITOR callback t w superclass,
      sync_subclasses_eq WITH_EDITOR callback ts _ _ superclass]
    rw [sync_visits_bool WITH_EDITOR callback (t.visits superclass) w b]
end

theorem FrameSet.set_refl (N : List ASymbol) (w : World) : FrameSet N w w :=
  ⟨fun _ _ => rfl, fun _ _ h _ => h, fun _ _ h _ => h, [], by simp, by simp⟩

theorem FrameSet.set_trans {N : List ASymbol} {w w' w'' : World} (h : FrameSet N w w')
    (h' : FrameSet N w' w'') : FrameSet N w w'' := by
  obtain ⟨x, hx, hx'⟩ := h.log
  obtain ⟨y, hy, hy'⟩ := h'.log
  refine ⟨fun m hm => by rw [h'.records m hm, h.records m hm],
    fun j f hf ho => h'.kept j f (h.kept j f hf ho) ho,
    fun j f hf ho => h.no_new j f (h'.no_new j f hf ho) ho,
    x ++ y, by rw [hy, hx, List.append_assoc], ?_⟩
  intro m u hmem
  rcases List.mem_append.1 hmem with hm | hm
  · exact hx' m u hm
  · exact hy' m u hm

theorem FrameSet.mono {N N' : List ASymbol} {w w' : World} (h : FrameSet N w w')
    (hsub : ∀ m, m ∈ N → m ∈ N') : FrameSet N' w w' := by
  obtain ⟨x, hx, hx'⟩ := h.log
  exact ⟨fun m hm => h.records m (fun hc => hm (hsub m hc)),
    fun j f hf ho => h.kept j f hf (fun hc => ho (hsub _ hc)),
    fun j f hf ho => h.no_new j f hf (fun hc => ho (hsub _ hc)),
    x, hx, fun m u hm => hsub m (hx' m u hm)⟩

theorem Frame.to_set {n : ASymbol} {w w' : World} (h : Frame n w w') : FrameSet [n] w w' := by
  obtain ⟨x, hx, hx'⟩ := h.log
  exact ⟨fun m hm => h.records m (fun hc => hm (by rw [hc]; exact List.mem_singleton.2 rfl)),
    fun j f hf ho => h.kept j f hf (fun hc => ho (by rw [hc]; exact List.mem_singleton.2 rfl)),
    fun j f hf ho => h.no_new j f hf (fun hc => ho (by rw [hc]; exact List.mem_singleton.2 rfl)),
    x, hx, fun m u hm => List.mem_singleton.2 (hx' m u hm)⟩

theorem class_synced_of_frame_set {N : List ASymbol} {w w' : World} {c superclass : SkClass}
    (h : ClassSynced w c superclass) (hf : FrameSet N w w') (hc : c.name ∉ N) :
    ClassSynced w' c superclass := by
  have hown : ∀ {f : ReflectedFunction} {r : SkRoutine}, UpToDate f (c.invokable r) →
      f.owner ∉ N := by
    intro f r hu
    rw [hu.fields.2.1]
    exact hc
  refine ⟨?_, ?_, ?_, ?_⟩
  · intro h1 h2
    rw [hf.records _ hc]
    exact h.record h1 h2
  · intro R hR j hj
    rw [hf.records _ hc] at hR
    obtain ⟨f, r, hfn, hr, hexp, hu⟩ := h.entries R hR j hj
    exact ⟨f, r, hf.kept j f hfn (hown hu), hr, hexp, hu⟩
  · intro r hr hexp
    obtain ⟨R, j, f, hR, hj, hfn, hu⟩ := h.routines r hr hexp
    exact ⟨R, j, f, by rw [hf.records _ hc]; exact hR, hj, hf.kept j f hfn (hown hu), hu⟩
  · intro R hR j₁ hj₁ j₂ hj₂ f₁ f₂ hf₁ hf₂
    rw [hf.records _ hc] at hR
    obtain ⟨g₁, r₁, hg₁, _, _, hu₁⟩ := h.entries R hR j₁ hj₁
    obtain ⟨g₂, r₂, hg₂, _, _, hu₂⟩ := h.entries R hR j₂ hj₂
    have e₁ := hf.kept j₁ g₁ hg₁ (hown hu₁)
    have e₂ := hf.kept j₂ g₂ hg₂ (hown hu₂)
    rw [hf₁] at e₁
    rw [hf₂] at e₂
    cases e₁
    cases e₂
    exact h.distinct R hR j₁ hj₁ j₂ hj₂ f₁ f₂ hg₁ hg₂

theorem sync_visits_spec (WITH_EDITOR callback : Bool) :
    ∀ (vs : List (SkClass × SkClass)) (w : World) (b : Bool), w.WF →
      (vs.map (fun v => v.1.name)).Nodup → (∀ v ∈ vs, v.1.UniqueRoutines) →
      (sync_visits WITH_EDITOR callback w b vs).1.WF
      ∧ (∀ v ∈ vs, ClassSynced (sync_visits WITH_EDITOR callback w b vs).1 v.1 v.2)
      ∧ FrameSet (vs.map (fun v => v.1.name)) w (sync_visits WITH_EDITOR callback w b vs).1 := by
  intro vs
  induction vs with
  | nil =>
    intro w b hwf _ _
    refine ⟨hwf, ?_, FrameSet.set_refl _ _⟩
    intro v hv
    cases hv
  | cons v vs ih =>
    intro w b hwf hnd huniq
    rw [List.map_cons, List.nodup_cons] at hnd
    obtain ⟨h1, h2, h3⟩ := sync_class_spec WITH_EDITOR callback hwf v.1 v.2
      (huniq v (List.mem_cons_self _ _))
    obtain ⟨g1, g2, g3⟩ := ih (sync_class_from_sk WITH_EDITOR w v.1 v.2 callback).1
      (b || (sync_class_from_sk WITH_EDITOR w v.1 v.2 callback).2) h1 hnd.2
      (fun v' hv' => huniq v' (List.mem_cons_of_mem _ hv'))
    rw [sync_visits]
    refine ⟨g1, ?_, ?_⟩
    · intro v' hv'
      rcases List.mem_cons.1 hv' with he | hm
      · rw [he]
        exact class_synced_of_frame_set h3 g3 hnd.1
      · exact g2 v' hm
    · rw [List.map_cons]
      exact (h2.to_set.mono (fun m hm => by
          rw [List.mem_singleton] at hm; rw [hm]; exact List.mem_cons_self _ _)).set_trans
        (g3.mono (fun m hm => List.mem_cons_of_mem _ hm))

/-! ## The first and the last loop of `sync_all_from_sk` -/

theorem mark_all_spec (w : World) :
    (mark_all_for_delete w).m_reflected_classes = w.m_reflected_classes
    ∧ (mark_all_for_delete w).host_log = w.host_log
    ∧ (mark_all_for_delete w).m_reflected_functions.length = w.m_reflected_functions.length
    ∧ (∀ j, (mark_all_for_delete w).fn j
        = (w.fn j).map (fun f => { f with m_marked_for_delete_all := true })) := by
  refine ⟨rfl, rfl, by simp [mark_all_for_delete], fun j => ?_⟩
  unfold World.fn mark_all_for_delete
  simp only [List.getD_eq_getElem?_getD, List.getElem?_map]
  cases w.m_reflected_functions[j]? with
  | none => rfl
  | some s => cases s <;> rfl

theorem mark_all_wf {w : World} (h : w.WF) : (mark_all_for_delete w).WF := by
  obtain ⟨h1, _, _, h4⟩ := mark_all_spec w
  refine ⟨by rw [h1]; exact h.names_nodup, ?_, ?_, ?_⟩
  · intro c hc i hi
    rw [h1] at hc
    obtain ⟨f, hf, ho⟩ := h.listed_occupied c hc i hi
    rw [h4 i, hf]
    exact ⟨_, rfl, ho⟩
  · intro c hc
    rw [h1] at hc
    exact h.lists_nodup c hc
  · intro i f hf
    rw [h4 i] at hf
    cases h0 : w.fn i with
    | none => rw [h0] at hf; cases hf
    | some f0 =>
      rw [h0] at hf
      simp only [Option.map_some', Option.some.injEq] at hf
      subst hf
      rw [h1]
      exact h.occupied_listed i f0 h0

theorem notify_removed_false (WITH_EDITOR callback : Bool) (R : ReflectedClass) (log : List HostOp) :
    notify_removed WITH_EDITOR callback false R log = log := by
  unfold notify_removed
  simp

theorem sweep_all_noop (WITH_EDITOR callback : Bool) :
    ∀ (rest : List ReflectedClass) (w : World),
      (∀ R ∈ rest, ∀ j ∈ R.m_functions,
        is_stale (fun f => f.m_marked_for_delete_all) w j = false) →
      sweep_all WITH_EDITOR callback rest w = (w, rest, false) := by
  intro rest
  induction rest with
  | nil => intro w _; rfl
  | cons R rest ih =>
    intro w h
    unfold sweep_all
    simp only
    rw [sweep_class_eq, sweep_rest_noop _ _ _ _ _ (h R (List.mem_cons_self _ _))]
    simp only [bne_self_eq_false, notify_removed_false, Bool.false_or]
    rw [ih w (fun R' hR' => h R' (List.mem_cons_of_mem _ hR'))]

theorem is_stale_congr {marked : ReflectedFunction → Bool} {w w' : World} {j : Nat}
    (h : w'.fn j = w.fn j) : is_stale marked w' j = is_stale marked w j := by
  unfold is_stale; rw [h]

theorem notify_removed_count (WITH_EDITOR callback : Bool) (R : ReflectedClass)
    (removed : Bool) (log : List HostOp) :
    ∃ extra, notify_removed WITH_EDITOR callback removed R log = log ++ extra
      ∧ ∀ n, extra.countP (is_removed_for n)
          = if R.name = n ∧ (WITH_EDITOR && callback && R.m_ue_static_class_p.isSome && removed) = true
            then 1 else 0 := by
  unfold notify_removed
  cases hu : R.m_ue_static_class_p with
  | none =>
    refine ⟨[], by split <;> simp, fun n => ?_⟩
    simp
  | some u =>
    by_cases hc : (WITH_EDITOR && removed && callback) = true
    · rw [if_pos hc]
      refine ⟨[HostOp.function_removed_from_class R.name u], rfl, fun n => ?_⟩
      have hc' : (WITH_EDITOR && callback && true && removed) = true := by
        revert hc; cases WITH_EDITOR <;> cases removed <;> cases callback <;> simp
      simp only [Option.isSome_some, hc', and_true]
      by_cases hn : R.name = n
      · simp [is_removed_for, hn]
      · simp [is_removed_for, hn]
    · rw [if_neg hc]
      refine ⟨[], by simp, fun n => ?_⟩
      have hc' : ¬ (WITH_EDITOR && callback && true && removed) = true := by
        revert hc; cases WITH_EDITOR <;> cases removed <;> cases callback <;> simp
      simp only [Option.isSome_some]
      rw [if_neg (fun h => hc' h.2)]
      simp

theorem count_destroys {extra : List HostOp}
    (h : ∀ op ∈ extra, ∃ u, op = HostOp.destroy_ue_function u) (n : ASymbol) :
    extra.countP (is_removed_for n) = 0 := by
  rw [List.countP_eq_zero]
  intro op hop
  obtain ⟨u, hu⟩ := h op hop
  rw [hu]
  simp [is_removed_for]

theorem sweep_all_spec (WITH_EDITOR callback : Bool) :
    ∀ (rest : List ReflectedClass) (w : World),
      (rest.map (fun c => c.name)).Nodup →
      (∀ R ∈ rest, R.m_functions.Nodup
        ∧ ∀ j ∈ R.m_functions, ∃ f, w.fn j = some f ∧ f.owner = R.name) →
      (∀ j, (sweep_all WITH_EDITOR callback rest w).1.fn j
          = if (∃ R ∈ rest, j ∈ R.m_functions)
                ∧ is_stale (fun f => f.m_marked_for_delete_all) w j = true then none
            else w.fn j)
      ∧ (sweep_all WITH_EDITOR callback rest w).2.1.map (fun c => c.name)
          = rest.map (fun c => c.name)
      ∧ (∀ R ∈ rest, ∃ R' ∈ (sweep_all WITH_EDITOR callback rest w).2.1,
          Swept (is_stale (fun f => f.m_marked_for_delete_all) w) R R')
      ∧ (∀ R' ∈ (sweep_all WITH_EDITOR callback rest w).2.1, ∃ R ∈ rest,
          Swept (is_stale (fun f => f.m_marked_for_delete_all) w) R R')
      ∧ ((sweep_all WITH_EDITOR callback rest w).2.2 = true ↔
          ∃ R ∈ rest, ∃ j ∈ R.m_functions,
            is_stale (fun f => f.m_marked_for_delete_all) w j = true)
      ∧ (sweep_all WITH_EDITOR callback rest w).1.m_reflected_functions.length
          = w.m_reflected_functions.length
      ∧ (∃ extra, (sweep_all WITH_EDITOR callback rest w).1.host_log = w.host_log ++ extra
          ∧ ∀ n, extra.countP (is_removed_for n)
              = rest.countP (fun R => R.name == n
                  && notifies WITH_EDITOR callback
                      (is_stale (fun f => f.m_marked_for_delete_all) w) R)) := by
  intro rest
  induction rest with
  | nil =>
    intro w _ _
    refine ⟨fun j => by simp [sweep_all], rfl, ?_, ?_, by simp [sweep_all], rfl, [],
      by simp [sweep_all], fun n => by simp⟩
    · intro R hR
      cases hR
    · intro R hR
      simp only [sweep_all] at hR
      cases hR
  | cons R rest ih =>
    intro w hnd hpre
    rw [List.map_cons, List.nodup_cons] at hnd
    obtain ⟨hRnd, hRocc⟩ := hpre R (List.mem_cons_self _ _)
    obtain ⟨s1, s2, s3, _, s5, sx, s6, s7⟩ :=
      sweep_rest_spec (fun f => f.m_marked_for_delete_all) R.m_functions.length w R.m_functions 0
        (Nat.le_refl _) hRnd
    generalize hgen : sweep_rest (fun f => f.m_marked_for_delete_all) R.m_functions.length w
      R.m_functions 0 = s at s1 s2 s3 s5 s6
    obtain ⟨nx, hnx, hncount⟩ :=
      notify_removed_count WITH_EDITOR callback R (s.2.2 != 0) s.1.host_log
    -- the world handed to the rest of the loop
    obtain ⟨w1, hw1⟩ : ∃ w1 : World, w1 = { s.1 with host_log :=
        (notify_removed WITH_EDITOR callback (s.2.2 != 0) R s.1.host_log) } := ⟨_, rfl⟩
    have hw1fn : ∀ j, w1.fn j
        = if j ∈ R.m_functions ∧ is_stale (fun f => f.m_marked_for_delete_all) w j = true then none
          else w.fn j := by
      intro j; rw [hw1]; exact s1 j
    have hw1log : w1.host_log = w.host_log ++ (sx ++ nx) := by
      rw [hw1]
      show notify_removed WITH_EDITOR callback (s.2.2 != 0) R s.1.host_log = _
      rw [hnx, s6, List.append_assoc]
    have hw1len : w1.m_reflected_functions.length = w.m_reflected_functions.length := by
      rw [hw1]; exact s5
    have hunfold : sweep_all WITH_EDITOR callback (R :: rest) w
        = ((sweep_all WITH_EDITOR callback rest w1).1,
            { R with m_functions := s.2.1 } :: (sweep_all WITH_EDITOR callback rest w1).2.1,
            (s.2.2 != 0) || (sweep_all WITH_EDITOR callback rest w1).2.2) := by
      rw [sweep_all]
      simp only
      rw [sweep_class_eq, hgen, hw1]
    clear hw1
    -- entries of later records are untouched
    have hlater : ∀ R2 ∈ rest, ∀ j ∈ R2.m_functions, j ∉ R.m_functions := by
      intro R2 hR2 j hj hjR
      obtain ⟨f, hf, ho⟩ := (hpre R2 (List.mem_cons_of_mem _ hR2)).2 j hj
      obtain ⟨f', hf', ho'⟩ := hRocc j hjR
      rw [hf] at hf'
      cases hf'
      apply hnd.1
      rw [← ho', ho]
      exact List.mem_map.2 ⟨R2, hR2, rfl⟩
    have hsame : ∀ R2 ∈ rest, ∀ j ∈ R2.m_functions, w1.fn j = w.fn j := by
      intro R2 hR2 j hj
      rw [hw1fn j, if_neg (fun hc => hlater R2 hR2 j hj hc.1)]
    obtain ⟨i1, i2, i3, i4, i5, i6, ix, i7, i8⟩ :=
      ih w1 hnd.2
        (fun R2 hR2 => ⟨(hpre R2 (List.mem_cons_of_mem _ hR2)).1, fun j hj => by
          rw [hsame R2 hR2 j hj]
          exact (hpre R2 (List.mem_cons_of_mem _ hR2)).2 j hj⟩)
    have hswept : ∀ R2 ∈ rest, ∀ R',
        Swept (is_stale (fun f => f.m_marked_for_delete_all) w1) R2 R'
        ↔ Swept (is_stale (fun f => f.m_marked_for_delete_all) w) R2 R' := by
      intro R2 hR2 R'
      unfold Swept
      have : R2.m_functions.filter (fun j => !is_stale (fun f => f.m_marked_for_delete_all) w1 j)
          = R2.m_functions.filter
              (fun j => !is_stale (fun f => f.m_marked_for_delete_all) w j) := by
        apply List.filter_congr
        intro j hj
        rw [is_stale_congr (hsame R2 hR2 j hj)]
      rw [this]
    have hcnt : (s.2.2 != 0) = R.m_functions.any
        (is_stale (fun f => f.m_marked_for_delete_all) w) := by
      rw [s3, Nat.zero_add]
      cases hany : R.m_functions.any (is_stale (fun f => f.m_marked_for_delete_all) w)
      · have : R.m_functions.filter (is_stale (fun f => f.m_marked_for_delete_all) w) = [] := by
          rw [List.filter_eq_nil_iff]
          intro j hj hs
          have := List.any_eq_true.2 ⟨j, hj, hs⟩
          rw [hany] at this
          cases this
        rw [this]; rfl
      · obtain ⟨j, hj, hs⟩ := List.any_eq_true.1 hany
        have hmem : j ∈ R.m_functions.filter (is_stale (fun f => f.m_marked_for_delete_all) w) :=
          List.mem_filter.2 ⟨hj, hs⟩
        have hpos : 0 < (R.m_functions.filter
            (is_stale (fun f => f.m_marked_for_delete_all) w)).length := List.length_pos_of_mem hmem
        simp only [bne_iff_ne, ne_eq]
        omega
    rw [hunfold]
    refine ⟨?_, ?_, ?_, ?_, ?_, ?_, ?_⟩
    · intro j
      show (sweep_all WITH_EDITOR callback rest w1).1.fn j = _
      rw [i1 j]
      by_cases hcase : j ∈ R.m_functions
          ∧ is_stale (fun f => f.m_marked_for_delete_all) w j = true
      · have hrhs : (∃ R' ∈ R :: rest, j ∈ R'.m_functions)
            ∧ is_stale (fun f => f.m_marked_for_delete_all) w j = true :=
          ⟨⟨R, List.mem_cons_self _ _, hcase.1⟩, hcase.2⟩
        have hnone : w1.fn j = none := by rw [hw1fn j, if_pos hcase]
        rw [if_pos hrhs, hnone]
        split <;> rfl
      · have hfn : w1.fn j = w.fn j := by rw [hw1fn j, if_neg hcase]
        rw [is_stale_congr hfn, hfn]
        by_cases hs : is_stale (fun f => f.m_marked_for_delete_all) w j = true
        · by_cases hex : ∃ R2 ∈ rest, j ∈ R2.m_functions
          · obtain ⟨R2, hR2, hj⟩ := hex
            have hrhs : (∃ R' ∈ R :: rest, j ∈ R'.m_functions)
                ∧ is_stale (fun f => f.m_marked_for_delete_all) w j = true :=
              ⟨⟨R2, List.mem_cons_of_mem _ hR2, hj⟩, hs⟩
            have hlhs : (∃ R' ∈ rest, j ∈ R'.m_functions)
                ∧ is_stale (fun f => f.m_marked_for_delete_all) w j = true :=
              ⟨⟨R2, hR2, hj⟩, hs⟩
            rw [if_pos hlhs, if_pos hrhs]
          · have hrhs : ¬ ((∃ R' ∈ R :: rest, j ∈ R'.m_functions)
                ∧ is_stale (fun f => f.m_marked_for_delete_all) w j = true) := by
              rintro ⟨⟨R2, hR2, hj⟩, _⟩
              rcases List.mem_cons.1 hR2 with he | hm
              · rw [he] at hj
                exact hcase ⟨hj, hs⟩
              · exact hex ⟨R2, hm, hj⟩
            have hlhs : ¬ ((∃ R' ∈ rest, j ∈ R'.m_functions)
                ∧ is_stale (fun f => f.m_marked_for_delete_all) w j = true) := fun h => hex h.1
            rw [if_neg hlhs, if_neg hrhs]
        · have hrhs : ¬ ((∃ R' ∈ R :: rest, j ∈ R'.m_functions)
              ∧ is_stale (fun f => f.m_marked_for_delete_all) w j = true) := fun h => hs h.2
          have hlhs : ¬ ((∃ R' ∈ rest, j ∈ R'.m_functions)
              ∧ is_stale (fun f => f.m_marked_for_delete_all) w j = true) := fun h => hs h.2
          rw [if_neg hlhs, if_neg hrhs]
    · show List.map _ (_ :: _) = _
      rw [List.map_cons, List.map_cons, i2]
    · intro R2 hR2
      show ∃ R' ∈ _ :: _, _
      rcases List.mem_cons.1 hR2 with he | hm
      · rw [he]
        exact ⟨_, List.mem_cons_self _ _, rfl, rfl, rfl, s2⟩
      · obtain ⟨R', hR', hsw⟩ := i3 R2 hm
        exact ⟨R', List.mem_cons_of_mem _ hR', (hswept R2 hm R').1 hsw⟩
    · intro R' hR'
      have hR'' : R' ∈ ({ R with m_functions := s.2.1 } : ReflectedClass)
          :: (sweep_all WITH_EDITOR callback rest w1).2.1 := hR'
      rcases List.mem_cons.1 hR'' with he | hm
      · rw [he]
        exact ⟨R, List.mem_cons_self _ _, rfl, rfl, rfl, s2⟩
      · obtain ⟨R2, hR2, hsw⟩ := i4 R' hm
        exact ⟨R2, List.mem_cons_of_mem _ hR2, (hswept R2 hR2 R').1 hsw⟩
    · show ((s.2.2 != 0) || _) = true ↔ _
      rw [Bool.or_eq_true, i5, hcnt, List.any_eq_true]
      constructor
      · rintro (⟨j, hj, hs⟩ | ⟨R2, hR2, j, hj, hs⟩)
        · exact ⟨R, List.mem_cons_self _ _, j, hj, hs⟩
        · refine ⟨R2, List.mem_cons_of_mem _ hR2, j, hj, ?_⟩
          rw [← is_stale_congr (hsame R2 hR2 j hj)]
          exact hs
      · rintro ⟨R2, hR2, j, hj, hs⟩
        rcases List.mem_cons.1 hR2 with he | hm
        · rw [he] at hj
          exact Or.inl ⟨j, hj, hs⟩
        · refine Or.inr ⟨R2, hm, j, hj, ?_⟩
          rw [is_stale_congr (hsame R2 hm j hj)]
          exact hs
    · show (sweep_all WITH_EDITOR callback rest w1).1.m_reflected_functions.length = _
      rw [i6]
      exact hw1len
    · refine ⟨sx ++ nx ++ ix, ?_, ?_⟩
      · show (sweep_all WITH_EDITOR callback rest w1).1.host_log = _
        rw [i7, hw1log]
        simp only [List.append_assoc]
      · intro n
        rw [List.countP_append, List.countP_append, count_destroys s7, hncount n, i8 n,
          List.countP_cons, Nat.zero_add]
        have hrest : rest.countP (fun R2 => R2.name == n
              && notifies WITH_EDITOR callback
                  (is_stale (fun f => f.m_marked_for_delete_all) w1) R2)
            = rest.countP (fun R2 => R2.name == n
              && notifies WITH_EDITOR callback
                  (is_stale (fun f => f.m_marked_for_delete_all) w) R2) := by
          apply List.countP_congr
          intro R2 hR2
          have : R2.m_functions.any (is_stale (fun f => f.m_marked_for_delete_all) w1)
              = R2.m_functions.any (is_stale (fun f => f.m_marked_for_delete_all) w) := by
            rw [Bool.eq_iff_iff, List.any_eq_true, List.any_eq_true]
            constructor
            · rintro ⟨j, hj, hs⟩
              exact ⟨j, hj, by rw [← is_stale_congr (hsame R2 hR2 j hj)]; exact hs⟩
            · rintro ⟨j, hj, hs⟩
              exact ⟨j, hj, by rw [is_stale_congr (hsame R2 hR2 j hj)]; exact hs⟩
          unfold notifies
          rw [this]
        rw [hrest, Nat.add_comm]
        congr 1
        unfold notifies
        rw [hcnt]
        by_cases hn : R.name = n
        · simp [hn]
        · simp [hn]

theorem countP_unique_name {cs : List ReflectedClass} (hn : (cs.map (fun c => c.name)).Nodup)
    {R : ReflectedClass} (hR : R ∈ cs) (p : ReflectedClass → Bool) :
    cs.countP (fun R2 => R2.name == R.name && p R2) = if p R = true then 1 else 0 := by
  induction cs with
  | nil => cases hR
  | cons d ds ih =>
    rw [List.map_cons, List.nodup_cons] at hn
    rw [List.countP_cons]
    rcases List.mem_cons.1 hR with he | hm
    · subst he
      have hz : ds.countP (fun R2 => R2.name == R.name && p R2) = 0 := by
        rw [List.countP_eq_zero]
        intro R2 hR2
        have : R2.name ≠ R.name := fun h => hn.1 (List.mem_map.2 ⟨R2, hR2, h⟩)
        simp [this]
      rw [hz]
      cases p R <;> simp
    · have hne : d.name ≠ R.name := fun h => hn.1 (List.mem_map.2 ⟨R, hm, h.symm⟩)
      rw [ih hn.2 hm]
      simp [hne]

/-- The last loop of `sync_all_from_sk` on a well-formed registry. -/
theorem sweep_all_wf (WITH_EDITOR callback : Bool) {w : World} (hwf : w.WF) (final : World)
    (hfinal : final = { (sweep_all WITH_EDITOR callback w.m_reflected_classes w).1 with
      m_reflected_classes := (sweep_all WITH_EDITOR callback w.m_reflected_classes w).2.1 }) :
    (∀ j, final.fn j
        = if is_stale (fun f => f.m_marked_for_delete_all) w j = true then none else w.fn j)
    ∧ final.m_reflected_classes.map (fun c => c.name) = w.m_reflected_classes.map (fun c => c.name)
    ∧ (∀ n R, w.get_class n = some R →
        ∃ R', final.get_class n = some R'
          ∧ Swept (is_stale (fun f => f.m_marked_for_delete_all) w) R R')
    ∧ (∀ n R', final.get_class n = some R' →
        ∃ R, w.get_class n = some R
          ∧ Swept (is_stale (fun f => f.m_marked_for_delete_all) w) R R')
    ∧ ((sweep_all WITH_EDITOR callback w.m_reflected_classes w).2.2 = true ↔
        ∃ j f, w.fn j = some f ∧ f.m_marked_for_delete_all = true)
    ∧ final.m_reflected_functions.length = w.m_reflected_functions.length
    ∧ (∃ extra, final.host_log = w.host_log ++ extra
        ∧ ∀ n R, w.get_class n = some R →
            extra.countP (is_removed_for n)
              = if notifies WITH_EDITOR callback
                    (is_stale (fun f => f.m_marked_for_delete_all) w) R = true then 1 else 0) := by
  obtain ⟨h1, h2, h3, h4, h5, h6, extra, h7, h8⟩ :=
    sweep_all_spec WITH_EDITOR callback w.m_reflected_classes w hwf.names_nodup
      (fun R hR => ⟨hwf.lists_nodup R hR, hwf.listed_occupied R hR⟩)
  have hnames' : (final.m_reflected_classes.map (fun c => c.name)).Nodup := by
    rw [hfinal]
    show (List.map _ (sweep_all WITH_EDITOR callback w.m_reflected_classes w).2.1).Nodup
    rw [h2]
    exact hwf.names_nodup
  refine ⟨?_, ?_, ?_, ?_, ?_, ?_, ?_⟩
  · intro j
    rw [hfinal]
    show (sweep_all WITH_EDITOR callback w.m_reflected_classes w).1.fn j = _
    rw [h1 j]
    by_cases hs : is_stale (fun f => f.m_marked_for_delete_all) w j = true
    · rw [if_pos hs, if_pos]
      refine ⟨?_, hs⟩
      cases hf : w.fn j with
      | none => unfold is_stale at hs; rw [hf] at hs; cases hs
      | some f =>
        obtain ⟨c, hc, _, hj⟩ := hwf.occupied_listed j f hf
        exact ⟨c, hc, hj⟩
    · rw [if_neg hs, if_neg (fun h => hs h.2)]
  · rw [hfinal]
    exact h2
  · intro n R hR
    obtain ⟨R', hR', hsw⟩ := h3 R (get_class_mem hR)
    have hR'' : R' ∈ final.m_reflected_classes := by rw [hfinal]; exact hR'
    refine ⟨R', ?_, hsw⟩
    have := find_class_of_mem hnames' hR''
    rw [hsw.1, get_class_name hR] at this
    exact this
  · intro n R' hR'
    have hmem : R' ∈ (sweep_all WITH_EDITOR callback w.m_reflected_classes w).2.1 := by
      have := get_class_mem hR'
      rw [hfinal] at this
      exact this
    obtain ⟨R, hR, hsw⟩ := h4 R' hmem
    refine ⟨R, ?_, hsw⟩
    have := hwf.get_class_of_mem hR
    rw [← hsw.1, get_class_name hR'] at this
    exact this
  · rw [h5]
    constructor
    · rintro ⟨R, hR, j, hj, hs⟩
      obtain ⟨f, hf, _⟩ := hwf.listed_occupied R hR j hj
      rw [is_stale_of_fn hf] at hs
      exact ⟨j, f, hf, hs⟩
    · rintro ⟨j, f, hf, hm⟩
      obtain ⟨c, hc, _, hj⟩ := hwf.occupied_listed j f hf
      exact ⟨c, hc, j, hj, by rw [is_stale_of_fn hf]; exact hm⟩
  · rw [hfinal]
    exact h6
  · refine ⟨extra, by rw [hfinal]; exact h7, ?_⟩
    intro n R hR
    rw [h8 n, ← get_class_name hR]
    exact countP_unique_name hwf.names_nodup (get_class_mem hR) _

theorem sync_all_eq (WITH_EDITOR callback : Bool) (w : World) (superclass : SkClass)
    (root : SkClassTree) :
    sync_all_from_sk WITH_EDITOR w superclass root callback
      = ({ (sweep_all WITH_EDITOR callback
              (sync_visits WITH_EDITOR callback (mark_all_for_delete w) false
                (root.visits superclass)).1.m_reflected_classes
              (sync_visits WITH_EDITOR callback (mark_all_for_delete w) false
                (root.visits superclass)).1).1 with
            m_reflected_classes :=
              (sweep_all WITH_EDITOR callback
                (sync_visits WITH_EDITOR callback (mark_all_for_delete w) false
                  (root.visits superclass)).1.m_reflected_classes
                (sync_visits WITH_EDITOR callback (mark_all_for_delete w) false
                  (root.visits superclass)).1).2.1 },
          (sync_visits WITH_EDITOR callback (mark_all_for_delete w) false
              (root.visits superclass)).2
            || (sweep_all WITH_EDITOR callback
                (sync_visits WITH_EDITOR callback (mark_all_for_delete w) false
                  (root.visits superclass)).1.m_reflected_classes
                (sync_visits WITH_EDITOR callback (mark_all_for_delete w) false
                  (root.visits superclass)).1).2.2) := by
  unfold sync_all_from_sk
  simp only
  rw [sync_recursively_eq]

/-! ## `sync_all_from_sk` -/

/-- The run of `sync_all_from_sk` on a well-formed registry and class tree, split
at the end of the walk: `w2` is the world before the last loop. -/
theorem sync_all_analysis (WITH_EDITOR callback : Bool) {w : World} (hwf : w.WF)
    (superclass : SkClass) (root : SkClassTree) (htree : root.WF superclass) :
    ∃ (w2 : World) (b2 : Bool),
      sync_visits WITH_EDITOR callback (mark_all_for_delete w) false (root.visits superclass)
        = (w2, b2)
      ∧ w2.WF
      ∧ (∀ v ∈ root.visits superclass, ClassSynced w2 v.1 v.2)
      ∧ FrameSet (root.names superclass) (mark_all_for_delete w) w2
      ∧ (∀ j, (sync_all_from_sk WITH_EDITOR w superclass root callback).1.fn j
          = if is_stale (fun f => f.m_marked_for_delete_all) w2 j = true then none else w2.fn j)
      ∧ (sync_all_from_sk WITH_EDITOR w superclass root callback).1.m_reflected_classes.map
            (fun c => c.name) = w2.m_reflected_classes.map (fun c => c.name)
      ∧ (∀ n R, w2.get_class n = some R →
          ∃ R', (sync_all_from_sk WITH_EDITOR w superclass root callback).1.get_class n = some R'
            ∧ Swept (is_stale (fun f => f.m_marked_for_delete_all) w2) R R')
      ∧ (∀ n R', (sync_all_from_sk WITH_EDITOR w superclass root callback).1.get_class n = some R' →
          ∃ R, w2.get_class n = some R
            ∧ Swept (is_stale (fun f => f.m_marked_for_delete_all) w2) R R')
      ∧ ((sync_all_from_sk WITH_EDITOR w superclass root callback).2 = true ↔
          b2 = true ∨ ∃ j f, w2.fn j = some f ∧ f.m_marked_for_delete_all = true)
      ∧ (∃ extra, (sync_all_from_sk WITH_EDITOR w superclass root callback).1.host_log
            = w2.host_log ++ extra
          ∧ ∀ n R, w2.get_class n = some R →
              extra.countP (is_removed_for n)
                = if notifies WITH_EDITOR callback
                      (is_stale (fun f => f.m_marked_for_delete_all) w2) R = true then 1 else 0) := by
  obtain ⟨g1, g2, g3⟩ := sync_visits_spec WITH_EDITOR callback (root.visits superclass)
    (mark_all_for_delete w) false (mark_all_wf hwf) htree.names_nodup htree.unique_routines
  have heq := sync_all_eq WITH_EDITOR callback w superclass root
  generalize hgen : sync_visits WITH_EDITOR callback (mark_all_for_delete w) false
    (root.visits superclass) = r at g1 g2 g3 heq
  obtain ⟨w2, b2⟩ := r
  obtain ⟨f1, f2, f3, f4, f5, _, f7⟩ := sweep_all_wf WITH_EDITOR callback g1
    (sync_all_from_sk WITH_EDITOR w superclass root callback).1 (by rw [heq])
  refine ⟨w2, b2, rfl, g1, g2, g3, f1, f2, f3, f4, ?_, f7⟩
  rw [heq]
  show (b2 || _) = true ↔ _
  rw [Bool.or_eq_true, f5]

/-- After one run of `sync_all_from_sk` the registry agrees with the class tree. -/
theorem sync_all_synced (WITH_EDITOR callback : Bool) {w : World} (hwf : w.WF)
    (superclass : SkClass) (root : SkClassTree) (htree : root.WF superclass) :
    Synced (sync_all_from_sk WITH_EDITOR w superclass root callback).1 (root.visits superclass) := by
  obtain ⟨w2, b2, _, hwf2, hcls, hframe, f1, f2, f3, f4, _, _⟩ :=
    sync_all_analysis WITH_EDITOR callback hwf superclass root htree
  have hnames' : ((sync_all_from_sk WITH_EDITOR w superclass root callback).1.m_reflected_classes.map
      (fun c => c.name)).Nodup := by rw [f2]; exact hwf2.names_nodup
  -- entries that survive the last loop
  have hkept : ∀ j f, w2.fn j = some f → f.m_marked_for_delete_all = false →
      (sync_all_from_sk WITH_EDITOR w superclass root callback).1.fn j = some f := by
    intro j f hf hm
    rw [f1 j, is_stale_of_fn hf, hm]
    exact hf
  have hback : ∀ j f, (sync_all_from_sk WITH_EDITOR w superclass root callback).1.fn j = some f →
      w2.fn j = some f ∧ f.m_marked_for_delete_all = false := by
    intro j f hf
    rw [f1 j] at hf
    split at hf
    · cases hf
    · rename_i hs
      refine ⟨hf, ?_⟩
      rw [is_stale_of_fn hf] at hs
      cases hm : f.m_marked_for_delete_all
      · rfl
      · exact absurd hm hs
  have hmemS : ∀ {R R' : ReflectedClass},
      Swept (is_stale (fun f => f.m_marked_for_delete_all) w2) R R' →
      ∀ j, j ∈ R'.m_functions ↔ j ∈ R.m_functions
        ∧ is_stale (fun f => f.m_marked_for_delete_all) w2 j = false := by
    intro R R' hsw j
    rw [hsw.2.2.2.mem_iff, List.mem_filter]
    simp
  refine ⟨⟨hnames', ?_, ?_, ?_⟩, ?_, ?_⟩
  · intro c hc i hi
    obtain ⟨R, hR, hsw⟩ := f4 c.name c (find_class_of_mem hnames' hc)
    have hi' := (hmemS hsw i).1 hi
    obtain ⟨f, hf, ho⟩ := hwf2.listed hR hi'.1
    refine ⟨f, hkept i f hf ?_, ho⟩
    rw [← @is_stale_of_fn (fun f => f.m_marked_for_delete_all) _ _ _ hf]
    exact hi'.2
  · intro c hc
    obtain ⟨R, hR, hsw⟩ := f4 c.name c (find_class_of_mem hnames' hc)
    exact hsw.2.2.2.nodup_iff.2 ((hwf2.nodup hR).filter _)
  · intro i f hf
    obtain ⟨hf2, hm⟩ := hback i f hf
    obtain ⟨R, hR, hi⟩ := hwf2.record_of hf2
    obtain ⟨R', hR', hsw⟩ := f3 _ R hR
    refine ⟨R', get_class_mem hR', get_class_name hR', (hmemS hsw i).2 ⟨hi, ?_⟩⟩
    rw [is_stale_of_fn hf2]
    exact hm
  · intro v hv
    have hs := hcls v hv
    -- every entry of the class is up to date, hence not stale
    have hfresh : ∀ R, w2.get_class v.1.name = some R → ∀ j ∈ R.m_functions,
        is_stale (fun f => f.m_marked_for_delete_all) w2 j = false := by
      intro R hR j hj
      obtain ⟨f, r, hf, _, _, hu⟩ := hs.entries R hR j hj
      rw [is_stale_of_fn hf]
      exact hu.fields.2.2.2
    refine ⟨?_, ?_, ?_, ?_⟩
    · intro h1 h2
      obtain ⟨R, hR, hflag⟩ := hs.record h1 h2
      obtain ⟨R', hR', hsw⟩ := f3 _ R hR
      exact ⟨R', hR', by rw [hsw.2.1, hflag]⟩
    · intro R' hR' j hj
      obtain ⟨R, hR, hsw⟩ := f4 _ R' hR'
      have hj' := (hmemS hsw j).1 hj
      obtain ⟨f, r, hf, hr, hexp, hu⟩ := hs.entries R hR j hj'.1
      exact ⟨f, r, hkept j f hf hu.fields.2.2.2, hr, hexp, hu⟩
    · intro r hr hexp
      obtain ⟨R, j, f, hR, hj, hf, hu⟩ := hs.routines r hr hexp
      obtain ⟨R', hR', hsw⟩ := f3 _ R hR
      exact ⟨R', j, f, hR', (hmemS hsw j).2 ⟨hj, hfresh R hR j hj⟩,
        hkept j f hf hu.fields.2.2.2, hu⟩
    · intro R' hR' j₁ hj₁ j₂ hj₂ f₁ f₂ hf₁ hf₂
      obtain ⟨R, hR, hsw⟩ := f4 _ R' hR'
      exact hs.distinct R hR j₁ ((hmemS hsw j₁).1 hj₁).1 j₂ ((hmemS hsw j₂).1 hj₂).1 f₁ f₂
        (hback j₁ f₁ hf₁).1 (hback j₂ f₂ hf₂).1
  · intro j f hf
    obtain ⟨hf2, hm⟩ := hback j f hf
    by_contra hn
    have h1 := hframe.no_new j f hf2 hn
    rw [(mark_all_spec w).2.2.2 j] at h1
    cases h0 : w.fn j with
    | none => rw [h0] at h1; cases h1
    | some f0 =>
      rw [h0] at h1
      simp only [Option.map_some', Option.some.injEq] at h1
      rw [← h1] at hm
      cases hm

theorem unmark_mark_class (f : ReflectedFunction) :
    unmark { f with m_marked_for_delete_class := true } = unmark f := rfl

theorem unmark_mark_all (f : ReflectedFunction) :
    unmark { f with m_marked_for_delete_all := true } = unmark f := rfl

theorem unmark_fields {e f : ReflectedFunction} (h : unmark e = unmark f) :
    e.name = f.name ∧ e.m_is_class_member = f.m_is_class_member
    ∧ (∀ inv, signature_matches e inv = signature_matches f inv)
    ∧ (∀ inv, e.update inv = f.update inv) := by
  have h1 : ∀ g : ReflectedFunction, g.name = (unmark g).name := fun _ => rfl
  have h2 : ∀ g : ReflectedFunction, g.m_is_class_member = (unmark g).m_is_class_member :=
    fun _ => rfl
  have h3 : ∀ (g : ReflectedFunction) inv,
      signature_matches g inv = signature_matches (unmark g) inv := fun _ _ => rfl
  have h4 : ∀ (g : ReflectedFunction) inv, g.update inv = (unmark g).update inv := by
    intro g inv
    unfold ReflectedFunction.update
    have : (unmark g).m_type = g.m_type := rfl
    rw [this]
    cases g.m_type <;> rfl
  refine ⟨?_, ?_, ?_, ?_⟩
  · rw [h1 e, h1 f, h]
  · rw [h2 e, h2 f, h]
  · intro inv; rw [h3 e, h3 f, h]
  · intro inv; rw [h4 e, h4 f, h]

theorem unmark_of_up_to_date {f : ReflectedFunction} {inv : SkInvokableBase}
    (h : UpToDate f inv) : unmark f = f := by
  have h1 := h.fields.2.2.1
  have h2 := h.fields.2.2.2
  cases f
  simp only [unmark] at *
  simp_all

theorem resync_entry {s w : World} (h : Resync s w) {j : Nat} {f : ReflectedFunction}
    (hf : s.fn j = some f) : ∃ e, w.fn j = some e ∧ unmark e = unmark f := by
  have := h.entries j
  rw [hf] at this
  cases he : w.fn j with
  | none => rw [he] at this; cases this
  | some e =>
    rw [he] at this
    exact ⟨e, rfl, Option.some.inj this⟩

theorem resync_entry_back {s w : World} (h : Resync s w) {j : Nat} {e : ReflectedFunction}
    (he : w.fn j = some e) : ∃ f, s.fn j = some f ∧ unmark e = unmark f := by
  have := h.entries j
  rw [he] at this
  cases hf : s.fn j with
  | none => rw [hf] at this; cases this
  | some f =>
    rw [hf] at this
    exact ⟨f, rfl, Option.some.inj this⟩

theorem resync_get_class {s w : World} (h : Resync s w) (n : ASymbol) :
    w.get_class n = s.get_class n := by
  unfold World.get_class
  rw [h.classes]

theorem gather_noop_step {s w0 w : World} {c sup : SkClass} {done : List SkRoutine}
    (hs : ClassSynced s c sup) (h : GatherNoop s w0 w c done) (r : SkRoutine)
    (hr : r ∈ c.routines) :
    GatherNoop s w0 (try_add_reflected_function w (c.invokable r)).1 c (done ++ [r])
    ∧ (try_add_reflected_function w (c.invokable r)).2 = false := by
  rcases try_add_cases w (c.invokable r) with ⟨hex, hb, hT, hC, _⟩ | ⟨type, hex, hadd⟩
  · refine ⟨⟨⟨hC.trans h.resync.classes, ?_, ?_⟩, ?_, ?_, ?_⟩, hb⟩
    · rw [hT]; exact h.resync.length
    · intro j; rw [fn_congr hT j]; exact h.resync.entries j
    · intro R j f r' hR hj hf hr' hexp hup
      rw [fn_congr hT j]
      rcases List.mem_append.1 hr' with hd | hd
      · exact h.restored R j f r' hR hj hf hd hexp hup
      · have : r' = r := by simpa using hd
        rw [this, hex] at hexp
        cases hexp
    · intro R j hR hj h0
      rw [fn_congr hT j]; exact h.settled R j hR hj h0
    · intro j hj
      rw [fn_congr hT j]; exact h.untouched j hj
  · have hexp : (exposed_as (c.invokable r)).isSome = true := by rw [hex]; rfl
    obtain ⟨R, j, f, hR, hj, hf, hup⟩ := hs.routines r hr hexp
    have hscope : (c.invokable r).scope.name = c.name := rfl
    have hRw : w.get_class (c.invokable r).scope.name = some R := by
      rw [hscope, resync_get_class h.resync]; exact hR
    obtain ⟨e, he, hue⟩ := resync_entry h.resync hf
    obtain ⟨hen, hem, hesig, heup⟩ := unmark_fields hue
    have hslot : is_slot_of w (c.invokable r) j = true := by
      rw [is_slot_of_iff]
      exact ⟨e, he, hen.trans hup.1, hem.trans hup.2.1⟩
    have hother : ∀ j' ∈ R.m_functions, j' ≠ j → is_slot_of w (c.invokable r) j' = false := by
      intro j' hj' hne
      cases hsl : is_slot_of w (c.invokable r) j' with
      | false => rfl
      | true =>
        exfalso
        rw [is_slot_of_iff] at hsl
        obtain ⟨e', he', hn', hm'⟩ := hsl
        obtain ⟨f', hf', hue'⟩ := resync_entry_back h.resync he'
        obtain ⟨hen', hem', _, _⟩ := unmark_fields hue'
        exact hne (hs.distinct R hR j' hj' j hj f' f hf' hf
          (hen'.symm.trans (hn'.trans hup.1.symm)) (hem'.symm.trans (hm'.trans hup.2.1.symm)))
    have hfind := find_unique hj hslot hother
    have hsig : signature_matches e (c.invokable r) = true := by
      rw [hesig]; exact hup.2.2.1
    obtain ⟨hb, hT, hC, _⟩ := add_spec_same_signature hadd hRw hfind he hsig
    have hupd : e.update (c.invokable r) = f := by rw [heup]; exact hup.2.2.2
    rw [hupd] at hT
    have hlt : j < w.m_reflected_functions.length := fn_lt_length he
    have hfn := fn_of_table_set hT hlt
    refine ⟨⟨⟨hC.trans h.resync.classes, ?_, ?_⟩, ?_, ?_, ?_⟩, hb⟩
    · rw [hT, List.length_set]; exact h.resync.length
    · intro j'
      rw [hfn j']
      by_cases hjj : j' = j
      · rw [if_pos hjj, hjj, hf]
      · rw [if_neg hjj]; exact h.resync.entries j'
    · intro R' j' f' r' hR' hj' hf' hr' hexp' hup'
      rw [hR] at hR'
      have hRR : R = R' := Option.some.inj hR'
      rw [← hRR] at hj'
      rw [hfn j']
      by_cases hjj : j' = j
      · rw [if_pos hjj]
        rw [hjj, hf] at hf'
        exact hf'
      · rw [if_neg hjj]
        rcases List.mem_append.1 hr' with hd | hd
        · exact h.restored R j' f' r' hR hj' hf' hd hexp' hup'
        · have hrr : r' = r := by simpa using hd
          rw [hrr] at hup'
          exact absurd (hs.distinct R hR j' hj' j hj f' f hf' hf
            (hup'.1.trans hup.1.symm) (hup'.2.1.trans hup.2.1.symm)) hjj
    · intro R' j' hR' hj' h0
      rw [hfn j']
      by_cases hjj : j' = j
      · rw [if_pos hjj, hjj, hf]
      · rw [if_neg hjj]; exact h.settled R' j' hR' hj' h0
    · intro j' hj'
      rw [hfn j']
      have hjj : j' ≠ j := by
        intro hjj
        rw [hjj] at hj'
        exact hj' R hR hj
      rw [if_neg hjj]; exact h.untouched j' hj'

theorem gather_noop {s w0 : World} {c sup : SkClass} (hs : ClassSynced s c sup) :
    ∀ (rs done : List SkRoutine) (w : World) (count : Nat), GatherNoop s w0 w c done →
      (∀ r ∈ rs, r ∈ c.routines) →
      GatherNoop s w0 (gather c rs (w, count)).1 c (done ++ rs)
      ∧ (gather c rs (w, count)).2 = count := by
  intro rs
  induction rs with
  | nil =>
    intro done w count h _
    rw [List.append_nil]
    exact ⟨h, rfl⟩
  | cons r rs ih =>
    intro done w count h hmem
    obtain ⟨h1, hb⟩ := gather_noop_step hs h r (hmem r (List.mem_cons_self _ _))
    rw [gather_cons]
    have := ih (done ++ [r]) (try_add_reflected_function w (c.invokable r)).1
      (count + (try_add_reflected_function w (c.invokable r)).2.toNat) h1
      (fun r' hr' => hmem r' (List.mem_cons_of_mem _ hr'))
    rw [List.append_assoc] at this
    refine ⟨this.1, ?_⟩
    rw [this.2, hb]
    rfl

theorem mark_for_delete_class_length (w : World) (x : Nat) :
    (mark_for_delete_class w x).m_reflected_functions.length = w.m_reflected_functions.length := by
  unfold mark_for_delete_class
  cases w.fn x with
  | none => rfl
  | some f => exact List.length_set _ _ _

theorem mark_fold_length : ∀ (fns : List FunctionIndex) (w : World),
    (fns.foldl mark_for_delete_class w).m_reflected_functions.length
      = w.m_reflected_functions.length := by
  intro fns
  induction fns with
  | nil => intro w; rfl
  | cons x fns ih =>
    intro w
    rw [List.foldl_cons, ih, mark_for_delete_class_length]

theorem mark_class_length (w : World) (rcp : Option ReflectedClass) :
    (mark_class_for_delete w rcp).m_reflected_functions.length
      = w.m_reflected_functions.length := by
  cases rcp with
  | none => rfl
  | some R => exact mark_fold_length R.m_functions w

theorem resync_mark_class {s w : World} (h : Resync s w) (n : ASymbol) :
    Resync s (mark_class_for_delete w (w.get_class n)) := by
  obtain ⟨m1, _, m3⟩ := mark_class_spec w n
  refine ⟨m1.trans h.classes, (mark_class_length w _).trans h.length, ?_⟩
  intro j
  rw [m3 j]
  split
  · rw [← h.entries j]
    cases w.fn j with
    | none => rfl
    | some f => rfl
  · exact h.entries j

theorem needs_record_of_synced {s w : World} {c sup : SkClass} (hs : ClassSynced s c sup)
    (h : Resync s w) : needs_instance_record c sup (w.get_class c.name) = false := by
  unfold needs_instance_record
  cases h1 : does_class_need_instance_property c with
  | false => simp
  | true =>
    cases h2 : does_class_need_instance_property sup with
    | true => simp
    | false =>
      obtain ⟨R, hR, hflag⟩ := hs.record h1 h2
      rw [resync_get_class h, hR]
      simp [hflag]

/-- A sync of one class on a registry that agrees with the class, up to deletion
flags: nothing changes but the flags of the class's entries, which are cleared. -/
theorem sync_class_noop (WITH_EDITOR callback : Bool) {s w : World} {c sup : SkClass}
    (hs : ClassSynced s c sup) (h : Resync s w) :
    (sync_class_from_sk WITH_EDITOR w c sup callback).2 = false
    ∧ Resync s (sync_class_from_sk WITH_EDITOR w c sup callback).1
    ∧ (∀ R j, s.get_class c.name = some R → j ∈ R.m_functions →
        (sync_class_from_sk WITH_EDITOR w c sup callback).1.fn j = s.fn j)
    ∧ (∀ j, w.fn j = s.fn j →
        (sync_class_from_sk WITH_EDITOR w c sup callback).1.fn j = s.fn j) := by
  have hneeds := needs_record_of_synced hs h
  have h1 := resync_mark_class h c.name
  obtain ⟨_, _, m3⟩ := mark_class_spec w c.name
  have hens : ensure_instance_record (mark_class_for_delete w (w.get_class c.name)) c sup
      (w.get_class c.name) = mark_class_for_delete w (w.get_class c.name) := by
    unfold ensure_instance_record
    rw [hneeds]
    rfl
  have h0 : GatherNoop s (mark_class_for_delete w (w.get_class c.name))
      (mark_class_for_delete w (w.get_class c.name)) c [] := by
    refine ⟨h1, ?_, ?_, ?_⟩
    · intro _ _ _ _ _ _ _ hr; cases hr
    · intro _ _ _ _ h0; exact h0
    · intro _ _; rfl
  obtain ⟨hg, hcount⟩ := gather_noop hs c.routines [] _ 0 h0 (fun _ hr => hr)
  rw [← gather_class_eq] at hg hcount
  have hg : GatherNoop s _ _ c c.routines := hg
  generalize hgdef : gather_class c (mark_class_for_delete w (w.get_class c.name)) = g at hg hcount
  have hrest : ∀ R j, s.get_class c.name = some R → j ∈ R.m_functions → g.1.fn j = s.fn j := by
    intro R j hR hj
    obtain ⟨f, r, hf, hr, hexp, hup⟩ := hs.entries R hR j hj
    rw [hf]
    exact hg.restored R j f r hR hj hf hr hexp hup
  have hsweep : sweep_class_record WITH_EDITOR callback g.1 c.name = (g.1, 0) := by
    apply sweep_record_noop
    intro R hR j hj
    rw [resync_get_class hg.resync] at hR
    obtain ⟨f, r, hf, _, _, hup⟩ := hs.entries R hR j hj
    unfold is_stale
    rw [hrest R j hR hj, hf]
    exact hup.fields.2.2.1
  have hres : sync_class_from_sk WITH_EDITOR w c sup callback = (g.1, false) := by
    unfold sync_class_from_sk
    simp only [hens, hgdef, hsweep, hcount, hneeds]
    split <;> rfl
  rw [hres]
  refine ⟨rfl, hg.resync, hrest, ?_⟩
  intro j hj
  by_cases hin : ∃ R, s.get_class c.name = some R ∧ j ∈ R.m_functions
  · obtain ⟨R, hR, hjR⟩ := hin
    exact hrest R j hR hjR
  · have : g.1.fn j = (mark_class_for_delete w (w.get_class c.name)).fn j :=
      hg.untouched j (fun R hR hjR => hin ⟨R, hR, hjR⟩)
    rw [this, m3 j, if_neg, hj]
    rintro ⟨R, hR, hjR⟩
    rw [resync_get_class h] at hR
    exact hin ⟨R, hR, hjR⟩

/-- A walk over classes the registry agrees with changes nothing either. -/
theorem sync_visits_noop (WITH_EDITOR callback : Bool) {s : World} :
    ∀ (vs : List (SkClass × SkClass)) (w : World) (b : Bool),
      (∀ v ∈ vs, ClassSynced s v.1 v.2) → Resync s w →
      (sync_visits WITH_EDITOR callback w b vs).2 = b
      ∧ Resync s (sync_visits WITH_EDITOR callback w b vs).1
      ∧ (∀ v ∈ vs, ∀ R j, s.get_class v.1.name = some R → j ∈ R.m_functions →
          (sync_visits WITH_EDITOR callback w b vs).1.fn j = s.fn j)
      ∧ (∀ j, w.fn j = s.fn j → (sync_visits WITH_EDITOR callback w b vs).1.fn j = s.fn j) := by
  intro vs
  induction vs with
  | nil =>
    intro w b _ h
    refine ⟨rfl, h, ?_, fun _ hj => hj⟩
    intro v hv; cases hv
  | cons v vs ih =>
    intro w b hs h
    obtain ⟨hb, hre, hrest, hkeep⟩ :=
      sync_class_noop WITH_EDITOR callback (hs v (List.mem_cons_self _ _)) h
    obtain ⟨ib, ire, irest, ikeep⟩ :=
      ih (sync_class_from_sk WITH_EDITOR w v.1 v.2 callback).1
        (b || (sync_class_from_sk WITH_EDITOR w v.1 v.2 callback).2)
        (fun v' hv' => hs v' (List.mem_cons_of_mem _ hv')) hre
    have hstep : sync_visits WITH_EDITOR callback w b (v :: vs)
        = sync_visits WITH_EDITOR callback (sync_class_from_sk WITH_EDITOR w v.1 v.2 callback).1
            (b || (sync_class_from_sk WITH_EDITOR w v.1 v.2 callback).2) vs := rfl
    rw [hstep]
    refine ⟨?_, ire, ?_, ?_⟩
    · rw [ib, hb, Bool.or_false]
    · intro v' hv' R j hR hj
      rcases List.mem_cons.1 hv' with hv' | hv'
      · rw [hv'] at hR
        exact ikeep j (hrest R j hR hj)
      · exact irest v' hv' R j hR hj
    · intro j hj
      exact ikeep j (hkeep j hj)

theorem resync_mark_all (s : World) : Resync s (mark_all_for_delete s) := by
  obtain ⟨m1, _, m3, m4⟩ := mark_all_spec s
  refine ⟨m1, m3, ?_⟩
  intro j
  rw [m4 j]
  cases s.fn j with
  | none => rfl
  | some f => rfl

/-- A run of `sync_all_from_sk` on a registry that agrees with the class tree
leaves table and class records as they are and returns false. -/
theorem sync_all_noop (WITH_EDITOR callback : Bool) {s : World} {superclass : SkClass}
    {root : SkClassTree} (h : Synced s (root.visits superclass)) :
    (sync_all_from_sk WITH_EDITOR s superclass root callback).2 = false
    ∧ (sync_all_from_sk WITH_EDITOR s superclass root callback).1.m_reflected_functions
        = s.m_reflected_functions
    ∧ (sync_all_from_sk WITH_EDITOR s superclass root callback).1.m_reflected_classes
        = s.m_reflected_classes := by
  obtain ⟨hb, hre, hrest, _⟩ := sync_visits_noop WITH_EDITOR callback (root.visits superclass)
    (mark_all_for_delete s) false h.classes (resync_mark_all s)
  have heq := sync_all_eq WITH_EDITOR callback s superclass root
  generalize sync_visits WITH_EDITOR callback (mark_all_for_delete s) false
    (root.visits superclass) = r at hb hre hrest heq
  obtain ⟨w2, b2⟩ := r
  have hb : b2 = false := hb
  have hre : Resync s w2 := hre
  have hrest : ∀ v ∈ root.visits superclass, ∀ R j, s.get_class v.1.name = some R →
      j ∈ R.m_functions → w2.fn j = s.fn j := hrest
  have hclean : ∀ j f, s.fn j = some f →
      w2.fn j = some f ∧ f.m_marked_for_delete_all = false := by
    intro j f hf
    obtain ⟨v, hv, hvn⟩ := List.mem_map.1 (h.owned j f hf)
    obtain ⟨R, hR, hj⟩ := h.wf.record_of hf
    rw [← hvn] at hR
    obtain ⟨f', r, hf', _, _, hup⟩ := (h.classes v hv).entries R hR j hj
    rw [hf] at hf'
    rw [← Option.some.inj hf'] at hup
    exact ⟨(hrest v hv R j hR hj).trans hf, hup.fields.2.2.2⟩
  have hfn : ∀ j, w2.fn j = s.fn j := by
    intro j
    cases hf : s.fn j with
    | some f => exact (hclean j f hf).1
    | none =>
      have := hre.entries j
      rw [hf] at this
      cases h2 : w2.fn j with
      | none => rfl
      | some e => rw [h2] at this; cases this
  have hT : w2.m_reflected_functions = s.m_reflected_functions :=
    table_ext _ _ hre.length hfn
  have hsweep : sweep_all WITH_EDITOR callback w2.m_reflected_classes w2
      = (w2, w2.m_reflected_classes, false) := by
    apply sweep_all_noop
    intro R _ j _
    unfold is_stale
    rw [hfn j]
    cases hf : s.fn j with
    | none => rfl
    | some f => exact (hclean j f hf).2
  rw [heq]
  simp only [hsweep, hb]
  exact ⟨rfl, hT, hre.classes⟩

theorem countP_removed_zero {x : ASymbol} {extra : List HostOp}
    (h : ∀ m u, HostOp.function_removed_from_class m u ∈ extra → m ≠ x) :
    extra.countP (is_removed_for x) = 0 := by
  rw [List.countP_eq_zero]
  intro op hop hp
  cases op with
  | function_removed_from_class m u =>
    have : m = x := by simpa [is_removed_for] using hp
    exact h m u hop this
  | destroy_ue_function f => cases hp
  | error p => cases hp

/-- What the walk of `sync_all_from_sk` leaves of a record whose class is not in
the tree: the record itself, and its entries, all marked for delete. -/
theorem unreachable_record_marked {w : World} (hwf : w.WF)
    (superclass : SkClass) (root : SkClassTree) {w2 : World}
    (hframe : FrameSet (root.names superclass) (mark_all_for_delete w) w2)
    {x : ASymbol} {R : ReflectedClass} (hx : x ∉ root.names superclass)
    (hR : w.get_class x = some R) :
    w2.get_class x = some R
    ∧ (∀ j ∈ R.m_functions, is_stale (fun f => f.m_marked_for_delete_all) w2 j = true)
    ∧ (∃ extra, w2.host_log = w.host_log ++ extra ∧ extra.countP (is_removed_for x) = 0) := by
  obtain ⟨m1, m2, _, m4⟩ := mark_all_spec w
  refine ⟨?_, ?_, ?_⟩
  · rw [hframe.records x hx, get_class_congr m1]
    exact hR
  · intro j hj
    obtain ⟨f, hf, ho⟩ := hwf.listed hR hj
    have h1 : (mark_all_for_delete w).fn j = some { f with m_marked_for_delete_all := true } := by
      rw [m4 j, hf]; rfl
    have h2 := hframe.kept j _ h1 (by
      show f.owner ∉ root.names superclass
      rw [ho]; exact hx)
    rw [is_stale_of_fn h2]
  · obtain ⟨extra, he, hm⟩ := hframe.log
    refine ⟨extra, by rw [he, m2], countP_removed_zero ?_⟩
    intro m u hmem hmx
    exact hx (hmx ▸ hm m u hmem)

/-- The gathering loops on a class whose only routine has no entry yet, while the
record lists one index with an entry of another name: the routine gets a new
entry in the first free slot, which is appended to the list. -/
theorem gather_rename {w2 : World} {c : SkClass} {baz : SkRoutine}
    {type : eReflectedFunctionType} (hroutines : c.routines = [baz])
    (hexp : exposed_as (c.invokable baz) = some type) {R2 : ReflectedClass} {i : Nat}
    {e : ReflectedFunction} (hR2 : w2.get_class c.name = some R2) (hlist : R2.m_functions = [i])
    (he : w2.fn i = some e) (hname : e.name ≠ baz.name) :
    (gather_class c w2).2 = 1
    ∧ first_free_slot w2.m_reflected_functions ≠ i
    ∧ (∀ j, (gather_class c w2).1.fn j
        = if j = first_free_slot w2.m_reflected_functions then
            some (ReflectedFunction.new type (c.invokable baz))
          else w2.fn j)
    ∧ (gather_class c w2).1.get_class c.name
        = some ⟨R2.name, R2.m_ue_static_class_p,
            [i, first_free_slot w2.m_reflected_functions], R2.m_store_sk_instance⟩ := by
  have hgc : gather_class c w2
      = ((try_add_reflected_function w2 (c.invokable baz)).1,
          0 + (try_add_reflected_function w2 (c.invokable baz)).2.toNat) := by
    rw [gather_class_eq, hroutines, gather_cons]
    rfl
  have hscope : (c.invokable baz).scope.name = c.name := rfl
  have hnoslot : ∀ i', R2.m_functions.find? (is_slot_of w2 (c.invokable baz)) = some i' → False := by
    intro i' hfind
    have hmem := List.mem_of_find?_eq_some hfind
    have hp := List.find?_some hfind
    rw [hlist, List.mem_singleton] at hmem
    rw [hmem, is_slot_of_iff] at hp
    obtain ⟨e', he', hn, _⟩ := hp
    rw [he] at he'
    rw [← Option.some.inj he'] at hn
    exact hname hn
  have hk : first_free_slot w2.m_reflected_functions ≠ i := by
    intro hki
    have := fn_first_free_slot w2
    rw [hki, he] at this
    cases this
  rcases try_add_cases w2 (c.invokable baz) with ⟨hex, _⟩ | ⟨type', hex, hadd⟩
  · rw [hexp] at hex; cases hex
  · rw [hexp] at hex
    have htype : type = type' := Option.some.inj hex
    subst htype
    rcases hadd with ⟨R', i', _, hR', hfind, _⟩ | ⟨hnone, _⟩ | ⟨R', hR', _, hb, hT, hC, _⟩
      | ⟨R', i', _, hR', hfind, _⟩
    · rw [hscope, hR2] at hR'
      rw [← Option.some.inj hR'] at hfind
      exact (hnoslot i' hfind).elim
    · rw [hscope, hR2] at hnone; cases hnone
    · rw [hgc]
      refine ⟨?_, hk, ?_, ?_⟩
      · show 0 + (try_add_reflected_function w2 (c.invokable baz)).2.toNat = 1
        rw [hb]; rfl
      · intro j
        exact fn_of_table_with hT (first_free_slot_le _) j
      · show (try_add_reflected_function w2 (c.invokable baz)).1.get_class c.name = _
        rw [get_class_eq_find, hC, hscope,
          find_modify_class (f := fun d => { d with m_functions :=
            d.m_functions ++ [first_free_slot w2.m_reflected_functions] }) (fun _ => rfl),
          if_pos rfl, ← get_class_eq_find, hR2]
        show some (ReflectedClass.mk R2.name R2.m_ue_static_class_p
          (R2.m_functions ++ [first_free_slot w2.m_reflected_functions]) R2.m_store_sk_instance)
          = _
        rw [hlist]
        rfl
    · rw [hscope, hR2] at hR'
      rw [← Option.some.inj hR'] at hfind
      exact (hnoslot i' hfind).elim

/-- A sync of a class whose only routine was renamed: the record lists one index,
with an entry of another name.  The sync returns true, the routine gets a new
entry at another index, the one index the record lists afterwards. -/
theorem sync_class_rename (WITH_EDITOR callback : Bool) {w : World} (hwf : w.WF)
    (c superclass : SkClass) (huniq : c.UniqueRoutines) {baz : SkRoutine}
    {type : eReflectedFunctionType} (hroutines : c.routines = [baz])
    (hexp : exposed_as (c.invokable baz) = some type) {R : ReflectedClass} {i : Nat}
    {e : ReflectedFunction} (hR : w.get_class c.name = some R) (hlist : R.m_functions = [i])
    (he : w.fn i = some e) (hname : e.name ≠ baz.name) :
    (sync_class_from_sk WITH_EDITOR w c superclass callback).2 = true
    ∧ ∃ k R', k ≠ i
      ∧ (sync_class_from_sk WITH_EDITOR w c superclass callback).1.get_class c.name = some R'
      ∧ R'.m_functions = [k]
      ∧ (sync_class_from_sk WITH_EDITOR w c superclass callback).1.fn k
          = some (ReflectedFunction.new type (c.invokable baz)) := by
  obtain ⟨g, hg, _, _, _, heq⟩ := sync_class_result WITH_EDITOR callback hwf c superclass huniq
  obtain ⟨m1, _, m3⟩ := mark_class_spec w c.name
  have hrcp : (mark_class_for_delete w (w.get_class c.name)).get_class c.name = w.get_class c.name :=
    get_class_congr m1 c.name
  obtain ⟨hT, _, _, _, hlistE, _, hsome⟩ :=
    ensure_record_spec (mark_class_for_delete w (w.get_class c.name)) c superclass
      (w.get_class c.name) hrcp
  -- the world the gathering loops start from
  generalize hw2 : ensure_instance_record (mark_class_for_delete w (w.get_class c.name)) c
    superclass (w.get_class c.name) = w2 at hg hT hlistE hsome
  have hsome2 : (w2.get_class c.name).isSome = true := by rw [hsome, hR]; rfl
  obtain ⟨R2, hR2⟩ := Option.isSome_iff_exists.1 hsome2
  have hlist2 : R2.m_functions = [i] := by
    rcases hlistE R2 hR2 with ⟨R1, hR1, hl⟩ | ⟨hnone, _⟩
    · rw [hrcp, hR] at hR1
      rw [hl, ← Option.some.inj hR1, hlist]
    · rw [hrcp, hR] at hnone; cases hnone
  have he2 : w2.fn i = some { e with m_marked_for_delete_class := true } := by
    rw [fn_congr hT, m3 i, if_pos ⟨R, hR, by rw [hlist]; exact List.mem_singleton.2 rfl⟩, he]
    rfl
  obtain ⟨hcount, hk, hfn, hRg⟩ := gather_rename hroutines hexp hR2 hlist2 he2 hname
  rw [← hg] at hcount hfn hRg
  generalize first_free_slot w2.m_reflected_functions = k at hk hfn hRg
  have hnd : (ReflectedClass.mk R2.name R2.m_ue_static_class_p [i, k]
      R2.m_store_sk_instance).m_functions.Nodup := by
    show [i, k].Nodup
    simp [Ne.symm hk]
  obtain ⟨s1, ⟨L', s2, hperm⟩, _, _, s5, _⟩ :=
    @sweep_record_spec WITH_EDITOR callback _ _ _ hRg hnd
  have hgi : g.1.fn i = some { e with m_marked_for_delete_class := true } := by
    rw [hfn i, if_neg (Ne.symm hk), he2]
  have hgk : g.1.fn k = some (ReflectedFunction.new type (c.invokable baz)) := by
    rw [hfn k, if_pos rfl]
  have hsi : is_stale (fun f => f.m_marked_for_delete_class) g.1 i = true := by
    rw [is_stale_of_fn hgi]
  have hsk : is_stale (fun f => f.m_marked_for_delete_class) g.1 k = false := by
    rw [is_stale_of_fn hgk]
    rfl
  have hfilter : [i, k].filter (fun j => !is_stale (fun f => f.m_marked_for_delete_class) g.1 j)
      = [k] := by
    simp [List.filter, hsi, hsk]
  have hfilter2 : ([i, k].filter (is_stale (fun f => f.m_marked_for_delete_class) g.1)).length
      = 1 := by
    simp [List.filter, hsi, hsk]
  have hperm : L'.Perm [k] := by
    have h := hperm
    rw [show (ReflectedClass.mk R2.name R2.m_ue_static_class_p [i, k]
      R2.m_store_sk_instance).m_functions = [i, k] from rfl, hfilter] at h
    exact h
  have hL : L' = [k] := List.perm_singleton.1 hperm
  have hdel : (sweep_class_record WITH_EDITOR callback g.1 c.name).2 = 1 := by
    rw [s5]
    exact hfilter2
  rw [heq]
  refine ⟨?_, k, _, Ne.symm (Ne.symm hk), s2, hL, ?_⟩
  · show decide (0 < (g.2 + (sweep_class_record WITH_EDITOR callback g.1 c.name).2) % 2 ^ 32) = true
    rw [hcount, hdel]
    decide
  · show (sweep_class_record WITH_EDITOR callback g.1 c.name).1.fn k = _
    rw [s1 k, if_neg, hgk]
    rintro ⟨_, hst⟩
    rw [hsk] at hst
    cases hst

theorem Example.with_bar_wf : Example.with_bar.WF := by
  refine ⟨by decide, ?_, by decide, ?_⟩
  · intro c hc i hi
    have hc : c = ⟨11, some 500, [0], false⟩ := by simpa [Example.with_bar] using hc
    subst hc
    have hi : i = 0 := by simpa using hi
    subst hi
    exact ⟨Example.bar_entry, rfl, rfl⟩
  · intro i f hf
    have hlt := fn_lt_length hf
    have hi : i = 0 := by
      have : i < 1 := hlt
      omega
    subst hi
    have hf : Example.bar_entry = f := Option.some.inj hf
    subst hf
    exact ⟨_, List.mem_singleton.2 rfl, rfl, List.mem_singleton.2 rfl⟩

theorem Example.tree_bar_wf : Example.tree_bar.WF Example.object :=
  ⟨by decide, by decide⟩

theorem Example.tree_baz_wf : Example.tree_baz.WF Example.object :=
  ⟨by decide, by decide⟩

theorem Example.tree_entity_wf : Example.tree_entity.WF Example.object :=
  ⟨by decide, by decide⟩

theorem try_add_event_of_bodyless {w : World} {inv : SkInvokableBase}
    (h : inv.annotation_flags.ue4_blueprint = true
      ∨ inv.scope.annotation_flags.reflected_data = true)
    (hb : is_bodyless_method inv) :
    try_add_reflected_function w inv = add_reflected_event w inv := by
  unfold is_bodyless_method at hb
  unfold try_add_reflected_function
  by_cases hbp : inv.annotation_flags.ue4_blueprint = true
  · rw [if_pos hbp, if_pos hb]
  · rcases h with h | h
    · exact absurd h hbp
    · rw [if_neg hbp, if_pos h, if_pos hb]

theorem try_add_call_of_scripted {w : World} {inv : SkInvokableBase}
    (h : inv.annotation_flags.ue4_blueprint = true) (hs : is_scripted_routine inv) :
    try_add_reflected_function w inv = add_reflected_call w inv := by
  unfold is_scripted_routine at hs
  unfold try_add_reflected_function
  have hnb : ¬ (inv.invoke_type = eSkInvokable.SkInvokable_method_func
      ∨ inv.invoke_type = eSkInvokable.SkInvokable_method_mthd) := by
    rintro (h1 | h1) <;> rcases hs with h2 | h2 <;> rw [h1] at h2 <;> cases h2
  rw [if_pos h, if_neg hnb, if_pos hs]

/-- The index `try_update_reflected_function` hands back: that of the first entry
of the class's list with the routine's name and member flag, or -1. -/
theorem try_update_out_index (w : World) (inv : SkInvokableBase) :
    (try_update_reflected_function w inv).out_function_index
      = match w.get_class inv.scope.name with
        | none => -1
        | some R =>
          match R.m_functions.find? (is_slot_of w inv) with
          | none => -1
          | some i => (i : Int) := by
  unfold try_update_reflected_function
  cases hR : w.get_class inv.scope.name with
  | none => rfl
  | some R =>
    simp only
    cases hfind : R.m_functions.find? (is_slot_of w inv) with
    | none => rfl
    | some i =>
      obtain ⟨e, he, _, _⟩ := is_slot_of_iff.1 (List.find?_some hfind)
      simp only [he]
      split
      · rfl
      · cases e.m_type <;> simp only <;> split <;> rfl

/-- With at most one entry of the class carrying the routine's name and member
flag, the search finds that entry. -/
theorem find_slot_of_unique {w : World} {inv : SkInvokableBase} {R : ReflectedClass}
    (hunique : ∀ j₁ ∈ R.m_functions, ∀ j₂ ∈ R.m_functions,
      is_slot_of w inv j₁ = true → is_slot_of w inv j₂ = true → j₁ = j₂)
    {i : Nat} (hi : i ∈ R.m_functions) (hs : is_slot_of w inv i = true) :
    R.m_functions.find? (is_slot_of w inv) = some i := by
  apply find_unique hi hs
  intro j hj hne
  cases hsj : is_slot_of w inv j with
  | false => rfl
  | true => exact absurd (hunique j hj i hi hsj hs) hne

theorem getD_set_byte (m : Memory) (i k v : Nat) :
    (m.set i v).getD k 0 = if k = i ∧ i < m.length then v else m.getD k 0 := by
  simp only [List.getD_eq_getElem?_getD, List.getElem?_set]
  by_cases h : i = k
  · subst h
    by_cases hl : i < m.length
    · simp [hl]
    · have hn : m[i]? = none := List.getElem?_eq_none (by omega)
      simp [hl, hn]
  · have h' : ¬ k = i := fun e => h e.symm
    simp [h, h']

theorem Memcpy_succ (m : Memory) (d : Nat) (src : List Nat) (n : Nat) :
    Memcpy m d src (n + 1) = (Memcpy m d src n).set (d + n) (src.getD n 0) := by
  unfold Memcpy
  rw [List.range_succ, List.foldl_append]
  rfl

theorem Memcpy_length (m : Memory) (d : Nat) (src : List Nat) (n : Nat) :
    (Memcpy m d src n).length = m.length := by
  induction n with
  | zero => rfl
  | succ n ih => rw [Memcpy_succ, List.length_set, ih]

theorem Memcpy_getD (m : Memory) (d : Nat) (src : List Nat) (n k : Nat) :
    (Memcpy m d src n).getD k 0
      = if d ≤ k ∧ k < d + n ∧ k < m.length then src.getD (k - d) 0 else m.getD k 0 := by
  induction n with
  | zero =>
    have : ¬ (d ≤ k ∧ k < d + 0 ∧ k < m.length) := by omega
    rw [if_neg this]
    rfl
  | succ n ih =>
    rw [Memcpy_succ, getD_set_byte, Memcpy_length, ih]
    by_cases h1 : k = d + n ∧ d + n < m.length
    · rw [if_pos h1]
      have h2 : d ≤ k ∧ k < d + (n + 1) ∧ k < m.length := by omega
      rw [if_pos h2]
      have : k - d = n := by omega
      rw [this]
    · rw [if_neg h1]
      by_cases h2 : d ≤ k ∧ k < d + n ∧ k < m.length
      · have h3 : d ≤ k ∧ k < d + (n + 1) ∧ k < m.length := by omega
        rw [if_pos h2, if_pos h3]
      · rw [if_neg h2]
        by_cases h3 : d ≤ k ∧ k < d + (n + 1) ∧ k < m.length
        · exfalso; omega
        · rw [if_neg h3]

theorem bytes_ext (a b : List Nat) (hl : a.length = b.length)
    (h : ∀ k, k < a.length → a.getD k 0 = b.getD k 0) : a = b := by
  apply List.ext_getElem hl
  intro k h1 h2
  have := h k h1
  simp only [List.getD_eq_getElem?_getD, List.getElem?_eq_getElem h1,
    List.getElem?_eq_getElem h2, Option.getD_some] at this
  exact this

theorem getD_drop_byte (m : Memory) (d k : Nat) : (m.drop d).getD k 0 = m.getD (d + k) 0 := by
  simp only [List.getD_eq_getElem?_getD, List.getElem?_drop]

/-- Reading `count` bytes at `p` into a fresh buffer gives `payload` when memory
holds `payload` there. -/
theorem Memcpy_read (memory : Memory) (p : Nat) (payload : List Nat)
    (h : ∀ k, k < payload.length → memory.getD (p + k) 0 = payload.getD k 0) :
    Memcpy (List.replicate payload.length 0) 0 (memory.drop p) payload.length = payload := by
  apply bytes_ext
  · rw [Memcpy_length, List.length_replicate]
  · intro k hk
    rw [Memcpy_length, List.length_replicate] at hk
    rw [Memcpy_getD, List.length_replicate, if_pos (by omega), getD_drop_byte]
    exact h k hk

/-- A copy of `payload` into memory at `dest`, within bounds: length kept, the
bytes of `payload` at `dest`, all other bytes as before. -/
theorem Memcpy_spec (memory : Memory) (dest : Nat) (payload : List Nat)
    (hfit : dest + payload.length ≤ memory.length) :
    (Memcpy memory dest payload payload.length).length = memory.length
    ∧ (∀ k, k < payload.length →
        (Memcpy memory dest payload payload.length).getD (dest + k) 0 = payload.getD k 0)
    ∧ (∀ k, k < dest ∨ dest + payload.length ≤ k →
        (Memcpy memory dest payload payload.length).getD k 0 = memory.getD k 0) := by
  refine ⟨Memcpy_length _ _ _ _, ?_, ?_⟩
  · intro k hk
    rw [Memcpy_getD, if_pos (by omega)]
    have : dest + k - dest = k := by omega
    rw [this]
  · intro k hk
    rw [Memcpy_getD, if_neg (by omega)]

theorem coherent_null (b : Bool) : (PropertySelection.null b).coherent :=
  ⟨Or.inl ⟨rfl, rfl, rfl, rfl⟩, rfl⟩

theorem build_chain_coherent (brain : SkBrain) (host : UEHost) (sk_name : ASymbol)
    (sk_type : SkClassDescBase) (ue_outer_p : Nat) (is_final : Bool) :
    (build_ue_property_chain brain host sk_name sk_type ue_outer_p is_final).coherent := by
  unfold build_ue_property_chain
  by_cases h0 : sk_type.ptr = brain.SkBoolean_class
  · rw [if_pos h0]
    exact ⟨Or.inr ⟨_, rfl, rfl, rfl, rfl⟩, rfl⟩
  rw [if_neg h0]
  by_cases h1 : sk_type.ptr = brain.SkInteger_class
  · rw [if_pos h1]
    exact ⟨Or.inr ⟨_, rfl, rfl, rfl, rfl⟩, rfl⟩
  rw [if_neg h1]
  by_cases h2 : sk_type.ptr = brain.SkReal_class
  · rw [if_pos h2]
    exact ⟨Or.inr ⟨_, rfl, rfl, rfl, rfl⟩, rfl⟩
  rw [if_neg h2]
  by_cases h3 : sk_type.ptr = brain.SkString_class
  · rw [if_pos h3]
    exact ⟨Or.inr ⟨_, rfl, rfl, rfl, rfl⟩, rfl⟩
  rw [if_neg h3]
  by_cases h4 : sk_type.ptr = brain.SkVector2_class
  · rw [if_pos h4]
    exact ⟨Or.inr ⟨_, rfl, rfl, rfl, rfl⟩, rfl⟩
  rw [if_neg h4]
  by_cases h5 : sk_type.ptr = brain.SkVector3_class
  · rw [if_pos h5]
    exact ⟨Or.inr ⟨_, rfl, rfl, rfl, rfl⟩, rfl⟩
  rw [if_neg h5]
  by_cases h6 : sk_type.ptr = brain.SkVector4_class
  · rw [if_pos h6]
    exact ⟨Or.inr ⟨_, rfl, rfl, rfl, rfl⟩, rfl⟩
  rw [if_neg h6]
  by_cases h7 : sk_type.ptr = brain.SkRotationAngles_class
  · rw [if_pos h7]
    exact ⟨Or.inr ⟨_, rfl, rfl, rfl, rfl⟩, rfl⟩
  rw [if_neg h7]
  by_cases h8 : sk_type.ptr = brain.SkTransform_class
  · rw [if_pos h8]
    exact ⟨Or.inr ⟨_, rfl, rfl, rfl, rfl⟩, rfl⟩
  rw [if_neg h8]
  by_cases he : sk_type.key_class_is_class brain.SkEnum_class = true
  · rw [if_pos he]
    cases host.FindObject_UEnum sk_type.key_class.name with
    | none => exact coherent_null _
    | some _ => exact ⟨Or.inr ⟨_, rfl, rfl, rfl, rfl⟩, rfl⟩
  rw [if_neg he]
  by_cases hn : sk_type.key_class_is_class brain.SkUEEntity_class = true
  · rw [if_pos hn]
    cases host.get_ue_class_from_sk_class sk_type.key_class with
    | none => exact coherent_null _
    | some _ => exact ⟨Or.inr ⟨_, rfl, rfl, rfl, rfl⟩, rfl⟩
  rw [if_neg hn]
  cases host.get_ue_struct_from_sk_class sk_type.key_class with
  | none => exact coherent_null _
  | some ue_struct_p =>
    simp only
    by_cases hv : host.is_data_stored_by_val ue_struct_p.structure_size = true
    · rw [if_pos hv]; exact ⟨Or.inr ⟨_, rfl, rfl, rfl, rfl⟩, rfl⟩
    · rw [if_neg hv]; exact ⟨Or.inr ⟨_, rfl, rfl, rfl, rfl⟩, rfl⟩

theorem build_chain_kind (brain : SkBrain) (host : UEHost) (sk_name : ASymbol)
    (sk_type : SkClassDescBase) (ue_outer_p : Nat) (is_final : Bool) :
    (build_ue_property_chain brain host sk_name sk_type ue_outer_p is_final).kind
      = marshal_ladder brain host sk_type := by
  unfold build_ue_property_chain marshal_ladder
  by_cases h0 : sk_type.ptr = brain.SkBoolean_class
  · rw [if_pos h0]; rw [if_pos h0]
    rfl
  rw [if_neg h0]; rw [if_neg h0]
  by_cases h1 : sk_type.ptr = brain.SkInteger_class
  · rw [if_pos h1]; rw [if_pos h1]
    rfl
  rw [if_neg h1]; rw [if_neg h1]
  by_cases h2 : sk_type.ptr = brain.SkReal_class
  · rw [if_pos h2]; rw [if_pos h2]
    rfl
  rw [if_neg h2]; rw [if_neg h2]
  by_cases h3 : sk_type.ptr = brain.SkString_class
  · rw [if_pos h3]; rw [if_pos h3]
    rfl
  rw [if_neg h3]; rw [if_neg h3]
  by_cases h4 : sk_type.ptr = brain.SkVector2_class
  · rw [if_pos h4]; rw [if_pos h4]
    rfl
  rw [if_neg h4]; rw [if_neg h4]
  by_cases h5 : sk_type.ptr = brain.SkVector3_class
  · rw [if_pos h5]; rw [if_pos h5]
    rfl
  rw [if_neg h5]; rw [if_neg h5]
  by_cases h6 : sk_type.ptr = brain.SkVector4_class
  · rw [if_pos h6]; rw [if_pos h6]
    rfl
  rw [if_neg h6]; rw [if_neg h6]
  by_cases h7 : sk_type.ptr = brain.SkRotationAngles_class
  · rw [if_pos h7]; rw [if_pos h7]
    rfl
  rw [if_neg h7]; rw [if_neg h7]
  by_cases h8 : sk_type.ptr = brain.SkTransform_class
  · rw [if_pos h8]; rw [if_pos h8]
    rfl
  rw [if_neg h8]; rw [if_neg h8]
  by_cases he : sk_type.key_class_is_class brain.SkEnum_class = true
  · rw [if_pos he]; rw [if_pos he]
    cases host.FindObject_UEnum sk_type.key_class.name with
    | none => rfl
    | some _ => rfl
  rw [if_neg he]; rw [if_neg he]
  by_cases hn : sk_type.key_class_is_class brain.SkUEEntity_class = true
  · rw [if_pos hn]; rw [if_pos hn]
    cases host.get_ue_class_from_sk_class sk_type.key_class with
    | none => rfl
    | some _ => rfl
  rw [if_neg hn]; rw [if_neg hn]
  cases host.get_ue_struct_from_sk_class sk_type.key_class with
  | none => rfl
  | some ue_struct_p =>
    simp only
    by_cases hv : host.is_data_stored_by_val ue_struct_p.structure_size = true
    · rw [if_pos hv, if_pos hv]; rfl
    · rw [if_neg hv, if_neg hv]; rfl

theorem reflect_chain_coherent (host : UEHost) (ue_property : UProperty) :
    (reflect_ue_property_chain host ue_property).coherent := by
  unfold reflect_ue_property_chain
  by_cases h0 : ue_property.IsA UPropertyClass.UBoolProperty = true
  · rw [if_pos h0]; exact ⟨Or.inr ⟨_, rfl, rfl, rfl, rfl⟩, rfl⟩
  rw [if_neg h0]
  by_cases h1 : ue_property.IsA UPropertyClass.UIntProperty = true
  · rw [if_pos h1]; exact ⟨Or.inr ⟨_, rfl, rfl, rfl, rfl⟩, rfl⟩
  rw [if_neg h1]
  by_cases h2 : ue_property.IsA UPropertyClass.UFloatProperty = true
  · rw [if_pos h2]; exact ⟨Or.inr ⟨_, rfl, rfl, rfl, rfl⟩, rfl⟩
  rw [if_neg h2]
  by_cases h3 : ue_property.IsA UPropertyClass.UStrProperty = true
  · rw [if_pos h3]; exact ⟨Or.inr ⟨_, rfl, rfl, rfl, rfl⟩, rfl⟩
  rw [if_neg h3]
  by_cases hs : ue_property.IsA UPropertyClass.UStructProperty = true
  · rw [if_pos hs]
    cases ue_property.Struct with
    | none => exact coherent_null _
    | some struct_p =>
      simp only
      by_cases g0 : struct_p.fname = host.ms_struct_vector2_p.fname
      · rw [if_pos g0]; exact ⟨Or.inr ⟨_, rfl, rfl, rfl, rfl⟩, rfl⟩
      rw [if_neg g0]
      by_cases g1 : struct_p.fname = host.ms_struct_vector3_p.fname
      · rw [if_pos g1]; exact ⟨Or.inr ⟨_, rfl, rfl, rfl, rfl⟩, rfl⟩
      rw [if_neg g1]
      by_cases g2 : struct_p.fname = host.ms_struct_vector4_p.fname
      · rw [if_pos g2]; exact ⟨Or.inr ⟨_, rfl, rfl, rfl, rfl⟩, rfl⟩
      rw [if_neg g2]
      by_cases g3 : struct_p.fname = host.ms_struct_rotation_angles_p.fname
      · rw [if_pos g3]; exact ⟨Or.inr ⟨_, rfl, rfl, rfl, rfl⟩, rfl⟩
      rw [if_neg g3]
      by_cases g4 : struct_p.fname = host.ms_struct_transform_p.fname
      · rw [if_pos g4]; exact ⟨Or.inr ⟨_, rfl, rfl, rfl, rfl⟩, rfl⟩
      rw [if_neg g4]
      by_cases gu : (!struct_p.is_user_defined) = true
      · rw [if_pos gu]
        by_cases gv : host.is_data_stored_by_val struct_p.structure_size = true
        · rw [if_pos gv]; exact ⟨Or.inr ⟨_, rfl, rfl, rfl, rfl⟩, rfl⟩
        · rw [if_neg gv]; exact ⟨Or.inr ⟨_, rfl, rfl, rfl, rfl⟩, rfl⟩
      · rw [if_neg gu]; exact coherent_null _
  rw [if_neg hs]
  by_cases hb : (ue_property.IsA UPropertyClass.UByteProperty && ue_property.Enum.isSome) = true
  · rw [if_pos hb]; exact ⟨Or.inr ⟨_, rfl, rfl, rfl, rfl⟩, rfl⟩
  rw [if_neg hb]
  by_cases ho : ue_property.IsA UPropertyClass.UObjectProperty = true
  · rw [if_pos ho]; exact ⟨Or.inr ⟨_, rfl, rfl, rfl, rfl⟩, rfl⟩
  rw [if_neg ho]
  exact coherent_null _

theorem reflect_chain_of_build (brain : SkBrain) (host : UEHost) (sk_name : ASymbol)
    (sk_type : SkClassDescBase) (ue_outer_p : Nat) (is_final : Bool) (P : UProperty)
    (hdistinct : host.core_structs_distinct)
    (hfallback : ∀ s, (marshal_ladder brain host sk_type = some MarshalKind.struct_val
        ∨ marshal_ladder brain host sk_type = some MarshalKind.struct_ref) →
      host.get_ue_struct_from_sk_class sk_type.key_class = some s → host.is_opaque_struct s)
    (hP : (build_ue_property_chain brain host sk_name sk_type ue_outer_p is_final).ue_property_p
      = some P) :
    reflect_ue_property_chain host P
      = build_ue_property_chain brain host sk_name sk_type ue_outer_p is_final := by
  unfold UEHost.core_structs_distinct at hdistinct
  simp only [List.nodup_cons, List.mem_cons, List.mem_singleton, List.not_mem_nil, or_false,
    not_or, List.nodup_nil, and_true, not_false_eq_true] at hdistinct
  obtain ⟨⟨d12, d13, d14, d15⟩, ⟨d23, d24, d25⟩, ⟨d34, d35⟩, d45⟩ := hdistinct
  have d21 : ¬ host.ms_struct_vector3_p.fname = host.ms_struct_vector2_p.fname :=
    fun h => d12 (Eq.symm h)
  have d31 : ¬ host.ms_struct_vector4_p.fname = host.ms_struct_vector2_p.fname :=
    fun h => d13 (Eq.symm h)
  have d41 : ¬ host.ms_struct_rotation_angles_p.fname = host.ms_struct_vector2_p.fname :=
    fun h => d14 (Eq.symm h)
  have d51 : ¬ host.ms_struct_transform_p.fname = host.ms_struct_vector2_p.fname :=
    fun h => d15 (Eq.symm h)
  have d32 : ¬ host.ms_struct_vector4_p.fname = host.ms_struct_vector3_p.fname :=
    fun h => d23 (Eq.symm h)
  have d42 : ¬ host.ms_struct_rotation_angles_p.fname = host.ms_struct_vector3_p.fname :=
    fun h => d24 (Eq.symm h)
  have d52 : ¬ host.ms_struct_transform_p.fname = host.ms_struct_vector3_p.fname :=
    fun h => d25 (Eq.symm h)
  have d43 : ¬ host.ms_struct_rotation_angles_p.fname = host.ms_struct_vector4_p.fname :=
    fun h => d34 (Eq.symm h)
  have d53 : ¬ host.ms_struct_transform_p.fname = host.ms_struct_vector4_p.fname :=
    fun h => d35 (Eq.symm h)
  have d54 : ¬ host.ms_struct_transform_p.fname = host.ms_struct_rotation_angles_p.fname :=
    fun h => d45 (Eq.symm h)
  have hkind := build_chain_kind brain host sk_name sk_type ue_outer_p is_final
  unfold build_ue_property_chain at hP hkind ⊢
  by_cases h0 : sk_type.ptr = brain.SkBoolean_class
  · rw [if_pos h0] at hP hkind ⊢
    cases hP
    unfold reflect_ue_property_chain
    simp [UProperty.IsA, NewObject_UProperty, *]
  rw [if_neg h0] at hP hkind ⊢
  by_cases h1 : sk_type.ptr = brain.SkInteger_class
  · rw [if_pos h1] at hP hkind ⊢
    cases hP
    unfold reflect_ue_property_chain
    simp [UProperty.IsA, NewObject_UProperty, *]
  rw [if_neg h1] at hP hkind ⊢
  by_cases h2 : sk_type.ptr = brain.SkReal_class
  · rw [if_pos h2] at hP hkind ⊢
    cases hP
    unfold reflect_ue_property_chain
    simp [UProperty.IsA, NewObject_UProperty, *]
  rw [if_neg h2] at hP hkind ⊢
  by_cases h3 : sk_type.ptr = brain.SkString_class
  · rw [if_pos h3] at hP hkind ⊢
    cases hP
    unfold reflect_ue_property_chain
    simp [UProperty.IsA, NewObject_UProperty, *]
  rw [if_neg h3] at hP hkind ⊢
  by_cases h4 : sk_type.ptr = brain.SkVector2_class
  · rw [if_pos h4] at hP hkind ⊢
    cases hP
    unfold reflect_ue_property_chain
    simp [UProperty.IsA, NewObject_UProperty, *]
  rw [if_neg h4] at hP hkind ⊢
  by_cases h5 : sk_type.ptr = brain.SkVector3_class
  · rw [if_pos h5] at hP hkind ⊢
    cases hP
    unfold reflect_ue_property_chain
    simp [UProperty.IsA, NewObject_UProperty, *]
  rw [if_neg h5] at hP hkind ⊢
  by_cases h6 : sk_type.ptr = brain.SkVector4_class
  · rw [if_pos h6] at hP hkind ⊢
    cases hP
    unfold reflect_ue_property_chain
    simp [UProperty.IsA, NewObject_UProperty, *]
  rw [if_neg h6] at hP hkind ⊢
  by_cases h7 : sk_type.ptr = brain.SkRotationAngles_class
  · rw [if_pos h7] at hP hkind ⊢
    cases hP
    unfold reflect_ue_property_chain
    simp [UProperty.IsA, NewObject_UProperty, *]
  rw [if_neg h7] at hP hkind ⊢
  by_cases h8 : sk_type.ptr = brain.SkTransform_class
  · rw [if_pos h8] at hP hkind ⊢
    cases hP
    unfold reflect_ue_property_chain
    simp [UProperty.IsA, NewObject_UProperty, *]
  rw [if_neg h8] at hP hkind ⊢
  by_cases he : sk_type.key_class_is_class brain.SkEnum_class = true
  · rw [if_pos he] at hP hkind ⊢
    cases hen : host.FindObject_UEnum sk_type.key_class.name with
    | none => rw [hen] at hP; simp [PropertySelection.null] at hP
    | some ue_enum_p =>
      rw [hen] at hP
      simp only at hP ⊢
      cases hP
      unfold reflect_ue_property_chain
      simp [UProperty.IsA, NewObject_UProperty]
  rw [if_neg he] at hP hkind ⊢
  by_cases hn : sk_type.key_class_is_class brain.SkUEEntity_class = true
  · rw [if_pos hn] at hP hkind ⊢
    cases hcl : host.get_ue_class_from_sk_class sk_type.key_class with
    | none => rw [hcl] at hP; simp [PropertySelection.null] at hP
    | some ue_class_p =>
      rw [hcl] at hP
      simp only at hP ⊢
      cases hP
      unfold reflect_ue_property_chain
      simp [UProperty.IsA, NewObject_UProperty]
  rw [if_neg hn] at hP hkind ⊢
  cases hst : host.get_ue_struct_from_sk_class sk_type.key_class with
  | none => rw [hst] at hP; simp [PropertySelection.null] at hP
  | some s =>
    rw [hst] at hP hkind
    simp only at hP hkind ⊢
    have hop : host.is_opaque_struct s := by
      apply hfallback s _ hst
      rw [← hkind]
      by_cases hv : host.is_data_stored_by_val s.structure_size = true
      · rw [if_pos hv]; exact Or.inl rfl
      · rw [if_neg hv]; exact Or.inr rfl
    obtain ⟨hud, hnames⟩ := hop
    simp only [List.mem_cons, List.mem_singleton, List.not_mem_nil, or_false, not_or] at hnames
    obtain ⟨n1, n2, n3, n4, n5⟩ := hnames
    by_cases hv : host.is_data_stored_by_val s.structure_size = true
    · rw [if_pos hv] at hP ⊢
      cases hP
      unfold reflect_ue_property_chain
      simp [UProperty.IsA, NewObject_UProperty, *]
    · rw [if_neg hv] at hP ⊢
      cases hP
      unfold reflect_ue_property_chain
      simp [UProperty.IsA, NewObject_UProperty, *]

theorem property_isSome_eq_mapping (brain : SkBrain) (host : UEHost) (sk_name : ASymbol)
    (sk_type : SkClassDescBase) (ue_outer_p : Nat) (is_final : Bool) :
    (build_ue_property_chain brain host sk_name sk_type ue_outer_p is_final).ue_property_p.isSome
      = has_marshal_mapping brain host sk_type := by
  rw [(build_chain_coherent brain host sk_name sk_type ue_outer_p is_final).2]
  unfold has_marshal_mapping
  rw [← build_chain_kind brain host sk_name sk_type ue_outer_p is_final]
  unfold PropertySelection.kind
  cases (build_ue_property_chain brain host sk_name sk_type ue_outer_p is_final).k2_param_fetcher_p
    <;> rfl

theorem build_ue_param_some (brain : SkBrain) (host : UEHost) (sk_name : ASymbol)
    (sk_type : SkClassDescBase) (f : UFunction) (info : Option ReflectedProperty)
    (is_final : Bool) (hmap : has_marshal_mapping brain host sk_type = true) :
    ∃ P, param_property brain host f.ptr is_final sk_name sk_type = some P
      ∧ (build_ue_param brain host sk_name sk_type f info is_final).property_p = some P
      ∧ (build_ue_param brain host sk_name sk_type f info is_final).ue_function = f.LinkChild P
      ∧ (build_ue_param brain host sk_name sk_type f info is_final).out_info
        = info.map (fun _ =>
            { name := sk_name
              m_ue_property_p := some P
              m_k2_param_fetcher_p :=
                (build_ue_property_chain brain host sk_name sk_type f.ptr is_final).k2_param_fetcher_p
              m_k2_value_fetcher_p :=
                (build_ue_property_chain brain host sk_name sk_type f.ptr is_final).k2_value_fetcher_p
              m_k2_value_assigner_p :=
                (build_ue_property_chain brain host sk_name sk_type f.ptr is_final).k2_value_assigner_p
              m_sk_value_storer_p :=
                (build_ue_property_chain brain host sk_name sk_type f.ptr is_final).sk_value_storer_p }) := by
  have h := property_isSome_eq_mapping brain host sk_name sk_type f.ptr is_final
  rw [hmap] at h
  obtain ⟨Q, hQ⟩ := Option.isSome_iff_exists.mp h
  refine ⟨{ Q with CPF_Parm := true }, ?_, ?_, ?_, ?_⟩
  · unfold param_property; rw [hQ]; rfl
  · unfold build_ue_param build_ue_property; simp only [hQ]
  · unfold build_ue_param build_ue_property; simp only [hQ]
  · unfold build_ue_param build_ue_property; simp only [hQ]
    cases info <;> rfl

theorem build_ue_param_none (brain : SkBrain) (host : UEHost) (sk_name : ASymbol)
    (sk_type : SkClassDescBase) (f : UFunction) (info : Option ReflectedProperty)
    (is_final : Bool) (hmap : has_marshal_mapping brain host sk_type = false) :
    (build_ue_param brain host sk_name sk_type f info is_final).property_p = none
      ∧ (build_ue_param brain host sk_name sk_type f info is_final).ue_function = f := by
  have h := property_isSome_eq_mapping brain host sk_name sk_type f.ptr is_final
  rw [hmap] at h
  have hQ : (build_ue_property_chain brain host sk_name sk_type f.ptr is_final).ue_property_p
      = none := by
    cases hc : (build_ue_property_chain brain host sk_name sk_type f.ptr is_final).ue_property_p
    · rfl
    · rw [hc] at h; cases h
  constructor
  · unfold build_ue_param build_ue_property; simp only [hQ]
  · unfold build_ue_param build_ue_property; simp only [hQ]

theorem build_ue_param_info (brain : SkBrain) (host : UEHost) (sk_name : ASymbol)
    (sk_type : SkClassDescBase) (f : UFunction) (info : Option ReflectedProperty)
    (is_final : Bool) :
    (build_ue_param brain host sk_name sk_type f info is_final).out_info
      = info.map (fun _ => param_info brain host f.ptr is_final sk_name sk_type) := by
  unfold build_ue_param build_ue_property param_info param_property
  cases hc : (build_ue_property_chain brain host sk_name sk_type f.ptr is_final).ue_property_p
    <;> cases info <;> simp [hc]

theorem build_ue_param_ptr (brain : SkBrain) (host : UEHost) (sk_name : ASymbol)
    (sk_type : SkClassDescBase) (f : UFunction) (info : Option ReflectedProperty)
    (is_final : Bool) :
    (build_ue_param brain host sk_name sk_type f info is_final).ue_function.ptr = f.ptr := by
  unfold build_ue_param build_ue_property
  cases hc : (build_ue_property_chain brain host sk_name sk_type f.ptr is_final).ue_property_p with
  | none => simp only [hc]
  | some v => simp only [hc]; rfl

theorem build_ue_params_ptr (brain : SkBrain) (host : UEHost) (pl : List SkParameterBase)
    (is_final : Bool) : ∀ (n : Nat) (s : BuildParamsState),
    (build_ue_params brain host pl is_final n s).ue_function.ptr = s.ue_function.ptr := by
  intro n
  induction n with
  | zero => intro s; rfl
  | succ n ih =>
    intro s
    unfold build_ue_params
    cases hp : pl[n]? with
    | none => rfl
    | some p =>
      simp only
      split
      · rw [ih]; exact build_ue_param_ptr _ _ _ _ _ _ _
      · exact build_ue_param_ptr _ _ _ _ _ _ _

theorem build_ue_params_all (brain : SkBrain) (host : UEHost) (pl : List SkParameterBase)
    (is_final : Bool) : ∀ (n : Nat) (s : BuildParamsState), n ≤ pl.length → s.ok = true →
    (pl.take n).all (fun p => has_marshal_mapping brain host (brain.get_expected_type p)) = true →
    (build_ue_params brain host pl is_final n s).ok = true
      ∧ (build_ue_params brain host pl is_final n s).ue_function
        = { s.ue_function with
            Children := param_properties brain host s.ue_function.ptr is_final (pl.take n)
              ++ s.ue_function.Children } := by
  intro n
  induction n with
  | zero =>
    intro s _ hok _
    exact ⟨hok, rfl⟩
  | succ n ih =>
    intro s hn _ hall
    have hlt : n < pl.length := hn
    have hget : pl[n]? = some pl[n] := List.getElem?_eq_getElem hlt
    have htake : pl.take (n + 1) = pl.take n ++ [pl[n]] := by
      rw [List.take_succ, hget]; rfl
    rw [htake, List.all_append, Bool.and_eq_true] at hall
    obtain ⟨hall1, hall2⟩ := hall
    simp only [List.all_cons, List.all_nil, Bool.and_true] at hall2
    obtain ⟨P, hP, hprop, hfun, _⟩ := build_ue_param_some brain host pl[n].name
      (brain.get_expected_type pl[n]) s.ue_function
      (s.out_param_info_array.map (fun a => info_at a n)) is_final hall2
    unfold build_ue_params
    rw [hget]
    simp only [hprop, hfun, Option.isSome_some, if_true]
    have key := fun s1 (h : s1.ok = true) => ih s1 (Nat.le_of_lt hlt) h hall1
    refine ⟨(key _ rfl).1, ?_⟩
    rw [(key _ rfl).2, htake]
    unfold param_properties
    rw [List.filterMap_append]
    simp only [List.filterMap_cons, List.filterMap_nil, UFunction.LinkChild, hP,
      List.append_assoc, List.singleton_append]

theorem build_ue_params_fail (brain : SkBrain) (host : UEHost) (pl : List SkParameterBase)
    (is_final : Bool) : ∀ (n : Nat) (s : BuildParamsState), n ≤ pl.length →
    (pl.take n).all (fun p => has_marshal_mapping brain host (brain.get_expected_type p)) = false →
    (build_ue_params brain host pl is_final n s).ok = false := by
  intro n
  induction n with
  | zero => intro s _ hall; simp at hall
  | succ n ih =>
    intro s hn hall
    have hlt : n < pl.length := hn
    have hget : pl[n]? = some pl[n] := List.getElem?_eq_getElem hlt
    have htake : pl.take (n + 1) = pl.take n ++ [pl[n]] := by
      rw [List.take_succ, hget]; rfl
    rw [htake, List.all_append] at hall
    simp only [List.all_cons, List.all_nil, Bool.and_true] at hall
    unfold build_ue_params
    rw [hget]
    by_cases hm : has_marshal_mapping brain host (brain.get_expected_type pl[n]) = true
    · obtain ⟨P, hP, hprop, hfun, _⟩ := build_ue_param_some brain host pl[n].name
        (brain.get_expected_type pl[n]) s.ue_function
        (s.out_param_info_array.map (fun a => info_at a n)) is_final hm
      simp only [hprop, Option.isSome_some, if_true]
      apply ih _ (Nat.le_of_lt hlt)
      rw [hm, Bool.and_true] at hall
      exact hall
    · have hm' : has_marshal_mapping brain host (brain.get_expected_type pl[n]) = false := by
        simpa using hm
      obtain ⟨hprop, _⟩ := build_ue_param_none brain host pl[n].name
        (brain.get_expected_type pl[n]) s.ue_function
        (s.out_param_info_array.map (fun a => info_at a n)) is_final hm'
      simp only [hprop, Option.isSome_none, Bool.false_eq_true, if_false]

theorem info_at_set_ne (a : List ReflectedProperty) (n j : Nat) (x : ReflectedProperty)
    (h : j ≠ n) : info_at (a.set n x) j = info_at a j := by
  unfold info_at
  rw [List.getD_eq_getElem?_getD, List.getD_eq_getElem?_getD, List.getElem?_set_ne (Ne.symm h)]

theorem info_at_set_eq (a : List ReflectedProperty) (n : Nat) (x : ReflectedProperty)
    (h : n < a.length) : info_at (a.set n x) n = x := by
  unfold info_at
  rw [List.getD_eq_getElem?_getD, List.getElem?_set_self h]
  rfl

theorem build_ue_params_infos (brain : SkBrain) (host : UEHost) (pl : List SkParameterBase)
    (is_final : Bool) : ∀ (n : Nat) (s : BuildParamsState) (a : List ReflectedProperty),
    n ≤ pl.length → s.out_param_info_array = some a →
    ∃ a', (build_ue_params brain host pl is_final n s).out_param_info_array = some a'
      ∧ a'.length = a.length
      ∧ (∀ j, n ≤ j → info_at a' j = info_at a j)
      ∧ ((pl.take n).all
            (fun p => has_marshal_mapping brain host (brain.get_expected_type p)) = true →
          ∀ j (_ : j < n) (hl : j < pl.length), j < a.length →
            info_at a' j = param_info brain host s.ue_function.ptr is_final pl[j].name
              (brain.get_expected_type pl[j])) := by
  intro n
  induction n with
  | zero =>
    intro s a _ ha
    exact ⟨a, ha, rfl, fun _ _ => rfl, fun _ j hj => absurd hj (Nat.not_lt_zero j)⟩
  | succ n ih =>
    intro s a hn ha
    have hlt : n < pl.length := hn
    have hget : pl[n]? = some pl[n] := List.getElem?_eq_getElem hlt
    have htake : pl.take (n + 1) = pl.take n ++ [pl[n]] := by
      rw [List.take_succ, hget]; rfl
    have hinfo := build_ue_param_info brain host pl[n].name (brain.get_expected_type pl[n])
      s.ue_function (s.out_param_info_array.map (fun a => info_at a n)) is_final
    rw [ha] at hinfo
    simp only [Option.map_some'] at hinfo
    have hstore : store_info s.out_param_info_array n
        (build_ue_param brain host pl[n].name (brain.get_expected_type pl[n]) s.ue_function
          (s.out_param_info_array.map (fun a => info_at a n)) is_final).out_info
        = some (a.set n (param_info brain host s.ue_function.ptr is_final pl[n].name
            (brain.get_expected_type pl[n]))) := by
      rw [ha]
      simp only [Option.map_some']
      rw [hinfo]; rfl
    unfold build_ue_params
    rw [hget]
    simp only [hstore]
    by_cases hm : has_marshal_mapping brain host (brain.get_expected_type pl[n]) = true
    · obtain ⟨P, hP, hprop, hfun, _⟩ := build_ue_param_some brain host pl[n].name
        (brain.get_expected_type pl[n]) s.ue_function
        (s.out_param_info_array.map (fun a => info_at a n)) is_final hm
      simp only [hprop, hfun, Option.isSome_some, if_true]
      have hS1 : ∀ S1 : BuildParamsState,
          S1.out_param_info_array = some (a.set n
            (param_info brain host s.ue_function.ptr is_final pl[n].name
              (brain.get_expected_type pl[n]))) →
          S1.ue_function.ptr = s.ue_function.ptr →
          ∃ a', (build_ue_params brain host pl is_final n S1).out_param_info_array = some a'
            ∧ a'.length = a.length
            ∧ (∀ j, n + 1 ≤ j → info_at a' j = info_at a j)
            ∧ ((pl.take (n + 1)).all
                  (fun p => has_marshal_mapping brain host (brain.get_expected_type p)) = true →
                ∀ j (_ : j < n + 1) (hl : j < pl.length), j < a.length →
                  info_at a' j = param_info brain host s.ue_function.ptr is_final pl[j].name
                    (brain.get_expected_type pl[j])) := by
        intro S1 hS hptr
        obtain ⟨a', h1, h2, h3, h4⟩ := ih S1 _ (Nat.le_of_lt hlt) hS
        rw [hptr] at h4
        refine ⟨a', h1, ?_, ?_, ?_⟩
        · rw [h2, List.length_set]
        · intro j hj
          rw [h3 j (Nat.le_of_lt hj), info_at_set_ne _ _ _ _ (Nat.ne_of_gt hj)]
        · intro hall j hj hl hja
          rw [htake, List.all_append, Bool.and_eq_true] at hall
          by_cases hjn : j = n
          · subst hjn
            rw [h3 j (Nat.le_refl j), info_at_set_eq _ _ _ hja]
          · have hj' : j < n := Nat.lt_of_le_of_ne (Nat.lt_succ_iff.mp hj) hjn
            exact h4 hall.1 j hj' hl (by rw [List.length_set]; exact hja)
      exact hS1 _ rfl rfl
    · have hm' : has_marshal_mapping brain host (brain.get_expected_type pl[n]) = false := by
        simpa using hm
      obtain ⟨hprop, _⟩ := build_ue_param_none brain host pl[n].name
        (brain.get_expected_type pl[n]) s.ue_function
        (s.out_param_info_array.map (fun a => info_at a n)) is_final hm'
      simp only [hprop, Option.isSome_none, Bool.false_eq_true, if_false]
      refine ⟨_, rfl, List.length_set _ _ _, ?_, ?_⟩
      · intro j hj
        rw [info_at_set_ne _ _ _ _ (Nat.ne_of_gt hj)]
      · intro hall
        rw [htake, List.all_append, Bool.and_eq_true] at hall
        simp only [List.all_cons, List.all_nil, Bool.and_true] at hall
        rw [hm'] at hall
        exact absurd hall.2 (by decide)

theorem build_ue_function_eq (E : Bool) (brain : SkBrain) (host : UEHost) (objs : UEObjects)
    (ue_class : UClass) (inv : SkInvokableBase) (type : eReflectedFunctionType) (idx : Nat)
    (a : Option (List ReflectedProperty)) (is_final : Bool) :
    ∃ dup, build_ue_function E brain host objs ue_class inv type idx a is_final
      = build_ue_finish (checked_class E objs ue_class inv)
          (if (build_ue_result brain host inv
                (new_ue_function objs (checked_class E objs ue_class inv) inv type idx) a
                is_final).ok then
            build_ue_params brain host inv.param_list is_final inv.param_list.length
              (build_ue_result brain host inv
                (new_ue_function objs (checked_class E objs ue_class inv) inv type idx) a is_final)
          else build_ue_result brain host inv
                (new_ue_function objs (checked_class E objs ue_class inv) inv type idx) a is_final)
          dup :=
  ⟨_, rfl⟩

/-- The block for the result when there is none to build. -/
theorem build_ue_result_none (brain : SkBrain) (host : UEHost) (inv : SkInvokableBase)
    (f : UFunction) (a : Option (List ReflectedProperty)) (is_final : Bool)
    (h : built_result_class brain inv = none) :
    build_ue_result brain host inv f a is_final
      = { ue_function := f, out_param_info_array := a, unknown_types := [], ok := true } := by
  unfold built_result_class at h
  unfold build_ue_result
  cases hrc : brain.get_result_class inv with
  | none => rfl
  | some rc =>
    rw [hrc] at h
    simp only at h ⊢
    by_cases hobj : rc.ptr = brain.ms_object_class_p
    · rw [if_pos hobj]
    · rw [if_neg hobj] at h; cases h

theorem build_ue_result_some (brain : SkBrain) (host : UEHost) (inv : SkInvokableBase)
    (f : UFunction) (a : List ReflectedProperty) (is_final : Bool) (rc : SkClassDescBase)
    (h : built_result_class brain inv = some rc)
    (hmap : has_marshal_mapping brain host rc = true)
    (hlen : inv.param_list.length < a.length) :
    ∃ P, result_property brain host f.ptr is_final rc = some P
      ∧ (build_ue_result brain host inv f (some a) is_final).ok = true
      ∧ (build_ue_result brain host inv f (some a) is_final).ue_function = f.LinkChild P
      ∧ (build_ue_result brain host inv f (some a) is_final).out_param_info_array
        = some (a.set inv.param_list.length (result_info brain host f.ptr is_final rc)) := by
  unfold built_result_class at h
  cases hrc : brain.get_result_class inv with
  | none => rw [hrc] at h; cases h
  | some rc' =>
    rw [hrc] at h
    simp only at h
    by_cases hobj : rc'.ptr = brain.ms_object_class_p
    · rw [if_pos hobj] at h; cases h
    · rw [if_neg hobj] at h
      cases h
      obtain ⟨Q, hQ, hprop, hfun, _⟩ := build_ue_param_some brain host m_result_name rc f
        (some (info_at a inv.param_list.length)) is_final hmap
      have hinfo := build_ue_param_info brain host m_result_name rc f
        (some (info_at a inv.param_list.length)) is_final
      have hstep : build_ue_result brain host inv f (some a) is_final
          = { ue_function := flag_return_parm (f.LinkChild Q)
              out_param_info_array := flag_return_info
                (store_info (some a) inv.param_list.length
                  (some (param_info brain host f.ptr is_final m_result_name rc)))
                inv.param_list.length
              unknown_types := [], ok := true } := by
        unfold build_ue_result
        simp only [hrc, if_neg hobj, Option.map_some', hprop, Option.isSome_some, if_true, hfun]
        rw [hinfo]
        rfl
      refine ⟨{ Q with CPF_ReturnParm := true }, ?_, ?_, ?_, ?_⟩
      · unfold result_property; rw [hQ]; rfl
      · rw [hstep]
      · rw [hstep]; rfl
      · rw [hstep]
        simp only [store_info, flag_return_info, Option.map_some', info_at_set_eq _ _ _ hlen,
          List.set_set]
        rfl

theorem build_ue_result_unmapped (brain : SkBrain) (host : UEHost) (inv : SkInvokableBase)
    (f : UFunction) (a : Option (List ReflectedProperty)) (is_final : Bool) (rc : SkClassDescBase)
    (h : built_result_class brain inv = some rc)
    (hmap : has_marshal_mapping brain host rc = false) :
    (build_ue_result brain host inv f a is_final).ok = false := by
  unfold built_result_class at h
  cases hrc : brain.get_result_class inv with
  | none => rw [hrc] at h; cases h
  | some rc' =>
    rw [hrc] at h
    simp only at h
    by_cases hobj : rc'.ptr = brain.ms_object_class_p
    · rw [if_pos hobj] at h; cases h
    · rw [if_neg hobj] at h
      cases h
      obtain ⟨hprop, _⟩ := build_ue_param_none brain host m_result_name rc f
        (a.map (fun a => info_at a inv.param_list.length)) is_final hmap
      unfold build_ue_result
      simp only [hrc, if_neg hobj, hprop, Option.isSome_none, Bool.false_eq_true, if_false]

theorem build_ue_function_fail (E : Bool) (brain : SkBrain) (host : UEHost) (objs : UEObjects)
    (ue_class : UClass) (inv : SkInvokableBase) (type : eReflectedFunctionType) (idx : Nat)
    (a : Option (List ReflectedProperty)) (is_final : Bool)
    (hall : all_types_map brain host inv = false) :
    (build_ue_function E brain host objs ue_class inv type idx a is_final).ue_function_p = none
      ∧ (build_ue_function E brain host objs ue_class inv type idx a is_final).ue_class
        = checked_class E objs ue_class inv := by
  obtain ⟨dup, heq⟩ := build_ue_function_eq E brain host objs ue_class inv type idx a is_final
  rw [heq]
  have hfin : ∀ (c : UClass) (s : BuildParamsState), s.ok = false →
      (build_ue_finish c s dup).ue_function_p = none ∧ (build_ue_finish c s dup).ue_class = c := by
    intro c s hs
    unfold build_ue_finish
    simp only [hs, Bool.false_eq_true, if_false, and_self]
  apply hfin
  unfold all_types_map at hall
  cases hb : built_result_class brain inv with
  | none =>
    rw [hb] at hall
    simp only [Bool.true_and] at hall
    rw [build_ue_result_none brain host inv _ a is_final hb]
    simp only [if_true]
    apply build_ue_params_fail _ _ _ _ _ _ (Nat.le_refl _)
    rw [List.take_length]
    exact hall
  | some rc =>
    rw [hb] at hall
    simp only at hall
    by_cases hm : has_marshal_mapping brain host rc = true
    · rw [hm, Bool.true_and] at hall
      have hok : (build_ue_result brain host inv
          (new_ue_function objs (checked_class E objs ue_class inv) inv type idx) a is_final).ok
          = true := by
        cases a with
        | none =>
          unfold built_result_class at hb
          cases hrc : brain.get_result_class inv with
          | none => rw [hrc] at hb; cases hb
          | some rc' =>
            rw [hrc] at hb
            simp only at hb
            by_cases hobj : rc'.ptr = brain.ms_object_class_p
            · rw [if_pos hobj] at hb; cases hb
            · rw [if_neg hobj] at hb
              cases hb
              obtain ⟨Q, _, hprop, _, _⟩ := build_ue_param_some brain host m_result_name rc
                (new_ue_function objs (checked_class E objs ue_class inv) inv type idx)
                none is_final hm
              unfold build_ue_result
              simp only [hrc, if_neg hobj, Option.map_none', hprop, Option.isSome_some, if_true]
        | some a =>
          unfold built_result_class at hb
          cases hrc : brain.get_result_class inv with
          | none => rw [hrc] at hb; cases hb
          | some rc' =>
            rw [hrc] at hb
            simp only at hb
            by_cases hobj : rc'.ptr = brain.ms_object_class_p
            · rw [if_pos hobj] at hb; cases hb
            · rw [if_neg hobj] at hb
              cases hb
              obtain ⟨Q, _, hprop, _, _⟩ := build_ue_param_some brain host m_result_name rc
                (new_ue_function objs (checked_class E objs ue_class inv) inv type idx)
                (some (info_at a inv.param_list.length)) is_final hm
              unfold build_ue_result
              simp only [hrc, if_neg hobj, Option.map_some', hprop, Option.isSome_some, if_true]
      rw [hok]
      simp only [if_true]
      apply build_ue_params_fail _ _ _ _ _ _ (Nat.le_refl _)
      rw [List.take_length]
      exact hall
    · have hm' : has_marshal_mapping brain host rc = false := by simpa using hm
      have hno := build_ue_result_unmapped brain host inv
        (new_ue_function objs (checked_class E objs ue_class inv) inv type idx) a is_final rc hb hm'
      rw [hno]
      simp only [Bool.false_eq_true, if_false]
      exact hno

theorem build_ue_function_ok (E : Bool) (brain : SkBrain) (host : UEHost) (objs : UEObjects)
    (ue_class : UClass) (inv : SkInvokableBase) (type : eReflectedFunctionType) (idx : Nat)
    (a : List ReflectedProperty) (is_final : Bool)
    (hall : all_types_map brain host inv = true) (hlen : inv.param_list.length < a.length) :
    ∃ F a', F = { new_ue_function objs (checked_class E objs ue_class inv) inv type idx with
            Children := built_children brain host
              (new_ue_function objs (checked_class E objs ue_class inv) inv type idx).ptr
              is_final inv
            is_linked := true }
      ∧ (build_ue_function E brain host objs ue_class inv type idx (some a) is_final).ue_function_p
        = some F
      ∧ (build_ue_function E brain host objs ue_class inv type idx (some a) is_final).ue_class
        = ((checked_class E objs ue_class inv).LinkChild F).AddFunctionToFunctionMap F
      ∧ (build_ue_function E brain host objs ue_class inv type idx (some a)
          is_final).out_param_info_array = some a'
      ∧ a'.length = a.length
      ∧ (∀ j (hj : j < inv.param_list.length), info_at a' j
          = param_info brain host F.ptr is_final inv.param_list[j].name
              (brain.get_expected_type inv.param_list[j]))
      ∧ info_at a' inv.param_list.length
        = (match built_result_class brain inv with
          | none => info_at a inv.param_list.length
          | some rc => result_info brain host F.ptr is_final rc) := by
  obtain ⟨dup, heq⟩ := build_ue_function_eq E brain host objs ue_class inv type idx (some a)
    is_final
  rw [heq]
  generalize checked_class E objs ue_class inv = c0
  generalize hf0 : new_ue_function objs c0 inv type idx = f0
  unfold all_types_map at hall
  rw [Bool.and_eq_true] at hall
  obtain ⟨hres, hpar⟩ := hall
  have hpar' : (inv.param_list.take inv.param_list.length).all
      (fun p => has_marshal_mapping brain host (brain.get_expected_type p)) = true := by
    rw [List.take_length]; exact hpar
  have hfin : ∀ (s : BuildParamsState), s.ok = true →
      (build_ue_finish c0 s dup).ue_function_p = some { s.ue_function with is_linked := true }
      ∧ (build_ue_finish c0 s dup).ue_class
        = (c0.LinkChild { s.ue_function with is_linked := true }).AddFunctionToFunctionMap
            { s.ue_function with is_linked := true }
      ∧ (build_ue_finish c0 s dup).out_param_info_array = s.out_param_info_array := by
    intro s hs
    unfold build_ue_finish
    simp only [hs, if_true, and_self]
  have hs0 : ∃ s0, build_ue_result brain host inv f0 (some a) is_final = s0 ∧ s0.ok = true
      ∧ s0.ue_function.ptr = f0.ptr
      ∧ s0.ue_function = { f0 with Children :=
          (match built_result_class brain inv with
            | none => []
            | some rc => (result_property brain host f0.ptr is_final rc).toList) ++ f0.Children }
      ∧ ∃ a0, s0.out_param_info_array = some a0 ∧ a0.length = a.length
        ∧ info_at a0 inv.param_list.length
          = (match built_result_class brain inv with
            | none => info_at a inv.param_list.length
            | some rc => result_info brain host f0.ptr is_final rc) := by
    cases hb : built_result_class brain inv with
    | none =>
      rw [build_ue_result_none brain host inv f0 (some a) is_final hb]
      exact ⟨_, rfl, rfl, rfl, rfl, a, rfl, rfl, rfl⟩
    | some rc =>
      rw [hb] at hres
      obtain ⟨P, hP, h1, h2, h3⟩ := build_ue_result_some brain host inv f0 a is_final rc hb hres hlen
      refine ⟨_, rfl, h1, ?_, ?_, _, h3, List.length_set _ _ _, info_at_set_eq _ _ _ hlen⟩
      · rw [h2]; rfl
      · rw [h2]; simp only [hP, Option.toList]; rfl
  obtain ⟨s0, hs0eq, hok0, hptr0, hfun0, a0, ha0, hlen0, hres0⟩ := hs0
  rw [hs0eq, hok0]
  simp only [if_true]
  obtain ⟨hok1, hfun1⟩ := build_ue_params_all brain host inv.param_list is_final
    inv.param_list.length s0 (Nat.le_refl _) hok0 hpar'
  obtain ⟨a', ha', hlen', hkeep, hinfos⟩ := build_ue_params_infos brain host inv.param_list
    is_final inv.param_list.length s0 a0 (Nat.le_refl _) ha0
  obtain ⟨g1, g2, g3⟩ := hfin _ hok1
  have hnew : f0.Children = [] := by
    rw [← hf0]; unfold new_ue_function
    cases type <;> rfl
  have hF : ({ (build_ue_params brain host inv.param_list is_final inv.param_list.length
      s0).ue_function with is_linked := true } : UFunction)
      = { f0 with Children := built_children brain host f0.ptr is_final inv, is_linked := true } := by
    rw [hfun1, hptr0, hfun0, List.take_length, hnew]
    unfold built_children
    simp only [List.append_nil]
  rw [hF] at g1 g2
  refine ⟨_, a', rfl, g1, g2, ?_, ?_, ?_, ?_⟩
  · rw [g3, ha']
  · rw [hlen', hlen0]
  · intro j hj
    have := hinfos hpar' j hj hj (by rw [hlen0]; exact Nat.lt_trans hj hlen)
    rw [this, hptr0]
  · rw [hkeep _ (Nat.le_refl _), hres0]

theorem build_ue_result_mapped (brain : SkBrain) (host : UEHost) (inv : SkInvokableBase)
    (f : UFunction) (a : Option (List ReflectedProperty)) (is_final : Bool)
    (rc : SkClassDescBase) (h : built_result_class brain inv = some rc)
    (hmap : has_marshal_mapping brain host rc = true) :
    ∃ P, result_property brain host f.ptr is_final rc = some P
      ∧ (build_ue_result brain host inv f a is_final).ok = true
      ∧ (build_ue_result brain host inv f a is_final).ue_function = f.LinkChild P := by
  unfold built_result_class at h
  cases hrc : brain.get_result_class inv with
  | none => rw [hrc] at h; cases h
  | some rc' =>
    rw [hrc] at h
    simp only at h
    by_cases hobj : rc'.ptr = brain.ms_object_class_p
    · rw [if_pos hobj] at h; cases h
    · rw [if_neg hobj] at h
      cases h
      obtain ⟨Q, hQ, hprop, hfun, _⟩ := build_ue_param_some brain host m_result_name rc f
        (a.map (fun a => info_at a inv.param_list.length)) is_final hmap
      refine ⟨{ Q with CPF_ReturnParm := true }, ?_, ?_, ?_⟩
      · unfold result_property; rw [hQ]; rfl
      · unfold build_ue_result
        simp only [hrc, if_neg hobj, hprop, Option.isSome_some, if_true]
      · unfold build_ue_result
        simp only [hrc, if_neg hobj, hprop, Option.isSome_some, if_true, hfun]
        rfl

theorem new_ue_function_children (objs : UEObjects) (c0 : UClass) (inv : SkInvokableBase)
    (type : eReflectedFunctionType) (idx : Nat) :
    (new_ue_function objs c0 inv type idx).Children = [] := by
  unfold new_ue_function
  cases type <;> rfl

theorem build_ue_function_built (E : Bool) (brain : SkBrain) (host : UEHost) (objs : UEObjects)
    (ue_class : UClass) (inv : SkInvokableBase) (type : eReflectedFunctionType) (idx : Nat)
    (a : Option (List ReflectedProperty)) (is_final : Bool)
    (hall : all_types_map brain host inv = true) :
    ∃ F, F = { new_ue_function objs (checked_class E objs ue_class inv) inv type idx with
            Children := built_children brain host
              (new_ue_function objs (checked_class E objs ue_class inv) inv type idx).ptr
              is_final inv
            is_linked := true }
      ∧ (build_ue_function E brain host objs ue_class inv type idx a is_final).ue_function_p
        = some F
      ∧ (build_ue_function E brain host objs ue_class inv type idx a is_final).ue_class
        = ((checked_class E objs ue_class inv).LinkChild F).AddFunctionToFunctionMap F := by
  obtain ⟨dup, heq⟩ := build_ue_function_eq E brain host objs ue_class inv type idx a is_final
  rw [heq]
  have hnew := new_ue_function_children objs (checked_class E objs ue_class inv) inv type idx
  generalize checked_class E objs ue_class inv = c0 at *
  generalize new_ue_function objs c0 inv type idx = f0 at *
  unfold all_types_map at hall
  rw [Bool.and_eq_true] at hall
  obtain ⟨hres, hpar⟩ := hall
  have hpar' : (inv.param_list.take inv.param_list.length).all
      (fun p => has_marshal_mapping brain host (brain.get_expected_type p)) = true := by
    rw [List.take_length]; exact hpar
  have hs0 : (build_ue_result brain host inv f0 a is_final).ok = true
      ∧ (build_ue_result brain host inv f0 a is_final).ue_function.ptr = f0.ptr
      ∧ (build_ue_result brain host inv f0 a is_final).ue_function = { f0 with Children :=
          (match built_result_class brain inv with
            | none => []
            | some rc => (result_property brain host f0.ptr is_final rc).toList) ++ f0.Children } := by
    cases hb : built_result_class brain inv with
    | none =>
      rw [build_ue_result_none brain host inv f0 a is_final hb]
      exact ⟨rfl, rfl, rfl⟩
    | some rc =>
      rw [hb] at hres
      obtain ⟨P, hP, h1, h2⟩ := build_ue_result_mapped brain host inv f0 a is_final rc hb hres
      refine ⟨h1, ?_, ?_⟩
      · rw [h2]; rfl
      · rw [h2]; simp only [hP, Option.toList]; rfl
  obtain ⟨hok0, hptr0, hfun0⟩ := hs0
  rw [hok0]
  simp only [if_true]
  obtain ⟨hok1, hfun1⟩ := build_ue_params_all brain host inv.param_list is_final
    inv.param_list.length _ (Nat.le_refl _) hok0 hpar'
  have hF : ({ (build_ue_params brain host inv.param_list is_final inv.param_list.length
      (build_ue_result brain host inv f0 a is_final)).ue_function with is_linked := true }
        : UFunction)
      = { f0 with Children := built_children brain host f0.ptr is_final inv, is_linked := true } := by
    rw [hfun1, hptr0, hfun0, List.take_length, hnew]
    unfold built_children
    simp only [List.append_nil]
  refine ⟨_, rfl, ?_, ?_⟩
  · unfold build_ue_finish
    simp only [hok1, if_true]
    rw [hF]
  · unfold build_ue_finish
    simp only [hok1, if_true]
    rw [hF]

theorem build_chain_property (brain : SkBrain) (host : UEHost) (sk_name : ASymbol)
    (sk_type : SkClassDescBase) (ue_outer_p : Nat) (is_final : Bool) :
    ∀ P, (build_ue_property_chain brain host sk_name sk_type ue_outer_p is_final).ue_property_p
        = some P →
      P.m_name = FName_of sk_name ∧ P.m_outer = ue_outer_p ∧ P.CPF_Parm = false
        ∧ P.CPF_ReturnParm = false ∧ P.CPF_OutParm = false := by
  unfold build_ue_property_chain
  by_cases h0 : sk_type.ptr = brain.SkBoolean_class
  · rw [if_pos h0]; intro P hP; cases hP; exact ⟨rfl, rfl, rfl, rfl, rfl⟩
  rw [if_neg h0]
  by_cases h1 : sk_type.ptr = brain.SkInteger_class
  · rw [if_pos h1]; intro P hP; cases hP; exact ⟨rfl, rfl, rfl, rfl, rfl⟩
  rw [if_neg h1]
  by_cases h2 : sk_type.ptr = brain.SkReal_class
  · rw [if_pos h2]; intro P hP; cases hP; exact ⟨rfl, rfl, rfl, rfl, rfl⟩
  rw [if_neg h2]
  by_cases h3 : sk_type.ptr = brain.SkString_class
  · rw [if_pos h3]; intro P hP; cases hP; exact ⟨rfl, rfl, rfl, rfl, rfl⟩
  rw [if_neg h3]
  by_cases h4 : sk_type.ptr = brain.SkVector2_class
  · rw [if_pos h4]; intro P hP; cases hP; exact ⟨rfl, rfl, rfl, rfl, rfl⟩
  rw [if_neg h4]
  by_cases h5 : sk_type.ptr = brain.SkVector3_class
  · rw [if_pos h5]; intro P hP; cases hP; exact ⟨rfl, rfl, rfl, rfl, rfl⟩
  rw [if_neg h5]
  by_cases h6 : sk_type.ptr = brain.SkVector4_class
  · rw [if_pos h6]; intro P hP; cases hP; exact ⟨rfl, rfl, rfl, rfl, rfl⟩
  rw [if_neg h6]
  by_cases h7 : sk_type.ptr = brain.SkRotationAngles_class
  · rw [if_pos h7]; intro P hP; cases hP; exact ⟨rfl, rfl, rfl, rfl, rfl⟩
  rw [if_neg h7]
  by_cases h8 : sk_type.ptr = brain.SkTransform_class
  · rw [if_pos h8]; intro P hP; cases hP; exact ⟨rfl, rfl, rfl, rfl, rfl⟩
  rw [if_neg h8]
  by_cases he : sk_type.key_class_is_class brain.SkEnum_class = true
  · rw [if_pos he]
    cases host.FindObject_UEnum sk_type.key_class.name with
    | none => intro P hP; cases hP
    | some _ => intro P hP; cases hP; exact ⟨rfl, rfl, rfl, rfl, rfl⟩
  rw [if_neg he]
  by_cases hn : sk_type.key_class_is_class brain.SkUEEntity_class = true
  · rw [if_pos hn]
    cases host.get_ue_class_from_sk_class sk_type.key_class with
    | none => intro P hP; cases hP
    | some _ => intro P hP; cases hP; exact ⟨rfl, rfl, rfl, rfl, rfl⟩
  rw [if_neg hn]
  cases host.get_ue_struct_from_sk_class sk_type.key_class with
  | none => intro P hP; cases hP
  | some ue_struct_p =>
    simp only
    by_cases hv : host.is_data_stored_by_val ue_struct_p.structure_size = true
    · rw [if_pos hv]; intro P hP; cases hP; exact ⟨rfl, rfl, rfl, rfl, rfl⟩
    · rw [if_neg hv]; intro P hP; cases hP; exact ⟨rfl, rfl, rfl, rfl, rfl⟩

theorem param_property_flags (brain : SkBrain) (host : UEHost) (ue_function_p : Nat)
    (is_final : Bool) (sk_name : ASymbol) (sk_type : SkClassDescBase) (P : UProperty)
    (h : param_property brain host ue_function_p is_final sk_name sk_type = some P) :
    P.m_name = FName_of sk_name ∧ P.m_outer = ue_function_p ∧ P.CPF_Parm = true
      ∧ P.CPF_ReturnParm = false ∧ P.CPF_OutParm = false := by
  unfold param_property at h
  cases hc : (build_ue_property_chain brain host sk_name sk_type ue_function_p
      is_final).ue_property_p with
  | none => rw [hc] at h; cases h
  | some Q =>
    rw [hc] at h
    cases h
    obtain ⟨h1, h2, _, h4, h5⟩ := build_chain_property brain host sk_name sk_type ue_function_p
      is_final Q hc
    exact ⟨h1, h2, rfl, h4, h5⟩

theorem result_property_flags (brain : SkBrain) (host : UEHost) (ue_function_p : Nat)
    (is_final : Bool) (rc : SkClassDescBase) (P : UProperty)
    (h : result_property brain host ue_function_p is_final rc = some P) :
    P.m_name = FName_of m_result_name ∧ P.m_outer = ue_function_p ∧ P.CPF_Parm = true
      ∧ P.CPF_ReturnParm = true ∧ P.CPF_OutParm = false := by
  unfold result_property at h
  cases hc : param_property brain host ue_function_p is_final m_result_name rc with
  | none => rw [hc] at h; cases h
  | some Q =>
    rw [hc] at h
    cases h
    obtain ⟨h1, h2, h3, _, h5⟩ := param_property_flags brain host ue_function_p is_final _ _ Q hc
    exact ⟨h1, h2, h3, rfl, h5⟩

theorem param_property_isSome (brain : SkBrain) (host : UEHost) (ue_function_p : Nat)
    (is_final : Bool) (sk_name : ASymbol) (sk_type : SkClassDescBase) :
    (param_property brain host ue_function_p is_final sk_name sk_type).isSome
      = has_marshal_mapping brain host sk_type := by
  unfold param_property
  rw [Option.isSome_map']
  exact property_isSome_eq_mapping brain host sk_name sk_type ue_function_p is_final

/-- Where every parameter type maps, the parameter properties are one per
parameter, in the order of the list. -/
theorem param_properties_all (brain : SkBrain) (host : UEHost) (ue_function_p : Nat)
    (is_final : Bool) : ∀ (pl : List SkParameterBase),
    pl.all (fun p => has_marshal_mapping brain host (brain.get_expected_type p)) = true →
    (param_properties brain host ue_function_p is_final pl).map some
      = pl.map (fun p =>
          param_property brain host ue_function_p is_final p.name (brain.get_expected_type p)) := by
  intro pl
  induction pl with
  | nil => intro _; rfl
  | cons p ps ih =>
    intro hall
    rw [List.all_cons, Bool.and_eq_true] at hall
    have hs := param_property_isSome brain host ue_function_p is_final p.name
      (brain.get_expected_type p)
    rw [hall.1] at hs
    obtain ⟨Q, hQ⟩ := Option.isSome_iff_exists.mp hs
    unfold param_properties at ih ⊢
    rw [List.filterMap_cons, hQ]
    simp only [List.map_cons, hQ]
    rw [ih hall.2]

theorem param_properties_names (brain : SkBrain) (host : UEHost) (ue_function_p : Nat)
    (is_final : Bool) : ∀ (pl : List SkParameterBase),
    pl.all (fun p => has_marshal_mapping brain host (brain.get_expected_type p)) = true →
    (param_properties brain host ue_function_p is_final pl).map (fun P => P.m_name)
      = pl.map (fun p => FName_of p.name) := by
  intro pl
  induction pl with
  | nil => intro _; rfl
  | cons p ps ih =>
    intro hall
    rw [List.all_cons, Bool.and_eq_true] at hall
    have hs := param_property_isSome brain host ue_function_p is_final p.name
      (brain.get_expected_type p)
    rw [hall.1] at hs
    obtain ⟨Q, hQ⟩ := Option.isSome_iff_exists.mp hs
    unfold param_properties at ih ⊢
    rw [List.filterMap_cons, hQ]
    simp only [List.map_cons]
    rw [ih hall.2, (param_property_flags brain host ue_function_p is_final _ _ Q hQ).1]

theorem param_properties_flags (brain : SkBrain) (host : UEHost) (ue_function_p : Nat)
    (is_final : Bool) (pl : List SkParameterBase) (P : UProperty)
    (h : P ∈ param_properties brain host ue_function_p is_final pl) :
    P.CPF_Parm = true ∧ P.CPF_ReturnParm = false ∧ P.CPF_OutParm = false := by
  unfold param_properties at h
  obtain ⟨p, _, hp⟩ := List.mem_filterMap.mp h
  obtain ⟨_, _, h3, h4, h5⟩ := param_property_flags brain host ue_function_p is_final _ _ P hp
  exact ⟨h3, h4, h5⟩

theorem expose_finish_fn (E : Bool) (host : UEHost) (objs : UEObjects) (w : World) (i : Nat)
    (cb : Bool) (e : ReflectedFunction) (made : MadeFunction) (F : UFunction)
    (hi : i < w.m_reflected_functions.length) :
    (expose_finish E host objs w i cb e made F).world.fn i
      = some (fill_in host e F made.param_info_array) := by
  have h := @fn_of_table_set w (expose_finish E host objs w i cb e made F).world i
    (fill_in host e F made.param_info_array) rfl hi i
  rw [h, if_pos rfl]

theorem expose_finish_fn_ne (E : Bool) (host : UEHost) (objs : UEObjects) (w : World) (i : Nat)
    (cb : Bool) (e : ReflectedFunction) (made : MadeFunction) (F : UFunction)
    (hi : i < w.m_reflected_functions.length) (j : Nat) (hj : j ≠ i) :
    (expose_finish E host objs w i cb e made F).world.fn j = w.fn j := by
  have h := @fn_of_table_set w (expose_finish E host objs w i cb e made F).world i
    (fill_in host e F made.param_info_array) rfl hi j
  rw [h, if_neg hj]

theorem make_ue_function_built (E : Bool) (brain : SkBrain) (host : UEHost) (objs : UEObjects)
    (class_p : Nat) (e : ReflectedFunction) (i : Nat) (is_final : Bool)
    (hlook : is_looked_up e = false) :
    make_ue_function E brain host objs class_p e i is_final
      = some
          { ue_function_p := (build_ue_function E brain host objs (objs.ue_class class_p)
              e.m_sk_invokable_p e.m_type i
              (some (List.replicate (e.m_num_params + 1) ReflectedProperty.new))
              is_final).ue_function_p
            param_info_array := (build_ue_function E brain host objs (objs.ue_class class_p)
              e.m_sk_invokable_p e.m_type i
              (some (List.replicate (e.m_num_params + 1) ReflectedProperty.new))
              is_final).out_param_info_array.getD
                (List.replicate (e.m_num_params + 1) ReflectedProperty.new)
            ue_class := some (build_ue_function E brain host objs (objs.ue_class class_p)
              e.m_sk_invokable_p e.m_type i
              (some (List.replicate (e.m_num_params + 1) ReflectedProperty.new))
              is_final).ue_class
            unknown_types := (build_ue_function E brain host objs (objs.ue_class class_p)
              e.m_sk_invokable_p e.m_type i
              (some (List.replicate (e.m_num_params + 1) ReflectedProperty.new))
              is_final).unknown_types } := by
  unfold make_ue_function
  simp only [hlook, Bool.false_eq_true, if_false]

/-- An entry that is to be built and whose types all map is exposed with the
function `build_ue_function` makes for it. -/
theorem expose_built (E : Bool) (brain : SkBrain) (host : UEHost) (objs : UEObjects) (w : World)
    (i : Nat) (cb : Bool) (is_final : Bool) (e : ReflectedFunction) (R : ReflectedClass)
    (class_p : Nat)
    (hfn : w.fn i = some e) (hnone : e.m_ue_function_p = none)
    (hget : w.get_class e.m_sk_invokable_p.scope.name = some R)
    (hstatic : resolve_static_class objs R e = some class_p)
    (hlook : is_looked_up e = false)
    (hall : all_types_map brain host e.m_sk_invokable_p = true)
    (hnum : e.m_num_params = e.m_sk_invokable_p.param_list.length) :
    ∃ x F a', expose_reflected_function E brain host objs w i cb is_final = some x
      ∧ F = { new_ue_function objs (checked_class E objs (objs.ue_class class_p) e.m_sk_invokable_p)
                e.m_sk_invokable_p e.m_type i with
              Children := built_children brain host
                (new_ue_function objs
                  (checked_class E objs (objs.ue_class class_p) e.m_sk_invokable_p)
                  e.m_sk_invokable_p e.m_type i).ptr is_final e.m_sk_invokable_p
              is_linked := true }
      ∧ x.ue_function_p = some F
      ∧ x.world.fn i = some (fill_in host e F a')
      ∧ (∀ j, j ≠ i → x.world.fn j = w.fn j)
      ∧ x.function_updated
        = (if cb then
            some (F.ptr, e.m_type == eReflectedFunctionType.ReflectedFunctionType_Event)
          else none)
      ∧ (∀ j (hj : j < e.m_sk_invokable_p.param_list.length), info_at a' j
          = param_info brain host F.ptr is_final e.m_sk_invokable_p.param_list[j].name
              (brain.get_expected_type e.m_sk_invokable_p.param_list[j]))
      ∧ info_at a' e.m_sk_invokable_p.param_list.length
        = (match built_result_class brain e.m_sk_invokable_p with
          | none => ReflectedProperty.new
          | some rc => result_info brain host F.ptr is_final rc) := by
  have hlen : e.m_sk_invokable_p.param_list.length
      < (List.replicate (e.m_num_params + 1) ReflectedProperty.new).length := by
    rw [List.length_replicate, hnum]; exact Nat.lt_succ_self _
  obtain ⟨F, a', hF, h1, h2, h3, h4, h5, h6⟩ := build_ue_function_ok E brain host objs
    (objs.ue_class class_p) e.m_sk_invokable_p e.m_type i
    (List.replicate (e.m_num_params + 1) ReflectedProperty.new) is_final hall hlen
  obtain ⟨made, hmade, hm1, hm2⟩ : ∃ made, make_ue_function E brain host objs class_p e i is_final
      = some made ∧ made.ue_function_p = some F ∧ made.param_info_array = a' := by
    refine ⟨_, make_ue_function_built E brain host objs class_p e i is_final hlook, h1, ?_⟩
    simp only [h3, Option.getD_some]
  have hexp : expose_reflected_function E brain host objs w i cb is_final
      = some (expose_finish E host objs
          { w with
            m_reflected_classes :=
              modify_class R.name (fun c => { c with m_ue_static_class_p := some class_p })
                w.m_reflected_classes } i cb e made F) := by
    unfold expose_reflected_function
    simp only [hfn, hnone, Option.isSome_none, Bool.false_eq_true, if_false, hget, hstatic, hmade,
      hm1]
  rw [← hm2] at h5 h6
  refine ⟨_, F, made.param_info_array, hexp, hF, rfl, ?_, ?_, rfl, h5, ?_⟩
  · exact expose_finish_fn E host objs _ i cb e _ F (fn_lt_length hfn)
  · intro j hj
    exact expose_finish_fn_ne E host objs _ i cb e _ F (fn_lt_length hfn) j hj
  · rw [h6]
    cases built_result_class brain e.m_sk_invokable_p with
    | none =>
      simp only [info_at]
      rw [List.getD_eq_getElem?_getD, List.getElem?_replicate]
      split <;> rfl
    | some rc => rfl

theorem reflect_ue_property_accepts (host : UEHost) (p : UProperty) (i : ReflectedProperty)
    (h : (reflect_ue_property host p (some i)).1 = true) :
    (reflect_ue_property host p (some i)).2 = some (reflected_info host p)
      ∧ (reflect_ue_property_chain host p).k2_param_fetcher_p.isSome = true := by
  have h' : (reflect_ue_property_chain host p).k2_param_fetcher_p.isSome = true := h
  refine ⟨?_, h'⟩
  unfold reflect_ue_property
  simp only [h', if_true, Option.map_some']
  rfl

theorem reflect_ue_params_nil (host : UEHost) (pl : List SkParameterBase)
    (s : ReflectParamsState) : reflect_ue_params host pl [] s = some s := rfl

theorem reflect_ue_params_skip (host : UEHost) (pl : List SkParameterBase) (p : UProperty)
    (rest : List UProperty) (s : ReflectParamsState) (h : p.is_input_parm = false) :
    reflect_ue_params host pl (p :: rest) s = reflect_ue_params host pl rest s := by
  rw [reflect_ue_params]
  simp only [h, Bool.false_eq_true, if_false]

/-- One step of the loop of `reflect_ue_function` on an input parameter, when it
goes on: the position is inside the script parameter list, the property is
accepted and bears the name of the script parameter at that position. -/
theorem reflect_ue_params_step (host : UEHost) (pl : List SkParameterBase) (p : UProperty)
    (rest : List UProperty) (s s' : ReflectParamsState) (h : p.is_input_parm = true)
    (hrun : reflect_ue_params host pl (p :: rest) s = some s') (hok : s'.ok = true) :
    ∃ sk_param, pl[s.num_parameters]? = some sk_param
      ∧ script_name host p = sk_param.name
      ∧ (reflect_ue_property_chain host p).k2_param_fetcher_p.isSome = true
      ∧ reflect_ue_params host pl rest
          { s with num_parameters := s.num_parameters + 1
                   out_param_info_array :=
                    s.out_param_info_array.set s.num_parameters (reflected_info host p) }
        = some s' := by
  rw [reflect_ue_params] at hrun
  simp only [h, if_true] at hrun
  by_cases hgt : s.num_parameters > pl.length
  · rw [if_pos hgt] at hrun
    cases hrun
    cases hok
  rw [if_neg hgt] at hrun
  by_cases hr : (reflect_ue_property host p
      (some (info_at s.out_param_info_array s.num_parameters))).1 = true
  · obtain ⟨h2, h3⟩ := reflect_ue_property_accepts host p _ hr
    simp only [hr, h2, Bool.not_true, Bool.false_eq_true, if_false, Option.getD_some] at hrun
    cases hp : pl[s.num_parameters]? with
    | none => rw [hp] at hrun; cases hrun
    | some sk_param =>
      rw [hp] at hrun
      simp only at hrun
      by_cases hname : (reflected_info host p).name ≠ sk_param.name
      · rw [if_pos hname] at hrun
        cases hrun
        cases hok
      · rw [if_neg hname] at hrun
        exact ⟨sk_param, rfl, not_not.mp hname, h3, hrun⟩
  · have hr' : (reflect_ue_property host p
        (some (info_at s.out_param_info_array s.num_parameters))).1 = false := by
      simpa using hr
    simp only [hr', Bool.not_false, if_true] at hrun
    cases hrun
    cases hok

/-- What the loop of `reflect_ue_function` has established when it runs to its
end: the input parameters of the native function bear, in order, the names of
the script parameters from the starting position on, each is accepted by
`reflect_ue_property`, and the records of the array hold them. -/
theorem reflect_ue_params_sound (host : UEHost) (pl : List SkParameterBase) :
    ∀ (props : List UProperty) (s s' : ReflectParamsState),
    reflect_ue_params host pl props s = some s' → s'.ok = true →
    s'.num_parameters = s.num_parameters + (props.filter UProperty.is_input_parm).length
      ∧ (props.filter UProperty.is_input_parm).map (script_name host)
        = ((pl.drop s.num_parameters).take (props.filter UProperty.is_input_parm).length).map
            (fun q => q.name)
      ∧ (∀ p ∈ props.filter UProperty.is_input_parm,
          (reflect_ue_property_chain host p).k2_param_fetcher_p.isSome = true)
      ∧ s'.out_param_info_array.length = s.out_param_info_array.length
      ∧ (∀ j, s'.num_parameters ≤ j →
          info_at s'.out_param_info_array j = info_at s.out_param_info_array j)
      ∧ (∀ j, j < s.num_parameters →
          info_at s'.out_param_info_array j = info_at s.out_param_info_array j)
      ∧ (∀ j (hj : j < (props.filter UProperty.is_input_parm).length),
          s.num_parameters + j < s.out_param_info_array.length →
          info_at s'.out_param_info_array (s.num_parameters + j)
            = reflected_info host ((props.filter UProperty.is_input_parm)[j])) := by
  intro props
  induction props with
  | nil =>
    intro s s' hrun _
    rw [reflect_ue_params_nil] at hrun
    cases hrun
    refine ⟨rfl, rfl, ?_, rfl, fun _ _ => rfl, fun _ _ => rfl, ?_⟩
    · intro p hp; cases hp
    · intro j hj; exact absurd hj (Nat.not_lt_zero j)
  | cons p rest ih =>
    intro s s' hrun hok
    by_cases hin : p.is_input_parm = true
    · obtain ⟨sk_param, hget, hname, hsome, hrest⟩ :=
        reflect_ue_params_step host pl p rest s s' hin hrun hok
      obtain ⟨h1, h2, h3, h4, h5, h6, h7⟩ := ih _ s' hrest hok
      simp only at h1 h2 h4 h5 h6 h7
      have hfil : (p :: rest).filter UProperty.is_input_parm
          = p :: rest.filter UProperty.is_input_parm := by
        rw [List.filter_cons, if_pos hin]
      have hlt : s.num_parameters < pl.length := by
        by_contra hn
        rw [List.getElem?_eq_none (Nat.le_of_not_lt hn)] at hget
        cases hget
      have hdrop : pl.drop s.num_parameters = sk_param :: pl.drop (s.num_parameters + 1) := by
        rw [List.drop_eq_getElem_cons hlt]
        congr 1
        rw [List.getElem?_eq_getElem hlt] at hget
        exact Option.some.inj hget
      rw [hfil]
      refine ⟨?_, ?_, ?_, ?_, ?_, ?_, ?_⟩
      · rw [h1, List.length_cons]; omega
      · rw [List.map_cons, h2, hname, hdrop, List.length_cons, List.take_succ_cons, List.map_cons]
      · intro q hq
        rcases List.mem_cons.mp hq with hq | hq
        · rw [hq]; exact hsome
        · exact h3 q hq
      · rw [h4, List.length_set]
      · intro j hj
        rw [h5 j hj, info_at_set_ne]
        rw [h1] at hj
        omega
      · intro j hj
        rw [h6 j (Nat.lt_succ_of_lt hj), info_at_set_ne _ _ _ _ (Nat.ne_of_lt hj)]
      · intro j hj hja
        cases j with
        | zero =>
          rw [Nat.add_zero] at hja ⊢
          rw [h6 _ (Nat.lt_succ_self _), info_at_set_eq _ _ _ hja]
          rfl
        | succ j =>
          have hj' : j < (rest.filter UProperty.is_input_parm).length := by
            rw [List.length_cons] at hj; omega
          have := h7 j hj' (by rw [List.length_set]; omega)
          rw [show s.num_parameters + (j + 1) = s.num_parameters + 1 + j by omega, this]
          rfl
    · have hin' : p.is_input_parm = false := by simpa using hin
      rw [reflect_ue_params_skip host pl p rest s hin'] at hrun
      have hfil : (p :: rest).filter UProperty.is_input_parm
          = rest.filter UProperty.is_input_parm := by
        rw [List.filter_cons, if_neg hin]
      rw [hfil]
      exact ih s s' hrun hok

/-- When `reflect_ue_function` returns a function, it is the one
`find_ue_function` found, its input parameters bear the names of the script
parameters in order, and the array holds their records in front of the
untouched rest. -/
theorem reflect_ue_function_sound (host : UEHost) (objs : UEObjects) (inv : SkInvokableBase)
    (a : List ReflectedProperty) (is_final : Bool) (r : ReflectFunctionResult) (f : UFunction)
    (h : reflect_ue_function host objs inv a is_final = some r) (hf : r.ue_function_p = some f) :
    find_ue_function objs inv = some f
      ∧ (input_params f).map (script_name host) = inv.param_list.map (fun q => q.name)
      ∧ (∀ p ∈ input_params f,
          (reflect_ue_property_chain host p).k2_param_fetcher_p.isSome = true)
      ∧ r.out_param_info_array.length = a.length
      ∧ (∀ j (hj : j < (input_params f).length), j < a.length →
          info_at r.out_param_info_array j = reflected_info host ((input_params f)[j]))
      ∧ (∀ j, inv.param_list.length ≤ j → info_at r.out_param_info_array j = info_at a j) := by
  unfold reflect_ue_function at h
  cases hfind : find_ue_function objs inv with
  | none =>
    rw [hfind] at h
    cases h
    cases hf
  | some g =>
    rw [hfind] at h
    simp only at h
    cases hrun : reflect_ue_params host inv.param_list g.Children
        { num_parameters := 0, out_param_info_array := a, ok := true } with
    | none => rw [hrun] at h; cases h
    | some s =>
      rw [hrun] at h
      simp only at h
      by_cases hok : s.ok = true
      · simp only [hok, Bool.not_true, Bool.false_eq_true, if_false] at h
        by_cases hfew : s.num_parameters < inv.param_list.length
        · rw [if_pos hfew] at h
          cases h
          cases hf
        · rw [if_neg hfew] at h
          obtain ⟨h1, h2, h3, h4, h5, _, h7⟩ := reflect_ue_params_sound host inv.param_list
            g.Children _ s hrun hok
          simp only [Nat.zero_add] at h1 h2 h4 h5 h7
          rw [List.drop_zero] at h2
          have hlen := congrArg List.length h2
          rw [List.length_map, List.length_map, List.length_take] at hlen
          have hk : (g.Children.filter UProperty.is_input_parm).length = inv.param_list.length := by
            rw [← h1]
            rw [← h1] at hlen
            omega
          rw [hk, List.take_length] at h2
          have h7' : ∀ j (hj : j < (g.Children.filter UProperty.is_input_parm).length),
              j < a.length → info_at s.out_param_info_array j
                = reflected_info host ((g.Children.filter UProperty.is_input_parm)[j]) := by
            intro j hj hja
            have := h7 j hj
            simp only [Nat.zero_add] at this
            exact this hja
          have h5' : ∀ j, inv.param_list.length ≤ j →
              info_at s.out_param_info_array j = info_at a j := by
            intro j hj
            apply h5
            rw [h1, hk]
            exact hj
          cases h
          cases hf
          exact ⟨rfl, h2, h3, h4, h7', h5'⟩
      · have hok' : s.ok = false := by simpa using hok
        simp only [hok', Bool.not_false, if_true] at h
        cases h
        cases hf

theorem store_args_some (code : MarshalCode) (args : List SkInstance) :
    ∀ (params : List ReflectedParam) (i : Nat) (memory : Memory),
    (∀ p ∈ params, p.m_storer_p.isSome = true) → i + params.length ≤ args.length →
    ∃ stored, store_args code args params i memory = some stored := by
  intro params
  induction params with
  | nil => intro i memory _ _; exact ⟨memory, rfl⟩
  | cons p rest ih =>
    intro i memory hst hlen
    obtain ⟨storer, hs⟩ := Option.isSome_iff_exists.mp (hst p (List.mem_cons_self _ _))
    rw [List.length_cons] at hlen
    have hi : i < args.length := by omega
    unfold store_args
    rw [hs, List.getElem?_eq_getElem hi]
    simp only
    exact ih (i + 1) _ (fun q hq => hst q (List.mem_cons_of_mem _ hq)) (by omega)

/-- The trigger runs to its end when the entry, its native function and the
function to invoke are found and every parameter has a storer and an argument. -/
theorem trigger_runs (E : Bool) (objs : UEObjects) (code : MarshalCode) (ms_nil_p : SkInstance)
    (w : World) (scope_p : SkInvokedMethod) (result_pp : Bool) (e : ReflectedFunction)
    (f g : UFunction)
    (hfn : w.fn ((w.get_user_data scope_p.invokable).getD 0) = some e)
    (hf : trigger_ue_function E objs e = some f)
    (hg : trigger_function_to_invoke E objs e scope_p f = some g)
    (hstore : ∀ p ∈ e.params, p.m_storer_p.isSome = true)
    (hargs : e.params.length ≤ scope_p.args.length) :
    ∃ stored, store_args code scope_p.args e.params 0 (List.replicate f.ParmsSize 0) = some stored
      ∧ mthd_trigger_event E objs code ms_nil_p w scope_p result_pp
        = some
          { world := cache_function_to_invoke objs w ((w.get_user_data scope_p.invokable).getD 0) e g
            args :=
              if g.FUNC_HasOutParms then
                copy_back code (objs.ProcessEvent scope_p.this_actor g stored) e.params scope_p.args
              else scope_p.args
            result :=
              if result_pp then
                match e.m_result_getter with
                | some getter =>
                  some (code.k2_value_fetcher getter
                    (objs.ProcessEvent scope_p.this_actor g stored) g.ReturnValueOffset
                    e.m_result_type)
                | none => some ms_nil_p
              else none
            k2_params_storage := objs.ProcessEvent scope_p.this_actor g stored
            invoked := g
            diagnostics := trigger_diagnostics e f g } := by
  obtain ⟨stored, hs⟩ := store_args_some code scope_p.args e.params 0
    (List.replicate f.ParmsSize 0) hstore (by omega)
  refine ⟨stored, hs, ?_⟩
  unfold mthd_trigger_event
  simp only [hfn, hf, hs, hg]

theorem copy_back_length (code : MarshalCode) (memory : Memory) :
    ∀ (params : List ReflectedParam) (args : List SkInstance),
    (copy_back code memory params args).length = args.length := by
  intro params
  induction params with
  | nil => intro args; cases args <;> rfl
  | cons p rest ih =>
    intro args
    cases args with
    | nil => rfl
    | cons a as =>
      unfold copy_back
      rw [List.length_cons, List.length_cons, ih]

/-- The loop that copies back: argument `i` of a parameter with an assigner is
what the assigner makes of it, every other argument is as before. -/
theorem copy_back_get (code : MarshalCode) (memory : Memory) :
    ∀ (params : List ReflectedParam) (args : List SkInstance) (i : Nat),
    (copy_back code memory params args)[i]?
      = match params[i]?, args[i]? with
        | some p, some a =>
          some (match p.m_assigner_p with
            | some assigner => code.k2_value_assigner assigner a memory p.m_offset p.typed
            | none => a)
        | _, a => a := by
  intro params
  induction params with
  | nil =>
    intro args i
    cases args <;> simp [copy_back]
  | cons p rest ih =>
    intro args i
    cases args with
    | nil => simp [copy_back]
    | cons a as =>
      unfold copy_back
      cases i with
      | zero => simp
      | succ i =>
        simp only [List.getElem?_cons_succ]
        exact ih as i

/-- A successful exposure, taken apart: the entry had no native function, its
class record and native class were found, a function was looked up or built, and
the entry was filled in from the parameter records. -/
theorem expose_inv (E : Bool) (brain : SkBrain) (host : UEHost) (objs : UEObjects) (w : World)
    (i : Nat) (cb : Bool) (is_final : Bool) (x : ExposeResult) (F : UFunction)
    (h : expose_reflected_function E brain host objs w i cb is_final = some x)
    (hF : x.ue_function_p = some F) :
    ∃ e R class_p made, w.fn i = some e ∧ e.m_ue_function_p = none
      ∧ w.get_class e.m_sk_invokable_p.scope.name = some R
      ∧ resolve_static_class objs R e = some class_p
      ∧ make_ue_function E brain host objs class_p e i is_final = some made
      ∧ made.ue_function_p = some F
      ∧ x.world.fn i = some (fill_in host e F made.param_info_array)
      ∧ x.function_updated
        = (if cb then
            some (F.ptr, e.m_type == eReflectedFunctionType.ReflectedFunctionType_Event)
          else none) := by
  unfold expose_reflected_function at h
  cases hfn : w.fn i with
  | none =>
    rw [hfn] at h
    simp only at h
    cases h
    cases hF
  | some e =>
    rw [hfn] at h
    simp only at h
    cases hnone : e.m_ue_function_p with
    | some p =>
      rw [hnone] at h
      simp only [Option.isSome_some, if_true] at h
      cases h
      cases hF
    | none =>
      rw [hnone] at h
      simp only [Option.isSome_none, Bool.false_eq_true, if_false] at h
      cases hget : w.get_class e.m_sk_invokable_p.scope.name with
      | none => rw [hget] at h; cases h
      | some R =>
        rw [hget] at h
        simp only at h
        cases hstatic : resolve_static_class objs R e with
        | none =>
          rw [hstatic] at h
          simp only at h
          cases h
          cases hF
        | some class_p =>
          rw [hstatic] at h
          simp only at h
          cases hmade : make_ue_function E brain host objs class_p e i is_final with
          | none => rw [hmade] at h; cases h
          | some made =>
            rw [hmade] at h
            simp only at h
            cases hmf : made.ue_function_p with
            | none =>
              rw [hmf] at h
              simp only at h
              cases h
              cases hF
            | some G =>
              rw [hmf] at h
              simp only at h
              cases h
              have hG : G = F := Option.some.inj hF
              subst hG
              refine ⟨e, R, class_p, made, rfl, hnone, hget, hstatic, hmade, hmf, ?_, rfl⟩
              exact expose_finish_fn E host objs _ i cb e made G (fn_lt_length hfn)

theorem quadruple_present {a : Option tK2ParamFetcher} {b : Option tK2ValueFetcher}
    {c : Option tK2ValueAssigner} {d : Option tSkValueStorer} (h : quadruple_uniform a b c d)
    (ha : a.isSome = true) : b.isSome = true ∧ c.isSome = true ∧ d.isSome = true := by
  rcases h with ⟨h1, _⟩ | ⟨kind, _, h2, h3, h4⟩
  · rw [h1] at ha; cases ha
  · refine ⟨?_, ?_, ?_⟩
    · cases b with
      | none => cases h2
      | some _ => rfl
    · cases c with
      | none => cases h3
      | some _ => rfl
    · cases d with
      | none => cases h4
      | some _ => rfl

theorem reflected_info_complete (host : UEHost) (P : UProperty)
    (h : (reflect_ue_property_chain host P).k2_param_fetcher_p.isSome = true) :
    (reflected_info host P).complete P := by
  obtain ⟨h2, h3, h4⟩ := quadruple_present (reflect_chain_coherent host P).1 h
  exact ⟨rfl, h, h2, h3, h4⟩

theorem param_info_complete (brain : SkBrain) (host : UEHost) (ue_function_p : Nat)
    (is_final : Bool) (sk_name : ASymbol) (sk_type : SkClassDescBase) (P : UProperty)
    (h : param_property brain host ue_function_p is_final sk_name sk_type = some P) :
    (param_info brain host ue_function_p is_final sk_name sk_type).complete P := by
  have hs : (build_ue_property_chain brain host sk_name sk_type ue_function_p
      is_final).k2_param_fetcher_p.isSome = true := by
    rw [← (build_chain_coherent brain host sk_name sk_type ue_function_p is_final).2]
    unfold param_property at h
    cases hc : (build_ue_property_chain brain host sk_name sk_type ue_function_p
        is_final).ue_property_p with
    | none => rw [hc] at h; cases h
    | some _ => rfl
  obtain ⟨h2, h3, h4⟩ := quadruple_present
    (build_chain_coherent brain host sk_name sk_type ue_function_p is_final).1 hs
  exact ⟨h, hs, h2, h3, h4⟩

theorem filter_input_param_properties (brain : SkBrain) (host : UEHost) (ue_function_p : Nat)
    (is_final : Bool) (pl : List SkParameterBase) :
    (param_properties brain host ue_function_p is_final pl).filter UProperty.is_input_parm
      = param_properties brain host ue_function_p is_final pl := by
  apply List.filter_eq_self.mpr
  intro P hP
  obtain ⟨h1, h2, _⟩ := param_properties_flags brain host ue_function_p is_final pl P hP
  unfold UProperty.is_input_parm
  rw [h1, h2]
  rfl

/-- The input parameters of a built function are its parameter properties. -/
theorem input_params_built (brain : SkBrain) (host : UEHost) (ue_function_p : Nat)
    (is_final : Bool) (inv : SkInvokableBase) :
    (built_children brain host ue_function_p is_final inv).filter UProperty.is_input_parm
      = param_properties brain host ue_function_p is_final inv.param_list := by
  unfold built_children
  rw [List.filter_append, filter_input_param_properties]
  cases built_result_class brain inv with
  | none => simp only [List.filter_nil, List.append_nil]
  | some rc =>
    simp only
    cases hR : result_property brain host ue_function_p is_final rc with
    | none => simp only [Option.toList, List.filter_nil, List.append_nil]
    | some R =>
      obtain ⟨_, _, _, h4, _⟩ := result_property_flags brain host ue_function_p is_final rc R hR
      simp only [Option.toList, List.filter_cons, UProperty.is_input_parm, h4, Bool.not_true,
        Bool.and_false, Bool.false_eq_true, if_false, List.filter_nil, List.append_nil]

theorem param_properties_get (brain : SkBrain) (host : UEHost) (ue_function_p : Nat)
    (is_final : Bool) (pl : List SkParameterBase)
    (hall : pl.all (fun p => has_marshal_mapping brain host (brain.get_expected_type p)) = true) :
    (param_properties brain host ue_function_p is_final pl).length = pl.length
      ∧ ∀ j (hj : j < (param_properties brain host ue_function_p is_final pl).length)
          (hl : j < pl.length),
        param_property brain host ue_function_p is_final pl[j].name
            (brain.get_expected_type pl[j])
          = some ((param_properties brain host ue_function_p is_final pl)[j]) := by
  have h := param_properties_all brain host ue_function_p is_final pl hall
  have hlen := congrArg List.length h
  rw [List.length_map, List.length_map] at hlen
  refine ⟨hlen, ?_⟩
  intro j hj hl
  have hj1 : j < ((param_properties brain host ue_function_p is_final pl).map some).length := by
    rw [List.length_map]; exact hj
  have hj2 : j < (pl.map (fun p => param_property brain host ue_function_p is_final p.name
      (brain.get_expected_type p))).length := by
    rw [List.length_map]; exact hl
  have := List.getElem_of_eq h hj1
  rw [List.getElem_map, List.getElem_map] at this
  exact this.symm

/-- The parameter records behind a function that was looked up or built: one
complete record per input parameter, in order, and the record of the result. -/
theorem made_infos (E : Bool) (brain : SkBrain) (host : UEHost) (objs : UEObjects)
    (class_p : Nat) (e : ReflectedFunction) (i : Nat) (is_final : Bool) (made : MadeFunction)
    (F : UFunction)
    (hmade : make_ue_function E brain host objs class_p e i is_final = some made)
    (hF : made.ue_function_p = some F)
    (hnum : e.m_num_params = e.m_sk_invokable_p.param_list.length) :
    (input_params F).length = e.m_sk_invokable_p.param_list.length
      ∧ made.param_info_array.length = e.m_num_params + 1
      ∧ (∀ j (hj : j < (input_params F).length),
          (info_at made.param_info_array j).complete ((input_params F)[j]))
      ∧ (is_looked_up e = true →
          info_at made.param_info_array e.m_sk_invokable_p.param_list.length
            = ReflectedProperty.new)
      ∧ (is_looked_up e = false →
          all_types_map brain host e.m_sk_invokable_p = true
            ∧ F.Children = built_children brain host F.ptr is_final e.m_sk_invokable_p
            ∧ info_at made.param_info_array e.m_sk_invokable_p.param_list.length
              = (match built_result_class brain e.m_sk_invokable_p with
                | none => ReflectedProperty.new
                | some rc => result_info brain host F.ptr is_final rc)) := by
  have hfresh : ∀ j, info_at (List.replicate (e.m_num_params + 1) ReflectedProperty.new) j
      = ReflectedProperty.new := by
    intro j
    unfold info_at
    rw [List.getD_eq_getElem?_getD, List.getElem?_replicate]
    split <;> rfl
  by_cases hlook : is_looked_up e = true
  · unfold make_ue_function at hmade
    simp only [hlook, if_true] at hmade
    cases hr : reflect_ue_function host objs e.m_sk_invokable_p
        (List.replicate (e.m_num_params + 1) ReflectedProperty.new) is_final with
    | none => rw [hr] at hmade; cases hmade
    | some r =>
      rw [hr] at hmade
      simp only [Option.map_some'] at hmade
      cases hmade
      simp only at hF
      obtain ⟨_, h2, h3, h4, h5, h6⟩ := reflect_ue_function_sound host objs _ _ is_final r F hr hF
      have hlen := congrArg List.length h2
      rw [List.length_map, List.length_map] at hlen
      refine ⟨hlen, ?_, ?_, ?_, ?_⟩
      · simp only
        rw [h4, List.length_replicate]
      · intro j hj
        simp only
        rw [h5 j hj (by rw [List.length_replicate, hnum, ← hlen]; omega)]
        exact reflected_info_complete host _ (h3 _ (List.getElem_mem _))
      · intro _
        simp only
        rw [h6 _ (Nat.le_refl _), hfresh]
      · intro hn
        rw [hlook] at hn
        cases hn
  · have hlook' : is_looked_up e = false := by simpa using hlook
    rw [make_ue_function_built E brain host objs class_p e i is_final hlook'] at hmade
    cases hmade
    simp only at hF
    have hall : all_types_map brain host e.m_sk_invokable_p = true := by
      by_contra hne
      have hfalse : all_types_map brain host e.m_sk_invokable_p = false := by simpa using hne
      obtain ⟨h1, _⟩ := build_ue_function_fail E brain host objs (objs.ue_class class_p)
        e.m_sk_invokable_p e.m_type i
        (some (List.replicate (e.m_num_params + 1) ReflectedProperty.new)) is_final hfalse
      rw [h1] at hF
      cases hF
    have hlen : e.m_sk_invokable_p.param_list.length
        < (List.replicate (e.m_num_params + 1) ReflectedProperty.new).length := by
      rw [List.length_replicate, hnum]; exact Nat.lt_succ_self _
    obtain ⟨G, a', hG, h1, _, h3, h4, h5, h6⟩ := build_ue_function_ok E brain host objs
      (objs.ue_class class_p) e.m_sk_invokable_p e.m_type i
      (List.replicate (e.m_num_params + 1) ReflectedProperty.new) is_final hall hlen
    rw [h1] at hF
    have hGF : G = F := Option.some.inj hF
    subst hGF
    have hptr : G.ptr = (new_ue_function objs
        (checked_class E objs (objs.ue_class class_p) e.m_sk_invokable_p) e.m_sk_invokable_p
        e.m_type i).ptr := by rw [hG]
    have hch : G.Children = built_children brain host G.ptr is_final e.m_sk_invokable_p := by
      rw [hptr, hG]
    have hpar : e.m_sk_invokable_p.param_list.all
        (fun p => has_marshal_mapping brain host (brain.get_expected_type p)) = true := by
      unfold all_types_map at hall
      rw [Bool.and_eq_true] at hall
      exact hall.2
    have hin : input_params G
        = param_properties brain host G.ptr is_final e.m_sk_invokable_p.param_list := by
      unfold input_params
      rw [hch]
      exact input_params_built brain host G.ptr is_final e.m_sk_invokable_p
    obtain ⟨hplen, hpget⟩ := param_properties_get brain host G.ptr is_final
      e.m_sk_invokable_p.param_list hpar
    simp only [h3, Option.getD_some]
    refine ⟨?_, ?_, ?_, ?_, ?_⟩
    · rw [hin]; exact hplen
    · rw [h4, List.length_replicate]
    · intro j hj
      have hj' : j < (param_properties brain host G.ptr is_final
          e.m_sk_invokable_p.param_list).length := by rw [← hin]; exact hj
      have hl : j < e.m_sk_invokable_p.param_list.length := by rw [← hplen]; exact hj'
      rw [h5 j hl]
      have hP := hpget j hj' hl
      have hcomp := param_info_complete brain host G.ptr is_final _ _ _ hP
      have heq : (input_params G)[j]
          = (param_properties brain host G.ptr is_final e.m_sk_invokable_p.param_list)[j] := by
        simp only [hin]
      rw [heq]
      exact hcomp
    · intro hn
      rw [hlook'] at hn
      cases hn
    · intro _
      refine ⟨hall, hch, ?_⟩
      rw [h6]
      cases built_result_class brain e.m_sk_invokable_p with
      | none => exact hfresh _
      | some rc => rfl

theorem fill_in_event (host : UEHost) (e : ReflectedFunction) (F : UFunction)
    (arr : List ReflectedProperty)
    (hevent : e.m_type = eReflectedFunctionType.ReflectedFunctionType_Event)
    (hlen : arr.length = e.m_num_params + 1) :
    (fill_in host e F arr).m_type = eReflectedFunctionType.ReflectedFunctionType_Event
      ∧ (fill_in host e F arr).m_ue_function_p = some F.ptr
      ∧ (fill_in host e F arr).m_result_getter
        = (info_at arr e.m_num_params).m_k2_value_fetcher_p.map tK2ValueFetcher.addr
      ∧ (fill_in host e F arr).params.length = e.params.length
      ∧ (∀ j (hj : j < (fill_in host e F arr).params.length) (hj' : j < e.params.length),
          (fill_in host e F arr).params[j] = init_event_param host e.params[j] (info_at arr j)) := by
  have hfill : fill_in host e F arr
      = { e with
          m_ue_function_p := some F.ptr
          m_result_type :=
            { e.m_result_type with m_byte_size := info_size host (info_at arr e.m_num_params) }
          params := List.zipWith (init_event_param host) e.params arr
          m_result_getter :=
            (info_at arr e.m_num_params).m_k2_value_fetcher_p.map tK2ValueFetcher.addr } := by
    unfold fill_in
    simp only [hevent]
  have hzlen : (List.zipWith (init_event_param host) e.params arr).length = e.params.length := by
    rw [List.length_zipWith, hlen]
    unfold ReflectedFunction.m_num_params
    omega
  rw [hfill]
  refine ⟨hevent, rfl, rfl, hzlen, ?_⟩
  intro j hj hj'
  have hja : j < arr.length := by
    rw [hlen]; unfold ReflectedFunction.m_num_params; omega
  show (List.zipWith (init_event_param host) e.params arr)[j] = _
  rw [List.getElem_zipWith]
  congr 1
  unfold info_at
  rw [List.getD_eq_getElem?_getD, List.getElem?_eq_getElem hja]
  rfl

/-- A built function with a child flagged as return parameter belongs to a
routine whose result is built, and the record of the result holds a value
fetcher. -/
theorem result_info_has_fetcher (brain : SkBrain) (host : UEHost) (ue_function_p : Nat)
    (is_final : Bool) (inv : SkInvokableBase)
    (h : ∃ P ∈ built_children brain host ue_function_p is_final inv, P.CPF_ReturnParm = true) :
    ∃ rc, built_result_class brain inv = some rc
      ∧ (result_info brain host ue_function_p is_final rc).m_k2_value_fetcher_p.isSome = true := by
  obtain ⟨P, hP, hret⟩ := h
  unfold built_children at hP
  rcases List.mem_append.mp hP with hP | hP
  · obtain ⟨_, h2, _⟩ := param_properties_flags brain host ue_function_p is_final _ P hP
    rw [h2] at hret
    cases hret
  · cases hb : built_result_class brain inv with
    | none => rw [hb] at hP; cases hP
    | some rc =>
      rw [hb] at hP
      simp only at hP
      refine ⟨rc, rfl, ?_⟩
      cases hR : result_property brain host ue_function_p is_final rc with
      | none => rw [hR] at hP; cases hP
      | some R =>
        have hpp : (param_property brain host ue_function_p is_final m_result_name rc).isSome
            = true := by
          unfold result_property at hR
          cases hq : param_property brain host ue_function_p is_final m_result_name rc with
          | none => rw [hq] at hR; cases hR
          | some _ => rfl
        obtain ⟨Q, hQ⟩ := Option.isSome_iff_exists.mp hpp
        obtain ⟨_, _, c3, _, _⟩ := param_info_complete brain host ue_function_p is_final
          m_result_name rc Q hQ
        exact c3

theorem try_add_wf {w : World} (h : w.WF) (inv : SkInvokableBase) :
    (try_add_reflected_function w inv).1.WF := by
  rcases try_add_cases w inv with ⟨_, _, hT, hC, _⟩ | ⟨type, _, hadd⟩
  · exact wf_of_same h hT hC
  · obtain ⟨p, g, hput, _⟩ := put_of_add_spec hadd
    exact wf_of_put h hput

theorem gather_wf (c : SkClass) : ∀ (rs : List SkRoutine) (w : World) (count : Nat), w.WF →
    (gather c rs (w, count)).1.WF := by
  intro rs
  induction rs with
  | nil => intro w count h; exact h
  | cons r rs ih =>
    intro w count h
    rw [gather_cons]
    exact ih _ _ (try_add_wf h _)

theorem sync_class_wf (WITH_EDITOR callback : Bool) {w : World} (hwf : w.WF)
    (c superclass : SkClass) : (sync_class_from_sk WITH_EDITOR w c superclass callback).1.WF := by
  have h2 := (sync_class_prepared hwf c superclass).1.wf
  have hg : (gather_class c (ensure_instance_record (mark_class_for_delete w (w.get_class c.name))
      c superclass (w.get_class c.name))).1.WF := by
    rw [gather_class_eq]
    exact gather_wf c _ _ _ h2
  unfold sync_class_from_sk
  simp only
  split
  · exact (sweep_record_frame hg c.name).1
  · exact hg

theorem sync_visits_wf (WITH_EDITOR callback : Bool) :
    ∀ (vs : List (SkClass × SkClass)) (w : World) (b : Bool), w.WF →
      (sync_visits WITH_EDITOR callback w b vs).1.WF := by
  intro vs
  induction vs with
  | nil => intro w b h; exact h
  | cons v vs ih =>
    intro w b h
    unfold sync_visits
    exact ih _ _ (sync_class_wf WITH_EDITOR callback h v.1 v.2)

/-- The last loop of `sync_all_from_sk` keeps a well-formed registry well-formed. -/
theorem sweep_final_wf (WITH_EDITOR callback : Bool) {w2 : World} (hwf2 : w2.WF) (final : World)
    (hfinal : final = { (sweep_all WITH_EDITOR callback w2.m_reflected_classes w2).1 with
      m_reflected_classes := (sweep_all WITH_EDITOR callback w2.m_reflected_classes w2).2.1 }) :
    final.WF := by
  obtain ⟨f1, f2, f3, f4, _, _, _⟩ := sweep_all_wf WITH_EDITOR callback hwf2 final hfinal
  have hnames' : (final.m_reflected_classes.map (fun c => c.name)).Nodup := by
    rw [f2]; exact hwf2.names_nodup
  have hkept : ∀ j f, w2.fn j = some f → f.m_marked_for_delete_all = false →
      final.fn j = some f := by
    intro j f hf hm
    rw [f1 j, is_stale_of_fn hf, hm]
    exact hf
  have hback : ∀ j f, final.fn j = some f →
      w2.fn j = some f ∧ f.m_marked_for_delete_all = false := by
    intro j f hf
    rw [f1 j] at hf
    split at hf
    · cases hf
    · rename_i hs
      refine ⟨hf, ?_⟩
      rw [is_stale_of_fn hf] at hs
      cases hm : f.m_marked_for_delete_all
      · rfl
      · exact absurd hm hs
  have hmemS : ∀ {R R' : ReflectedClass},
      Swept (is_stale (fun f => f.m_marked_for_delete_all) w2) R R' →
      ∀ j, j ∈ R'.m_functions ↔ j ∈ R.m_functions
        ∧ is_stale (fun f => f.m_marked_for_delete_all) w2 j = false := by
    intro R R' hsw j
    rw [hsw.2.2.2.mem_iff, List.mem_filter]
    simp
  refine ⟨hnames', ?_, ?_, ?_⟩
  · intro c hc i hi
    obtain ⟨R, hR, hsw⟩ := f4 c.name c (find_class_of_mem hnames' hc)
    have hi' := (hmemS hsw i).1 hi
    obtain ⟨f, hf, ho⟩ := hwf2.listed hR hi'.1
    refine ⟨f, hkept i f hf ?_, ho⟩
    rw [← @is_stale_of_fn (fun f => f.m_marked_for_delete_all) _ _ _ hf]
    exact hi'.2
  · intro c hc
    obtain ⟨R, hR, hsw⟩ := f4 c.name c (find_class_of_mem hnames' hc)
    exact hsw.2.2.2.nodup_iff.2 ((hwf2.nodup hR).filter _)
  · intro i f hf
    obtain ⟨hf2, hm⟩ := hback i f hf
    obtain ⟨R, hR, hi⟩ := hwf2.record_of hf2
    obtain ⟨R', hR', hsw⟩ := f3 _ R hR
    refine ⟨R', get_class_mem hR', get_class_name hR', (hmemS hsw i).2 ⟨hi, ?_⟩⟩
    rw [is_stale_of_fn hf2]
    exact hm

theorem sync_all_wf (WITH_EDITOR callback : Bool) {w : World} (hwf : w.WF)
    (superclass : SkClass) (root : SkClassTree) :
    (sync_all_from_sk WITH_EDITOR w superclass root callback).1.WF := by
  rw [sync_all_eq]
  exact sweep_final_wf WITH_EDITOR callback
    (sync_visits_wf WITH_EDITOR callback _ _ _ (mark_all_wf hwf)) _ rfl

theorem add_reflected_call_wf {w : World} (h : w.WF) (inv : SkInvokableBase) :
    (add_reflected_call w inv).1.WF := by
  obtain ⟨p, g, hput, _⟩ := put_of_add_spec (add_reflected_call_spec w inv)
  exact wf_of_put h hput

theorem add_reflected_event_wf {w : World} (h : w.WF) (inv : SkInvokableBase) :
    (add_reflected_event w inv).1.WF := by
  obtain ⟨p, g, hput, _⟩ := put_of_add_spec (add_reflected_event_spec w inv)
  exact wf_of_put h hput

theorem clear_wf (WITH_EDITOR callback : Bool) {w : World} (h : w.WF) :
    (clear WITH_EDITOR w callback).WF := by
  have htable : (clear WITH_EDITOR w callback).m_reflected_functions = [] := by simp [clear]
  have hfn : ∀ i, (clear WITH_EDITOR w callback).fn i = none := by
    intro i
    unfold World.fn
    rw [htable]
    rfl
  have hlists : ∀ c ∈ (clear WITH_EDITOR w callback).m_reflected_classes, c.m_functions = [] := by
    intro c hc
    unfold clear at hc
    simp only [List.mem_map] at hc
    obtain ⟨d, _, rfl⟩ := hc
    rfl
  have hnames : (clear WITH_EDITOR w callback).m_reflected_classes.map (fun c => c.name)
      = w.m_reflected_classes.map (fun c => c.name) := by
    have hd := foldl_delete_range w w.m_reflected_functions.length (Nat.le_refl _)
    unfold clear
    simp only [hd.2.1, List.map_map]
    rfl
  refine ⟨by rw [hnames]; exact h.names_nodup, ?_, ?_, ?_⟩
  · intro c hc i hi
    rw [hlists c hc] at hi
    cases hi
  · intro c hc
    rw [hlists c hc]
    exact List.nodup_nil
  · intro i f hf
    rw [hfn i] at hf
    cases hf

/-- `World.WF` says the same as the worded invariant on a registry keyed by class
name. -/
theorem wf_iff_well_formed (w : World) : w.WF ↔ w.keyed ∧ registry_well_formed w := by
  constructor
  · intro h
    refine ⟨h.names_nodup, ?_, ?_⟩
    · intro c hc i hi
      obtain ⟨f, hf, _⟩ := h.listed_occupied c hc i hi
      exact ⟨fn_lt_length hf, by rw [hf]; rfl⟩
    · intro i f hf
      refine ⟨?_, ?_⟩
      · obtain ⟨c, hc, hn, hi⟩ := h.occupied_listed i f hf
        exact ⟨c, hc, hn, List.count_eq_one_of_mem (h.lists_nodup c hc) hi⟩
      · intro c hc hi
        obtain ⟨g, hg, ho⟩ := h.listed_occupied c hc i hi
        rw [hf] at hg
        cases hg
        exact ho.symm
  · rintro ⟨hk, h1, h2⟩
    refine ⟨hk, ?_, ?_, ?_⟩
    · intro c hc i hi
      cases hf : w.fn i with
      | none =>
        have := (h1 c hc i hi).2
        rw [hf] at this
        cases this
      | some f => exact ⟨f, rfl, ((h2 i f hf).2 c hc hi).symm⟩
    · intro c hc
      rw [List.nodup_iff_count_le_one]
      intro i
      by_cases hi : i ∈ c.m_functions
      · cases hf : w.fn i with
        | none =>
          have := (h1 c hc i hi).2
          rw [hf] at this
          cases this
        | some f =>
          obtain ⟨⟨d, hd, hn, hcount⟩, hall⟩ := h2 i f hf
          have hcd : c = d := by
            have e1 := find_class_of_mem hk hc
            have e2 := find_class_of_mem hk hd
            rw [hall c hc hi, ← hn, e2] at e1
            cases e1
            rfl
          rw [hcd, hcount]
      · rw [List.count_eq_zero_of_not_mem hi]
        exact Nat.zero_le _
    · intro i f hf
      obtain ⟨⟨d, hd, hn, hcount⟩, _⟩ := h2 i f hf
      refine ⟨d, hd, hn, ?_⟩
      rw [← List.count_pos_iff, hcount]
      exact Nat.one_pos

/-- In a registry that agrees with the visited classes every occupied entry has both
deletion flags clear and is the entry of an exposed routine of a visited class. -/
theorem Synced.entry_exposed {w : World} {visits : List (SkClass × SkClass)} (h : Synced w visits)
    {j : Nat} {f : ReflectedFunction} (hf : w.fn j = some f) :
    f.m_marked_for_delete_class = false ∧ f.m_marked_for_delete_all = false ∧
    ∃ v ∈ visits, ∃ r ∈ v.1.routines, (exposed_as (v.1.invokable r)).isSome = true
      ∧ f.owner = v.1.name ∧ f.name = r.name ∧ f.m_is_class_member = r.is_class_member := by
  have ho := h.owned j f hf
  rw [List.mem_map] at ho
  obtain ⟨v, hv, hn⟩ := ho
  obtain ⟨R, hR, hj⟩ := h.wf.record_of hf
  rw [← hn] at hR
  obtain ⟨g, r, hg, hr, he, hup⟩ := (h.classes v hv).entries R hR j hj
  rw [hf] at hg
  cases hg
  obtain ⟨_, _, h3, h4⟩ := hup.fields
  exact ⟨h3, h4, v, hv, r, hr, he, hn.symm, hup.1, hup.2.1⟩

/-- In a registry that agrees with the visited classes every exposed routine of a
visited class has an entry, and only one. -/
theorem Synced.routine_entry {w : World} {visits : List (SkClass × SkClass)} (h : Synced w visits)
    {v : SkClass × SkClass} (hv : v ∈ visits) {r : SkRoutine} (hr : r ∈ v.1.routines)
    (he : (exposed_as (v.1.invokable r)).isSome = true) :
    ∃ j f, w.fn j = some f ∧ f.owner = v.1.name ∧ f.name = r.name
      ∧ f.m_is_class_member = r.is_class_member
      ∧ ∀ k g, w.fn k = some g → g.owner = v.1.name → g.name = r.name →
          g.m_is_class_member = r.is_class_member → k = j := by
  obtain ⟨R, j, f, hR, hj, hf, hup⟩ := (h.classes v hv).routines r hr he
  refine ⟨j, f, hf, hup.fields.2.1, hup.1, hup.2.1, ?_⟩
  intro k g hg ho hn hm
  obtain ⟨R', hR', hk⟩ := h.wf.record_of hg
  rw [ho, hR] at hR'
  cases hR'
  exact (h.classes v hv).distinct R hR k hk j hj g f hg hf (by rw [hn]; exact hup.1.symm)
    (by rw [hm]; exact hup.2.1.symm)

/-! ## The removal callbacks of a sync -/

theorem count_errors {extra : List HostOp}
    (h : ∀ op ∈ extra, ∃ p, op = HostOp.error p) (n : ASymbol) :
    extra.countP (is_removed_for n) = 0 := by
  rw [List.countP_eq_zero]
  intro op hop
  obtain ⟨p, hp⟩ := h op hop
  rw [hp]
  simp [is_removed_for]

/-- The gathering loops make no removal callback. -/
theorem gather_quiet (c : SkClass) : ∀ (rs : List SkRoutine) (w : World) (count : Nat),
    ∃ extra, (gather c rs (w, count)).1.host_log = w.host_log ++ extra
      ∧ ∀ n, extra.countP (is_removed_for n) = 0 := by
  intro rs
  induction rs with
  | nil => intro w count; exact ⟨[], by simp [gather], fun n => rfl⟩
  | cons r rs ih =>
    intro w count
    rw [gather_cons]
    obtain ⟨e2, h2, c2⟩ := ih (try_add_reflected_function w (c.invokable r)).1
      (count + (try_add_reflected_function w (c.invokable r)).2.toNat)
    have h1 : ∃ e1, (try_add_reflected_function w (c.invokable r)).1.host_log = w.host_log ++ e1
        ∧ ∀ n, e1.countP (is_removed_for n) = 0 := by
      rcases try_add_cases w (c.invokable r) with ⟨_, _, _, _, e1, hl, he⟩ | ⟨type, _, hadd⟩
      · exact ⟨e1, hl, count_errors he⟩
      · obtain ⟨p, g, hput, _⟩ := put_of_add_spec hadd
        obtain ⟨e1, hl, he⟩ := hput.log
        exact ⟨e1, hl, count_destroys he⟩
    obtain ⟨e1, hl1, c1⟩ := h1
    refine ⟨e1 ++ e2, ?_, fun n => ?_⟩
    · rw [h2, hl1, List.append_assoc]
    · rw [List.countP_append, c1 n, c2 n]

/-- An entry still marked for delete after the gathering loops was there, as it
is, before them. -/
theorem gather_marked_old (c : SkClass) : ∀ (rs : List SkRoutine) (w : World) (count : Nat)
    (j : Nat) (f : ReflectedFunction), (gather c rs (w, count)).1.fn j = some f →
    f.m_marked_for_delete_class = true → w.fn j = some f := by
  intro rs
  induction rs with
  | nil => intro w count j f hf _; exact hf
  | cons r rs ih =>
    intro w count j f hf hm
    rw [gather_cons] at hf
    have h1 := ih _ _ j f hf hm
    rcases try_add_cases w (c.invokable r) with ⟨_, _, hT, _, _⟩ | ⟨type, _, hadd⟩
    · rw [fn_congr hT] at h1
      exact h1
    · obtain ⟨p, g, hput, hup⟩ := put_of_add_spec hadd
      rw [hput.fn_eq j] at h1
      by_cases hj : j = p
      · rw [if_pos hj] at h1
        cases h1
        rw [hup.fields.2.2.1] at hm
        cases hm
      · rw [if_neg hj] at h1
        exact h1

/-- The second block of `sync_class_from_sk` keeps the native class of a record. -/
theorem ensure_keeps_static (w : World) (c superclass : SkClass) {R : ReflectedClass}
    (hR : w.get_class c.name = some R) :
    ∃ R', (ensure_instance_record w c superclass (w.get_class c.name)).get_class c.name = some R'
      ∧ R'.m_ue_static_class_p = R.m_ue_static_class_p := by
  unfold ensure_instance_record
  split
  · rw [hR]
    simp only
    rw [get_class_eq_find]
    simp only
    rw [find_modify_class (f := fun c => { c with m_store_sk_instance := true }) (fun _ => rfl),
      if_pos rfl, ← get_class_eq_find, hR]
    exact ⟨_, rfl, rfl⟩
  · exact ⟨R, hR, rfl⟩

theorem is_stale_some {marked : ReflectedFunction → Bool} {w : World} {j : Nat}
    (h : is_stale marked w j = true) : ∃ f, w.fn j = some f ∧ marked f = true := by
  unfold is_stale at h
  cases hf : w.fn j with
  | none => rw [hf] at h; cases h
  | some f => rw [hf] at h; exact ⟨f, rfl, h⟩

/-- The removal callbacks of one `sync_class_from_sk`: none for another class, at
most one for the class itself, and that one only with the callback compiled in and
passed, for a record that existed before with a valid native class, after an entry
the class had before was deleted. -/
theorem sync_class_calls (WITH_EDITOR callback : Bool) {w : World} (hwf : w.WF)
    (c superclass : SkClass) (huniq : c.UniqueRoutines) :
    ∃ extra, (sync_class_from_sk WITH_EDITOR w c superclass callback).1.host_log
        = w.host_log ++ extra
      ∧ (∀ m, m ≠ c.name → extra.countP (is_removed_for m) = 0)
      ∧ extra.countP (is_removed_for c.name) ≤ 1
      ∧ (0 < extra.countP (is_removed_for c.name) →
          WITH_EDITOR = true ∧ callback = true
          ∧ (∃ R, w.get_class c.name = some R ∧ R.m_ue_static_class_p.isSome = true)
          ∧ ∃ j f, w.fn j = some f ∧ f.owner = c.name
              ∧ (sync_class_from_sk WITH_EDITOR w c superclass callback).1.fn j = none) := by
  obtain ⟨m1, m2, m3⟩ := mark_class_spec w c.name
  have hrcp : (mark_class_for_delete w (w.get_class c.name)).get_class c.name = w.get_class c.name :=
    get_class_congr m1 c.name
  obtain ⟨hT, hL, _⟩ :=
    ensure_record_spec (mark_class_for_delete w (w.get_class c.name)) c superclass
      (w.get_class c.name) hrcp
  obtain ⟨hinv0, _, _, _⟩ := sync_class_prepared hwf c superclass
  obtain ⟨g, hg, hinv, _, _, heq⟩ := sync_class_result WITH_EDITOR callback hwf c superclass huniq
  have hkeep := (gather_spec (c := c) c.routines [] _ 0 hinv0 (by simpa using huniq)).2.2
  rw [← gather_class_eq, ← hg] at hkeep
  obtain ⟨eg, hlg, hcg⟩ := gather_quiet c c.routines
    (ensure_instance_record (mark_class_for_delete w (w.get_class c.name)) c superclass
      (w.get_class c.name)) 0
  rw [← gather_class_eq, ← hg, hL, m2] at hlg
  have hold := gather_marked_old c c.routines
    (ensure_instance_record (mark_class_for_delete w (w.get_class c.name)) c superclass
      (w.get_class c.name)) 0
  rw [← gather_class_eq, ← hg] at hold
  rw [heq]
  simp only
  cases hRg : g.1.get_class c.name with
  | none =>
    rw [sweep_record_none hRg]
    refine ⟨eg, hlg, fun m _ => hcg m, by rw [hcg]; exact Nat.zero_le _, ?_⟩
    intro hpos
    rw [hcg] at hpos
    cases hpos
  | some Rg =>
    obtain ⟨s1, _, _, _, s5, ⟨ex, s6, s7⟩, _⟩ :=
      @sweep_record_spec WITH_EDITOR callback _ _ _ hRg (hinv.wf.nodup hRg)
    obtain ⟨nx, hnx, hn⟩ := notify_removed_count WITH_EDITOR callback Rg
      ((sweep_class_record WITH_EDITOR callback g.1 c.name).2 != 0) (g.1.host_log ++ ex)
    have hname : Rg.name = c.name := get_class_name hRg
    have hcount : ∀ m, (eg ++ (ex ++ nx)).countP (is_removed_for m)
        = if Rg.name = m ∧ (WITH_EDITOR && callback && Rg.m_ue_static_class_p.isSome
            && ((sweep_class_record WITH_EDITOR callback g.1 c.name).2 != 0)) = true
          then 1 else 0 := by
      intro m
      rw [List.countP_append, List.countP_append, hcg m, count_destroys s7 m, hn m]
      simp
    refine ⟨eg ++ (ex ++ nx), ?_, ?_, ?_, ?_⟩
    · rw [s6, hnx, hlg, List.append_assoc, List.append_assoc]
    · intro m hm
      rw [hcount m, if_neg]
      intro h
      exact hm (by rw [← h.1, hname])
    · rw [hcount c.name]
      split
      · exact Nat.le_refl _
      · exact Nat.zero_le _
    · intro hpos
      rw [hcount c.name] at hpos
      split at hpos
      · rename_i hyes
        obtain ⟨_, hyes⟩ := hyes
        simp only [Bool.and_eq_true, bne_iff_ne, ne_eq] at hyes
        obtain ⟨⟨⟨hwe, hcb⟩, hstatic⟩, hrem⟩ := hyes
        rw [s5] at hrem
        have hne : Rg.m_functions.filter (is_stale (fun f => f.m_marked_for_delete_class) g.1)
            ≠ [] := by
          intro he
          apply hrem
          rw [he]
          rfl
        obtain ⟨j, hj⟩ := List.exists_mem_of_ne_nil _ hne
        rw [List.mem_filter] at hj
        obtain ⟨f, hf, hmark⟩ := is_stale_some hj.2
        have howner := hinv.wf.not_listed_elsewhere hf hRg hj.1
        have hB := hold j f hf hmark
        rw [fn_congr hT, m3 j] at hB
        have hw : ∃ f0, w.fn j = some f0 ∧ f0.owner = c.name := by
          split at hB
          · cases h0 : w.fn j with
            | none => rw [h0] at hB; cases hB
            | some f0 =>
              rw [h0] at hB
              simp only [Option.map_some', Option.some.injEq] at hB
              refine ⟨f0, rfl, ?_⟩
              rw [← howner, ← hB]
              rfl
          · exact ⟨f, hB, howner⟩
        obtain ⟨f0, hf0, ho0⟩ := hw
        obtain ⟨R0, hR0, _⟩ := hwf.record_of hf0
        rw [ho0] at hR0
        have hRA : (mark_class_for_delete w (w.get_class c.name)).get_class c.name = some R0 := by
          rw [hrcp, hR0]
        obtain ⟨RB, hRB, hsB⟩ := ensure_keeps_static
          (mark_class_for_delete w (w.get_class c.name)) c superclass hRA
        rw [hrcp] at hRB
        obtain ⟨Rg', hRg', _, hsg⟩ := hkeep RB hRB
        rw [hRg] at hRg'
        cases hRg'
        refine ⟨hwe, hcb, ⟨R0, hR0, ?_⟩, j, f0, hf0, ho0, ?_⟩
        · rw [← hsB, ← hsg]
          exact hstatic
        · rw [s1 j, if_pos ⟨hj.1, hj.2⟩]
      · cases hpos

/-- The removal callbacks of a walk over classes of distinct names: at most one for
each class, and that one only with the callback compiled in and passed, for a record
that existed before the walk with a valid native class, after an entry the class had
before the walk was deleted; its slot holds no entry of the class at the end. -/
theorem sync_visits_calls (WITH_EDITOR callback : Bool) :
    ∀ (vs : List (SkClass × SkClass)) (w : World) (b : Bool), w.WF →
      (vs.map (fun v => v.1.name)).Nodup → (∀ v ∈ vs, v.1.UniqueRoutines) →
      ∃ extra, (sync_visits WITH_EDITOR callback w b vs).1.host_log = w.host_log ++ extra
        ∧ ∀ n, extra.countP (is_removed_for n) ≤ 1
          ∧ (0 < extra.countP (is_removed_for n) →
              WITH_EDITOR = true ∧ callback = true
              ∧ (∃ R, w.get_class n = some R ∧ R.m_ue_static_class_p.isSome = true)
              ∧ ∃ j f, w.fn j = some f ∧ f.owner = n
                  ∧ ∀ g, (sync_visits WITH_EDITOR callback w b vs).1.fn j = some g →
                      g.owner ≠ n) := by
  intro vs
  induction vs with
  | nil =>
    intro w b _ _ _
    refine ⟨[], by simp [sync_visits], fun n => ⟨Nat.zero_le _, fun h => ?_⟩⟩
    cases h
  | cons v vs ih =>
    intro w b hwf hnd huniq
    rw [List.map_cons, List.nodup_cons] at hnd
    obtain ⟨h1, h2, _⟩ := sync_class_spec WITH_EDITOR callback hwf v.1 v.2
      (huniq v (List.mem_cons_self _ _))
    obtain ⟨e1, hl1, c1, c2, c3⟩ := sync_class_calls WITH_EDITOR callback hwf v.1 v.2
      (huniq v (List.mem_cons_self _ _))
    obtain ⟨_, _, g3⟩ := sync_visits_spec WITH_EDITOR callback vs
      (sync_class_from_sk WITH_EDITOR w v.1 v.2 callback).1
      (b || (sync_class_from_sk WITH_EDITOR w v.1 v.2 callback).2) h1 hnd.2
      (fun v' hv' => huniq v' (List.mem_cons_of_mem _ hv'))
    obtain ⟨e2, hl2, hc⟩ := ih (sync_class_from_sk WITH_EDITOR w v.1 v.2 callback).1
      (b || (sync_class_from_sk WITH_EDITOR w v.1 v.2 callback).2) h1 hnd.2
      (fun v' hv' => huniq v' (List.mem_cons_of_mem _ hv'))
    have hown : e2.countP (is_removed_for v.1.name) = 0 := by
      obtain ⟨e2', hl2', hm⟩ := g3.log
      rw [hl2] at hl2'
      have := List.append_cancel_left hl2'
      subst this
      apply countP_removed_zero
      intro m u hmem he
      apply hnd.1
      rw [← he]
      exact hm m u hmem
    rw [sync_visits]
    refine ⟨e1 ++ e2, by rw [hl2, hl1, List.append_assoc], fun n => ?_⟩
    rw [List.countP_append]
    by_cases hn : n = v.1.name
    · subst hn
      rw [hown, Nat.add_zero]
      refine ⟨c2, fun hpos => ?_⟩
      obtain ⟨a1, a2, a3, j, f, hf, ho, hnone⟩ := c3 hpos
      refine ⟨a1, a2, a3, j, f, hf, ho, ?_⟩
      intro g hg hgo
      have := g3.no_new j g hg (by rw [hgo]; exact hnd.1)
      rw [hnone] at this
      cases this
    · rw [c1 n hn, Nat.zero_add]
      refine ⟨(hc n).1, fun hpos => ?_⟩
      obtain ⟨a1, a2, ⟨R, hR, hs⟩, j, f, hf, ho, hlast⟩ := (hc n).2 hpos
      refine ⟨a1, a2, ⟨R, ?_, hs⟩, j, f, ?_, ho, hlast⟩
      · rw [← h2.records n hn]
        exact hR
      · exact h2.no_new j f hf (by rw [ho]; exact hn)

/-- The removal callbacks of the last loop of `sync_all_from_sk` on a well-formed
registry: at most one for each class, and that one only with the callback compiled
in and passed, for a record with a valid native class that lists an entry marked for
delete. -/
theorem sweep_all_calls (WITH_EDITOR callback : Bool) {w : World} (hwf : w.WF) :
    ∃ extra, (sweep_all WITH_EDITOR callback w.m_reflected_classes w).1.host_log
        = w.host_log ++ extra
      ∧ ∀ n, extra.countP (is_removed_for n) ≤ 1
        ∧ (0 < extra.countP (is_removed_for n) →
            WITH_EDITOR = true ∧ callback = true
            ∧ ∃ R, w.get_class n = some R ∧ R.m_ue_static_class_p.isSome = true
              ∧ ∃ j ∈ R.m_functions, ∃ f, w.fn j = some f ∧ f.m_marked_for_delete_all = true) := by
  obtain ⟨_, _, _, _, _, _, extra, hl, hc⟩ :=
    sweep_all_spec WITH_EDITOR callback w.m_reflected_classes w hwf.names_nodup
      (fun R hR => ⟨hwf.lists_nodup R hR, hwf.listed_occupied R hR⟩)
  refine ⟨extra, hl, fun n => ?_⟩
  rw [hc n]
  cases hR : w.get_class n with
  | none =>
    have hz : w.m_reflected_classes.countP (fun R => R.name == n
        && notifies WITH_EDITOR callback (is_stale (fun f => f.m_marked_for_delete_all) w) R)
        = 0 := by
      rw [List.countP_eq_zero]
      intro R hmem hp
      simp only [Bool.and_eq_true, beq_iff_eq] at hp
      have := hwf.get_class_of_mem hmem
      rw [hp.1, hR] at this
      cases this
    rw [hz]
    exact ⟨Nat.zero_le _, fun h => by cases h⟩
  | some R =>
    have hname := get_class_name hR
    subst hname
    rw [countP_unique_name hwf.names_nodup (get_class_mem hR)]
    split
    · rename_i hyes
      refine ⟨Nat.le_refl _, fun _ => ?_⟩
      unfold notifies at hyes
      simp only [Bool.and_eq_true, List.any_eq_true] at hyes
      obtain ⟨⟨⟨hwe, hcb⟩, hs⟩, j, hj, hstale⟩ := hyes
      obtain ⟨f, hf, hm⟩ := is_stale_some hstale
      exact ⟨hwe, hcb, R, rfl, hs, j, hj, f, hf, hm⟩
    · exact ⟨Nat.zero_le _, fun h => by cases h⟩

/-! ## The variant of the entry an add leaves -/

/-- The entry an add leaves for the routine: a new entry of the variant of the add,
or the entry found for the routine, updated in place. -/
theorem entry_of_add_spec {type : eReflectedFunctionType} {w : World} {inv : SkInvokableBase}
    {res : World × Bool} (h : AddSpec type w inv res) :
    ∃ R' p g, res.1.get_class inv.scope.name = some R' ∧ p ∈ R'.m_functions
      ∧ res.1.fn p = some g
      ∧ ((g = ReflectedFunction.new type inv ∧ res.2 = true)
        ∨ ∃ R e, w.get_class inv.scope.name = some R ∧ p ∈ R.m_functions ∧ w.fn p = some e
            ∧ e.name = inv.name ∧ e.m_is_class_member = inv.is_class_member
            ∧ signature_matches e inv = true ∧ g = e.update inv ∧ res.2 = false) := by
  rcases h with ⟨R, i, e, hR, hfind, he, hsig, hb, hT, hC, _⟩ | ⟨hR, hb, hT, hC, _⟩
    | ⟨R, hR, hfind, hb, hT, hC, _⟩ | ⟨R, i, e, hR, hfind, he, hsig, hb, hT, hC, _⟩
  · obtain ⟨e', he', hname, hmember⟩ := is_slot_of_iff.1 (List.find?_some hfind)
    rw [he] at he'; cases he'
    have hi : i ∈ R.m_functions := List.mem_of_find?_eq_some hfind
    refine ⟨R, i, e.update inv, by rw [get_class_congr hC, hR], hi, ?_,
      Or.inr ⟨R, e, hR, hi, he, hname, hmember, hsig, rfl, hb⟩⟩
    rw [fn_of_table_set hT (fn_lt_length he) i, if_pos rfl]
  · have hnone : w.m_reflected_classes.find? (fun d => d.name ==
        (⟨inv.scope.name, none, [first_free_slot w.m_reflected_functions], false⟩
          : ReflectedClass).name) = none := hR
    have hC' : res.1.m_reflected_classes
        = append_class ⟨inv.scope.name, none, [first_free_slot w.m_reflected_functions], false⟩
            w.m_reflected_classes := hC
    refine ⟨⟨inv.scope.name, none, [first_free_slot w.m_reflected_functions], false⟩,
      first_free_slot w.m_reflected_functions, ReflectedFunction.new type inv, ?_,
      List.mem_singleton.2 rfl, ?_, Or.inl ⟨rfl, hb⟩⟩
    · unfold World.get_class
      rw [hC', find_append_class _ _ _ hnone, if_pos rfl]
    · rw [fn_of_table_with hT (first_free_slot_le _) _, if_pos rfl]
  · refine ⟨⟨R.name, R.m_ue_static_class_p,
        R.m_functions ++ [first_free_slot w.m_reflected_functions], R.m_store_sk_instance⟩,
      first_free_slot w.m_reflected_functions, ReflectedFunction.new type inv, ?_,
      List.mem_append_right _ (List.mem_singleton.2 rfl), ?_, Or.inl ⟨rfl, hb⟩⟩
    · unfold World.get_class at hR ⊢
      rw [hC, find_modify_class (f := fun c => { c with m_functions :=
        c.m_functions ++ [first_free_slot w.m_reflected_functions] }) (fun _ => rfl),
        if_pos rfl, hR]
      rfl
    · rw [fn_of_table_with hT (first_free_slot_le _) _, if_pos rfl]
  · refine ⟨⟨R.name, R.m_ue_static_class_p, R.m_functions.erase i ++ [i], R.m_store_sk_instance⟩,
      i, ReflectedFunction.new type inv, ?_, List.mem_append_right _ (List.mem_singleton.2 rfl),
      ?_, Or.inl ⟨rfl, hb⟩⟩
    · unfold World.get_class at hR ⊢
      rw [hC, find_modify_class (f := fun c =>
        { c with m_functions := (c.m_functions.erase i ++ [i]) }) (fun _ => rfl), if_pos rfl, hR]
      rfl
    · rw [fn_of_table_set hT (fn_lt_length he) i, if_pos rfl]

/-- An add registers the routine as its variant unless the record lists an entry of
the same name, member flag and signature of another variant. -/
theorem registered_as_of_add_spec {type : eReflectedFunctionType} {w : World}
    {inv : SkInvokableBase} {res : World × Bool} (h : AddSpec type w inv res)
    (hno : ¬ has_entry_of_other_variant type w inv) : is_registered_as type res.1 inv := by
  obtain ⟨R', p, g, hR', hp, hg, hcase⟩ := entry_of_add_spec h
  rcases hcase with ⟨hnew, _⟩ | ⟨R, e, hR, hpR, he, hname, hmember, hsig, hupd, _⟩
  · refine ⟨R', p, g, hR', hp, hg, ?_, ?_, ?_, ?_⟩ <;> rw [hnew] <;> rfl
  · have hu := update_fields e inv
    have hty : e.m_type = type := by
      by_contra hne
      exact hno ⟨R, p, e, hR, hpR, he, hname, hmember, hsig, hne⟩
    exact ⟨R', p, g, hR', hp, hg, by rw [hupd, hu.1, hname], by rw [hupd, hu.2.1, hmember],
      by rw [hupd, hu.2.2.2.2.1], by rw [hupd, hu.2.2.1, hty]⟩

/-- An add that finds an entry of the same name, member flag and signature first
keeps the variant of that entry and returns false. -/
theorem add_spec_keeps_variant {type : eReflectedFunctionType} {w : World}
    {inv : SkInvokableBase} {res : World × Bool} (h : AddSpec type w inv res)
    {R : ReflectedClass} {i : Nat} {e : ReflectedFunction}
    (hR : w.get_class inv.scope.name = some R)
    (hfind : R.m_functions.find? (is_slot_of w inv) = some i) (he : w.fn i = some e)
    (hsig : signature_matches e inv = true) :
    res.2 = false ∧ ∃ g, res.1.fn i = some g ∧ g.m_sk_invokable_p = inv ∧ g.m_type = e.m_type := by
  obtain ⟨hb, hT, _, _⟩ := add_spec_same_signature h hR hfind he hsig
  have hu := update_fields e inv
  refine ⟨hb, e.update inv, ?_, hu.2.2.2.2.1, hu.2.2.1⟩
  rw [fn_of_table_set hT (fn_lt_length he) i, if_pos rfl]

theorem bind_event_method_bound (w : World) (inv : SkInvokableBase) :
    inv.ptr ∈ (bind_event_method w inv).bound := by
  unfold bind_event_method
  split
  · rename_i hc
    simpa using hc
  · exact List.mem_cons_self _ _

theorem store_bound (w : World) (f : ReflectedFunction) (cls : Option ASymbol) (hint : Int) :
    (store_reflected_function w f cls hint).1.bound = w.bound := by
  unfold store_reflected_function World.set_user_data
  cases cls <;> rfl

/-- The update of an event entry binds the routine to the event trigger. -/
theorem try_update_event_bound {w : World} {inv : SkInvokableBase} {R : ReflectedClass} {i : Nat}
    {e : ReflectedFunction} (hR : w.get_class inv.scope.name = some R)
    (hfind : R.m_functions.find? (is_slot_of w inv) = some i) (he : w.fn i = some e)
    (hsig : signature_matches e inv = true)
    (hty : e.m_type = eReflectedFunctionType.ReflectedFunctionType_Event) :
    inv.ptr ∈ (try_update_reflected_function w inv).world.bound := by
  unfold signature_matches at hsig
  simp only [Bool.and_eq_true, beq_iff_eq] at hsig
  obtain ⟨⟨h1, h2⟩, h3⟩ := hsig
  unfold try_update_reflected_function
  rw [hR]
  simp only
  rw [hfind]
  simp only [he]
  rw [if_neg (by rintro (h | h); exact h h1; exact h h2), hty]
  simp only [h3, Bool.not_true, Bool.false_eq_true, if_false]
  exact bind_event_method_bound _ inv

/-- Function `add_reflected_event` leaves the method bound to the event trigger
unless the record lists an entry of the same name, member flag and signature that
is a call. -/
theorem add_reflected_event_bound (w : World) (inv : SkInvokableBase)
    (hno : ¬ has_entry_of_other_variant eReflectedFunctionType.ReflectedFunctionType_Event w inv) :
    inv.ptr ∈ (add_reflected_event w inv).1.bound := by
  have hstore : (try_update_reflected_function w inv).updated = false →
      inv.ptr ∈ (add_reflected_event w inv).1.bound := by
    intro hf
    unfold add_reflected_event
    simp only [hf, Bool.false_eq_true, if_false]
    rw [store_bound]
    exact bind_event_method_bound _ inv
  rcases try_update_cases w inv with ⟨_, hr⟩ | ⟨R, _, _, hr⟩ | ⟨R, i, e, _, _, _, _, hr⟩
    | ⟨R, i, e, hR, hfind, he, hsig, hupd, _⟩
  · exact hstore (by rw [hr])
  · exact hstore (by rw [hr])
  · exact hstore (by rw [hr])
  · obtain ⟨e', he', hname, hmember⟩ := is_slot_of_iff.1 (List.find?_some hfind)
    rw [he] at he'; cases he'
    have hty : e.m_type = eReflectedFunctionType.ReflectedFunctionType_Event := by
      by_contra hne
      exact hno ⟨R, i, e, hR, List.mem_of_find?_eq_some hfind, he, hname, hmember, hsig, hne⟩
    unfold add_reflected_event
    simp only [hupd, if_true]
    exact try_update_event_bound hR hfind he hsig hty

/-! ## The claims on the reflected entity table -/

/-- C7: for an in-range index `i`, `delete_reflected_function(i)` changes the
registry only by making slot `i` null: the table is the old one with `none` at
`i` (same length, other slots unchanged), the class records with their function
lists are unchanged even where they list `i`; on a null slot the call changes
nothing at all, and a second deletion changes nothing after the first. -/
theorem delete_reflected_function_only_nulls_slot (w : World) (i : Nat)
    (_hi : i < w.m_reflected_functions.length) :
    (delete_reflected_function w i).m_reflected_functions = w.m_reflected_functions.set i none
    ∧ (delete_reflected_function w i).fn i = none
    ∧ (delete_reflected_function w i).m_reflected_functions.length = w.m_reflected_functions.length
    ∧ (∀ j, j ≠ i → (delete_reflected_function w i).fn j = w.fn j)
    ∧ (delete_reflected_function w i).m_reflected_classes = w.m_reflected_classes
    ∧ (w.fn i = none → delete_reflected_function w i = w)
    ∧ delete_reflected_function (delete_reflected_function w i) i = delete_reflected_function w i := by
  refine ⟨delete_table w i, ?_, delete_length w i, ?_, delete_classes w i, delete_of_none, ?_⟩
  · rw [delete_fn, if_pos rfl]
  · intro j hj
    rw [delete_fn, if_neg (fun h => hj h.symm)]
  · apply delete_of_none
    rw [delete_fn, if_pos rfl]

theorem delete_reflected_function_only_nulls_slot_witness :
    0 < Example.with_bar.m_reflected_functions.length
    ∧ (delete_reflected_function Example.with_bar 0).fn 0 = none
    ∧ (delete_reflected_function Example.with_bar 0).m_reflected_classes
        = Example.with_bar.m_reflected_classes :=
  ⟨by decide,
    (delete_reflected_function_only_nulls_slot Example.with_bar 0 (by decide)).2.1,
    (delete_reflected_function_only_nulls_slot Example.with_bar 0 (by decide)).2.2.2.2.1⟩

/-- C5: `store_reflected_function(f, class, hint)` with `hint <= table length`
returns an index `k` with `table[k] = f` afterwards and every other slot as
before, where `k` is `hint` when `hint >= 0`; otherwise the smallest index
holding a null slot (the table keeps its length); otherwise, when no slot is
null, the old table length, and the table grows by exactly one. -/
theorem store_reflected_function_index (w : World) (f : ReflectedFunction) (cls : Option ASymbol)
    (hint : Int) (h : hint ≤ w.m_reflected_functions.length) :
    (store_reflected_function w f cls hint).1.fn (store_reflected_function w f cls hint).2 = some f
    ∧ (∀ j, j ≠ (store_reflected_function w f cls hint).2 →
        (store_reflected_function w f cls hint).1.fn j = w.fn j)
    ∧ (0 ≤ hint → ((store_reflected_function w f cls hint).2 : Int) = hint)
    ∧ (hint < 0 → ∀ i, i < w.m_reflected_functions.length → w.fn i = none →
        (store_reflected_function w f cls hint).2 ≤ i
        ∧ w.fn (store_reflected_function w f cls hint).2 = none
        ∧ (∀ j, j < (store_reflected_function w f cls hint).2 → (w.fn j).isSome = true)
        ∧ (store_reflected_function w f cls hint).1.m_reflected_functions.length
            = w.m_reflected_functions.length)
    ∧ (hint < 0 → (∀ i, i < w.m_reflected_functions.length → (w.fn i).isSome = true) →
        (store_reflected_function w f cls hint).2 = w.m_reflected_functions.length
        ∧ (store_reflected_function w f cls hint).1.m_reflected_functions.length
            = w.m_reflected_functions.length + 1) := by
  have hle := store_index_le w hint h
  rw [store_snd]
  refine ⟨?_, ?_, ?_, ?_, ?_⟩
  · rw [store_fn w f cls hint hle, if_pos rfl]
  · intro j hj
    rw [store_fn w f cls hint hle, if_neg hj]
  · exact store_index_nonneg
  · intro hneg i hi hnone
    obtain ⟨h1, h2, h3, h4⟩ := store_index_free hneg hnone hi
    refine ⟨h1, h3, h4, ?_⟩
    rw [store_length, if_neg (Nat.ne_of_lt h2)]
  · intro hneg hall
    have hlen := store_index_full hneg hall
    refine ⟨hlen, ?_⟩
    rw [store_length, if_pos hlen]

theorem store_reflected_function_index_witness :
    ((-1 : Int) ≤ Example.with_gap.m_reflected_functions.length)
    ∧ (store_reflected_function Example.with_gap Example.bar_entry (some 11) (-1)).1.fn
        (store_reflected_function Example.with_gap Example.bar_entry (some 11) (-1)).2
        = some Example.bar_entry :=
  ⟨by decide,
    (store_reflected_function_index Example.with_gap Example.bar_entry (some 11) (-1) (by decide)).1⟩

/-- C8: after `clear` the table has length 0, every class record's function list
is empty, the class records are otherwise the same (name, instance-slot flag,
native class, in the same order), and the calls made into the host are exactly
one destruction for each previously occupied slot that had a native function
attached, followed by the removal callbacks. -/
theorem clear_empties_registry (WITH_EDITOR : Bool) (w : World) (callback : Bool) :
    (clear WITH_EDITOR w callback).m_reflected_functions.length = 0
    ∧ (∀ c ∈ (clear WITH_EDITOR w callback).m_reflected_classes, c.m_functions = [])
    ∧ (clear WITH_EDITOR w callback).m_reflected_classes.map
          (fun c => (c.name, c.m_store_sk_instance, c.m_ue_static_class_p))
        = w.m_reflected_classes.map (fun c => (c.name, c.m_store_sk_instance, c.m_ue_static_class_p))
    ∧ (clear WITH_EDITOR w callback).host_log
        = w.host_log
          ++ w.m_reflected_functions.filterMap
              (fun slot => (slot.bind (fun f => f.m_ue_function_p)).map HostOp.destroy_ue_function)
          ++ w.m_reflected_classes.filterMap (clear_callback WITH_EDITOR callback)
    ∧ (∀ i f u, w.fn i = some f → f.m_ue_function_p = some u →
        HostOp.destroy_ue_function u ∈ (clear WITH_EDITOR w callback).host_log) := by
  have h := foldl_delete_range w w.m_reflected_functions.length (Nat.le_refl _)
  have hlog : (clear WITH_EDITOR w callback).host_log
        = w.host_log
          ++ w.m_reflected_functions.filterMap
              (fun slot => (slot.bind (fun f => f.m_ue_function_p)).map HostOp.destroy_ue_function)
          ++ w.m_reflected_classes.filterMap (clear_callback WITH_EDITOR callback) := by
    unfold clear
    simp only [h.2.1, h.2.2, List.take_length]
  refine ⟨by simp [clear], ?_, ?_, hlog, ?_⟩
  · intro c hc
    unfold clear at hc
    simp only [List.mem_map] at hc
    obtain ⟨d, _, rfl⟩ := hc
    rfl
  · unfold clear
    simp only [h.2.1, List.map_map]
    rfl
  · intro i f u hf hu
    rw [hlog]
    apply List.mem_append_left
    apply List.mem_append_right
    rw [List.mem_filterMap]
    refine ⟨some f, ?_, by simp [hu]⟩
    have hlt := fn_lt_length hf
    unfold World.fn at hf
    rw [List.getD_eq_getElem?_getD, List.getElem?_eq_getElem hlt] at hf
    simp only [Option.getD_some] at hf
    rw [← hf]
    exact List.getElem_mem hlt

/-- C6: `store_reflected_function(f, class, hint)`, called with the record of the
class owning `f`'s routine (or with none when there is no such record, as the
function asserts), returns an index `k` such that the routine of `f` carries `k`
as its user data, the record of the owning class has the old function list with
`k` appended as last element (the list is just `k` for a new record), a record
named after the owning class is added to the collection exactly when none was
passed in, and the records of all other names are unchanged. -/
theorem store_reflected_function_hooks_class (w : World) (f : ReflectedFunction)
    (cls : Option ASymbol) (hint : Int)
    (hsome : ∀ n, cls = some n → n = f.owner ∧ (w.get_class n).isSome = true)
    (hnone : cls = none → w.get_class f.owner = none) :
    (store_reflected_function w f cls hint).1.get_user_data f.m_sk_invokable_p.ptr
        = some (store_reflected_function w f cls hint).2
    ∧ (∃ R, (store_reflected_function w f cls hint).1.get_class f.owner = some R
        ∧ R.m_functions
            = (match w.get_class f.owner with
                | some old => old.m_functions
                | none => []) ++ [(store_reflected_function w f cls hint).2])
    ∧ (cls = none →
        (store_reflected_function w f cls hint).1.m_reflected_classes.Perm
          ({ ReflectedClass.new f.owner with m_functions := [(store_reflected_function w f cls hint).2] }
            :: w.m_reflected_classes))
    ∧ (cls.isSome = true →
        (store_reflected_function w f cls hint).1.m_reflected_classes.map (fun c => c.name)
          = w.m_reflected_classes.map (fun c => c.name))
    ∧ (∀ m, m ≠ f.owner →
        (store_reflected_function w f cls hint).1.get_class m = w.get_class m) := by
  rw [store_snd]
  cases cls with
  | none =>
    have h0 := hnone rfl
    refine ⟨?_, ?_, ?_, ?_, ?_⟩
    · unfold World.get_user_data
      rw [store_user_data]
      simp
    · rw [store_get_class_none _ _ _ _ h0, if_pos rfl, h0]
      exact ⟨_, rfl, rfl⟩
    · intro _
      exact store_classes_none_perm w f hint
    · intro hc; cases hc
    · intro m hm
      rw [store_get_class_none _ _ _ _ h0, if_neg hm]
  | some n =>
    obtain ⟨hn, hex⟩ := hsome n rfl
    subst hn
    refine ⟨?_, ?_, ?_, ?_, ?_⟩
    · unfold World.get_user_data
      rw [store_user_data]
      simp
    · rw [store_get_class_some, if_pos rfl]
      cases hR : w.get_class f.owner with
      | none => rw [hR] at hex; cases hex
      | some R => exact ⟨_, rfl, rfl⟩
    · intro hc; cases hc
    · intro _
      exact store_names_some w f _ hint
    · intro m hm
      rw [store_get_class_some, if_neg hm]

theorem store_reflected_function_hooks_class_witness :
    (store_reflected_function Example.empty Example.bar_entry none (-1)).1.get_user_data 1000
      = some 0 :=
  (store_reflected_function_hooks_class Example.empty Example.bar_entry none (-1)
    (by intro n h; cases h) (by intro _; rfl)).1

/-- C4 fails as stated: in a registry with a null slot 0 and `Foo.bar` at index 1,
deleting index 1 and storing a new function without index hint places it at
index 0, not at index 1. -/
theorem store_after_delete_not_same_slot :
    (Example.with_gap.fn 1).isSome = true
    ∧ (store_reflected_function (delete_reflected_function Example.with_gap 1)
        (ReflectedFunction.new eReflectedFunctionType.ReflectedFunctionType_Call
          (Example.foo_baz.invokable Example.baz)) (some 11) (-1)).2 ≠ 1 := by
  decide

/-- C4, amended: for an occupied index `i`, after `delete_reflected_function(i)` a
store without index hint places the function at the smallest index holding a
null slot, which is at most `i`, and is `i` itself when every slot below `i` is
occupied; the table does not grow. -/
theorem store_after_delete_reuses_slot (w : World) (i : Nat) (f : ReflectedFunction)
    (cls : Option ASymbol) (hint : Int) (hocc : (w.fn i).isSome = true) (hneg : hint < 0) :
    (store_reflected_function (delete_reflected_function w i) f cls hint).2 ≤ i
    ∧ (∀ j, j < (store_reflected_function (delete_reflected_function w i) f cls hint).2 →
        (w.fn j).isSome = true)
    ∧ ((∀ j, j < i → (w.fn j).isSome = true) →
        (store_reflected_function (delete_reflected_function w i) f cls hint).2 = i)
    ∧ (store_reflected_function (delete_reflected_function w i) f cls hint).1.fn
        (store_reflected_function (delete_reflected_function w i) f cls hint).2 = some f
    ∧ (store_reflected_function (delete_reflected_function w i) f cls hint).1.m_reflected_functions.length
        = w.m_reflected_functions.length := by
  obtain ⟨g, hg⟩ := Option.isSome_iff_exists.1 hocc
  have hi : i < (delete_reflected_function w i).m_reflected_functions.length := by
    rw [delete_length]; exact fn_lt_length hg
  have hnone : (delete_reflected_function w i).fn i = none := by rw [delete_fn, if_pos rfl]
  obtain ⟨h1, h2, h3, h4⟩ := store_index_free hneg hnone hi
  rw [store_snd]
  refine ⟨h1, ?_, ?_, ?_, ?_⟩
  · intro j hj
    have := h4 j hj
    rw [delete_fn] at this
    split at this
    · cases this
    · exact this
  · intro hall
    rcases Nat.lt_or_ge (store_index (delete_reflected_function w i) hint) i with hlt | hge
    · have := hall _ hlt
      rw [delete_fn, if_neg (Nat.ne_of_gt hlt)] at h3
      rw [h3] at this
      cases this
    · exact Nat.le_antisymm h1 hge
  · rw [store_fn _ _ _ _ (Nat.le_of_lt h2), if_pos rfl]
  · rw [store_length, if_neg (Nat.ne_of_lt h2), delete_length]

theorem store_after_delete_reuses_slot_witness :
    (store_reflected_function (delete_reflected_function Example.with_gap 1)
        (ReflectedFunction.new eReflectedFunctionType.ReflectedFunctionType_Call
          (Example.foo_baz.invokable Example.baz)) (some 11) (-1)).2 ≤ 1 :=
  (store_after_delete_reuses_slot Example.with_gap 1 _ (some 11) (-1) (by decide) (by decide)).1

/-! ## The claims on add / update -/

/-- C2: let the record of the routine's class list index `i`, let the entry at `i`
carry the routine's name and class-member flag (and no other entry of that class
does), and let its parameter names and types and its result type be those of the
routine object now added.  Then `add_reflected_call` and `add_reflected_event`
both return false; the entry stays at index `i` with the same name, kind and
native-function reference, both deletion flags cleared and the new routine object
as its back-reference; all other slots, the length of the table and the class
records are unchanged. -/
theorem add_same_signature_updates_in_place (w : World) (inv : SkInvokableBase)
    (R : ReflectedClass) (i : Nat) (e : ReflectedFunction)
    (hR : w.get_class inv.scope.name = some R) (hi : i ∈ R.m_functions)
    (he : w.fn i = some e) (hname : e.name = inv.name)
    (hmember : e.m_is_class_member = inv.is_class_member)
    (hother : ∀ j ∈ R.m_functions, j ≠ i → is_slot_of w inv j = false)
    (hparams : e.params.map (fun t => (t.typed.name, t.typed.m_sk_class_name))
      = inv.param_list.map (fun p => (p.name, p.expected_type.name)))
    (hresult : e.m_result_type.m_sk_class_name = inv.result_class.name)
    (res : World × Bool) (hres : res = add_reflected_call w inv ∨ res = add_reflected_event w inv) :
    res.2 = false
    ∧ (∃ e', res.1.fn i = some e' ∧ e'.name = e.name ∧ e'.m_type = e.m_type
        ∧ e'.m_ue_function_p = e.m_ue_function_p
        ∧ e'.m_marked_for_delete_class = false ∧ e'.m_marked_for_delete_all = false
        ∧ e'.m_sk_invokable_p = inv)
    ∧ (∀ j, j ≠ i → res.1.fn j = w.fn j)
    ∧ res.1.m_reflected_functions.length = w.m_reflected_functions.length
    ∧ res.1.m_reflected_classes = w.m_reflected_classes := by
  have hfind : R.m_functions.find? (is_slot_of w inv) = some i :=
    find_unique hi (is_slot_of_iff.2 ⟨e, he, hname, hmember⟩) hother
  have hsig : signature_matches e inv = true := (signature_matches_iff e inv).2 ⟨hparams, hresult⟩
  have hspec : ∃ type, AddSpec type w inv res := by
    rcases hres with h | h
    · exact ⟨_, h ▸ add_reflected_call_spec w inv⟩
    · exact ⟨_, h ▸ add_reflected_event_spec w inv⟩
  obtain ⟨type, hspec⟩ := hspec
  obtain ⟨h1, h2, h3, _⟩ := add_spec_same_signature hspec hR hfind he hsig
  have hlt := fn_lt_length he
  have hu := update_fields e inv
  refine ⟨h1, ⟨e.update inv, ?_, hu.1, hu.2.2.1, hu.2.2.2.1, hu.2.2.2.2.2.1, hu.2.2.2.2.2.2,
    hu.2.2.2.2.1⟩, ?_, ?_, h3⟩
  · rw [fn_of_table_set h2 hlt, if_pos rfl]
  · intro j hj
    rw [fn_of_table_set h2 hlt, if_neg hj]
  · rw [h2]; simp

theorem add_same_signature_updates_in_place_witness :
    (add_reflected_call Example.with_bar (Example.foo_bar.invokable Example.bar_recompiled)).2 = false
    ∧ (∃ e', (add_reflected_call Example.with_bar
          (Example.foo_bar.invokable Example.bar_recompiled)).1.fn 0 = some e'
        ∧ e'.name = Example.bar_entry.name ∧ e'.m_type = Example.bar_entry.m_type
        ∧ e'.m_ue_function_p = some 77
        ∧ e'.m_marked_for_delete_class = false ∧ e'.m_marked_for_delete_all = false
        ∧ e'.m_sk_invokable_p = Example.foo_bar.invokable Example.bar_recompiled) :=
  ⟨(add_same_signature_updates_in_place Example.with_bar
      (Example.foo_bar.invokable Example.bar_recompiled)
      { name := 11, m_ue_static_class_p := some 500, m_functions := [0], m_store_sk_instance := false }
      0 Example.bar_entry (by decide) (by decide) (by decide) (by decide) (by decide) (by decide)
      (by decide) (by decide) _ (Or.inl rfl)).1,
   (add_same_signature_updates_in_place Example.with_bar
      (Example.foo_bar.invokable Example.bar_recompiled)
      { name := 11, m_ue_static_class_p := some 500, m_functions := [0], m_store_sk_instance := false }
      0 Example.bar_entry (by decide) (by decide) (by decide) (by decide) (by decide) (by decide)
      (by decide) (by decide) _ (Or.inl rfl)).2.1⟩

/-- C3: let the record of the routine's class list index `i` exactly once, let the
entry at `i` carry the routine's name and class-member flag (and no other entry
of that class does), and let the routine now added have a different parameter
count or a different type for some parameter.  Then `add_reflected_call`
(`add_reflected_event`) returns true, the old entry is deleted (its native
function, if any, is destroyed), slot `i` holds the freshly constructed Call
(Event) entry of the routine, whose native-function reference is absent, the
other slots and the table length are unchanged, and the function list of the
class's record contains `i` exactly once. -/
theorem add_other_signature_recreates_entry (w : World) (inv : SkInvokableBase)
    (R : ReflectedClass) (i : Nat) (e : ReflectedFunction)
    (hR : w.get_class inv.scope.name = some R) (hi : R.m_functions.count i = 1)
    (he : w.fn i = some e) (hname : e.name = inv.name)
    (hmember : e.m_is_class_member = inv.is_class_member)
    (hother : ∀ j ∈ R.m_functions, j ≠ i → is_slot_of w inv j = false)
    (hdiff : e.m_num_params ≠ inv.param_list.length
      ∨ ∃ (k : Nat) (p : SkParameterBase) (t : ReflectedParam),
          inv.param_list[k]? = some p ∧ e.params[k]? = some t
          ∧ t.typed.m_sk_class_name ≠ p.expected_type.name)
    (type : eReflectedFunctionType) (res : World × Bool)
    (hres : (type = eReflectedFunctionType.ReflectedFunctionType_Call ∧ res = add_reflected_call w inv)
      ∨ (type = eReflectedFunctionType.ReflectedFunctionType_Event ∧ res = add_reflected_event w inv)) :
    res.2 = true
    ∧ res.1.fn i = some (ReflectedFunction.new type inv)
    ∧ (ReflectedFunction.new type inv).m_ue_function_p = none
    ∧ (ReflectedFunction.new type inv).m_sk_invokable_p = inv
    ∧ res.1.host_log = w.host_log ++ destroy_ops e
    ∧ (∀ j, j ≠ i → res.1.fn j = w.fn j)
    ∧ res.1.m_reflected_functions.length = w.m_reflected_functions.length
    ∧ (∃ R', res.1.get_class inv.scope.name = some R' ∧ R'.m_functions.count i = 1) := by
  have hmem : i ∈ R.m_functions := List.count_pos_iff.1 (by omega)
  have hfind : R.m_functions.find? (is_slot_of w inv) = some i :=
    find_unique hmem (is_slot_of_iff.2 ⟨e, he, hname, hmember⟩) hother
  have hsig : signature_matches e inv = false := by
    rcases hdiff with h | ⟨k, p, t, hp, ht, hne⟩
    · exact signature_mismatch_of_count h
    · exact signature_mismatch_of_param hp ht hne
  have hspec : AddSpec type w inv res := by
    rcases hres with ⟨ht, h⟩ | ⟨ht, h⟩
    · rw [ht, h]; exact add_reflected_call_spec w inv
    · rw [ht, h]; exact add_reflected_event_spec w inv
  obtain ⟨h1, h2, h3, h4⟩ := add_spec_other_signature hspec hR hfind he hsig
  have hlt := fn_lt_length he
  refine ⟨h1, ?_, rfl, rfl, h4, ?_, ?_, ?_⟩
  · rw [fn_of_table_set h2 hlt, if_pos rfl]
  · intro j hj
    rw [fn_of_table_set h2 hlt, if_neg hj]
  · rw [h2]; simp
  · refine ⟨{ R with m_functions := R.m_functions.erase i ++ [i] }, ?_, ?_⟩
    · unfold World.get_class at hR ⊢
      rw [h3, find_modify_class (f := fun c => { c with m_functions := c.m_functions.erase i ++ [i] })
        (fun _ => rfl), if_pos rfl, hR]
      rfl
    · simp only [List.count_append, List.count_erase_self, hi]
      simp

theorem add_other_signature_recreates_entry_witness :
    (add_reflected_call Example.with_bar (Example.foo_bar.invokable Example.bar_real)).2 = true
    ∧ (add_reflected_call Example.with_bar (Example.foo_bar.invokable Example.bar_real)).1.fn 0
        = some (ReflectedFunction.new eReflectedFunctionType.ReflectedFunctionType_Call
            (Example.foo_bar.invokable Example.bar_real)) :=
  ⟨(add_other_signature_recreates_entry Example.with_bar
      (Example.foo_bar.invokable Example.bar_real)
      { name := 11, m_ue_static_class_p := some 500, m_functions := [0], m_store_sk_instance := false }
      0 Example.bar_entry (by decide) (by decide) (by decide) (by decide) (by decide) (by decide)
      (Or.inr ⟨0, ⟨9, Example.sk_real⟩, _, rfl, rfl, by decide⟩) _ _ (Or.inl ⟨rfl, rfl⟩)).1,
   (add_other_signature_recreates_entry Example.with_bar
      (Example.foo_bar.invokable Example.bar_real)
      { name := 11, m_ue_static_class_p := some 500, m_functions := [0], m_store_sk_instance := false }
      0 Example.bar_entry (by decide) (by decide) (by decide) (by decide) (by decide) (by decide)
      (Or.inr ⟨0, ⟨9, Example.sk_real⟩, _, rfl, rfl, by decide⟩) _ _ (Or.inl ⟨rfl, rfl⟩)).2.1⟩

/-! ## The claims on the sync engine -/

/-- C1: for every registry state the manager can be in (a well-formed one, the
invariant all its operations keep) and every scripted class tree with distinct
class names in which (routine name, class-member flag) is unique within each
class, running `sync_all_from_sk` twice in succession on the
same class tree makes the second run return false, and after the second run the
reflected-function table and the class records (so every function-index list)
are exactly what the first run left. -/
theorem sync_all_from_sk_idempotent (WITH_EDITOR callback : Bool) (w : World)
    (superclass : SkClass) (root : SkClassTree) (hwf : w.WF) (htree : root.WF superclass) :
    (sync_all_from_sk WITH_EDITOR
        (sync_all_from_sk WITH_EDITOR w superclass root callback).1 superclass root callback).2
      = false
    ∧ (sync_all_from_sk WITH_EDITOR
        (sync_all_from_sk WITH_EDITOR w superclass root callback).1 superclass root
        callback).1.m_reflected_functions
      = (sync_all_from_sk WITH_EDITOR w superclass root callback).1.m_reflected_functions
    ∧ (sync_all_from_sk WITH_EDITOR
        (sync_all_from_sk WITH_EDITOR w superclass root callback).1 superclass root
        callback).1.m_reflected_classes
      = (sync_all_from_sk WITH_EDITOR w superclass root callback).1.m_reflected_classes := by
  -- the first run leaves a registry that agrees with the class tree
  have hfirst : Synced (sync_all_from_sk WITH_EDITOR w superclass root callback).1
      (root.visits superclass) :=
    sync_all_synced WITH_EDITOR callback hwf superclass root htree
  -- on such a registry a run finds every entry and deletes nothing
  obtain ⟨hfalse, htable, hclasses⟩ := sync_all_noop WITH_EDITOR callback hfirst
  exact ⟨hfalse, htable, hclasses⟩

theorem sync_all_from_sk_idempotent_witness :
    Example.with_bar.WF ∧ Example.tree_baz.WF Example.object
    ∧ (sync_all_from_sk true
        (sync_all_from_sk true Example.with_bar Example.object Example.tree_baz true).1
        Example.object Example.tree_baz true).2 = false
    ∧ (sync_all_from_sk true
        (sync_all_from_sk true Example.with_bar Example.object Example.tree_baz true).1
        Example.object Example.tree_baz true).1.m_reflected_functions
      = (sync_all_from_sk true Example.with_bar Example.object Example.tree_baz
          true).1.m_reflected_functions
    ∧ (sync_all_from_sk true
        (sync_all_from_sk true Example.with_bar Example.object Example.tree_baz true).1
        Example.object Example.tree_baz true).1.m_reflected_classes
      = (sync_all_from_sk true Example.with_bar Example.object Example.tree_baz
          true).1.m_reflected_classes :=
  ⟨Example.with_bar_wf, Example.tree_baz_wf,
    sync_all_from_sk_idempotent true true Example.with_bar Example.object Example.tree_baz
      Example.with_bar_wf Example.tree_baz_wf⟩

/-- C9 as stated fails where the callback block is compiled out.  `Foo` holds the
entry of `bar`, its native class is resolved and the tree is `Entity` alone; in a
build without `WITH_EDITOR` the run, given a callback, deletes the entry and
makes no callback. -/
theorem sync_all_without_editor_makes_no_callback :
    Example.with_bar.get_class 11 = some ⟨11, some 500, [0], false⟩
    ∧ 11 ∉ Example.tree_entity.names Example.object
    ∧ (sync_all_from_sk false Example.with_bar Example.object Example.tree_entity true).1.fn 0
        = none
    ∧ (sync_all_from_sk false Example.with_bar Example.object Example.tree_entity
        true).1.host_log.countP (is_removed_for 11) = 0 := by
  decide

/-- C9, amended: on a well-formed registry, if the record of a class lists
registered functions, has its native class resolved, and the class is not
reachable in the scripted class tree, then `sync_all_from_sk` deletes every one
of that class's functions (their slots become null and the class's function list
becomes empty) and returns true; it makes the function-removed callback for that
class exactly once when it is built with `WITH_EDITOR` and a callback is passed,
and not at all otherwise. -/
theorem sync_all_sweeps_removed_class (WITH_EDITOR callback : Bool) (w : World) (superclass : SkClass) (root : SkClassTree)
    (x : ASymbol) (R : ReflectedClass) (ue_class : Nat) (hwf : w.WF)
    (htree : root.WF superclass) (hx : x ∉ root.names superclass)
    (hR : w.get_class x = some R) (hfns : R.m_functions ≠ [])
    (hue : R.m_ue_static_class_p = some ue_class) :
    (∀ j ∈ R.m_functions, (sync_all_from_sk WITH_EDITOR w superclass root callback).1.fn j = none)
    ∧ (∃ R', (sync_all_from_sk WITH_EDITOR w superclass root callback).1.get_class x = some R'
        ∧ R'.m_functions = [])
    ∧ (∃ calls, (sync_all_from_sk WITH_EDITOR w superclass root callback).1.host_log = w.host_log ++ calls
        ∧ calls.countP (is_removed_for x) = if WITH_EDITOR && callback then 1 else 0)
    ∧ (sync_all_from_sk WITH_EDITOR w superclass root callback).2 = true := by
  obtain ⟨w2, b2, _, _, _, hframe, f1, _, f3, _, f5, extra2, hlog2, hcount⟩ :=
    sync_all_analysis WITH_EDITOR callback hwf superclass root htree
  obtain ⟨hR2, hstale, extra1, hlog1, hzero⟩ :=
    unreachable_record_marked hwf superclass root hframe hx hR
  refine ⟨?_, ?_, ?_, ?_⟩
  · intro j hj
    rw [f1 j, if_pos (hstale j hj)]
  · obtain ⟨R', hR', _, _, _, hperm⟩ := f3 x R hR2
    refine ⟨R', hR', ?_⟩
    have hnil : R.m_functions.filter
        (fun j => !is_stale (fun f => f.m_marked_for_delete_all) w2 j) = [] := by
      rw [List.filter_eq_nil_iff]
      intro j hj
      rw [hstale j hj]
      decide
    rw [hnil] at hperm
    exact List.Perm.eq_nil hperm
  · refine ⟨extra1 ++ extra2, ?_, ?_⟩
    · rw [hlog2, hlog1, List.append_assoc]
    · rw [List.countP_append, hzero, hcount x R hR2]
      have hany : R.m_functions.any (is_stale (fun f => f.m_marked_for_delete_all) w2)
          = true := by
        rw [List.any_eq_true]
        cases hl : R.m_functions with
        | nil => exact absurd hl hfns
        | cons j rest =>
          exact ⟨j, List.mem_cons_self _ _, hstale j (by rw [hl]; exact List.mem_cons_self _ _)⟩
      have hn : notifies WITH_EDITOR callback (is_stale (fun f => f.m_marked_for_delete_all) w2) R
          = (WITH_EDITOR && callback) := by
        unfold notifies
        rw [hue, hany]
        simp
      rw [hn, Nat.zero_add]
  · rw [f5]
    right
    cases hl : R.m_functions with
    | nil => exact absurd hl hfns
    | cons j rest =>
      have hj : j ∈ R.m_functions := by rw [hl]; exact List.mem_cons_self _ _
      have := hstale j hj
      unfold is_stale at this
      cases hf : w2.fn j with
      | none => rw [hf] at this; cases this
      | some f =>
        rw [hf] at this
        exact ⟨j, f, hf, this⟩

theorem sync_all_sweeps_removed_class_witness :
    (∀ j ∈ [0], (sync_all_from_sk true Example.with_bar Example.object Example.tree_entity
        true).1.fn j = none)
    ∧ (∃ R', (sync_all_from_sk true Example.with_bar Example.object Example.tree_entity
          true).1.get_class 11 = some R' ∧ R'.m_functions = [])
    ∧ (∃ calls, (sync_all_from_sk true Example.with_bar Example.object Example.tree_entity
          true).1.host_log = Example.with_bar.host_log ++ calls
        ∧ calls.countP (is_removed_for 11) = 1)
    ∧ (sync_all_from_sk true Example.with_bar Example.object Example.tree_entity true).2 = true :=
  sync_all_sweeps_removed_class true true Example.with_bar Example.object Example.tree_entity 11
    ⟨11, some 500, [0], false⟩ 500 Example.with_bar_wf Example.tree_entity_wf (by decide)
    (by decide) (by decide) rfl

/-- C10: let the record of class `Foo` list one index `i`, whose entry is named
`bar`, and let `Foo` in the class tree have one routine, `baz`, of another name,
annotated for exposure (the signature may be that of `bar`).  Then one
`sync_all_from_sk` returns true; it creates a new entry for `baz`, not yet
exposed, at an index `k` other than `i`; `Foo`'s function list ends as `[k]`; and
no other slot holds an entry of `Foo`, so the entry of `bar` is deleted. -/
theorem sync_all_renamed_routine (WITH_EDITOR callback : Bool) (w : World)
    (superclass : SkClass) (root : SkClassTree) (foo foo_superclass : SkClass) (baz : SkRoutine)
    (type : eReflectedFunctionType) (R : ReflectedClass) (i : Nat) (e : ReflectedFunction)
    (hwf : w.WF) (htree : root.WF superclass)
    (hv : (foo, foo_superclass) ∈ root.visits superclass) (hroutines : foo.routines = [baz])
    (hexp : exposed_as (foo.invokable baz) = some type)
    (hR : w.get_class foo.name = some R) (hlist : R.m_functions = [i])
    (he : w.fn i = some e) (hname : e.name ≠ baz.name) :
    (sync_all_from_sk WITH_EDITOR w superclass root callback).2 = true
    ∧ ∃ k R', k ≠ i
      ∧ (sync_all_from_sk WITH_EDITOR w superclass root callback).1.get_class foo.name = some R'
      ∧ R'.m_functions = [k]
      ∧ (sync_all_from_sk WITH_EDITOR w superclass root callback).1.fn k
          = some (ReflectedFunction.new type (foo.invokable baz))
      ∧ ∀ j f, (sync_all_from_sk WITH_EDITOR w superclass root callback).1.fn j = some f →
          f.owner = foo.name → j = k := by
  obtain ⟨pre, post, hsplit⟩ := List.append_of_mem hv
  have hnd := htree.names_nodup
  have huniq := htree.unique_routines
  unfold SkClassTree.names at hnd
  rw [hsplit] at huniq
  rw [hsplit, List.map_append, List.map_cons, List.nodup_append] at hnd
  obtain ⟨hndpre, hndrest, hdisj⟩ := hnd
  rw [List.nodup_cons] at hndrest
  obtain ⟨hfoo_post, hndpost⟩ := hndrest
  have hfoo_pre : foo.name ∉ pre.map (fun v => v.1.name) := by
    intro hmem
    exact hdisj hmem (List.mem_cons_self _ _)
  -- the walk up to `Foo`
  obtain ⟨m1, _, _, m4⟩ := mark_all_spec w
  obtain ⟨hwa, _, hfa⟩ := sync_visits_spec WITH_EDITOR callback pre (mark_all_for_delete w) false
    (mark_all_wf hwf) hndpre (fun v hv' => huniq v (List.mem_append_left _ hv'))
  generalize hpre : sync_visits WITH_EDITOR callback (mark_all_for_delete w) false pre = ra
    at hwa hfa
  have hRa : ra.1.get_class foo.name = some R := by
    rw [hfa.records foo.name hfoo_pre, get_class_congr m1]
    exact hR
  have hown : e.owner = foo.name := by
    obtain ⟨f, hf, ho⟩ := hwf.listed hR (by rw [hlist]; exact List.mem_singleton.2 rfl)
    rw [he] at hf
    rw [Option.some.inj hf]
    exact ho
  have hea : ra.1.fn i = some { e with m_marked_for_delete_all := true } := by
    apply hfa.kept
    · rw [m4 i, he]; rfl
    · show e.owner ∉ _
      rw [hown]; exact hfoo_pre
  -- the visit of `Foo`
  have hufoo : foo.UniqueRoutines := huniq _ (List.mem_append_right _ (List.mem_cons_self _ _))
  obtain ⟨hbool, k, Rb, hki, hRb, hlistb, hfnb⟩ :=
    sync_class_rename WITH_EDITOR callback hwa foo foo_superclass hufoo hroutines hexp hRa hlist
      hea hname
  obtain ⟨hwb, _, _⟩ := sync_class_spec WITH_EDITOR callback hwa foo foo_superclass hufoo
  generalize hfoo : sync_class_from_sk WITH_EDITOR ra.1 foo foo_superclass callback = rb
    at hbool hRb hfnb hwb
  -- the rest of the walk
  obtain ⟨_, _, hfp⟩ := sync_visits_spec WITH_EDITOR callback post rb.1 false hwb hndpost
    (fun v hv' => huniq v (List.mem_append_right _ (List.mem_cons_of_mem _ hv')))
  have hwalk : sync_visits WITH_EDITOR callback (mark_all_for_delete w) false
      (root.visits superclass)
      = ((sync_visits WITH_EDITOR callback rb.1 false post).1, true) := by
    rw [hsplit, sync_visits_append, hpre]
    show sync_visits WITH_EDITOR callback
      (sync_class_from_sk WITH_EDITOR ra.1 foo foo_superclass callback).1
      (ra.2 || (sync_class_from_sk WITH_EDITOR ra.1 foo foo_superclass callback).2) post = _
    rw [hfoo, hbool, Bool.or_true, sync_visits_bool]
    rfl
  generalize sync_visits WITH_EDITOR callback rb.1 false post = rc at hfp hwalk
  have hRc : rc.1.get_class foo.name = some Rb := by
    rw [hfp.records foo.name hfoo_post]
    exact hRb
  have hfnc : rc.1.fn k = some (ReflectedFunction.new type (foo.invokable baz)) :=
    hfp.kept k _ hfnb hfoo_post
  -- the last loop
  obtain ⟨w2, b2, hw2, _, _, _, f1, _, f3, _, f5, _⟩ :=
    sync_all_analysis WITH_EDITOR callback hwf superclass root htree
  rw [hwalk] at hw2
  have h1 : rc.1 = w2 := congrArg Prod.fst hw2
  have h2 : true = b2 := congrArg Prod.snd hw2
  rw [h1] at hRc hfnc
  have hsk : is_stale (fun f => f.m_marked_for_delete_all) w2 k = false := by
    rw [is_stale_of_fn hfnc]
    rfl
  obtain ⟨R', hR', _, _, _, hperm⟩ := f3 foo.name Rb hRc
  have hlist' : R'.m_functions = [k] := by
    rw [hlistb] at hperm
    have hf : [k].filter (fun j => !is_stale (fun f => f.m_marked_for_delete_all) w2 j) = [k] := by
      simp [List.filter, hsk]
    rw [hf] at hperm
    exact List.perm_singleton.1 hperm
  have hsynced := sync_all_synced WITH_EDITOR callback hwf superclass root htree
  refine ⟨f5.2 (Or.inl h2.symm), k, R', hki, hR', hlist', ?_, ?_⟩
  · rw [f1 k, hsk]
    exact hfnc
  · intro j f hf ho
    obtain ⟨R'', hR'', hj⟩ := hsynced.wf.record_of hf
    rw [ho, hR'] at hR''
    rw [← Option.some.inj hR'', hlist'] at hj
    exact List.mem_singleton.1 hj

theorem sync_all_renamed_routine_witness :
    (sync_all_from_sk true Example.with_bar Example.object Example.tree_baz true).2 = true
    ∧ ∃ k R', k ≠ 0
      ∧ (sync_all_from_sk true Example.with_bar Example.object Example.tree_baz true).1.get_class
          Example.foo_baz.name = some R'
      ∧ R'.m_functions = [k]
      ∧ (sync_all_from_sk true Example.with_bar Example.object Example.tree_baz true).1.fn k
          = some (ReflectedFunction.new eReflectedFunctionType.ReflectedFunctionType_Call
              (Example.foo_baz.invokable Example.baz))
      ∧ ∀ j f, (sync_all_from_sk true Example.with_bar Example.object Example.tree_baz
            true).1.fn j = some f → f.owner = Example.foo_baz.name → j = k :=
  sync_all_renamed_routine true true Example.with_bar Example.object Example.tree_baz
    Example.foo_baz Example.entity Example.baz eReflectedFunctionType.ReflectedFunctionType_Call
    ⟨11, some 500, [0], false⟩ 0 Example.bar_entry Example.with_bar_wf Example.tree_baz_wf
    (by decide) rfl (by decide) (by decide) rfl rfl (by decide)

/-! ## The claims on `try_add_reflected_function` and `try_update_reflected_function` -/

/-- C11 fails where the record already lists an entry of the routine's name, member
flag and signature that is of the other variant.  `try_add_reflected_function` sends
a method with no body that carries `ue4_blueprint`, or whose class carries
`reflected_data`, through `add_reflected_event`, and a scripted method or scripted
coroutine that carries `ue4_blueprint` through `add_reflected_call`; unless such an
entry of the other variant is listed, the routine is afterwards registered as an
event (and bound to the event trigger) or as a call.  Every other routine gives
false and leaves the table, the class records, the user data and the atomic bindings
as they are.  But on the registry holding `Foo.bar` as a call, the body-less `bar`
of the same signature is not registered as an event: false is returned, the one
entry of the table stays a call, now of the body-less method, and the method is not
bound; and on the registry holding `Foo.bar` as an event the scripted `bar` stays
an event. -/
theorem try_add_reflected_function_classifies (w : World) (sk_invokable : SkInvokableBase) :
    (sk_invokable.annotation_flags.ue4_blueprint = true → is_bodyless_method sk_invokable →
      try_add_reflected_function w sk_invokable = add_reflected_event w sk_invokable
      ∧ (¬ has_entry_of_other_variant eReflectedFunctionType.ReflectedFunctionType_Event w
            sk_invokable →
          is_registered_as eReflectedFunctionType.ReflectedFunctionType_Event
              (try_add_reflected_function w sk_invokable).1 sk_invokable
            ∧ sk_invokable.ptr ∈ (try_add_reflected_function w sk_invokable).1.bound))
    ∧ (sk_invokable.annotation_flags.ue4_blueprint = true → is_scripted_routine sk_invokable →
      try_add_reflected_function w sk_invokable = add_reflected_call w sk_invokable
      ∧ (¬ has_entry_of_other_variant eReflectedFunctionType.ReflectedFunctionType_Call w
            sk_invokable →
          is_registered_as eReflectedFunctionType.ReflectedFunctionType_Call
              (try_add_reflected_function w sk_invokable).1 sk_invokable))
    ∧ (sk_invokable.annotation_flags.ue4_blueprint = false →
      sk_invokable.scope.annotation_flags.reflected_data = true →
      is_bodyless_method sk_invokable →
      try_add_reflected_function w sk_invokable = add_reflected_event w sk_invokable
      ∧ (¬ has_entry_of_other_variant eReflectedFunctionType.ReflectedFunctionType_Event w
            sk_invokable →
          is_registered_as eReflectedFunctionType.ReflectedFunctionType_Event
              (try_add_reflected_function w sk_invokable).1 sk_invokable
            ∧ sk_invokable.ptr ∈ (try_add_reflected_function w sk_invokable).1.bound))
    ∧ (¬ (sk_invokable.annotation_flags.ue4_blueprint = true
            ∧ (is_bodyless_method sk_invokable ∨ is_scripted_routine sk_invokable)) →
      ¬ (sk_invokable.annotation_flags.ue4_blueprint = false
            ∧ sk_invokable.scope.annotation_flags.reflected_data = true
            ∧ is_bodyless_method sk_invokable) →
      (try_add_reflected_function w sk_invokable).2 = false
      ∧ (try_add_reflected_function w sk_invokable).1.m_reflected_functions
          = w.m_reflected_functions
      ∧ (try_add_reflected_function w sk_invokable).1.m_reflected_classes = w.m_reflected_classes
      ∧ (try_add_reflected_function w sk_invokable).1.user_data = w.user_data
      ∧ (try_add_reflected_function w sk_invokable).1.bound = w.bound)
    ∧ ((Example.foo_atomic.invokable Example.bar_atomic).annotation_flags.ue4_blueprint = true
      ∧ is_bodyless_method (Example.foo_atomic.invokable Example.bar_atomic)
      ∧ has_entry_of_other_variant eReflectedFunctionType.ReflectedFunctionType_Event
          Example.with_bar (Example.foo_atomic.invokable Example.bar_atomic)
      ∧ (try_add_reflected_function Example.with_bar
          (Example.foo_atomic.invokable Example.bar_atomic)).2 = false
      ∧ (try_add_reflected_function Example.with_bar
          (Example.foo_atomic.invokable Example.bar_atomic)).1.m_reflected_functions.map
            (Option.map (fun f => (f.m_sk_invokable_p, f.m_type)))
          = [some (Example.foo_atomic.invokable Example.bar_atomic,
              eReflectedFunctionType.ReflectedFunctionType_Call)]
      ∧ Example.bar_atomic.ptr ∉ (try_add_reflected_function Example.with_bar
          (Example.foo_atomic.invokable Example.bar_atomic)).1.bound)
    ∧ ((Example.foo_bar.invokable Example.bar).annotation_flags.ue4_blueprint = true
      ∧ is_scripted_routine (Example.foo_bar.invokable Example.bar)
      ∧ has_entry_of_other_variant eReflectedFunctionType.ReflectedFunctionType_Call
          Example.with_bar_event (Example.foo_bar.invokable Example.bar)
      ∧ (try_add_reflected_function Example.with_bar_event
          (Example.foo_bar.invokable Example.bar)).2 = false
      ∧ (try_add_reflected_function Example.with_bar_event
          (Example.foo_bar.invokable Example.bar)).1.m_reflected_functions.map
            (Option.map (fun f => (f.m_sk_invokable_p, f.m_type)))
          = [some (Example.foo_bar.invokable Example.bar,
              eReflectedFunctionType.ReflectedFunctionType_Event)]) := by
  refine ⟨?_, ?_, ?_, ?_, ?_, ?_⟩
  · intro hbp hb
    have heq := try_add_event_of_bodyless (w := w) (Or.inl hbp) hb
    refine ⟨heq, fun hno => ?_⟩
    rw [heq]
    exact ⟨registered_as_of_add_spec (add_reflected_event_spec w sk_invokable) hno,
      add_reflected_event_bound w sk_invokable hno⟩
  · intro hbp hs
    have heq := try_add_call_of_scripted (w := w) hbp hs
    refine ⟨heq, fun hno => ?_⟩
    rw [heq]
    exact registered_as_of_add_spec (add_reflected_call_spec w sk_invokable) hno
  · intro _ hrd hb
    have heq := try_add_event_of_bodyless (w := w) (Or.inr hrd) hb
    refine ⟨heq, fun hno => ?_⟩
    rw [heq]
    exact ⟨registered_as_of_add_spec (add_reflected_event_spec w sk_invokable) hno,
      add_reflected_event_bound w sk_invokable hno⟩
  · intro h1 h2
    unfold is_bodyless_method is_scripted_routine at h1
    unfold is_bodyless_method at h2
    unfold try_add_reflected_function
    by_cases hbp : sk_invokable.annotation_flags.ue4_blueprint = true
    · have hnb : ¬ (sk_invokable.invoke_type = eSkInvokable.SkInvokable_method_func
          ∨ sk_invokable.invoke_type = eSkInvokable.SkInvokable_method_mthd) :=
        fun hb => h1 ⟨hbp, Or.inl hb⟩
      have hns : ¬ (sk_invokable.invoke_type = eSkInvokable.SkInvokable_method
          ∨ sk_invokable.invoke_type = eSkInvokable.SkInvokable_coroutine) :=
        fun hs => h1 ⟨hbp, Or.inr hs⟩
      rw [if_pos hbp, if_neg hnb, if_neg hns]
      exact ⟨rfl, rfl, rfl, rfl, rfl⟩
    · rw [if_neg hbp]
      have hbf : sk_invokable.annotation_flags.ue4_blueprint = false := by
        cases hx : sk_invokable.annotation_flags.ue4_blueprint with
        | false => rfl
        | true => exact absurd hx hbp
      by_cases hrd : sk_invokable.scope.annotation_flags.reflected_data = true
      · have hnb : ¬ (sk_invokable.invoke_type = eSkInvokable.SkInvokable_method_func
            ∨ sk_invokable.invoke_type = eSkInvokable.SkInvokable_method_mthd) :=
          fun hb => h2 ⟨hbf, hrd, hb⟩
        rw [if_pos hrd, if_neg hnb]
        exact ⟨rfl, rfl, rfl, rfl, rfl⟩
      · rw [if_neg hrd]
        exact ⟨rfl, rfl, rfl, rfl, rfl⟩
  · exact ⟨rfl, Or.inl rfl,
      ⟨⟨11, some 500, [0], false⟩, 0, Example.bar_entry, by decide, by decide, by decide, by decide,
        by decide, by decide, by decide⟩,
      by decide, by decide, by decide⟩
  · exact ⟨rfl, Or.inl rfl,
      ⟨⟨11, some 500, [0], false⟩, 0, Example.bar_event_entry, by decide, by decide, by decide,
        by decide, by decide, by decide, by decide⟩,
      by decide, by decide⟩

/-- C12: for an atomic coroutine (invoke type `SkInvokable_coroutine_func` or
`SkInvokable_coroutine_mthd`) that carries the `ue4_blueprint` annotation,
`try_add_reflected_function` reports an error for the routine, returns false and
leaves the table and the class records (also user data and atomic bindings)
unchanged. -/
theorem try_add_reflected_function_rejects_atomic_coroutine (w : World)
    (sk_invokable : SkInvokableBase)
    (hbp : sk_invokable.annotation_flags.ue4_blueprint = true)
    (hatomic : is_atomic_coroutine sk_invokable) :
    (try_add_reflected_function w sk_invokable).1.host_log
        = w.host_log ++ [HostOp.error sk_invokable.ptr]
    ∧ (try_add_reflected_function w sk_invokable).2 = false
    ∧ (try_add_reflected_function w sk_invokable).1.m_reflected_functions
        = w.m_reflected_functions
    ∧ (try_add_reflected_function w sk_invokable).1.m_reflected_classes = w.m_reflected_classes
    ∧ (try_add_reflected_function w sk_invokable).1.user_data = w.user_data
    ∧ (try_add_reflected_function w sk_invokable).1.bound = w.bound := by
  unfold is_atomic_coroutine at hatomic
  have hnb : ¬ (sk_invokable.invoke_type = eSkInvokable.SkInvokable_method_func
      ∨ sk_invokable.invoke_type = eSkInvokable.SkInvokable_method_mthd) := by
    rintro (h1 | h1) <;> rcases hatomic with h2 | h2 <;> rw [h1] at h2 <;> cases h2
  have hns : ¬ (sk_invokable.invoke_type = eSkInvokable.SkInvokable_method
      ∨ sk_invokable.invoke_type = eSkInvokable.SkInvokable_coroutine) := by
    rintro (h1 | h1) <;> rcases hatomic with h2 | h2 <;> rw [h1] at h2 <;> cases h2
  unfold try_add_reflected_function
  rw [if_pos hbp, if_neg hnb, if_neg hns]
  exact ⟨rfl, rfl, rfl, rfl, rfl, rfl⟩

theorem try_add_reflected_function_rejects_atomic_coroutine_witness :
    (try_add_reflected_function Example.with_bar
        (Example.foo_bar.invokable Example.atomic_coroutine)).1.host_log
      = [HostOp.error 1002]
    ∧ (try_add_reflected_function Example.with_bar
        (Example.foo_bar.invokable Example.atomic_coroutine)).2 = false :=
  ⟨(try_add_reflected_function_rejects_atomic_coroutine Example.with_bar
      (Example.foo_bar.invokable Example.atomic_coroutine) rfl (Or.inl rfl)).1,
    (try_add_reflected_function_rejects_atomic_coroutine Example.with_bar
      (Example.foo_bar.invokable Example.atomic_coroutine) rfl (Or.inl rfl)).2.1⟩

/-- C13: let at most one entry of the owning class's function list carry the
routine's name and class-member flag (the language has no overloading).  Then
`try_update_reflected_function` returns true if and only if the list contains an
occupied entry with that name and flag whose parameter count is the routine's,
whose parameters have, position by position, the routine's parameter names and
expected type names, and whose result type name is the routine's; the output
index is the index of the entry with that name and flag whenever there is one
(also on a signature mismatch) and -1 otherwise. -/
theorem try_update_reflected_function_result (w : World) (sk_invokable : SkInvokableBase)
    (hunique : ∀ R, w.get_class sk_invokable.scope.name = some R →
      ∀ j₁ ∈ R.m_functions, ∀ j₂ ∈ R.m_functions,
        is_slot_of w sk_invokable j₁ = true → is_slot_of w sk_invokable j₂ = true → j₁ = j₂) :
    ((try_update_reflected_function w sk_invokable).updated = true ↔
      ∃ R i e, w.get_class sk_invokable.scope.name = some R ∧ i ∈ R.m_functions
        ∧ w.fn i = some e ∧ e.name = sk_invokable.name
        ∧ e.m_is_class_member = sk_invokable.is_class_member
        ∧ e.m_num_params = sk_invokable.param_list.length
        ∧ e.params.map (fun t => (t.typed.name, t.typed.m_sk_class_name))
            = sk_invokable.param_list.map (fun p => (p.name, p.expected_type.name))
        ∧ e.m_result_type.m_sk_class_name = sk_invokable.result_class.name)
    ∧ (∀ R i e, w.get_class sk_invokable.scope.name = some R → i ∈ R.m_functions →
        w.fn i = some e → e.name = sk_invokable.name →
        e.m_is_class_member = sk_invokable.is_class_member →
        (try_update_reflected_function w sk_invokable).out_function_index = (i : Int))
    ∧ ((¬ ∃ R i e, w.get_class sk_invokable.scope.name = some R ∧ i ∈ R.m_functions
          ∧ w.fn i = some e ∧ e.name = sk_invokable.name
          ∧ e.m_is_class_member = sk_invokable.is_class_member) →
        (try_update_reflected_function w sk_invokable).out_function_index = -1) := by
  have hidx := try_update_out_index w sk_invokable
  refine ⟨⟨?_, ?_⟩, ?_, ?_⟩
  · intro hupd
    rcases try_update_cases w sk_invokable with ⟨_, h⟩ | ⟨_, _, _, h⟩ | ⟨_, _, _, _, _, _, _, h⟩
      | ⟨R, i, e, hR, hfind, he, hsig, _⟩
    · rw [h] at hupd; cases hupd
    · rw [h] at hupd; cases hupd
    · rw [h] at hupd; cases hupd
    · obtain ⟨e', he', hname, hmember⟩ := is_slot_of_iff.1 (List.find?_some hfind)
      rw [he] at he'
      cases he'
      obtain ⟨hparams, hresult⟩ := (signature_matches_iff e sk_invokable).1 hsig
      refine ⟨R, i, e, hR, List.mem_of_find?_eq_some hfind, he, hname, hmember, ?_, hparams,
        hresult⟩
      have := congrArg List.length hparams
      simpa [ReflectedFunction.m_num_params] using this
  · rintro ⟨R, i, e, hR, hi, he, hname, hmember, _, hparams, hresult⟩
    have hslot : is_slot_of w sk_invokable i = true := is_slot_of_iff.2 ⟨e, he, hname, hmember⟩
    have hfind := find_slot_of_unique (hunique R hR) hi hslot
    have hsig : signature_matches e sk_invokable = true :=
      (signature_matches_iff e sk_invokable).2 ⟨hparams, hresult⟩
    rcases try_update_cases w sk_invokable with ⟨hn, _⟩ | ⟨R', hR', hf', _⟩
      | ⟨R', i', e', hR', hf', he', hs', _⟩ | ⟨_, _, _, _, _, _, _, hupd, _⟩
    · rw [hR] at hn; cases hn
    · rw [hR] at hR'; cases hR'
      rw [hfind] at hf'; cases hf'
    · rw [hR] at hR'; cases hR'
      rw [hfind] at hf'; cases hf'
      rw [he] at he'; cases he'
      rw [hsig] at hs'; cases hs'
    · exact hupd
  · intro R i e hR hi he hname hmember
    have hslot : is_slot_of w sk_invokable i = true := is_slot_of_iff.2 ⟨e, he, hname, hmember⟩
    have hfind := find_slot_of_unique (hunique R hR) hi hslot
    rw [hidx, hR]
    simp only [hfind]
  · intro hno
    rw [hidx]
    cases hR : w.get_class sk_invokable.scope.name with
    | none => rfl
    | some R =>
      simp only
      cases hfind : R.m_functions.find? (is_slot_of w sk_invokable) with
      | none => rfl
      | some i =>
        exfalso
        obtain ⟨e, he, hname, hmember⟩ := is_slot_of_iff.1 (List.find?_some hfind)
        exact hno ⟨R, i, e, hR, List.mem_of_find?_eq_some hfind, he, hname, hmember⟩

theorem try_update_reflected_function_result_witness :
    (try_update_reflected_function Example.with_bar
        (Example.foo_bar.invokable Example.bar_real)).updated = false
    ∧ (try_update_reflected_function Example.with_bar
        (Example.foo_bar.invokable Example.bar_real)).out_function_index = 0 := by
  have h := try_update_reflected_function_result Example.with_bar
    (Example.foo_bar.invokable Example.bar_real) (by
      intro R hR j₁ hj₁ j₂ hj₂ _ _
      have hR' : R = ⟨11, some 500, [0], false⟩ := by
        have : Example.with_bar.get_class 11 = some R := hR
        exact (Option.some.inj this).symm
      subst hR'
      rw [List.mem_singleton.1 hj₁, List.mem_singleton.1 hj₂])
  refine ⟨by decide, ?_⟩
  exact h.2.1 ⟨11, some 500, [0], false⟩ 0 Example.bar_entry rfl (List.mem_singleton.2 rfl) rfl rfl rfl

/-- C30: when `try_update_reflected_function` returns false it has modified
nothing: the world after the call (the table with every entry's deletion flags,
routine back-reference and cached parameter class pointers, the class records,
the user data and the atomic bindings of the routines, the host log) is the
world before the call; and false is returned exactly when there is no record, or
no entry with the routine's name and member flag, or the entry found has another
signature. -/
theorem try_update_reflected_function_false_modifies_nothing (w : World)
    (sk_invokable : SkInvokableBase)
    (hfalse : (try_update_reflected_function w sk_invokable).updated = false) :
    (try_update_reflected_function w sk_invokable).world = w
    ∧ (w.get_class sk_invokable.scope.name = none
      ∨ (∃ R, w.get_class sk_invokable.scope.name = some R
          ∧ R.m_functions.find? (is_slot_of w sk_invokable) = none)
      ∨ (∃ R i e, w.get_class sk_invokable.scope.name = some R
          ∧ R.m_functions.find? (is_slot_of w sk_invokable) = some i ∧ w.fn i = some e
          ∧ signature_matches e sk_invokable = false)) := by
  rcases try_update_cases w sk_invokable with ⟨hn, h⟩ | ⟨R, hR, hf, h⟩
    | ⟨R, i, e, hR, hf, he, hs, h⟩ | ⟨_, _, _, _, _, _, _, hupd, _⟩
  · rw [h]; exact ⟨rfl, Or.inl hn⟩
  · rw [h]; exact ⟨rfl, Or.inr (Or.inl ⟨R, hR, hf⟩)⟩
  · rw [h]; exact ⟨rfl, Or.inr (Or.inr ⟨R, i, e, hR, hf, he, hs⟩)⟩
  · rw [hupd] at hfalse; cases hfalse

theorem try_update_reflected_function_false_modifies_nothing_witness :
    (try_update_reflected_function Example.with_bar
        (Example.foo_bar.invokable Example.bar_real)).world = Example.with_bar :=
  (try_update_reflected_function_false_modifies_nothing Example.with_bar
    (Example.foo_bar.invokable Example.bar_real) (by decide)).1

/-! ## The claims on marshaling -/

/-- C14 as stated fails: the enum value 256 is stored as the byte 0 and comes back
as 0 (and -1 comes back as 255). -/
theorem enum_round_trip_loses_large_values :
    (fetch_k2_value_enum
        (store_sk_value_enum [0] 0 ⟨600, SkUserData.enum_value 256⟩ Example.enum_param).1 0
        Example.enum_param).as_enum = 0
    ∧ (fetch_k2_value_enum
        (store_sk_value_enum [0] 0 ⟨600, SkUserData.enum_value 256⟩ Example.enum_param).1 0
        Example.enum_param).as_enum ≠ 256
    ∧ (fetch_k2_value_enum
        (store_sk_value_enum [0] 0 ⟨600, SkUserData.enum_value (-1)⟩ Example.enum_param).1 0
        Example.enum_param).as_enum = 255 := by
  decide

/-- C14, amended: `store_sk_value_enum` into a byte buffer writes one byte and
`fetch_k2_value_enum` on that byte yields an enum instance of the parameter's
class whose value is `v mod 256`; it equals `v` exactly when `0 ≤ v ≤ 255`. -/
theorem enum_round_trip (memory : Memory) (dest_p : Nat) (class_p : Nat) (v : Int)
    (typed_name : TypedName) (hdest : dest_p < memory.length) :
    (store_sk_value_enum memory dest_p ⟨class_p, SkUserData.enum_value v⟩ typed_name).2 = 1
    ∧ fetch_k2_value_enum
        (store_sk_value_enum memory dest_p ⟨class_p, SkUserData.enum_value v⟩ typed_name).1
        dest_p typed_name
      = ⟨typed_name.m_sk_class_p, SkUserData.enum_value (v % 256)⟩
    ∧ ((fetch_k2_value_enum
          (store_sk_value_enum memory dest_p ⟨class_p, SkUserData.enum_value v⟩ typed_name).1
          dest_p typed_name).as_enum = v ↔ 0 ≤ v ∧ v < 256) := by
  have hbyte : (store_sk_value_enum memory dest_p ⟨class_p, SkUserData.enum_value v⟩
      typed_name).1.getD dest_p 0 = (v % 256).toNat := by
    unfold store_sk_value_enum
    simp only
    rw [getD_set_byte, if_pos ⟨rfl, hdest⟩]
    rfl
  have hnn : 0 ≤ v % 256 := Int.emod_nonneg v (by decide)
  have hfetch : fetch_k2_value_enum
      (store_sk_value_enum memory dest_p ⟨class_p, SkUserData.enum_value v⟩ typed_name).1
      dest_p typed_name = ⟨typed_name.m_sk_class_p, SkUserData.enum_value (v % 256)⟩ := by
    unfold fetch_k2_value_enum
    rw [hbyte]
    have : Int.ofNat (v % 256).toNat = v % 256 := Int.toNat_of_nonneg hnn
    rw [this]
  refine ⟨rfl, hfetch, ?_⟩
  rw [hfetch]
  show v % 256 = v ↔ _
  constructor
  · intro h
    have hlt : v % 256 < 256 := Int.emod_lt_of_pos v (by decide)
    omega
  · rintro ⟨h0, h1⟩
    exact Int.emod_eq_of_lt h0 h1

theorem enum_round_trip_witness :
    fetch_k2_value_enum
        (store_sk_value_enum [0, 0] 1 ⟨600, SkUserData.enum_value 200⟩ Example.enum_param).1 1
        Example.enum_param
      = ⟨600, SkUserData.enum_value (200 % 256)⟩ :=
  (enum_round_trip [0, 0] 1 600 200 Example.enum_param (by decide)).2.1

/-- C15: for an opaque struct value whose payload is `m_byte_size` bytes and a
destination with that much room, `store_sk_value_struct_val` and
`store_sk_value_struct_ref` write exactly `m_byte_size` bytes (the payload, at
the destination; memory keeps its length and all other bytes) and return
`m_byte_size`, and `fetch_k2_value_struct_val` / `fetch_k2_value_struct_ref` on
those bytes yield an instance of the parameter's script class whose payload is
the original payload. -/
theorem struct_round_trip (memory : Memory) (dest_p : Nat) (class_p : Nat) (payload : List Nat)
    (typed_name : TypedName) (hsize : payload.length = typed_name.m_byte_size)
    (hfit : dest_p + typed_name.m_byte_size ≤ memory.length) :
    ((store_sk_value_struct_val memory dest_p ⟨class_p, SkUserData.struct_val payload⟩
        typed_name).2 = typed_name.m_byte_size
      ∧ (store_sk_value_struct_val memory dest_p ⟨class_p, SkUserData.struct_val payload⟩
          typed_name).1.length = memory.length
      ∧ (∀ k, k < typed_name.m_byte_size →
          (store_sk_value_struct_val memory dest_p ⟨class_p, SkUserData.struct_val payload⟩
            typed_name).1.getD (dest_p + k) 0 = payload.getD k 0)
      ∧ (∀ k, k < dest_p ∨ dest_p + typed_name.m_byte_size ≤ k →
          (store_sk_value_struct_val memory dest_p ⟨class_p, SkUserData.struct_val payload⟩
            typed_name).1.getD k 0 = memory.getD k 0)
      ∧ fetch_k2_value_struct_val
          (store_sk_value_struct_val memory dest_p ⟨class_p, SkUserData.struct_val payload⟩
            typed_name).1 dest_p typed_name
        = ⟨typed_name.m_sk_class_p, SkUserData.struct_val payload⟩)
    ∧ ((store_sk_value_struct_ref memory dest_p ⟨class_p, SkUserData.struct_ref payload⟩
        typed_name).2 = typed_name.m_byte_size
      ∧ (store_sk_value_struct_ref memory dest_p ⟨class_p, SkUserData.struct_ref payload⟩
          typed_name).1.length = memory.length
      ∧ (∀ k, k < typed_name.m_byte_size →
          (store_sk_value_struct_ref memory dest_p ⟨class_p, SkUserData.struct_ref payload⟩
            typed_name).1.getD (dest_p + k) 0 = payload.getD k 0)
      ∧ (∀ k, k < dest_p ∨ dest_p + typed_name.m_byte_size ≤ k →
          (store_sk_value_struct_ref memory dest_p ⟨class_p, SkUserData.struct_ref payload⟩
            typed_name).1.getD k 0 = memory.getD k 0)
      ∧ fetch_k2_value_struct_ref
          (store_sk_value_struct_ref memory dest_p ⟨class_p, SkUserData.struct_ref payload⟩
            typed_name).1 dest_p typed_name
        = ⟨typed_name.m_sk_class_p, SkUserData.struct_ref payload⟩) := by
  rw [← hsize] at hfit
  obtain ⟨h1, h2, h3⟩ := Memcpy_spec memory dest_p payload hfit
  have hread := Memcpy_read (Memcpy memory dest_p payload payload.length) dest_p payload h2
  constructor
  · unfold store_sk_value_struct_val fetch_k2_value_struct_val
    simp only [SkInstance.get_raw_pointer_val]
    rw [← hsize]
    exact ⟨trivial, h1, h2, h3, by rw [hread]⟩
  · unfold store_sk_value_struct_ref fetch_k2_value_struct_ref
    simp only [SkInstance.get_raw_pointer_ref]
    rw [← hsize]
    exact ⟨trivial, h1, h2, h3, by rw [hread]⟩

theorem struct_round_trip_witness :
    fetch_k2_value_struct_val
        (store_sk_value_struct_val [9, 9, 9, 9, 9] 1 ⟨601, SkUserData.struct_val [1, 2, 3]⟩
          Example.struct_param).1 1 Example.struct_param
      = ⟨601, SkUserData.struct_val [1, 2, 3]⟩ :=
  (struct_round_trip [9, 9, 9, 9, 9] 1 601 [1, 2, 3] Example.struct_param rfl
    (by decide)).1.2.2.2.2

/-! ## The claims on native properties -/

/-- C16: for every script type, the record `build_ue_property` fills in holds four
marshaling functions that are all absent or all of one kind, together with the
property it returns, and it returns a property if and only if the quadruple is
present (also when it is given no record).  For every native property,
`reflect_ue_property` either returns true and fills the record with four
functions of one kind, or returns false and leaves the record as it was (all
absent in a fresh record). -/
theorem marshal_quadruple_is_atomic (brain : SkBrain) (host : UEHost) (sk_name : ASymbol)
    (sk_type : SkClassDescBase) (ue_outer_p : Nat) (info : ReflectedProperty) (is_final : Bool)
    (ue_property : UProperty) :
    (∃ out, (build_ue_property brain host sk_name sk_type ue_outer_p (some info) is_final).out_info
          = some out
        ∧ quadruple_uniform out.m_k2_param_fetcher_p out.m_k2_value_fetcher_p
            out.m_k2_value_assigner_p out.m_sk_value_storer_p
        ∧ out.m_ue_property_p
            = (build_ue_property brain host sk_name sk_type ue_outer_p (some info)
                is_final).ue_property_p
        ∧ ((build_ue_property brain host sk_name sk_type ue_outer_p (some info)
              is_final).ue_property_p.isSome = true
            ↔ out.m_k2_param_fetcher_p.isSome = true))
    ∧ ((build_ue_property brain host sk_name sk_type ue_outer_p none is_final).ue_property_p
        = (build_ue_property brain host sk_name sk_type ue_outer_p (some info)
            is_final).ue_property_p)
    ∧ ((reflect_ue_property host ue_property (some info)).1 = true →
        ∃ out kind, (reflect_ue_property host ue_property (some info)).2 = some out
          ∧ out.m_ue_property_p = some ue_property
          ∧ out.m_k2_param_fetcher_p.map tK2ParamFetcher.kind = some kind
          ∧ out.m_k2_value_fetcher_p.map tK2ValueFetcher.kind = some kind
          ∧ out.m_k2_value_assigner_p.map tK2ValueAssigner.kind = some kind
          ∧ out.m_sk_value_storer_p.map tSkValueStorer.kind = some kind)
    ∧ ((reflect_ue_property host ue_property (some info)).1 = false →
        (reflect_ue_property host ue_property (some info)).2 = some info)
    ∧ (∃ out, (reflect_ue_property host ue_property (some ReflectedProperty.new)).2 = some out
        ∧ quadruple_uniform out.m_k2_param_fetcher_p out.m_k2_value_fetcher_p
            out.m_k2_value_assigner_p out.m_sk_value_storer_p) := by
  obtain ⟨hb1, hb2⟩ := build_chain_coherent brain host sk_name sk_type ue_outer_p is_final
  obtain ⟨hr1, _⟩ := reflect_chain_coherent host ue_property
  have hout : ∀ i : ReflectedProperty,
      (reflect_ue_property_chain host ue_property).k2_param_fetcher_p.isSome = true →
      (reflect_ue_property host ue_property (some i)).2
        = some ⟨host.skookify_var_name ue_property.m_name
              (ue_property.IsA UPropertyClass.UBoolProperty), some ue_property,
            (reflect_ue_property_chain host ue_property).k2_param_fetcher_p,
            (reflect_ue_property_chain host ue_property).k2_value_fetcher_p,
            (reflect_ue_property_chain host ue_property).k2_value_assigner_p,
            (reflect_ue_property_chain host ue_property).sk_value_storer_p⟩ := by
    intro i hsome
    unfold reflect_ue_property
    simp only [hsome, if_true, Option.map_some']
  have hkeep : ∀ i : ReflectedProperty,
      (reflect_ue_property_chain host ue_property).k2_param_fetcher_p.isSome = false →
      (reflect_ue_property host ue_property (some i)).2 = some i := by
    intro i hnone
    unfold reflect_ue_property
    simp only [hnone, Bool.false_eq_true, if_false]
  refine ⟨⟨_, rfl, hb1, rfl, ?_⟩, rfl, ?_, ?_, ?_⟩
  · show (build_ue_property_chain brain host sk_name sk_type ue_outer_p is_final).ue_property_p.isSome
        = true ↔ _
    rw [hb2]
  · intro htrue
    have hsome : (reflect_ue_property_chain host ue_property).k2_param_fetcher_p.isSome = true :=
      htrue
    rcases hr1 with ⟨hnone, _⟩ | ⟨kind, h1, h2, h3, h4⟩
    · rw [hnone] at hsome; cases hsome
    · exact ⟨_, kind, hout info hsome, rfl, h1, h2, h3, h4⟩
  · intro hfalse
    exact hkeep info hfalse
  · cases hsome : (reflect_ue_property_chain host ue_property).k2_param_fetcher_p.isSome with
    | true => exact ⟨_, hout _ hsome, hr1⟩
    | false => exact ⟨_, hkeep _ hsome, Or.inl ⟨rfl, rfl, rfl, rfl⟩⟩

/-- C17: `build_ue_property` selects the marshal kind by the first matching rung
of the ladder `marshal_ladder`: the four functions it hands out are of the
ladder's kind, and it returns a property exactly when the ladder yields a kind.
In particular a type that is none of the nine exact classes and whose key class
is an Enum subclass with no host enum of that name yields no property, and so
does a type whose key class is an entity subclass (and not an Enum subclass)
with no host class: neither falls through to a later rung. -/
theorem build_ue_property_follows_ladder (brain : SkBrain) (host : UEHost) (sk_name : ASymbol)
    (sk_type : SkClassDescBase) (ue_outer_p : Nat) (info : ReflectedProperty) (is_final : Bool) :
    (∃ out, (build_ue_property brain host sk_name sk_type ue_outer_p (some info) is_final).out_info
          = some out
        ∧ out.m_k2_param_fetcher_p.map tK2ParamFetcher.kind = marshal_ladder brain host sk_type
        ∧ out.m_k2_value_fetcher_p.map tK2ValueFetcher.kind = marshal_ladder brain host sk_type
        ∧ out.m_k2_value_assigner_p.map tK2ValueAssigner.kind = marshal_ladder brain host sk_type
        ∧ out.m_sk_value_storer_p.map tSkValueStorer.kind = marshal_ladder brain host sk_type)
    ∧ (build_ue_property brain host sk_name sk_type ue_outer_p (some info) is_final).ue_property_p.isSome
        = (marshal_ladder brain host sk_type).isSome
    ∧ (sk_type.ptr ∉ [brain.SkBoolean_class, brain.SkInteger_class, brain.SkReal_class,
          brain.SkString_class, brain.SkVector2_class, brain.SkVector3_class,
          brain.SkVector4_class, brain.SkRotationAngles_class, brain.SkTransform_class] →
        sk_type.key_class_is_class brain.SkEnum_class = true →
        host.FindObject_UEnum sk_type.key_class.name = none →
        (build_ue_property brain host sk_name sk_type ue_outer_p (some info)
          is_final).ue_property_p = none)
    ∧ (sk_type.ptr ∉ [brain.SkBoolean_class, brain.SkInteger_class, brain.SkReal_class,
          brain.SkString_class, brain.SkVector2_class, brain.SkVector3_class,
          brain.SkVector4_class, brain.SkRotationAngles_class, brain.SkTransform_class] →
        sk_type.key_class_is_class brain.SkEnum_class = false →
        sk_type.key_class_is_class brain.SkUEEntity_class = true →
        host.get_ue_class_from_sk_class sk_type.key_class = none →
        (build_ue_property brain host sk_name sk_type ue_outer_p (some info)
          is_final).ue_property_p = none) := by
  have hkind := build_chain_kind brain host sk_name sk_type ue_outer_p is_final
  obtain ⟨huni, hsome⟩ := build_chain_coherent brain host sk_name sk_type ue_outer_p is_final
  have hprop : (build_ue_property brain host sk_name sk_type ue_outer_p (some info)
      is_final).ue_property_p.isSome = (marshal_ladder brain host sk_type).isSome := by
    show (build_ue_property_chain brain host sk_name sk_type ue_outer_p is_final).ue_property_p.isSome
      = _
    rw [hsome, ← hkind]
    unfold PropertySelection.kind
    cases (build_ue_property_chain brain host sk_name sk_type ue_outer_p
      is_final).k2_param_fetcher_p <;> rfl
  have hnone_of : (marshal_ladder brain host sk_type) = none →
      (build_ue_property brain host sk_name sk_type ue_outer_p (some info)
        is_final).ue_property_p = none := by
    intro h
    rw [h] at hprop
    cases hx : (build_ue_property brain host sk_name sk_type ue_outer_p (some info)
      is_final).ue_property_p with
    | none => rfl
    | some _ => rw [hx] at hprop; cases hprop
  refine ⟨⟨_, rfl, hkind, ?_, ?_, ?_⟩, hprop, ?_, ?_⟩
  · rw [← hkind]
    rcases huni with ⟨h1, h2, _, _⟩ | ⟨kind, h1, h2, _, _⟩
    · show Option.map _ (build_ue_property_chain brain host sk_name sk_type ue_outer_p
        is_final).k2_value_fetcher_p = _
      unfold PropertySelection.kind
      rw [h1, h2]; rfl
    · show Option.map _ (build_ue_property_chain brain host sk_name sk_type ue_outer_p
        is_final).k2_value_fetcher_p = _
      unfold PropertySelection.kind
      rw [h1, h2]
  · rw [← hkind]
    rcases huni with ⟨h1, _, h3, _⟩ | ⟨kind, h1, _, h3, _⟩
    · show Option.map _ (build_ue_property_chain brain host sk_name sk_type ue_outer_p
        is_final).k2_value_assigner_p = _
      unfold PropertySelection.kind
      rw [h1, h3]; rfl
    · show Option.map _ (build_ue_property_chain brain host sk_name sk_type ue_outer_p
        is_final).k2_value_assigner_p = _
      unfold PropertySelection.kind
      rw [h1, h3]
  · rw [← hkind]
    rcases huni with ⟨h1, _, _, h4⟩ | ⟨kind, h1, _, _, h4⟩
    · show Option.map _ (build_ue_property_chain brain host sk_name sk_type ue_outer_p
        is_final).sk_value_storer_p = _
      unfold PropertySelection.kind
      rw [h1, h4]; rfl
    · show Option.map _ (build_ue_property_chain brain host sk_name sk_type ue_outer_p
        is_final).sk_value_storer_p = _
      unfold PropertySelection.kind
      rw [h1, h4]
  · intro hn he hnoenum
    apply hnone_of
    simp only [List.mem_cons, List.mem_singleton, List.not_mem_nil, or_false, not_or] at hn
    obtain ⟨h1, h2, h3, h4, h5, h6, h7, h8, h9⟩ := hn
    unfold marshal_ladder
    rw [if_neg h1, if_neg h2, if_neg h3, if_neg h4, if_neg h5, if_neg h6, if_neg h7, if_neg h8,
      if_neg h9, if_pos he, hnoenum]
    rfl
  · intro hn he hent hnoclass
    apply hnone_of
    simp only [List.mem_cons, List.mem_singleton, List.not_mem_nil, or_false, not_or] at hn
    obtain ⟨h1, h2, h3, h4, h5, h6, h7, h8, h9⟩ := hn
    have he' : ¬ sk_type.key_class_is_class brain.SkEnum_class = true := by rw [he]; decide
    unfold marshal_ladder
    rw [if_neg h1, if_neg h2, if_neg h3, if_neg h4, if_neg h5, if_neg h6, if_neg h7, if_neg h8,
      if_neg h9, if_neg he', if_pos hent, hnoclass]
    rfl

/-! ## Building a property and reflecting it again -/

/-- C29, as stated, fails: for the script class whose host struct is user-defined,
`build_ue_property` makes a struct property with the struct-by-value quadruple,
and `reflect_ue_property` applied to that property returns false and leaves the
record untouched. -/
theorem reflect_rejects_built_user_defined_struct :
    (build_ue_property Example.brain Example.host 9 Example.user_struct_type 0
        (some ReflectedProperty.new) true).ue_property_p = some Example.user_struct_property
      ∧ ((build_ue_property Example.brain Example.host 9 Example.user_struct_type 0
        (some ReflectedProperty.new) true).out_info.bind
          (fun out => out.m_k2_param_fetcher_p)) = some tK2ParamFetcher.fetch_k2_param_struct_val
      ∧ reflect_ue_property Example.host Example.user_struct_property (some ReflectedProperty.new)
        = (false, some ReflectedProperty.new) := by
  refine ⟨by decide, by decide, by decide⟩

/-- C29, amended: where the five core struct types bear different names and the
struct fallback resolves only to structs that are not user-defined and not named
like a core struct, a property `P` that `build_ue_property` produces is accepted
by `reflect_ue_property`, which fills its record with `P` and the same four
marshaling functions. -/
theorem reflect_agrees_with_build (brain : SkBrain) (host : UEHost) (sk_name : ASymbol)
    (sk_type : SkClassDescBase) (ue_outer_p : Nat) (is_final : Bool) (P : UProperty)
    (info : ReflectedProperty)
    (hdistinct : host.core_structs_distinct)
    (hfallback : ∀ s, (marshal_ladder brain host sk_type = some MarshalKind.struct_val
        ∨ marshal_ladder brain host sk_type = some MarshalKind.struct_ref) →
      host.get_ue_struct_from_sk_class sk_type.key_class = some s → host.is_opaque_struct s)
    (hP : (build_ue_property brain host sk_name sk_type ue_outer_p (some info) is_final).ue_property_p
      = some P) :
    ∃ built reflected,
      (build_ue_property brain host sk_name sk_type ue_outer_p (some info) is_final).out_info
          = some built
        ∧ reflect_ue_property host P (some info) = (true, some reflected)
        ∧ built.m_ue_property_p = some P
        ∧ reflected.m_ue_property_p = some P
        ∧ built.m_k2_param_fetcher_p.isSome = true
        ∧ reflected.m_k2_param_fetcher_p = built.m_k2_param_fetcher_p
        ∧ reflected.m_k2_value_fetcher_p = built.m_k2_value_fetcher_p
        ∧ reflected.m_k2_value_assigner_p = built.m_k2_value_assigner_p
        ∧ reflected.m_sk_value_storer_p = built.m_sk_value_storer_p := by
  have hP' : (build_ue_property_chain brain host sk_name sk_type ue_outer_p is_final).ue_property_p
      = some P := hP
  have heq := reflect_chain_of_build brain host sk_name sk_type ue_outer_p is_final P hdistinct
    hfallback hP'
  have hsome : (build_ue_property_chain brain host sk_name sk_type ue_outer_p
      is_final).k2_param_fetcher_p.isSome = true := by
    rw [← (build_chain_coherent brain host sk_name sk_type ue_outer_p is_final).2, hP']
    rfl
  refine ⟨_, ⟨host.skookify_var_name P.m_name (P.IsA UPropertyClass.UBoolProperty), some P,
    (build_ue_property_chain brain host sk_name sk_type ue_outer_p is_final).k2_param_fetcher_p,
    (build_ue_property_chain brain host sk_name sk_type ue_outer_p is_final).k2_value_fetcher_p,
    (build_ue_property_chain brain host sk_name sk_type ue_outer_p is_final).k2_value_assigner_p,
    (build_ue_property_chain brain host sk_name sk_type ue_outer_p is_final).sk_value_storer_p⟩,
    rfl, ?_, hP', rfl, hsome, rfl, rfl, rfl, rfl⟩
  unfold reflect_ue_property
  simp only [heq, hsome, if_true, Option.map_some']

/-- The plain struct of the example host is built and reflected alike. -/
theorem reflect_agrees_with_build_witness :
    ∃ built reflected,
      (build_ue_property Example.brain Example.host 9 Example.plain_struct_type 0
          (some ReflectedProperty.new) true).out_info = some built
        ∧ reflect_ue_property Example.host Example.plain_struct_property
            (some ReflectedProperty.new) = (true, some reflected)
        ∧ built.m_ue_property_p = some Example.plain_struct_property
        ∧ reflected.m_ue_property_p = some Example.plain_struct_property
        ∧ built.m_k2_param_fetcher_p.isSome = true
        ∧ reflected.m_k2_param_fetcher_p = built.m_k2_param_fetcher_p
        ∧ reflected.m_k2_value_fetcher_p = built.m_k2_value_fetcher_p
        ∧ reflected.m_k2_value_assigner_p = built.m_k2_value_assigner_p
        ∧ reflected.m_sk_value_storer_p = built.m_sk_value_storer_p :=
  reflect_agrees_with_build Example.brain Example.host 9 Example.plain_struct_type 0 true
    Example.plain_struct_property ReflectedProperty.new (by decide)
    (by
      intro s _ hs
      have h : s = ⟨306, 76, 3, false⟩ := by
        have h2 : Example.host.get_ue_struct_from_sk_class Example.plain_struct_type.key_class
            = some ⟨306, 76, 3, false⟩ := by decide
        rw [h2] at hs
        exact (Option.some.inj hs).symm
      subst h
      decide)
    (by decide)

/-! ## The claims on synthesized functions -/

/-- C18: when the result type (present and not Object) or some parameter type has
no marshal mapping, `build_ue_function` returns no function and the class keeps
its child list and its function map; when all of them map, it returns a function
that is the new head of the class's child list and is entered in its function
map.  In the failing case `expose_reflected_function`, for an entry that is to be
built, leaves the table as it was (the entry has no native function and the
marshal fields it had), hands out no function and makes no callback. -/
theorem build_ue_function_all_or_nothing (E : Bool) (brain : SkBrain) (host : UEHost)
    (objs : UEObjects) (ue_class : UClass) (inv : SkInvokableBase)
    (type : eReflectedFunctionType) (idx : Nat) (a : Option (List ReflectedProperty))
    (is_final : Bool) (w : World) (i : Nat) (e : ReflectedFunction) (R : ReflectedClass)
    (class_p : Nat) (on_function_updated_f : Bool) :
    (all_types_map brain host inv = false →
      (build_ue_function E brain host objs ue_class inv type idx a is_final).ue_function_p = none
        ∧ (build_ue_function E brain host objs ue_class inv type idx a is_final).ue_class.Children
          = ue_class.Children
        ∧ (build_ue_function E brain host objs ue_class inv type idx a is_final).ue_class.FuncMap
          = ue_class.FuncMap)
    ∧ (all_types_map brain host inv = true →
      ∃ F, (build_ue_function E brain host objs ue_class inv type idx a is_final).ue_function_p
          = some F
        ∧ (build_ue_function E brain host objs ue_class inv type idx a is_final).ue_class.Children
          = UField.function F :: ue_class.Children
        ∧ (build_ue_function E brain host objs ue_class inv type idx a is_final).ue_class.FuncMap
          = (F.fname, F.ptr) :: ue_class.FuncMap.filter (fun entry => entry.1 != F.fname))
    ∧ (w.fn i = some e → e.m_ue_function_p = none →
        w.get_class e.m_sk_invokable_p.scope.name = some R →
        resolve_static_class objs R e = some class_p →
        is_looked_up e = false →
        all_types_map brain host e.m_sk_invokable_p = false →
        ∃ x, expose_reflected_function E brain host objs w i on_function_updated_f is_final = some x
          ∧ x.world.m_reflected_functions = w.m_reflected_functions
          ∧ x.world.fn i = some e
          ∧ x.ue_function_p = none
          ∧ x.function_updated = none) := by
  have hc : (checked_class E objs ue_class inv).Children = ue_class.Children
      ∧ (checked_class E objs ue_class inv).FuncMap = ue_class.FuncMap := by
    unfold checked_class
    split <;> exact ⟨rfl, rfl⟩
  refine ⟨?_, ?_, ?_⟩
  · intro hall
    obtain ⟨h1, h2⟩ := build_ue_function_fail E brain host objs ue_class inv type idx a is_final hall
    rw [h2]
    exact ⟨h1, hc.1, hc.2⟩
  · intro hall
    obtain ⟨F, _, h1, h2⟩ := build_ue_function_built E brain host objs ue_class inv type idx a
      is_final hall
    refine ⟨F, h1, ?_, ?_⟩
    · rw [h2]
      show UField.function F :: (checked_class E objs ue_class inv).Children = _
      rw [hc.1]
    · rw [h2]
      show (F.fname, F.ptr) :: (checked_class E objs ue_class inv).FuncMap.filter _ = _
      rw [hc.2]
  · intro hfn hnone hget hstatic hlook hall
    obtain ⟨h1, _⟩ := build_ue_function_fail E brain host objs (objs.ue_class class_p)
      e.m_sk_invokable_p e.m_type i
      (some (List.replicate (e.m_num_params + 1) ReflectedProperty.new)) is_final hall
    have hmade : make_ue_function E brain host objs class_p e i is_final
        = some { ue_function_p := none
                 param_info_array :=
                  (build_ue_function E brain host objs (objs.ue_class class_p) e.m_sk_invokable_p
                    e.m_type i (some (List.replicate (e.m_num_params + 1) ReflectedProperty.new))
                    is_final).out_param_info_array.getD
                      (List.replicate (e.m_num_params + 1) ReflectedProperty.new)
                 ue_class := some (build_ue_function E brain host objs (objs.ue_class class_p)
                    e.m_sk_invokable_p e.m_type i
                    (some (List.replicate (e.m_num_params + 1) ReflectedProperty.new))
                    is_final).ue_class
                 unknown_types := (build_ue_function E brain host objs (objs.ue_class class_p)
                    e.m_sk_invokable_p e.m_type i
                    (some (List.replicate (e.m_num_params + 1) ReflectedProperty.new))
                    is_final).unknown_types } := by
      unfold make_ue_function
      simp only [hlook, Bool.false_eq_true, if_false, h1]
    unfold expose_reflected_function
    simp only [hfn, hnone, Option.isSome_none, Bool.false_eq_true, if_false, hget, hstatic, hmade]
    exact ⟨_, rfl, rfl, hfn, rfl, rfl⟩

/-- C23: for a routine whose result is present, not Object and mappable, and
whose parameter types all map, the function `build_ue_function` returns has as
child list the properties of the parameters, named after them in declaration
order, followed by the property named `result`; every child is flagged as a
parameter, and the result is the only one flagged as the return parameter. -/
theorem build_ue_function_children_in_declaration_order (E : Bool) (brain : SkBrain)
    (host : UEHost) (objs : UEObjects) (ue_class : UClass) (inv : SkInvokableBase)
    (type : eReflectedFunctionType) (idx : Nat) (a : Option (List ReflectedProperty))
    (is_final : Bool) (rc : SkClassDescBase)
    (hres : built_result_class brain inv = some rc)
    (hall : all_types_map brain host inv = true) :
    ∃ F params R,
      (build_ue_function E brain host objs ue_class inv type idx a is_final).ue_function_p = some F
        ∧ F.Children = params ++ [R]
        ∧ params.map (fun P => P.m_name) = inv.param_list.map (fun p => FName_of p.name)
        ∧ R.m_name = FName_of m_result_name
        ∧ (∀ P ∈ params, P.CPF_Parm = true ∧ P.CPF_ReturnParm = false)
        ∧ R.CPF_Parm = true ∧ R.CPF_ReturnParm = true := by
  obtain ⟨F, hF, h1, _⟩ := build_ue_function_built E brain host objs ue_class inv type idx a
    is_final hall
  have hall' := hall
  unfold all_types_map at hall'
  rw [Bool.and_eq_true, hres] at hall'
  obtain ⟨hrmap, hpar⟩ := hall'
  simp only at hrmap
  have hs : (result_property brain host F.ptr is_final rc).isSome = true := by
    unfold result_property
    rw [Option.isSome_map', param_property_isSome]
    exact hrmap
  obtain ⟨R, hR⟩ := Option.isSome_iff_exists.mp hs
  obtain ⟨r1, _, r3, r4, _⟩ := result_property_flags brain host F.ptr is_final rc R hR
  refine ⟨F, param_properties brain host F.ptr is_final inv.param_list, R, h1, ?_,
    param_properties_names brain host F.ptr is_final _ hpar, r1, ?_, r3, r4⟩
  · have hptr : F.ptr
        = (new_ue_function objs (checked_class E objs ue_class inv) inv type idx).ptr := by
      rw [hF]
    have hch : F.Children = built_children brain host F.ptr is_final inv := by
      rw [hptr, hF]
    rw [hch]
    unfold built_children
    rw [hres]
    simp only [hR, Option.toList]
  · intro P hP
    obtain ⟨p1, p2, _⟩ := param_properties_flags brain host F.ptr is_final _ P hP
    exact ⟨p1, p2⟩

/-- The method `Foo.bar(x : Integer) : String` is built with the children `x`,
`result`. -/
theorem build_ue_function_children_in_declaration_order_witness :
    ∃ F params R,
      (build_ue_function false Example.brain Example.host Example.objs Example.foo_class
          (Example.foo_bar.invokable Example.bar)
          eReflectedFunctionType.ReflectedFunctionType_Call 0 none true).ue_function_p = some F
        ∧ F.Children = params ++ [R]
        ∧ params.map (fun P => P.m_name)
          = (Example.foo_bar.invokable Example.bar).param_list.map (fun p => FName_of p.name)
        ∧ R.m_name = FName_of m_result_name
        ∧ (∀ P ∈ params, P.CPF_Parm = true ∧ P.CPF_ReturnParm = false)
        ∧ R.CPF_Parm = true ∧ R.CPF_ReturnParm = true :=
  build_ue_function_children_in_declaration_order false Example.brain Example.host Example.objs
    Example.foo_class (Example.foo_bar.invokable Example.bar)
    eReflectedFunctionType.ReflectedFunctionType_Call 0 none true Example.string_type
    (by decide) (by decide)

/-! ## The index stashed in a synthesized function -/

theorem far_table_fn : Example.far_table.fn 65536 = some Example.call_entry := by
  unfold World.fn Example.far_table
  show (List.replicate 65536 none ++ [some Example.call_entry]).getD 65536 none = _
  rw [List.getD_append_right _ _ _ _ (by rw [List.length_replicate]), List.length_replicate]
  rfl

theorem far_table_fn_zero : Example.far_table.fn 0 = none := by
  unfold World.fn Example.far_table
  show (List.replicate 65536 none ++ [some Example.call_entry]).getD 0 none = _
  rw [List.getD_append _ _ _ _ (by rw [List.length_replicate]; decide)]
  rw [List.getD_eq_getElem?_getD, List.getElem?_replicate]
  rfl
/-- C22, as stated, fails: the entry of `Foo.bar` at index 65536 is exposed with
a function whose `RepOffset` is 0, and the trampolines, looking the entry up by
it, read slot 0, which is null, not slot 65536. -/
theorem rep_offset_wraps_at_65536 :
    ∃ x F entry,
      expose_reflected_function false Example.brain Example.host Example.objs Example.far_table
          65536 false true = some x
        ∧ x.ue_function_p = some F
        ∧ x.world.fn 65536 = some entry
        ∧ entry.m_ue_function_p = some F.ptr
        ∧ F.RepOffset = 0
        ∧ exec_reflected_call x.world F = none := by
  obtain ⟨x, F, a', h1, hF, h2, h3, h4, _⟩ := expose_built false Example.brain Example.host
    Example.objs Example.far_table 65536 false true Example.call_entry
    ⟨11, some 500, [65536], false⟩ 500 far_table_fn rfl rfl rfl rfl (by decide) rfl
  have hrep : F.RepOffset = 0 := by rw [hF]; rfl
  refine ⟨x, F, _, h1, h2, h3, rfl, hrep, ?_⟩
  unfold exec_reflected_call
  rw [hrep, h4 0 (by decide)]
  exact far_table_fn_zero

/-- C22, amended: a Call entry at an index `i` below 65536 whose types all map
is exposed with a function that is a reflected call and whose `RepOffset` is
`i`, so that the trampolines find the entry of slot `i`, which holds that
function; the function is not taken for a reflected event exactly when `i` is
not `EventMagicRepOffset`. -/
theorem rep_offset_identifies_slot (E : Bool) (brain : SkBrain) (host : UEHost)
    (objs : UEObjects) (w : World) (i : Nat) (cb : Bool) (is_final : Bool)
    (e : ReflectedFunction) (R : ReflectedClass) (class_p : Nat)
    (hfn : w.fn i = some e) (hnone : e.m_ue_function_p = none)
    (hget : w.get_class e.m_sk_invokable_p.scope.name = some R)
    (hstatic : resolve_static_class objs R e = some class_p)
    (hcall : e.m_type = eReflectedFunctionType.ReflectedFunctionType_Call)
    (hall : all_types_map brain host e.m_sk_invokable_p = true)
    (hnum : e.m_num_params = e.m_sk_invokable_p.param_list.length)
    (hi : i < 65536) :
    ∃ x F entry,
      expose_reflected_function E brain host objs w i cb is_final = some x
        ∧ x.ue_function_p = some F
        ∧ F.RepOffset = i
        ∧ exec_reflected_call x.world F = some entry
        ∧ x.world.fn i = some entry
        ∧ entry.m_ue_function_p = some F.ptr
        ∧ is_skookum_reflected_call F = true
        ∧ (is_skookum_reflected_event objs F = false ↔ i ≠ objs.EventMagicRepOffset) := by
  have hlook : is_looked_up e = false := by
    unfold is_looked_up; rw [hcall]; rfl
  obtain ⟨x, F, a', h1, hF, h2, h3, _, _⟩ := expose_built E brain host objs w i cb is_final e R
    class_p hfn hnone hget hstatic hlook hall hnum
  have hrep : F.RepOffset = i := by
    rw [hF, hcall]
    show i % 2 ^ 16 = i
    exact Nat.mod_eq_of_lt hi
  have hnative : is_skookum_reflected_call F = true := by
    rw [hF, hcall]
    unfold is_skookum_reflected_call new_ue_function
    simp only
    by_cases hco : e.m_sk_invokable_p.invoke_type = eSkInvokable.SkInvokable_coroutine
    · simp [hco]
    · by_cases hcm : e.m_sk_invokable_p.is_class_member = true
      · simp [hco, hcm]
      · simp [hco, hcm]
  refine ⟨x, F, fill_in host e F a', h1, h2, hrep, ?_, h3, ?_, hnative, ?_⟩
  · unfold exec_reflected_call; rw [hrep]; exact h3
  · unfold fill_in; rw [hcall]
  · unfold is_skookum_reflected_event
    rw [hrep]
    simp

/-- The entry of `Foo.bar` at index 0 is found again through `RepOffset`. -/
theorem rep_offset_identifies_slot_witness :
    ∃ x F entry,
      expose_reflected_function false Example.brain Example.host Example.objs Example.with_call 0
          false true = some x
        ∧ x.ue_function_p = some F
        ∧ F.RepOffset = 0
        ∧ exec_reflected_call x.world F = some entry
        ∧ x.world.fn 0 = some entry
        ∧ entry.m_ue_function_p = some F.ptr
        ∧ is_skookum_reflected_call F = true
        ∧ (is_skookum_reflected_event Example.objs F = false
          ↔ 0 ≠ Example.objs.EventMagicRepOffset) :=
  rep_offset_identifies_slot false Example.brain Example.host Example.objs Example.with_call 0
    false true Example.call_entry ⟨11, some 500, [0], false⟩ 500 rfl rfl rfl rfl rfl (by decide)
    rfl (by decide)

/-! ## Binding to an existing native function -/

/-- C28: when `reflect_ue_function` returns a native function, that function has
as many input parameters as the script routine has parameters and they bear the
names of the script parameters in order.  But the script parameter list is
indexed out of range: for the method `Actor.on_two(x)` and the native function
`on_two(x, y)` the loop reaches the second native parameter with
`num_parameters` equal to the length of the list, passes the test `>` and reads
`param_list[1]`. -/
theorem reflect_ue_function_reads_past_the_end :
    (∀ (host : UEHost) (objs : UEObjects) (inv : SkInvokableBase) (a : List ReflectedProperty)
        (is_final : Bool) (r : ReflectFunctionResult) (f : UFunction),
        reflect_ue_function host objs inv a is_final = some r → r.ue_function_p = some f →
        (input_params f).length = inv.param_list.length
          ∧ (input_params f).map (script_name host) = inv.param_list.map (fun q => q.name))
      ∧ find_ue_function Example.objs Example.on_two = some Example.on_two_function
      ∧ (input_params Example.on_two_function).length = 2
      ∧ Example.on_two.param_list.length = 1
      ∧ reflect_ue_function Example.host Example.objs Example.on_two
          (List.replicate 2 ReflectedProperty.new) true = none := by
  refine ⟨?_, by decide, by decide, by decide, by decide⟩
  intro host objs inv a is_final r f h hf
  obtain ⟨_, h2, _⟩ := reflect_ue_function_sound host objs inv a is_final r f h hf
  refine ⟨?_, h2⟩
  have := congrArg List.length h2
  rw [List.length_map, List.length_map] at this
  exact this

/-! ## The event trigger -/

/-- C19, as stated, fails: the event `Foo.on_ping(x) : Integer`, exposed and then
triggered on an actor without an event node for it, raises the diagnostic and
runs to its end, but what it returns is the value its result getter makes of
the return slot of the parameter buffer, not the nil instance. -/
theorem trigger_without_event_node_returns_converted_value :
    ∃ x t,
      expose_reflected_function true Example.brain Example.host Example.objs
          (Example.with_event Example.on_ping 500) 0 true true = some x
        ∧ x.world = Example.ping_exposed
        ∧ mthd_trigger_event true Example.objs Example.code Example.nil x.world
            ⟨1200, [Example.five], 1⟩ true = some t
        ∧ t.invoked.Script = []
        ∧ t.diagnostics = [TriggerDiagnostic.no_event_node 9000]
        ∧ t.result = some ⟨100, SkUserData.enum_value 0⟩
        ∧ t.result ≠ some Example.nil := by
  refine ⟨_, _, rfl, ?_, rfl, ?_, ?_, ?_, ?_⟩ <;> decide

/-- C19, amended: when the function handed to `ProcessEvent` has an empty
`Script`, the trigger raises the diagnostic on the missing event node and runs to
its end; the value it stores through `result_pp` is the nil instance when the
event has no result getter, and otherwise what the result getter makes of the
return slot of the parameter buffer. -/
theorem trigger_without_event_node (E : Bool) (objs : UEObjects) (code : MarshalCode)
    (ms_nil_p : SkInstance) (w : World) (scope_p : SkInvokedMethod) (e : ReflectedFunction)
    (f g : UFunction)
    (hfn : w.fn ((w.get_user_data scope_p.invokable).getD 0) = some e)
    (hf : trigger_ue_function E objs e = some f)
    (hg : trigger_function_to_invoke E objs e scope_p f = some g)
    (hstore : ∀ p ∈ e.params, p.m_storer_p.isSome = true)
    (hargs : e.params.length ≤ scope_p.args.length)
    (hscript : g.Script = []) :
    ∃ t, mthd_trigger_event E objs code ms_nil_p w scope_p true = some t
      ∧ t.invoked = g
      ∧ TriggerDiagnostic.no_event_node f.ptr ∈ t.diagnostics
      ∧ (e.m_result_getter = none → t.result = some ms_nil_p)
      ∧ (∀ getter, e.m_result_getter = some getter →
          t.result = some (code.k2_value_fetcher getter t.k2_params_storage g.ReturnValueOffset
            e.m_result_type)) := by
  obtain ⟨stored, _, hrun⟩ := trigger_runs E objs code ms_nil_p w scope_p true e f g hfn hf hg
    hstore hargs
  refine ⟨_, hrun, rfl, ?_, ?_, ?_⟩
  · show TriggerDiagnostic.no_event_node f.ptr ∈ trigger_diagnostics e f g
    unfold trigger_diagnostics
    rw [hscript]
    simp
  · intro hnone
    simp only [hnone, if_true]
  · intro getter hsome
    simp only [hsome, if_true]

/-- The event `Foo.on_ping`, exposed, is triggered on an actor without an event
node for it. -/
theorem trigger_without_event_node_witness :
    ∃ t, mthd_trigger_event true Example.objs Example.code Example.nil Example.ping_exposed
        ⟨1200, [Example.five], 1⟩ true = some t
      ∧ t.invoked = Example.kismet_copy Example.on_ping_function [] true
      ∧ TriggerDiagnostic.no_event_node Example.on_ping_function.ptr ∈ t.diagnostics
      ∧ (Example.ping_entry.m_result_getter = none → t.result = some Example.nil)
      ∧ (∀ getter, Example.ping_entry.m_result_getter = some getter →
          t.result = some (Example.code.k2_value_fetcher getter t.k2_params_storage
            (Example.kismet_copy Example.on_ping_function [] true).ReturnValueOffset
            Example.ping_entry.m_result_type)) :=
  trigger_without_event_node true Example.objs Example.code Example.nil Example.ping_exposed
    ⟨1200, [Example.five], 1⟩ Example.ping_entry Example.on_ping_function
    (Example.kismet_copy Example.on_ping_function [] true) rfl rfl rfl (by decide) (by decide) rfl

/-- C25, as stated, fails: the event `Actor.on_measure(x)` is bound to a native
function whose parameter is an out parameter and gets an assigner for it; the
native call writes 7 into the parameter buffer, but the function handed to
`ProcessEvent` does not carry `FUNC_HasOutParms`, the loop that copies back is
skipped, and the script argument is still 5. -/
theorem out_parameter_not_copied_back_without_function_flag :
    ∃ t P,
      expose_reflected_function true Example.brain Example.host Example.objs
          (Example.with_event Example.on_measure 501) 0 true true = some Example.measure_exposure
        ∧ input_params Example.on_measure_function = [P]
        ∧ P.CPF_OutParm = true
        ∧ Example.measure_entry.params.map (fun p => p.m_assigner_p)
          = [some tK2ValueAssigner.assign_k2_value_integer.addr]
        ∧ mthd_trigger_event true Example.objs Example.code Example.nil Example.measure_exposed
            ⟨1102, [Example.five], 2⟩ true = some t
        ∧ t.invoked.FUNC_HasOutParms = false
        ∧ t.k2_params_storage = [7, 0, 0, 0]
        ∧ t.args = [Example.five] := by
  refine ⟨_, _, by decide, rfl, by decide, by decide, rfl, ?_, ?_, ?_⟩ <;> decide

/-- C25, amended.  At expose time the entry of an event gets, for each parameter,
an assigner exactly when the native property of that parameter carries
`CPF_OutParm`, with the offset of that property.  In `mthd_trigger_event`, when
the function handed to `ProcessEvent` carries `FUNC_HasOutParms`, argument `k` is
what the assigner of parameter `k` makes of it from the parameter buffer at the
parameter's offset, and an argument whose parameter has no assigner is
unchanged; when the function does not carry the flag, no argument is changed. -/
theorem trigger_copies_back_out_parameters (E : Bool) (brain : SkBrain) (host : UEHost)
    (objs : UEObjects) (code : MarshalCode) (ms_nil_p : SkInstance)
    (w0 : World) (i : Nat) (cb : Bool) (is_final : Bool) (x : ExposeResult) (F : UFunction)
    (e0 : ReflectedFunction)
    (w : World) (scope_p : SkInvokedMethod) (result_pp : Bool) (e : ReflectedFunction)
    (f g : UFunction)
    (hexp : expose_reflected_function E brain host objs w0 i cb is_final = some x)
    (hF : x.ue_function_p = some F)
    (hfn0 : w0.fn i = some e0)
    (hevent : e0.m_type = eReflectedFunctionType.ReflectedFunctionType_Event)
    (hnum : e0.m_num_params = e0.m_sk_invokable_p.param_list.length)
    (hfn : w.fn ((w.get_user_data scope_p.invokable).getD 0) = some e)
    (hf : trigger_ue_function E objs e = some f)
    (hg : trigger_function_to_invoke E objs e scope_p f = some g)
    (hstore : ∀ p ∈ e.params, p.m_storer_p.isSome = true)
    (hargs : e.params.length ≤ scope_p.args.length) :
    (∃ entry, x.world.fn i = some entry
      ∧ entry.params.length = (input_params F).length
      ∧ ∀ k (hk : k < entry.params.length) (hk' : k < (input_params F).length),
          entry.params[k].m_assigner_p.isSome = (input_params F)[k].CPF_OutParm
            ∧ entry.params[k].m_offset = host.GetOffset_ForUFunction ((input_params F)[k]))
    ∧ ∃ t, mthd_trigger_event E objs code ms_nil_p w scope_p result_pp = some t
      ∧ t.invoked = g
      ∧ (g.FUNC_HasOutParms = true →
          t.args.length = scope_p.args.length
            ∧ ∀ k (hk : k < e.params.length) (ha : k < scope_p.args.length),
              t.args[k]? = some
                (match e.params[k].m_assigner_p with
                  | some assigner =>
                    code.k2_value_assigner assigner scope_p.args[k] t.k2_params_storage
                      e.params[k].m_offset e.params[k].typed
                  | none => scope_p.args[k]))
      ∧ (g.FUNC_HasOutParms = false → t.args = scope_p.args) := by
  constructor
  · obtain ⟨e', R, class_p, made, hfn', _, _, _, hmade, hmF, hentry, _⟩ :=
      expose_inv E brain host objs w0 i cb is_final x F hexp hF
    rw [hfn0] at hfn'
    cases hfn'
    obtain ⟨hlen, halen, hcomp, _, _⟩ := made_infos E brain host objs class_p e0 i is_final made F
      hmade hmF hnum
    obtain ⟨_, _, _, hplen, hget⟩ := fill_in_event host e0 F made.param_info_array hevent halen
    have hpl : e0.params.length = (input_params F).length := by
      rw [hlen, ← hnum]; rfl
    refine ⟨_, hentry, by rw [hplen, hpl], ?_⟩
    intro k hk hk'
    rw [hget k hk (by rw [hpl]; exact hk')]
    obtain ⟨c1, _, _, c4, _⟩ := hcomp k hk'
    unfold init_event_param
    simp only [c1]
    constructor
    · by_cases hout : (input_params F)[k].CPF_OutParm = true
      · rw [if_pos hout, hout, Option.isSome_map']
        exact c4
      · rw [if_neg hout]
        simp only [Option.isSome_none]
        exact (Bool.eq_false_iff.mpr hout).symm
    · trivial
  · obtain ⟨stored, _, hrun⟩ := trigger_runs E objs code ms_nil_p w scope_p result_pp e f g hfn hf
      hg hstore hargs
    refine ⟨_, hrun, rfl, ?_, ?_⟩
    · intro hflag
      simp only [hflag, if_true]
      refine ⟨copy_back_length code _ _ _, ?_⟩
      intro k hk ha
      rw [copy_back_get, List.getElem?_eq_getElem hk, List.getElem?_eq_getElem ha]
    · intro hflag
      simp only [hflag, Bool.false_eq_true, if_false]

/-- The event `Actor.on_measure`, exposed and triggered on an actor whose class
holds a faithful copy of the native function. -/
theorem trigger_copies_back_out_parameters_witness :
    (∃ entry, Example.measure_exposure.world.fn 0 = some entry
      ∧ entry.params.length = (input_params Example.on_measure_function).length
      ∧ ∀ k (hk : k < entry.params.length)
          (hk' : k < (input_params Example.on_measure_function).length),
          entry.params[k].m_assigner_p.isSome
              = (input_params Example.on_measure_function)[k].CPF_OutParm
            ∧ entry.params[k].m_offset
              = Example.host.GetOffset_ForUFunction ((input_params Example.on_measure_function)[k]))
    ∧ ∃ t, mthd_trigger_event true Example.objs Example.code Example.nil Example.measure_exposed
          ⟨1102, [Example.five], 3⟩ true = some t
      ∧ t.invoked = Example.kismet_copy Example.on_measure_function [1] true
      ∧ ((Example.kismet_copy Example.on_measure_function [1] true).FUNC_HasOutParms = true →
          t.args.length = [Example.five].length
            ∧ ∀ k (hk : k < Example.measure_entry.params.length)
                (ha : k < [Example.five].length),
              t.args[k]? = some
                (match Example.measure_entry.params[k].m_assigner_p with
                  | some assigner =>
                    Example.code.k2_value_assigner assigner [Example.five][k] t.k2_params_storage
                      Example.measure_entry.params[k].m_offset Example.measure_entry.params[k].typed
                  | none => [Example.five][k]))
      ∧ ((Example.kismet_copy Example.on_measure_function [1] true).FUNC_HasOutParms = false →
          t.args = [Example.five]) :=
  trigger_copies_back_out_parameters true Example.brain Example.host Example.objs Example.code
    Example.nil (Example.with_event Example.on_measure 501) 0 true true Example.measure_exposure
    Example.on_measure_function
    (ReflectedFunction.new eReflectedFunctionType.ReflectedFunctionType_Event Example.on_measure)
    Example.measure_exposed ⟨1102, [Example.five], 3⟩ true Example.measure_entry
    Example.on_measure_function (Example.kismet_copy Example.on_measure_function [1] true)
    (by decide) rfl rfl rfl rfl rfl rfl rfl (by decide) (by decide)

/-! ## The result of an event -/

/-- C24: an event entry whose native function was synthesized by
`build_ue_function` and has a child flagged as return parameter gets a result
getter, and the trigger returns what the result getter makes of the return slot
of the parameter buffer, or nil when the entry has no result getter.  But an
event bound to a pre-existing native function never gets one: for the method
`Actor.on_hit(x) : Integer`, bound to the Blueprint function `on_hit` that
declares a return value, the exposed entry has no result getter and the trigger
returns nil. -/
theorem reflected_event_gets_no_result_getter :
    (∀ (E : Bool) (brain : SkBrain) (host : UEHost) (objs : UEObjects) (w0 : World) (i : Nat)
        (cb is_final : Bool) (x : ExposeResult) (F : UFunction) (e0 : ReflectedFunction),
        expose_reflected_function E brain host objs w0 i cb is_final = some x →
        x.ue_function_p = some F → w0.fn i = some e0 →
        e0.m_type = eReflectedFunctionType.ReflectedFunctionType_Event →
        e0.m_num_params = e0.m_sk_invokable_p.param_list.length →
        is_looked_up e0 = false → (∃ P ∈ F.Children, P.CPF_ReturnParm = true) →
        ∃ entry, x.world.fn i = some entry ∧ entry.m_result_getter.isSome = true)
    ∧ (∀ (E : Bool) (objs : UEObjects) (code : MarshalCode) (ms_nil_p : SkInstance) (w : World)
        (scope_p : SkInvokedMethod) (e : ReflectedFunction) (f g : UFunction),
        w.fn ((w.get_user_data scope_p.invokable).getD 0) = some e →
        trigger_ue_function E objs e = some f →
        trigger_function_to_invoke E objs e scope_p f = some g →
        (∀ p ∈ e.params, p.m_storer_p.isSome = true) → e.params.length ≤ scope_p.args.length →
        ∃ t, mthd_trigger_event E objs code ms_nil_p w scope_p true = some t
          ∧ (e.m_result_getter = none → t.result = some ms_nil_p)
          ∧ (∀ getter, e.m_result_getter = some getter →
              t.result = some (code.k2_value_fetcher getter t.k2_params_storage
                g.ReturnValueOffset e.m_result_type)))
    ∧ (∃ x entry t,
        expose_reflected_function true Example.brain Example.host Example.objs
            (Example.with_event Example.on_hit 501) 0 true true = some x
          ∧ x.ue_function_p = some Example.on_hit_function
          ∧ Example.int_return ∈ Example.on_hit_function.Children
          ∧ Example.int_return.CPF_ReturnParm = true
          ∧ x.world.fn 0 = some entry
          ∧ entry.m_result_getter = none
          ∧ mthd_trigger_event true Example.objs Example.code Example.nil x.world
              ⟨1100, [Example.five], 3⟩ true = some t
          ∧ t.invoked.Script = [1]
          ∧ t.result = some Example.nil) := by
  refine ⟨?_, ?_, ?_⟩
  · intro E brain host objs w0 i cb is_final x F e0 hexp hF hfn0 hevent hnum hlook hret
    obtain ⟨e', R, class_p, made, hfn', _, _, _, hmade, hmF, hentry, _⟩ :=
      expose_inv E brain host objs w0 i cb is_final x F hexp hF
    rw [hfn0] at hfn'
    cases hfn'
    obtain ⟨_, halen, _, _, hbuilt⟩ := made_infos E brain host objs class_p e0 i is_final made F
      hmade hmF hnum
    obtain ⟨_, hch, hinfo⟩ := hbuilt hlook
    obtain ⟨_, _, hgetter, _, _⟩ := fill_in_event host e0 F made.param_info_array hevent halen
    rw [hch] at hret
    obtain ⟨rc, hrc, hfetch⟩ := result_info_has_fetcher brain host F.ptr is_final _ hret
    refine ⟨_, hentry, ?_⟩
    rw [hgetter, hnum, hinfo, hrc, Option.isSome_map']
    exact hfetch
  · intro E objs code ms_nil_p w scope_p e f g hfn hf hg hstore hargs
    obtain ⟨stored, _, hrun⟩ := trigger_runs E objs code ms_nil_p w scope_p true e f g hfn hf hg
      hstore hargs
    refine ⟨_, hrun, ?_, ?_⟩
    · intro hnone
      simp only [hnone, if_true]
    · intro getter hsome
      simp only [hsome, if_true]
  · refine ⟨_, _, _, rfl, ?_, ?_, ?_, rfl, ?_, rfl, ?_, ?_⟩ <;> decide

/-- C26: registry well-formedness is an invariant of `sync_all_from_sk`,
`sync_class_from_sk`, `add_reflected_call`, `add_reflected_event` and `clear`.  On a
registry whose class records are keyed by name, if every index in every class's
function list is in range and refers to an occupied slot, and every occupied slot is
listed exactly once in the list of its routine's owning class and in no other list,
then the registry each of the five operations leaves is again keyed by name and
well-formed in the same sense, so no list points at a null slot or at a slot owned
by another class. -/
theorem registry_well_formedness_is_invariant (WITH_EDITOR callback : Bool) (w : World)
    (sk_class superclass : SkClass) (root : SkClassTree) (sk_invokable : SkInvokableBase)
    (hkeyed : w.keyed) (h : registry_well_formed w) :
    ∀ after ∈ [(sync_all_from_sk WITH_EDITOR w superclass root callback).1,
        (sync_class_from_sk WITH_EDITOR w sk_class superclass callback).1,
        (add_reflected_call w sk_invokable).1,
        (add_reflected_event w sk_invokable).1,
        clear WITH_EDITOR w callback],
      after.keyed ∧ registry_well_formed after := by
  have hwf : w.WF := (wf_iff_well_formed w).2 ⟨hkeyed, h⟩
  intro after hafter
  rw [← wf_iff_well_formed]
  simp only [List.mem_cons, List.mem_singleton, List.not_mem_nil, or_false] at hafter
  rcases hafter with rfl | rfl | rfl | rfl | rfl
  · exact sync_all_wf WITH_EDITOR callback hwf superclass root
  · exact sync_class_wf WITH_EDITOR callback hwf sk_class superclass
  · exact add_reflected_call_wf hwf sk_invokable
  · exact add_reflected_event_wf hwf sk_invokable
  · exact clear_wf WITH_EDITOR callback hwf

/-- C26 at the registry holding `Foo.bar`: it is keyed and well-formed, and stays so
under the five operations with the tree holding `Foo` with `bar`. -/
theorem registry_well_formedness_is_invariant_witness :
    Example.with_bar.keyed ∧ registry_well_formed Example.with_bar ∧
    ∀ after ∈ [(sync_all_from_sk true Example.with_bar Example.object Example.tree_bar true).1,
        (sync_class_from_sk true Example.with_bar Example.foo_bar Example.object true).1,
        (add_reflected_call Example.with_bar (Example.foo_bar.invokable Example.bar)).1,
        (add_reflected_event Example.with_bar (Example.foo_bar.invokable Example.bar)).1,
        clear true Example.with_bar true],
      after.keyed ∧ registry_well_formed after :=
  ⟨((wf_iff_well_formed _).1 Example.with_bar_wf).1,
    ((wf_iff_well_formed _).1 Example.with_bar_wf).2,
    registry_well_formedness_is_invariant true true Example.with_bar Example.foo_bar
      Example.object Example.tree_bar (Example.foo_bar.invokable Example.bar)
      ((wf_iff_well_formed _).1 Example.with_bar_wf).1
      ((wf_iff_well_formed _).1 Example.with_bar_wf).2⟩

/-- C27: after `sync_all_from_sk` on a well-formed registry and a class tree with
distinct class names in which (name, member flag) is unique per class, no occupied
entry has `m_marked_for_delete_class` or `m_marked_for_delete_all` set, and the
occupied entries are exactly the entries of the routines that qualify for exposure in
the classes reachable from the root: each occupied entry carries the owning class,
name and class-member flag of such a routine, and each such routine has an occupied
entry, the only one with its owning class, name and class-member flag. -/
theorem sync_all_from_sk_leaves_exactly_the_exposed_routines (WITH_EDITOR callback : Bool)
    (w : World) (superclass : SkClass) (root : SkClassTree)
    (hwf : w.WF) (htree : root.WF superclass) :
    (∀ j f, (sync_all_from_sk WITH_EDITOR w superclass root callback).1.fn j = some f →
      f.m_marked_for_delete_class = false ∧ f.m_marked_for_delete_all = false ∧
      ∃ v ∈ root.visits superclass, ∃ r ∈ v.1.routines,
        (exposed_as (v.1.invokable r)).isSome = true
          ∧ f.owner = v.1.name ∧ f.name = r.name ∧ f.m_is_class_member = r.is_class_member) ∧
    (∀ v ∈ root.visits superclass, ∀ r ∈ v.1.routines,
      (exposed_as (v.1.invokable r)).isSome = true →
      ∃ j f, (sync_all_from_sk WITH_EDITOR w superclass root callback).1.fn j = some f
        ∧ f.owner = v.1.name ∧ f.name = r.name ∧ f.m_is_class_member = r.is_class_member
        ∧ ∀ k g, (sync_all_from_sk WITH_EDITOR w superclass root callback).1.fn k = some g →
            g.owner = v.1.name → g.name = r.name →
            g.m_is_class_member = r.is_class_member → k = j) := by
  have h := sync_all_synced WITH_EDITOR callback hwf superclass root htree
  exact ⟨fun j f hf => h.entry_exposed hf, fun v hv r hr he => h.routine_entry hv hr he⟩

/-- C27 at the registry holding `Foo.bar` and the tree in which `Foo` has `baz`
instead. -/
theorem sync_all_from_sk_leaves_exactly_the_exposed_routines_witness :
    Example.with_bar.WF ∧ Example.tree_baz.WF Example.object ∧
    (∀ j f, (sync_all_from_sk true Example.with_bar Example.object Example.tree_baz true).1.fn j
        = some f →
      f.m_marked_for_delete_class = false ∧ f.m_marked_for_delete_all = false ∧
      ∃ v ∈ Example.tree_baz.visits Example.object, ∃ r ∈ v.1.routines,
        (exposed_as (v.1.invokable r)).isSome = true
          ∧ f.owner = v.1.name ∧ f.name = r.name ∧ f.m_is_class_member = r.is_class_member) ∧
    (∀ v ∈ Example.tree_baz.visits Example.object, ∀ r ∈ v.1.routines,
      (exposed_as (v.1.invokable r)).isSome = true →
      ∃ j f, (sync_all_from_sk true Example.with_bar Example.object Example.tree_baz true).1.fn j
          = some f
        ∧ f.owner = v.1.name ∧ f.name = r.name ∧ f.m_is_class_member = r.is_class_member
        ∧ ∀ k g, (sync_all_from_sk true Example.with_bar Example.object Example.tree_baz true).1.fn k
              = some g →
            g.owner = v.1.name → g.name = r.name →
            g.m_is_class_member = r.is_class_member → k = j) :=
  ⟨Example.with_bar_wf, Example.tree_baz_wf,
    sync_all_from_sk_leaves_exactly_the_exposed_routines true true Example.with_bar
      Example.object Example.tree_baz Example.with_bar_wf Example.tree_baz_wf⟩

/-- C21 fails where the routine was registered before as the other variant.
`try_update_reflected_function` finds the entry by name and member flag, compares the
signature and updates the entry in place without looking at whether the routine has
a body.  Over the registry holding `Foo.bar` as an event, a sync with the tree in
which `bar` is a scripted method of the same signature returns false and leaves
slot 0 an event whose routine is the scripted method, which it has bound to the
event trigger; over the registry holding `Foo.bar` as a call, a sync with the tree
in which `bar` has no body leaves slot 0 a call whose routine is the body-less
method, which stays unbound.  From the empty registry, or when the signature differs,
the variant follows the body. -/
theorem sync_keeps_the_variant_of_a_matching_entry :
    (((sync_all_from_sk true Example.with_bar_event Example.object Example.tree_bar true).1.fn 0).map
        (fun f => (f.m_sk_invokable_p, f.m_type))
      = some (Example.foo_bar.invokable Example.bar,
          eReflectedFunctionType.ReflectedFunctionType_Event)
      ∧ Example.bar.invoke_type = eSkInvokable.SkInvokable_method
      ∧ (sync_all_from_sk true Example.with_bar_event Example.object Example.tree_bar true).2 = false
      ∧ Example.bar.ptr ∈
          (sync_all_from_sk true Example.with_bar_event Example.object Example.tree_bar true).1.bound)
    ∧ (((sync_all_from_sk true Example.with_bar Example.object Example.tree_atomic true).1.fn 0).map
        (fun f => (f.m_sk_invokable_p, f.m_type))
      = some (Example.foo_atomic.invokable Example.bar_atomic,
          eReflectedFunctionType.ReflectedFunctionType_Call)
      ∧ Example.bar_atomic.invoke_type = eSkInvokable.SkInvokable_method_func
      ∧ (sync_all_from_sk true Example.with_bar Example.object Example.tree_atomic true).2 = false
      ∧ Example.bar_atomic.ptr ∉
          (sync_all_from_sk true Example.with_bar Example.object Example.tree_atomic true).1.bound)
    ∧ ((sync_all_from_sk true Example.empty Example.object Example.tree_bar true).1.fn 0).map
        (fun f => (f.m_sk_invokable_p, f.m_type))
      = some (Example.foo_bar.invokable Example.bar,
          eReflectedFunctionType.ReflectedFunctionType_Call)
    ∧ ((sync_all_from_sk true Example.empty Example.object Example.tree_atomic true).1.fn 0).map
        (fun f => (f.m_sk_invokable_p, f.m_type))
      = some (Example.foo_atomic.invokable Example.bar_atomic,
          eReflectedFunctionType.ReflectedFunctionType_Event)
    ∧ ((sync_all_from_sk true Example.with_bar_event Example.object Example.tree_real true).1.fn 0).map
        (fun f => (f.m_sk_invokable_p, f.m_type))
      = some (Example.foo_real.invokable Example.bar_real,
          eReflectedFunctionType.ReflectedFunctionType_Call) := by
  decide

/-- C20: during one `sync_all_from_sk` pass over a well-formed registry and a class
tree with distinct class names and unique (name, member flag) per class, the
function-removed callback is invoked at most once for any class, and it is invoked
for a class only if the callback is compiled in and passed, the record of the class
has a valid native class, and an entry the class had registered was deleted in this
pass: its slot is null at the end or holds an entry of another class. -/
theorem function_removed_callback_at_most_once_per_class (WITH_EDITOR callback : Bool)
    (w : World) (superclass : SkClass) (root : SkClassTree)
    (hwf : w.WF) (htree : root.WF superclass) :
    ∃ calls, (sync_all_from_sk WITH_EDITOR w superclass root callback).1.host_log
        = w.host_log ++ calls
      ∧ ∀ n, calls.countP (is_removed_for n) ≤ 1
        ∧ (0 < calls.countP (is_removed_for n) →
            WITH_EDITOR = true ∧ callback = true
            ∧ (∃ R, w.get_class n = some R ∧ R.m_ue_static_class_p.isSome = true)
            ∧ ∃ j f, w.fn j = some f ∧ f.owner = n
                ∧ ∀ g, (sync_all_from_sk WITH_EDITOR w superclass root callback).1.fn j = some g →
                    g.owner ≠ n) := by
  obtain ⟨w2, b2, hv, hwf2, hcls, hframe, f1, _⟩ :=
    sync_all_analysis WITH_EDITOR callback hwf superclass root htree
  obtain ⟨k1, k2, _, k4⟩ := mark_all_spec w
  obtain ⟨ew, hlw, hcw⟩ := sync_visits_calls WITH_EDITOR callback (root.visits superclass)
    (mark_all_for_delete w) false (mark_all_wf hwf) htree.names_nodup htree.unique_routines
  rw [hv] at hlw hcw
  simp only at hlw hcw
  rw [k2] at hlw
  obtain ⟨ef, hlf, hcf⟩ := @sweep_all_calls WITH_EDITOR callback _ hwf2
  have hlog : (sync_all_from_sk WITH_EDITOR w superclass root callback).1.host_log
      = w.host_log ++ (ew ++ ef) := by
    rw [sync_all_eq, hv]
    show (sweep_all WITH_EDITOR callback w2.m_reflected_classes w2).1.host_log = _
    rw [hlf, hlw, List.append_assoc]
  -- an entry of the pre-state behind an entry of the marked table
  have hpre : ∀ j f, (mark_all_for_delete w).fn j = some f →
      ∃ f0, w.fn j = some f0 ∧ f0.owner = f.owner := by
    intro j f hf
    rw [k4 j] at hf
    cases h0 : w.fn j with
    | none => rw [h0] at hf; cases hf
    | some f0 =>
      rw [h0] at hf
      simp only [Option.map_some', Option.some.injEq] at hf
      exact ⟨f0, rfl, by rw [← hf]; rfl⟩
  refine ⟨ew ++ ef, hlog, fun n => ?_⟩
  rw [List.countP_append]
  by_cases hn : n ∈ root.names superclass
  · -- a visited class: the last loop finds nothing to delete
    have hz : ef.countP (is_removed_for n) = 0 := by
      by_contra hne
      obtain ⟨_, _, R, hR, _, j, hj, f, hf, hm⟩ := (hcf n).2 (Nat.pos_of_ne_zero hne)
      unfold SkClassTree.names at hn
      rw [List.mem_map] at hn
      obtain ⟨v, hv', hvn⟩ := hn
      rw [← hvn] at hR
      obtain ⟨f', r, hf', _, _, hup⟩ := (hcls v hv').entries R hR j hj
      rw [hf] at hf'
      cases hf'
      rw [hup.fields.2.2.2] at hm
      cases hm
    rw [hz, Nat.add_zero]
    refine ⟨(hcw n).1, fun hpos => ?_⟩
    obtain ⟨a1, a2, ⟨R, hR, hs⟩, j, f, hf, ho, hlast⟩ := (hcw n).2 hpos
    obtain ⟨f0, hf0, ho0⟩ := hpre j f hf
    refine ⟨a1, a2, ⟨R, ?_, hs⟩, j, f0, hf0, by rw [ho0, ho], ?_⟩
    · rw [← get_class_congr k1 n]
      exact hR
    · intro g hg
      rw [f1 j] at hg
      split at hg
      · cases hg
      · exact hlast g hg
  · -- a class that is not visited: the walk makes no callback for it
    have hz : ew.countP (is_removed_for n) = 0 := by
      obtain ⟨ew', hlw', hm⟩ := hframe.log
      rw [k2, hlw] at hlw'
      have := List.append_cancel_left hlw'
      subst this
      apply countP_removed_zero
      intro m u hmem he
      apply hn
      rw [← he]
      exact hm m u hmem
    rw [hz, Nat.zero_add]
    refine ⟨(hcf n).1, fun hpos => ?_⟩
    obtain ⟨a1, a2, R, hR, hs, j, hj, f, hf, hm⟩ := (hcf n).2 hpos
    have ho := hwf2.not_listed_elsewhere hf hR hj
    obtain ⟨f0, hf0, ho0⟩ := hpre j f (hframe.no_new j f hf (by rw [ho]; exact hn))
    refine ⟨a1, a2, ⟨R, ?_, hs⟩, j, f0, hf0, by rw [ho0, ho], ?_⟩
    · rw [← get_class_congr k1 n, ← hframe.records n hn]
      exact hR
    · intro g hg
      rw [f1 j, is_stale_of_fn hf, hm, if_pos rfl] at hg
      cases hg

/-- C20 at the registry holding `Foo.bar` and the tree with `Entity` alone, where
`Foo` is no longer reachable. -/
theorem function_removed_callback_at_most_once_per_class_witness :
    Example.with_bar.WF ∧ Example.tree_entity.WF Example.object ∧
    ∃ calls, (sync_all_from_sk true Example.with_bar Example.object Example.tree_entity
          true).1.host_log = Example.with_bar.host_log ++ calls
      ∧ ∀ n, calls.countP (is_removed_for n) ≤ 1
        ∧ (0 < calls.countP (is_removed_for n) →
            true = true ∧ true = true
            ∧ (∃ R, Example.with_bar.get_class n = some R ∧ R.m_ue_static_class_p.isSome = true)
            ∧ ∃ j f, Example.with_bar.fn j = some f ∧ f.owner = n
                ∧ ∀ g, (sync_all_from_sk true Example.with_bar Example.object Example.tree_entity
                      true).1.fn j = some g → g.owner ≠ n) :=
  ⟨Example.with_bar_wf, Example.tree_entity_wf,
    function_removed_callback_at_most_once_per_class true true Example.with_bar Example.object
      Example.tree_entity Example.with_bar_wf Example.tree_entity_wf⟩

end SkUE
